import Mathlib

/-! Evaluation scheduler of the dependency graph.

Shallow embedding of `source/blender/depsgraph/intern/eval/deg_eval.cc`, and
of the tagging, rebuild and relation-cache entry points of
`source/blender/depsgraph/intern/depsgraph_build.cc` and
`source/blender/depsgraph/intern/depsgraph_physics.cc`.

Memory model: an operation node is addressed by a natural number (its
pointer); `Depsgraph.node` dereferences it.  `graph->operations` is the list
of addresses registered in the graph.  The owning component and ID node are
read-only during evaluation and are stored by value in the node.

The task pool is a bag of queued node addresses.  A queued task is run as one
step (`deg_task_run_func`), the order in which queued tasks are taken is
chosen by a list of picks.  Timing statistics are left out.

The mutual recursion `schedule_node` / `schedule_children` is bounded by a
fuel argument; `none` means that the fuel ran out.
-/

namespace DEG

/-- Node types that the evaluation and build entry points name. The declaration
of the enumeration is not part of the sources at hand. -/
inductive eDepsNode_Type where
  | DEG_NODE_TYPE_UNDEFINED
  | DEG_NODE_TYPE_TIMESOURCE
  | DEG_NODE_TYPE_OPERATION
  | DEG_NODE_TYPE_PARAMETERS
  | DEG_NODE_TYPE_PROXY
  | DEG_NODE_TYPE_ANIMATION
  | DEG_NODE_TYPE_TRANSFORM
  | DEG_NODE_TYPE_GEOMETRY
  | DEG_NODE_TYPE_SEQUENCER
  | DEG_NODE_TYPE_EVAL_POSE
  | DEG_NODE_TYPE_BONE
  | DEG_NODE_TYPE_EVAL_PARTICLES
  | DEG_NODE_TYPE_SHADING
  | DEG_NODE_TYPE_CACHE
  | DEG_NODE_TYPE_COPY_ON_WRITE
  deriving DecidableEq, Repr

open eDepsNode_Type

/-- Modelled from the spec: the flag bit "node needs to be updated" of an
operation node (its declaration is not in the sources); a single-bit mask. -/
def DEPSOP_FLAG_NEEDS_UPDATE : Nat := 1

/-- Modelled from the spec: the flag bit of a relation that the cycle breaker
marked cyclic (its declaration is not in the sources); a single-bit mask. -/
def DEPSREL_FLAG_CYCLIC : Nat := 1

/-- Number of values of `uint32_t`, the type of `num_links_pending`. -/
def UINT32_SIZE : Nat := 4294967296

/-- ID node: only `is_visible` is read by the scheduler. -/
structure IDDepsNode where
  is_visible : Bool
  deriving DecidableEq, Repr

/-- Component node: its type and its owning ID node. -/
structure ComponentDepsNode where
  type : eDepsNode_Type
  owner : IDDepsNode
  deriving DecidableEq, Repr

/-- Relation `from → to`. `from_type` is `rel->from->type`, `from_` and `to_` are
the addresses of the end points, `flag` is the bit mask of the relation. -/
structure DepsRelation where
  from_type : eDepsNode_Type
  from_ : Nat
  to_ : Nat
  flag : Nat
  deriving DecidableEq, Repr

/-- Operation node. `evaluate` tells whether an evaluation callback is bound. -/
structure OperationDepsNode where
  owner : ComponentDepsNode
  flag : Nat
  num_links_pending : Nat
  scheduled : Bool
  inlinks : List DepsRelation
  outlinks : List DepsRelation
  evaluate : Bool
  deriving DecidableEq, Repr

/-- Modelled from the spec: `OperationDepsNode::is_noop()` is declared outside
the sources at hand; a no-op node is a pure ordering placeholder with no
callback. -/
def OperationDepsNode.is_noop (node : OperationDepsNode) : Bool :=
  !node.evaluate

/-- Kinds of cached physics relations, the indices of the array
`physics_relations`; `DEG_PHYSICS_RELATIONS_NUM` is the size of the array. The
declaration of the enumeration is not part of the sources at hand; the
constructors are the cases of the switch in `deg_clear_physics_relations`. -/
inductive ePhysicsRelationType where
  | DEG_PHYSICS_EFFECTOR
  | DEG_PHYSICS_COLLISION
  | DEG_PHYSICS_SMOKE_COLLISION
  | DEG_PHYSICS_DYNAMIC_BRUSH
  | DEG_PHYSICS_RELATIONS_NUM
  deriving DecidableEq, Repr

open ePhysicsRelationType

/-- Modelled from the spec: `GHash` (`BLI_ghash`, not in the sources) used as a
map from pointers to pointers: the list of its entries `(key, value)`, the
newest first. -/
abbrev GHash : Type := List (Nat × Nat)

/-- The graph container: the memory of operation nodes, the flat list
`operations`, the entry tags and the `need_update` flag; `id_hash` maps the
address of an ID to its ID node, given by the addresses of the operations under
its components; `scene` is the address of the scene; `physics_relations` is the
array of relation caches, a slot being `none` when the pointer is NULL. -/
structure Depsgraph where
  node : Nat → OperationDepsNode
  operations : List Nat
  entry_tags : List Nat := []
  need_update : Bool := false
  id_hash : Nat → Option (List Nat) := fun _ => none
  scene : Nat := 0
  physics_relations : ePhysicsRelationType → Option GHash := fun _ => none

/-- Write to the fields of the node at address `n`. -/
def Depsgraph.modify (g : Depsgraph) (n : Nat)
    (f : OperationDepsNode → OperationDepsNode) : Depsgraph :=
  { g with node := fun m => if m = n then f (g.node m) else g.node m }

/-- Instrumentation of one pass: a task was pushed to the pool, a callback was
invoked, `schedule_children` was entered for a node. -/
inductive Event where
  | push (node : Nat)
  | evaluate (node : Nat)
  | children (node : Nat)
  deriving DecidableEq, Repr

/-- Modelled from the spec: the state of one pass. The task pool (`BLI_task`,
not in the sources) is the bag `pool` of queued node addresses; `trace` is the
record kept by the instrumentation hook. -/
structure EvalWorld where
  graph : Depsgraph
  pool : List Nat
  trace : List Event

/-- Embedding of `check_operation_node_visible`. -/
def check_operation_node_visible (op_node : OperationDepsNode) : Bool :=
  let comp_node := op_node.owner
  if comp_node.type = DEG_NODE_TYPE_COPY_ON_WRITE then
    true
  else
    let id_node := comp_node.owner
    id_node.is_visible

/-- Body of the `foreach` loop over `node->inlinks` in `calculate_pending_func`. -/
def calculate_pending_link (node : Nat) (g : Depsgraph) (rel : DepsRelation) : Depsgraph :=
  if rel.from_type = DEG_NODE_TYPE_OPERATION ∧ (rel.flag &&& DEPSREL_FLAG_CYCLIC) = 0 then
    let from_node := g.node rel.from_
    if !check_operation_node_visible from_node then
      g
    else if (from_node.flag &&& DEPSOP_FLAG_NEEDS_UPDATE) = 0 then
      g
    else
      g.modify node fun x =>
        { x with num_links_pending := (x.num_links_pending + 1) % UINT32_SIZE }
  else
    g

/-- Embedding of `calculate_pending_func` for index `i` of `graph->operations`. -/
def calculate_pending_func (g : Depsgraph) (i : Nat) : Depsgraph :=
  match g.operations[i]? with
  | none => g
  | some node =>
    let g := g.modify node fun x => { x with num_links_pending := 0 }
    let g := g.modify node fun x => { x with scheduled := false }
    if !check_operation_node_visible (g.node node) then
      g
    else if ((g.node node).flag &&& DEPSOP_FLAG_NEEDS_UPDATE) = 0 then
      g
    else
      (g.node node).inlinks.foldl (calculate_pending_link node) g

/-- Embedding of `calculate_pending_parents`: the range `0 .. num_operations`
is walked in order (an iteration writes the counters of its own node only and
reads fields that no iteration writes). -/
def calculate_pending_parents (g : Depsgraph) : Depsgraph :=
  (List.range g.operations.length).foldl calculate_pending_func g

/-- Embedding of `initialize_execution` (statistics left out). -/
def initialize_execution (g : Depsgraph) : Depsgraph :=
  calculate_pending_parents g

/-- The `foreach` loop of `schedule_children` over a list of outgoing
relations, `sn` being `schedule_node`. -/
def schedule_children_loop (sn : EvalWorld → Nat → Bool → Option EvalWorld) :
    EvalWorld → List DepsRelation → Option EvalWorld
  | w, [] => some w
  | w, rel :: rest =>
    let child := rel.to_
    if (w.graph.node child).scheduled then
      schedule_children_loop sn w rest
    else
      match sn w child ((rel.flag &&& DEPSREL_FLAG_CYCLIC) = 0) with
      | none => none
      | some w1 => schedule_children_loop sn w1 rest

/-- Embedding of `schedule_node`. -/
def schedule_node : Nat → EvalWorld → Nat → Bool → Option EvalWorld
  | 0, _, _, _ => none
  | fuel + 1, w, node, dec_parents =>
    if !check_operation_node_visible (w.graph.node node) then
      some w
    else if ((w.graph.node node).flag &&& DEPSOP_FLAG_NEEDS_UPDATE) = 0 then
      some w
    else
      let w :=
        if dec_parents then
          { w with graph := w.graph.modify node fun x =>
              { x with num_links_pending :=
                  (x.num_links_pending + UINT32_SIZE - 1) % UINT32_SIZE } }
        else w
      if (w.graph.node node).num_links_pending ≠ 0 then
        some w
      else
        let is_scheduled := (w.graph.node node).scheduled
        let w := { w with graph := w.graph.modify node fun x => { x with scheduled := true } }
        if !is_scheduled then
          if (w.graph.node node).is_noop then
            schedule_children_loop (schedule_node fuel)
              { w with trace := w.trace ++ [Event.children node] }
              (w.graph.node node).outlinks
          else
            some { w with pool := w.pool ++ [node], trace := w.trace ++ [Event.push node] }
        else
          some w

/-- Embedding of `schedule_children`. -/
def schedule_children (fuel : Nat) (w : EvalWorld) (node : Nat) : Option EvalWorld :=
  schedule_children_loop (schedule_node fuel)
    { w with trace := w.trace ++ [Event.children node] }
    (w.graph.node node).outlinks

/-- Embedding of `schedule_graph`, over a list of node addresses. -/
def schedule_graph_loop (fuel : Nat) : EvalWorld → List Nat → Option EvalWorld
  | w, [] => some w
  | w, node :: rest =>
    match schedule_node fuel w node false with
    | none => none
    | some w1 => schedule_graph_loop fuel w1 rest

/-- Embedding of `schedule_graph`. -/
def schedule_graph (fuel : Nat) (w : EvalWorld) : Option EvalWorld :=
  schedule_graph_loop fuel w w.graph.operations

/-- Embedding of `deg_task_run_func`: the callback is invoked, then the
children are scheduled. The callback is opaque to the scheduler. -/
def deg_task_run_func (fuel : Nat) (w : EvalWorld) (node : Nat) : Option EvalWorld :=
  schedule_children fuel { w with trace := w.trace ++ [Event.evaluate node] } node

/-- Modelled from the spec: `BLI_task_pool_work_and_wait` is not in the
sources. Queued tasks are run one at a time, the next one being chosen by the
head of `picks` and taken out of the bag; the walk stops when the pool is
empty or the picks are used up. -/
def BLI_task_pool_work_and_wait (fuel : Nat) : EvalWorld → List Nat → Option EvalWorld
  | w, [] => some w
  | w, k :: picks =>
    match w.pool[k % w.pool.length]? with
    | none => some w
    | some node =>
      match deg_task_run_func fuel { w with pool := w.pool.erase node } node with
      | none => none
      | some w1 => BLI_task_pool_work_and_wait fuel w1 picks

/-- One evaluation pass as in `deg_evaluate_on_refresh`: `initialize_execution`,
`schedule_graph` on a fresh suspended pool, then the drain of the pool. -/
def evaluate_pass (fuel : Nat) (g : Depsgraph) (picks : List Nat) : Option EvalWorld :=
  match schedule_graph fuel { graph := initialize_execution g, pool := [], trace := [] } with
  | none => none
  | some w => BLI_task_pool_work_and_wait fuel w picks

/-! ## Vocabulary of the specification -/

/-- A node takes part in the pass: visible (or Copy-on-Write) and tagged for
update. -/
def is_live (g : Depsgraph) (n : Nat) : Bool :=
  check_operation_node_visible (g.node n) &&
    decide (((g.node n).flag &&& DEPSOP_FLAG_NEEDS_UPDATE) ≠ 0)

/-- The relation is not marked cyclic. -/
def rel_noncyclic (r : DepsRelation) : Bool :=
  decide ((r.flag &&& DEPSREL_FLAG_CYCLIC) = 0)

/-- The inbound relation is one that `calculate_pending_func` counts: its
source is an operation, it is not cyclic, its source is visible (or
Copy-on-Write) and tagged. -/
def rel_counted (g : Depsgraph) (r : DepsRelation) : Bool :=
  decide (r.from_type = DEG_NODE_TYPE_OPERATION) && rel_noncyclic r && is_live g r.from_

/-- Write both counters of the node at address `n`. -/
def Depsgraph.setdyn (g : Depsgraph) (n : Nat) (p : Nat) (s : Bool) : Depsgraph :=
  g.modify n fun x => { x with num_links_pending := p, scheduled := s }

/-- Number of counted inbound relations of `n`. -/
def counted_inlinks (g : Depsgraph) (n : Nat) : Nat :=
  (g.node n).inlinks.countP (rel_counted g)

/-- Value that `calculate_pending_func` leaves in `num_links_pending`. -/
def pending_spec (g : Depsgraph) (n : Nat) : Nat :=
  if is_live g n then counted_inlinks g n % UINT32_SIZE else 0

/-- What one call of `schedule_node` does before it descends into the
children: the new state and the relations that are walked next. -/
def node_action (w : EvalWorld) (node : Nat) (dec_parents : Bool) :
    EvalWorld × List DepsRelation :=
  if is_live w.graph node then
    let p :=
      if dec_parents then
        ((w.graph.node node).num_links_pending + UINT32_SIZE - 1) % UINT32_SIZE
      else (w.graph.node node).num_links_pending
    if p ≠ 0 then
      ({ w with graph := w.graph.setdyn node p (w.graph.node node).scheduled }, [])
    else if (w.graph.node node).scheduled then
      ({ w with graph := w.graph.setdyn node 0 true }, [])
    else if (w.graph.node node).is_noop then
      ({ w with graph := w.graph.setdyn node 0 true,
                trace := w.trace ++ [Event.children node] },
        (w.graph.node node).outlinks)
    else
      ({ graph := w.graph.setdyn node 0 true, pool := w.pool ++ [node],
         trace := w.trace ++ [Event.push node] }, [])
  else (w, [])

/-- Small steps of a pass. A configuration is a state together with the
relations that the running `schedule_children` loops still have to walk. -/
inductive Step : EvalWorld × List DepsRelation → EvalWorld × List DepsRelation → Prop
  | seed (w : EvalWorld) (n : Nat) (h : n ∈ w.graph.operations) :
      Step (w, []) (node_action w n false)
  | skip (w : EvalWorld) (r : DepsRelation) (st : List DepsRelation)
      (h : (w.graph.node r.to_).scheduled = true) : Step (w, r :: st) (w, st)
  | visit (w : EvalWorld) (r : DepsRelation) (st : List DepsRelation)
      (h : (w.graph.node r.to_).scheduled = false) :
      Step (w, r :: st)
        ((node_action w r.to_ (rel_noncyclic r)).1,
          (node_action w r.to_ (rel_noncyclic r)).2 ++ st)
  | task (w : EvalWorld) (n : Nat) (h : n ∈ w.pool) :
      Step (w, [])
        ({ w with pool := w.pool.erase n,
                  trace := w.trace ++ [Event.evaluate n, Event.children n] },
          (w.graph.node n).outlinks)

/-- Small steps inside one walk of `schedule_children`: a relation to a
scheduled child is skipped, a relation to an unscheduled child is visited. -/
inductive Walk : EvalWorld × List DepsRelation → EvalWorld × List DepsRelation → Prop
  | skip (w : EvalWorld) (r : DepsRelation) (st : List DepsRelation)
      (h : (w.graph.node r.to_).scheduled = true) : Walk (w, r :: st) (w, st)
  | visit (w : EvalWorld) (r : DepsRelation) (st : List DepsRelation)
      (h : (w.graph.node r.to_).scheduled = false) :
      Walk (w, r :: st)
        ((node_action w r.to_ (rel_noncyclic r)).1,
          (node_action w r.to_ (rel_noncyclic r)).2 ++ st)

/-- Number of non-cyclic relations from operation `a` in the inlinks of `b`. -/
def links_in (g : Depsgraph) (a b : Nat) : Nat :=
  (g.node b).inlinks.countP fun r =>
    decide (r.from_type = DEG_NODE_TYPE_OPERATION) && rel_noncyclic r && decide (r.from_ = a)

/-- Number of non-cyclic relations to `b` in the outlinks of `a`. -/
def links_out (g : Depsgraph) (a b : Nat) : Nat :=
  (g.node a).outlinks.countP fun r => rel_noncyclic r && decide (r.to_ = b)

/-- Representation invariant of a built graph: outgoing relations of
registered operations lead to registered operations, operation sources of
inbound relations are registered, and a non-cyclic relation between two
operations sits in the outlinks of its source as often as in the inlinks of
its target. -/
def WellFormed (g : Depsgraph) : Prop :=
  (∀ a ∈ g.operations, ∀ r ∈ (g.node a).outlinks, r.to_ ∈ g.operations) ∧
  (∀ b ∈ g.operations, ∀ r ∈ (g.node b).inlinks,
      r.from_type = DEG_NODE_TYPE_OPERATION → r.from_ ∈ g.operations) ∧
  (∀ a ∈ g.operations, ∀ b ∈ g.operations, links_in g a b = links_out g a b)

instance (g : Depsgraph) : Decidable (WellFormed g) := by
  unfold WellFormed
  infer_instance

/-- The non-cyclic operation relations are acyclic: `rank` grows strictly along
each of them. -/
def TopoRank (g : Depsgraph) (rank : Nat → Nat) : Prop :=
  ∀ b ∈ g.operations, ∀ r ∈ (g.node b).inlinks,
    r.from_type = DEG_NODE_TYPE_OPERATION → rel_noncyclic r = true →
      rank r.from_ < rank b

instance (g : Depsgraph) (rank : Nat → Nat) : Decidable (TopoRank g rank) := by
  unfold TopoRank
  infer_instance

/-- The node has released its children: `schedule_children` was entered. -/
def released (t : List Event) (a : Nat) : Bool :=
  decide (Event.children a ∈ t)

/-- Counted inbound relations of `b` whose source has not released yet. -/
def unreleased_inlinks (g : Depsgraph) (t : List Event) (b : Nat) : Nat :=
  (g.node b).inlinks.countP fun r => rel_counted g r && !released t r.from_

/-- Counted inbound relations of `b` whose source has released. -/
def released_inlinks (g : Depsgraph) (t : List Event) (b : Nat) : Nat :=
  (g.node b).inlinks.countP fun r => rel_counted g r && released t r.from_

/-- Non-cyclic relations to `b` among the relations still to be walked. -/
def debt (st : List DepsRelation) (b : Nat) : Nat :=
  st.countP fun r => rel_noncyclic r && decide (r.to_ = b)

/-- The event dispatches node `b`: a push to the pool, or the synchronous
processing of a no-op node. -/
def is_dispatch (g : Depsgraph) (b : Nat) (e : Event) : Prop :=
  e = Event.push b ∨ ((g.node b).is_noop = true ∧ e = Event.children b)

instance (g : Depsgraph) (b : Nat) (e : Event) : Decidable (is_dispatch g b e) := by
  unfold is_dispatch
  infer_instance

/-- Registered operations that are not scheduled. -/
def unscheduled (g : Depsgraph) : Nat :=
  (g.operations.dedup.filter fun n => !(g.node n).scheduled).length

/-- Static fields of the two graphs agree. -/
def StaticEq (g g1 : Depsgraph) : Prop :=
  g1.operations = g.operations ∧
  ∀ n, (g1.node n).owner = (g.node n).owner ∧ (g1.node n).flag = (g.node n).flag ∧
    (g1.node n).inlinks = (g.node n).inlinks ∧ (g1.node n).outlinks = (g.node n).outlinks ∧
    (g1.node n).evaluate = (g.node n).evaluate

/-- The graph in which the counters of the nodes listed in `l` have the
values that `calculate_pending_func` computes. -/
def init_graph_on (g : Depsgraph) (l : List Nat) : Depsgraph :=
  { g with node := fun m =>
      if m ∈ l then
        { g.node m with num_links_pending := pending_spec g m, scheduled := false }
      else g.node m }

/-- Closed form of the graph that `initialize_execution` returns. -/
def init_graph (g : Depsgraph) : Depsgraph :=
  init_graph_on g g.operations

/-- An operation node for the examples: component type, visibility of the ID
node, flag, links, and whether a callback is bound. The counters start with
stale values. -/
def mk_operation (type : eDepsNode_Type) (is_visible : Bool) (flag : Nat)
    (inlinks outlinks : List DepsRelation) (evaluate : Bool) : OperationDepsNode :=
  { owner := { type := type, owner := { is_visible := is_visible } }, flag := flag,
    num_links_pending := 7, scheduled := true, inlinks := inlinks, outlinks := outlinks,
    evaluate := evaluate }

/-- A relation between the operations at addresses `a` and `b`. -/
def mk_relation (a b : Nat) (flag : Nat) : DepsRelation :=
  { from_type := DEG_NODE_TYPE_OPERATION, from_ := a, to_ := b, flag := flag }

/-- An address that holds no operation of a graph. -/
def no_operation : OperationDepsNode :=
  mk_operation DEG_NODE_TYPE_UNDEFINED false 0 [] [] false

/-- Example: operation 0 (visible, tagged) with a relation to operation 1
(visible, not tagged). -/
def example_untagged_child : Depsgraph :=
  { node := fun n =>
      if n = 0 then mk_operation DEG_NODE_TYPE_TRANSFORM true 1 [] [mk_relation 0 1 0] true
      else if n = 1 then mk_operation DEG_NODE_TYPE_TRANSFORM true 0 [mk_relation 0 1 0] [] true
      else no_operation,
    operations := [0, 1] }

/-- Example: operation 0 → operation 1, both visible and tagged. -/
def example_chain : Depsgraph :=
  { node := fun n =>
      if n = 0 then mk_operation DEG_NODE_TYPE_TRANSFORM true 1 [] [mk_relation 0 1 0] true
      else if n = 1 then mk_operation DEG_NODE_TYPE_TRANSFORM true 1 [mk_relation 0 1 0] [] true
      else no_operation,
    operations := [0, 1] }

/-- The graph without the relations that carry `DEPSREL_FLAG_CYCLIC`. -/
def drop_cyclic (g : Depsgraph) : Depsgraph :=
  { g with node := fun n =>
      { g.node n with
        inlinks := (g.node n).inlinks.filter rel_noncyclic,
        outlinks := (g.node n).outlinks.filter rel_noncyclic } }

/-- Dispatch order: when `b` is dispatched, the source of each counted inbound
relation of `b` has released its children before (the count fitting the
32-bit counter). -/
def TraceOrd (g : Depsgraph) (t : List Event) : Prop :=
  ∀ t1 e t2 b, t = t1 ++ e :: t2 → is_dispatch g b e → counted_inlinks g b < UINT32_SIZE →
    ∀ r ∈ (g.node b).inlinks, rel_counted g r = true → Event.children r.from_ ∈ t1

/-- A node that releases its children was dispatched, at that event or before. -/
def TraceDisp (g : Depsgraph) (t : List Event) : Prop :=
  ∀ t1 t2 a, t = t1 ++ Event.children a :: t2 →
    ∃ e ∈ t1 ++ [Event.children a], is_dispatch g a e

/-- Invariant of the configurations of a pass. -/
structure Inv (c : EvalWorld × List DepsRelation) : Prop where
  closed : ∀ a ∈ c.1.graph.operations, ∀ r ∈ (c.1.graph.node a).outlinks,
    r.to_ ∈ c.1.graph.operations
  paired : ∀ a ∈ c.1.graph.operations, ∀ b ∈ c.1.graph.operations,
    links_in c.1.graph a b = links_out c.1.graph a b
  pool_nodup : c.1.pool.Nodup
  pool_ok : ∀ n ∈ c.1.pool, n ∈ c.1.graph.operations ∧ is_live c.1.graph n = true ∧
    (c.1.graph.node n).scheduled = true ∧ (c.1.graph.node n).is_noop = false ∧
    released c.1.trace n = false ∧ Event.push n ∈ c.1.trace
  stack_ok : ∀ r ∈ c.2, r.to_ ∈ c.1.graph.operations
  released_ok : ∀ a, released c.1.trace a = true →
    a ∈ c.1.graph.operations ∧ is_live c.1.graph a = true ∧
      (c.1.graph.node a).scheduled = true
  sched_ok : ∀ b ∈ c.1.graph.operations, is_live c.1.graph b = true →
    (c.1.graph.node b).scheduled = true → b ∈ c.1.pool ∨ released c.1.trace b = true
  pending_unsched : ∀ b ∈ c.1.graph.operations, is_live c.1.graph b = true →
    (c.1.graph.node b).scheduled = false →
      (c.1.graph.node b).num_links_pending =
        (unreleased_inlinks c.1.graph c.1.trace b + debt c.2 b) % UINT32_SIZE
  pending_sched : ∀ b ∈ c.1.graph.operations, is_live c.1.graph b = true →
    (c.1.graph.node b).scheduled = true → (c.1.graph.node b).num_links_pending = 0
  debt_le : ∀ b ∈ c.1.graph.operations, debt c.2 b ≤ released_inlinks c.1.graph c.1.trace b
  order : TraceOrd c.1.graph c.1.trace
  disp : TraceDisp c.1.graph c.1.trace
  evals : ∀ b, c.1.trace.count (Event.evaluate b) + c.1.pool.count b =
    c.1.trace.count (Event.push b)
  pushes : ∀ b, c.1.trace.count (Event.push b) =
    if b ∈ c.1.graph.operations ∧ is_live c.1.graph b = true ∧
        (c.1.graph.node b).scheduled = true ∧ (c.1.graph.node b).is_noop = false then 1
    else 0
  release_once : ∀ b, c.1.trace.count (Event.children b) ≤ 1
  idle : ∀ b ∈ c.1.graph.operations, is_live c.1.graph b = false →
    (c.1.graph.node b).scheduled = false ∧ (c.1.graph.node b).num_links_pending = 0

/-- The nodes listed in `s` are scheduled as soon as they are ready. -/
def Ready (s : List Nat) (c : EvalWorld × List DepsRelation) : Prop :=
  ∀ b ∈ s, is_live c.1.graph b = true → (c.1.graph.node b).num_links_pending = 0 →
    (c.1.graph.node b).scheduled = true

/-- Termination measure of the drain: unscheduled operations plus queued tasks. -/
def drain_measure (w : EvalWorld) : Nat :=
  unscheduled w.graph + w.pool.length

/-- Outgoing relations of registered operations lead to registered operations. -/
def Closed (g : Depsgraph) : Prop :=
  ∀ a ∈ g.operations, ∀ r ∈ (g.node a).outlinks, r.to_ ∈ g.operations

/-- Example: one operation of an invisible entity, tagged, with a callback and
no relations. -/
def example_invisible : Depsgraph :=
  { node := fun n =>
      if n = 0 then mk_operation DEG_NODE_TYPE_TRANSFORM false 1 [] [] true
      else no_operation,
    operations := [0] }

/-- The node at `n` is in the state `nd`, is not queued and has no event. -/
def Untouched (n : Nat) (nd : OperationDepsNode) (c : EvalWorld × List DepsRelation) : Prop :=
  c.1.graph.node n = nd ∧ n ∉ c.1.pool ∧ Event.push n ∉ c.1.trace ∧
    Event.evaluate n ∉ c.1.trace ∧ Event.children n ∉ c.1.trace

/-- Every queued task is an operation with a callback. -/
def PoolHasCallbacks (c : EvalWorld × List DepsRelation) : Prop :=
  ∀ m ∈ c.1.pool, (c.1.graph.node m).is_noop = false

/-- Example: the two-node cycle 0 → 1 → 0 in which the relation 1 → 0 is marked
cyclic; both operations visible and tagged. -/
def example_cycle : Depsgraph :=
  { node := fun n =>
      if n = 0 then
        mk_operation DEG_NODE_TYPE_TRANSFORM true 1 [mk_relation 1 0 1] [mk_relation 0 1 0] true
      else if n = 1 then
        mk_operation DEG_NODE_TYPE_TRANSFORM true 1 [mk_relation 0 1 0] [mk_relation 1 0 1] true
      else no_operation,
    operations := [0, 1] }

/-- Example: a no-op operation 0 with a relation to operation 1, both visible
and tagged. -/
def example_noop_parent : Depsgraph :=
  { node := fun n =>
      if n = 0 then mk_operation DEG_NODE_TYPE_TRANSFORM true 1 [] [mk_relation 0 1 0] false
      else if n = 1 then mk_operation DEG_NODE_TYPE_TRANSFORM true 1 [mk_relation 0 1 0] [] true
      else no_operation,
    operations := [0, 1] }

/-- The graph in which the ID node that owns operation `n` has
`is_visible = v`. -/
def set_id_visible (g : Depsgraph) (n : Nat) (v : Bool) : Depsgraph :=
  g.modify n fun x => { x with owner := { x.owner with owner := { is_visible := v } } }

/-- The state over the graph in which the ID node that owns operation `n` has
`is_visible = v`. -/
def EvalWorld.set_id_visible (w : EvalWorld) (n : Nat) (v : Bool) : EvalWorld :=
  { w with graph := DEG.set_id_visible w.graph n v }

/-- Example: a Copy-on-Write operation 0 of an invisible entity with a relation
to operation 1 of a visible entity, both tagged. -/
def example_cow : Depsgraph :=
  { node := fun n =>
      if n = 0 then
        mk_operation DEG_NODE_TYPE_COPY_ON_WRITE false 1 [] [mk_relation 0 1 0] true
      else if n = 1 then mk_operation DEG_NODE_TYPE_TRANSFORM true 1 [mk_relation 0 1 0] [] true
      else no_operation,
    operations := [0, 1] }

/-- At-most-once bookkeeping of a state of a pass; it needs no assumption on
the graph. -/
structure Once (w : EvalWorld) : Prop where
  pool_nodup : w.pool.Nodup
  pool_sched : ∀ n ∈ w.pool, (w.graph.node n).scheduled = true ∧ Event.children n ∉ w.trace
  push_sched : ∀ n, Event.push n ∈ w.trace → (w.graph.node n).scheduled = true
  rel_sched : ∀ n, Event.children n ∈ w.trace → (w.graph.node n).scheduled = true
  push_once : ∀ n, w.trace.count (Event.push n) ≤ 1
  rel_once : ∀ n, w.trace.count (Event.children n) ≤ 1
  evals : ∀ n, w.trace.count (Event.evaluate n) + w.pool.count n =
    w.trace.count (Event.push n)

/-- Queued tasks and the targets of the relations still to be walked are
registered operations. -/
def Registered (c : EvalWorld × List DepsRelation) : Prop :=
  (∀ n ∈ c.1.pool, n ∈ c.1.graph.operations) ∧ ∀ r ∈ c.2, r.to_ ∈ c.1.graph.operations

/-- The end-to-end scenario "parent with two children": the operations `p`,
`c1`, `c2` are the registered operations, each is the Transform operation of a
visible entity and has a callback, and the relations are the non-cyclic
`p → c1` and `p → c2`. The tags are left open. -/
def ParentTwoChildren (g : Depsgraph) (p c1 c2 : Nat) : Prop :=
  (p ≠ c1 ∧ p ≠ c2 ∧ c1 ≠ c2) ∧ g.operations.Perm [p, c1, c2] ∧
  (∀ n ∈ [p, c1, c2], (g.node n).owner.type = DEG_NODE_TYPE_TRANSFORM ∧
    (g.node n).owner.owner.is_visible = true ∧ (g.node n).evaluate = true) ∧
  ((g.node p).inlinks = [] ∧
    (g.node p).outlinks = [mk_relation p c1 0, mk_relation p c2 0]) ∧
  ((g.node c1).inlinks = [mk_relation p c1 0] ∧ (g.node c1).outlinks = []) ∧
  ((g.node c2).inlinks = [mk_relation p c2 0] ∧ (g.node c2).outlinks = [])

instance (g : Depsgraph) (p c1 c2 : Nat) : Decidable (ParentTwoChildren g p c1 c2) := by
  unfold ParentTwoChildren
  infer_instance

/-- Example: the scenario "parent with two children" at the addresses 0, 1, 2,
the children carrying the flag `children_flag`; the parent is tagged. -/
def example_parent_children (children_flag : Nat) : Depsgraph :=
  { node := fun n =>
      if n = 0 then
        mk_operation DEG_NODE_TYPE_TRANSFORM true 1 []
          [mk_relation 0 1 0, mk_relation 0 2 0] true
      else if n = 1 then
        mk_operation DEG_NODE_TYPE_TRANSFORM true children_flag [mk_relation 0 1 0] [] true
      else if n = 2 then
        mk_operation DEG_NODE_TYPE_TRANSFORM true children_flag [mk_relation 0 2 0] [] true
      else no_operation,
    operations := [0, 1, 2] }

/-! ## Refresh, relation build and relation caches

Shallow embedding of `deg_evaluate_on_refresh` and of the entry points of
`depsgraph_build.cc` and `depsgraph_physics.cc` that tag, rebuild and cache
relations. Pointers are natural numbers, 0 being NULL. -/

/-- Modelled from the spec: `deg_graph_clear_tags` is not in the sources. "All
remaining `needs_update` flags are cleared; entry-tag set is cleared": the
needs-update bit of every operation of `graph->operations` is cleared and the
entry tags are emptied. -/
def deg_graph_clear_tags (g : Depsgraph) : Depsgraph :=
  { g.operations.foldl
      (fun g node => g.modify node fun x =>
        { x with flag := x.flag ^^^ (x.flag &&& DEPSOP_FLAG_NEEDS_UPDATE) }) g
    with entry_tags := [] }

/-- Embedding of `deg_evaluate_on_refresh`: nothing is done when there are no
entry tags; otherwise one pass is run and the tags are cleared.
`depsgraph_ensure_view_layer` (it updates the copy of the scene and touches no
operation node), the choice of the task scheduler and the timing are left
out. -/
def deg_evaluate_on_refresh (fuel : Nat) (g : Depsgraph) (picks : List Nat) :
    Option Depsgraph :=
  if g.entry_tags.length = 0 then
    some g
  else
    match evaluate_pass fuel g picks with
    | none => none
    | some w => some (deg_graph_clear_tags w.graph)

/-- Modelled from the spec: `Depsgraph::find_id_node` is not in the sources.
"O(1) lookup, returns null if entity unknown to this graph". -/
def Depsgraph.find_id_node (g : Depsgraph) (id : Nat) : Option (List Nat) :=
  g.id_hash id

/-- Modelled from the spec: `OperationDepsNode::tag_update` is not in the
sources. "marks an OperationNode `needs_update=true`; it only marks staleness;
must be safe to call repeatedly": a node that is not tagged yet gets the
needs-update bit and enters the entry tags. -/
def OperationDepsNode.tag_update (node : Nat) (g : Depsgraph) : Depsgraph :=
  if ((g.node node).flag &&& DEPSOP_FLAG_NEEDS_UPDATE) ≠ 0 then
    g
  else
    { g.modify node fun x => { x with flag := x.flag ||| DEPSOP_FLAG_NEEDS_UPDATE } with
      entry_tags := node :: g.entry_tags }

/-- Modelled from the spec: `IDDepsNode::tag_update` is not in the sources.
"marks all operations under a Component/ID `needs_update=true`": every
operation under the ID node is tagged. -/
def IDDepsNode.tag_update (id_node : List Nat) (g : Depsgraph) : Depsgraph :=
  id_node.foldl (fun g node => OperationDepsNode.tag_update node g) g

/-- Embedding of `DEG_graph_tag_relations_update` (debug print left out). -/
def DEG_graph_tag_relations_update (g : Depsgraph) : Depsgraph :=
  let g := { g with need_update := true }
  match g.find_id_node g.scene with
  | some id_node => IDDepsNode.tag_update id_node g
  | none => g

/-- The builder steps that `DEG_graph_build_from_view_layer` runs; none of them
is part of the sources at hand, they are parameters of the embedding. -/
structure DepsgraphBuilders where
  build_nodes : Depsgraph → Depsgraph
  build_relations : Depsgraph → Depsgraph
  deg_graph_detect_cycles : Depsgraph → Depsgraph
  deg_graph_transitive_reduction : Depsgraph → Depsgraph
  deg_graph_build_finalize : Depsgraph → Depsgraph
  DEG_graph_on_visible_update : Depsgraph → Depsgraph

/-- A graph together with the instrumentation of the build entry points:
`builds` counts the runs of `DEG_graph_build_from_view_layer`. -/
structure BuildWorld where
  graph : Depsgraph
  builds : Nat

/-- Embedding of `DEG_graph_build_from_view_layer`: the node builder, the
relation builder, cycle detection, the optional transitive reduction
(`G.debug_value == 799`), finalization and the visibility update, after which
`need_update` is cleared. The arguments `bmain`, `scene`, `view_layer` are only
handed on to the builders; timing and assertions are left out. -/
def DEG_graph_build_from_view_layer (b : DepsgraphBuilders) (debug_value : Int)
    (w : BuildWorld) : BuildWorld :=
  let g := b.build_nodes w.graph
  let g := b.build_relations g
  let g := b.deg_graph_detect_cycles g
  let g := if debug_value = 799 then b.deg_graph_transitive_reduction g else g
  let g := b.deg_graph_build_finalize g
  let g := b.DEG_graph_on_visible_update g
  { graph := { g with need_update := false }, builds := w.builds + 1 }

/-- Embedding of `DEG_graph_relations_update`. -/
def DEG_graph_relations_update (b : DepsgraphBuilders) (debug_value : Int)
    (w : BuildWorld) : BuildWorld :=
  if !w.graph.need_update then
    w
  else
    DEG_graph_build_from_view_layer b debug_value w

/-- The null pointer. -/
def NULL : Nat := 0

/-- Modelled from the spec: `BLI_ghash_ptr_new` (not in the sources), the empty
hash. -/
def BLI_ghash_ptr_new : GHash := []

/-- Modelled from the spec: `BLI_ghash_lookup` (not in the sources) returns the
value stored for the key, NULL when there is none. -/
def BLI_ghash_lookup (hash : GHash) (key : Nat) : Nat :=
  match hash.find? (fun e => e.1 == key) with
  | some e => e.2
  | none => NULL

/-- Modelled from the spec: `BLI_ghash_insert` (not in the sources) adds an
entry. -/
def BLI_ghash_insert (hash : GHash) (key val : Nat) : GHash :=
  (key, val) :: hash

/-- A call of one of the constructors of relation lists. -/
inductive PhysicsCreate where
  | effector (collection : Nat)
  | collision (collection : Nat) (modifier_type : Nat)
  deriving DecidableEq, Repr

/-- Modelled from the spec: the state that the relation-cache helpers work on.
The constructors `BKE_effector_relations_create` and
`BKE_collision_relations_create` and the functions that free a list are not in
the sources; `created` records the calls of the constructors, `freed` the lists
that were freed. -/
structure PhysicsWorld where
  graph : Depsgraph
  created : List PhysicsCreate
  freed : List Nat

/-- Write slot `type` of the array `physics_relations`. -/
def Depsgraph.set_physics_relations (g : Depsgraph) (type : ePhysicsRelationType)
    (hash : Option GHash) : Depsgraph :=
  { g with physics_relations := fun t => if t = type then hash else g.physics_relations t }

/-- Modelled from the spec: `BKE_effector_relations_create` is not in the
sources. "First call computes and caches": a call computes a new list object,
here the next free address, which is not NULL. -/
def BKE_effector_relations_create (w : PhysicsWorld) (collection : Nat) :
    Nat × PhysicsWorld :=
  (w.created.length + 1, { w with created := w.created ++ [PhysicsCreate.effector collection] })

/-- Modelled from the spec: `BKE_collision_relations_create` is not in the
sources; as `BKE_effector_relations_create`. -/
def BKE_collision_relations_create (w : PhysicsWorld) (collection : Nat)
    (modifier_type : Nat) : Nat × PhysicsWorld :=
  (w.created.length + 1,
    { w with created := w.created ++ [PhysicsCreate.collision collection modifier_type] })

/-- Values of `eModifierType` that `modifier_to_relation_type` names; the
declaration is not part of the sources at hand. -/
def eModifierType_Collision : Nat := 23

/-- See `eModifierType_Collision`. -/
def eModifierType_Smoke : Nat := 31

/-- See `eModifierType_Collision`. -/
def eModifierType_DynamicPaint : Nat := 40

/-- Embedding of `modifier_to_relation_type` (the assertion is left out). -/
def modifier_to_relation_type (modifier_type : Nat) : ePhysicsRelationType :=
  if modifier_type = eModifierType_Collision then DEG_PHYSICS_COLLISION
  else if modifier_type = eModifierType_Smoke then DEG_PHYSICS_SMOKE_COLLISION
  else if modifier_type = eModifierType_DynamicPaint then DEG_PHYSICS_DYNAMIC_BRUSH
  else DEG_PHYSICS_RELATIONS_NUM

/-- Embedding of `deg_build_effector_relations`: the hash of the slot is made
when the slot is NULL, the key is looked up, and the list is made by
`BKE_effector_relations_create` and entered when the lookup gives NULL. The
key of the lookup is `collection`, the key of the insert is `&collection->id`,
the same address (`id` is the first member). -/
def deg_build_effector_relations (w : PhysicsWorld) (collection : Nat) : Nat × PhysicsWorld :=
  let hash :=
    match w.graph.physics_relations DEG_PHYSICS_EFFECTOR with
    | none => BLI_ghash_ptr_new
    | some hash => hash
  let w := { w with graph := w.graph.set_physics_relations DEG_PHYSICS_EFFECTOR (some hash) }
  let relations := BLI_ghash_lookup hash collection
  if relations = NULL then
    let r := BKE_effector_relations_create w collection
    let hash := BLI_ghash_insert hash collection r.1
    (r.1, { r.2 with graph := r.2.graph.set_physics_relations DEG_PHYSICS_EFFECTOR (some hash) })
  else
    (relations, w)

/-- Embedding of `deg_build_collision_relations`, as
`deg_build_effector_relations` for the slot of the modifier type; `none` when
`modifier_to_relation_type` returns `DEG_PHYSICS_RELATIONS_NUM`, which is no
index of the array. -/
def deg_build_collision_relations (w : PhysicsWorld) (collection : Nat)
    (modifier_type : Nat) : Option (Nat × PhysicsWorld) :=
  let type := modifier_to_relation_type modifier_type
  if type = DEG_PHYSICS_RELATIONS_NUM then
    none
  else
    let hash :=
      match w.graph.physics_relations type with
      | none => BLI_ghash_ptr_new
      | some hash => hash
    let w := { w with graph := w.graph.set_physics_relations type (some hash) }
    let relations := BLI_ghash_lookup hash collection
    if relations = NULL then
      let r := BKE_collision_relations_create w collection modifier_type
      let hash := BLI_ghash_insert hash collection r.1
      some (r.1, { r.2 with graph := r.2.graph.set_physics_relations type (some hash) })
    else
      some (relations, w)

/-- Modelled from the spec: `BLI_ghash_free` (not in the sources) with a
function that frees the values: the values of the entries are freed. -/
def BLI_ghash_free (w : PhysicsWorld) (hash : GHash) : PhysicsWorld :=
  { w with freed := w.freed ++ hash.map fun e => e.2 }

/-- Body of the loop of `deg_clear_physics_relations` for slot `type`. -/
def deg_clear_physics_relations_slot (w : PhysicsWorld) (type : ePhysicsRelationType) :
    PhysicsWorld :=
  match w.graph.physics_relations type with
  | none => w
  | some hash =>
    let w := BLI_ghash_free w hash
    { w with graph := w.graph.set_physics_relations type none }

/-- Embedding of `deg_clear_physics_relations`: the loop over the indices below
`DEG_PHYSICS_RELATIONS_NUM`. -/
def deg_clear_physics_relations (w : PhysicsWorld) : PhysicsWorld :=
  [DEG_PHYSICS_EFFECTOR, DEG_PHYSICS_COLLISION, DEG_PHYSICS_SMOKE_COLLISION,
    DEG_PHYSICS_DYNAMIC_BRUSH].foldl deg_clear_physics_relations_slot w

/-- A scene: its view layers (by address) and the dependency graphs it holds,
by view layer. -/
structure Scene where
  view_layers : List Nat
  depsgraph_hash : Nat → Option Depsgraph

/-- The main database: its scenes. -/
structure Main where
  scene : List Scene

/-- Modelled from the spec: `DEG_graph_new` is not in the sources; a new graph
is empty and its relations are to be built. -/
def DEG_graph_new : Depsgraph :=
  { node := fun _ => no_operation, operations := [], need_update := true }

/-- Modelled from the spec: `BKE_scene_get_depsgraph` is not in the sources. It
returns the graph that the scene holds for the view layer; when there is none
it returns NULL, or makes one when `allocate` is set. -/
def BKE_scene_get_depsgraph (scene : Scene) (view_layer : Nat) (allocate : Bool) :
    Scene × Option Depsgraph :=
  match scene.depsgraph_hash view_layer with
  | some g => (scene, some g)
  | none =>
    if allocate then
      ({ scene with depsgraph_hash := fun k =>
          if k = view_layer then some DEG_graph_new else scene.depsgraph_hash k },
        some DEG_graph_new)
    else
      (scene, none)

/-- Body of the inner loop of `DEG_relations_tag_update`; the graph is changed
in place, so the tagged graph is the one that the scene holds afterwards. -/
def DEG_relations_tag_update_layer (scene : Scene) (view_layer : Nat) : Scene :=
  let r := BKE_scene_get_depsgraph scene view_layer false
  match r.2 with
  | some depsgraph =>
    { r.1 with depsgraph_hash := fun k =>
        if k = view_layer then some (DEG_graph_tag_relations_update depsgraph)
        else r.1.depsgraph_hash k }
  | none => r.1

/-- Embedding of `DEG_relations_tag_update` (debug print left out). -/
def DEG_relations_tag_update (bmain : Main) : Main :=
  { scene := bmain.scene.map fun scene =>
      scene.view_layers.foldl DEG_relations_tag_update_layer scene }

/-- The part that `deg_build_effector_relations` and
`deg_build_collision_relations` share, `create` being the constructor. -/
def deg_build_relations (type : ePhysicsRelationType)
    (create : PhysicsWorld → Nat × PhysicsWorld) (w : PhysicsWorld) (collection : Nat) :
    Nat × PhysicsWorld :=
  let hash :=
    match w.graph.physics_relations type with
    | none => BLI_ghash_ptr_new
    | some hash => hash
  let w := { w with graph := w.graph.set_physics_relations type (some hash) }
  let relations := BLI_ghash_lookup hash collection
  if relations = NULL then
    let r := create w
    let hash := BLI_ghash_insert hash collection r.1
    (r.1, { r.2 with graph := r.2.graph.set_physics_relations type (some hash) })
  else
    (relations, w)

/-- The value cached in slot `type` for the key, NULL when there is none. -/
def cached_relations (g : Depsgraph) (type : ePhysicsRelationType) (collection : Nat) : Nat :=
  match g.physics_relations type with
  | none => NULL
  | some hash => BLI_ghash_lookup hash collection

/-- The two graphs differ at most in the flags of the operations and in the
entry tags. -/
def SameRelations (g g1 : Depsgraph) : Prop :=
  g1.operations = g.operations ∧ g1.need_update = g.need_update ∧ g1.id_hash = g.id_hash ∧
  g1.scene = g.scene ∧ g1.physics_relations = g.physics_relations ∧
  ∀ n, (g1.node n).owner = (g.node n).owner ∧ (g1.node n).inlinks = (g.node n).inlinks ∧
    (g1.node n).outlinks = (g.node n).outlinks ∧ (g1.node n).evaluate = (g.node n).evaluate ∧
    (g1.node n).num_links_pending = (g.node n).num_links_pending ∧
    (g1.node n).scheduled = (g.node n).scheduled

/-- Example: `example_chain` with an ID node for the scene (address 9) that
owns operation 0; nothing is tagged and `need_update` is clear. -/
def example_scene_graph : Depsgraph :=
  { node := fun n =>
      if n = 0 then mk_operation DEG_NODE_TYPE_TRANSFORM true 0 [] [mk_relation 0 1 0] true
      else if n = 1 then mk_operation DEG_NODE_TYPE_TRANSFORM true 0 [mk_relation 0 1 0] [] true
      else no_operation,
    operations := [0, 1],
    id_hash := fun id => if id = 9 then some [0] else none,
    scene := 9 }

/-- Example: the state of the relation caches over `example_scene_graph`,
nothing cached. -/
def example_physics : PhysicsWorld :=
  { graph := example_scene_graph, created := [], freed := [] }

/-- Example: the builders that leave the graph as it is. -/
def example_builders : DepsgraphBuilders :=
  { build_nodes := id, build_relations := id, deg_graph_detect_cycles := id,
    deg_graph_transitive_reduction := id, deg_graph_build_finalize := id,
    DEG_graph_on_visible_update := id }

/-- Example: one scene with the view layers 1 and 2, of which only view layer
1 has a graph, and a graph stored for the key 3, which is no view layer of the
scene. -/
def example_main : Main :=
  { scene := [{ view_layers := [1, 2],
                depsgraph_hash := fun k =>
                  if k = 1 then some example_scene_graph
                  else if k = 3 then some example_chain else none }] }

/-! ## Concurrent release of one child

Interleaving semantics of the release of one child by several worker threads
(`schedule_children` calling `schedule_node`): every access to the shared
fields `num_links_pending` and `scheduled` of the child is one step, and the
steps of the threads are interleaved in any order. -/

/-- Program points of a thread that handles one relation to the child: at the
test `child->scheduled` of `schedule_children`; in `schedule_node` at
`if (dec_parents)`; at the test `node->num_links_pending != 0`; at
`atomic_fetch_and_or_uint8`; after it with `is_scheduled` false, before the
dispatch; and back in the loop of `schedule_children`. -/
inductive ReleasePc where
  | at_child_scheduled
  | at_dec_parents
  | at_pending_test
  | at_fetch_and_or
  | at_dispatch
  | finished
  deriving DecidableEq, Repr

/-- A thread releasing the child: `dec_parents` is the argument of its call of
`schedule_node` (true when its relation is not cyclic). -/
structure ReleaseThread where
  dec_parents : Bool
  pc : ReleasePc
  deriving DecidableEq, Repr

/-- The shared fields of the child (visible or Copy-on-Write, and tagged), the
number of times it was dispatched, and the threads. -/
structure ReleaseState where
  num_links_pending : Nat
  scheduled : Bool
  dispatched : Nat
  threads : List ReleaseThread
  deriving DecidableEq, Repr

/-- One step of a thread, from `schedule_children` and `schedule_node`: the
read of `child->scheduled`; `atomic_sub_and_fetch_uint32` when `dec_parents`;
the read of `num_links_pending`; `atomic_fetch_and_or_uint8` on `scheduled`;
the dispatch (push, or processing of a no-op) when `is_scheduled` was false. -/
def thread_step (s : ReleaseState) (t : ReleaseThread) : ReleaseState × ReleaseThread :=
  match t.pc with
  | ReleasePc.at_child_scheduled =>
    if s.scheduled then (s, { t with pc := ReleasePc.finished })
    else (s, { t with pc := ReleasePc.at_dec_parents })
  | ReleasePc.at_dec_parents =>
    if t.dec_parents then
      ({ s with num_links_pending := (s.num_links_pending + UINT32_SIZE - 1) % UINT32_SIZE },
        { t with pc := ReleasePc.at_pending_test })
    else (s, { t with pc := ReleasePc.at_pending_test })
  | ReleasePc.at_pending_test =>
    if s.num_links_pending ≠ 0 then (s, { t with pc := ReleasePc.finished })
    else (s, { t with pc := ReleasePc.at_fetch_and_or })
  | ReleasePc.at_fetch_and_or =>
    let is_scheduled := s.scheduled
    ({ s with scheduled := true },
      { t with pc := if !is_scheduled then ReleasePc.at_dispatch else ReleasePc.finished })
  | ReleasePc.at_dispatch =>
    ({ s with dispatched := s.dispatched + 1 }, { t with pc := ReleasePc.finished })
  | ReleasePc.finished => (s, t)

/-- Thread `i` takes one step; nothing happens when there is no such thread. -/
def release_step (s : ReleaseState) (i : Nat) : ReleaseState :=
  match s.threads[i]? with
  | none => s
  | some t =>
    let r := thread_step s t
    { r.1 with threads := s.threads.set i r.2 }

/-- The threads take steps in the order given by `schedule`. -/
def release_run (s : ReleaseState) (schedule : List Nat) : ReleaseState :=
  schedule.foldl release_step s

/-- The state in which the threads start: the counter holds the number of
relations that decrement it, those of the threads and `rest` more whose sources
have not released yet. -/
def release_init (dec_parents : List Bool) (rest : Nat) : ReleaseState :=
  { num_links_pending := rest + dec_parents.countP id,
    scheduled := false, dispatched := 0,
    threads := dec_parents.map fun d =>
      { dec_parents := d, pc := ReleasePc.at_child_scheduled } }

/-- The thread has still to decrement the counter. -/
def ReleaseThread.undecremented (t : ReleaseThread) : Bool :=
  t.dec_parents &&
    (decide (t.pc = ReleasePc.at_child_scheduled) || decide (t.pc = ReleasePc.at_dec_parents))

/-- The thread has read 0 from the counter. -/
def ReleaseThread.saw_zero (t : ReleaseThread) : Bool :=
  decide (t.pc = ReleasePc.at_fetch_and_or) || decide (t.pc = ReleasePc.at_dispatch)

/-- The thread can still reach `atomic_fetch_and_or_uint8`. -/
def ReleaseThread.active (t : ReleaseThread) : Bool :=
  decide (t.pc = ReleasePc.at_child_scheduled) || decide (t.pc = ReleasePc.at_dec_parents) ||
    decide (t.pc = ReleasePc.at_pending_test) || decide (t.pc = ReleasePc.at_fetch_and_or)

/-- Steps that the thread has still to take, at most. -/
def ReleaseThread.steps_left (t : ReleaseThread) : Nat :=
  match t.pc with
  | ReleasePc.at_child_scheduled => 5
  | ReleasePc.at_dec_parents => 4
  | ReleasePc.at_pending_test => 3
  | ReleasePc.at_fetch_and_or => 2
  | ReleasePc.at_dispatch => 1
  | ReleasePc.finished => 0

/-- Invariant of the concurrent release, `rest` being the number of counted
relations whose sources have not released. -/
structure ReleaseInv (rest : Nat) (s : ReleaseState) : Prop where
  counter : s.num_links_pending = rest + s.threads.countP ReleaseThread.undecremented
  bound : s.num_links_pending < UINT32_SIZE
  zero : s.scheduled = true ∨ 0 < s.threads.countP ReleaseThread.saw_zero →
    s.num_links_pending = 0
  once : s.threads.countP (fun t => decide (t.pc = ReleasePc.at_dispatch)) + s.dispatched =
    if s.scheduled = true then 1 else 0
  live : s.num_links_pending = 0 → s.scheduled = false →
    0 < s.threads.countP ReleaseThread.active

/-! ## Component kinds, relation queries and collision relations

Shallow embedding of the component-kind mappings of `depsgraph_build.cc` and of
the queries and `DEG_add_collision_relations` of `depsgraph_physics.cc`. -/

/-- Values of `eDepsSceneComponentType`. The declaration is not part of the
sources at hand; the constants are numbered in the order of the switch in
`deg_build_scene_component_type`. -/
def DEG_SCENE_COMP_PARAMETERS : Nat := 0

/-- See `DEG_SCENE_COMP_PARAMETERS`. -/
def DEG_SCENE_COMP_ANIMATION : Nat := 1

/-- See `DEG_SCENE_COMP_PARAMETERS`. -/
def DEG_SCENE_COMP_SEQUENCER : Nat := 2

/-- Values of `eDepsObjectComponentType`. The declaration is not part of the
sources at hand; the constants are numbered in the order of the switch in
`deg_build_object_component_type`. -/
def DEG_OB_COMP_PARAMETERS : Nat := 0

/-- See `DEG_OB_COMP_PARAMETERS`. -/
def DEG_OB_COMP_PROXY : Nat := 1

/-- See `DEG_OB_COMP_PARAMETERS`. -/
def DEG_OB_COMP_ANIMATION : Nat := 2

/-- See `DEG_OB_COMP_PARAMETERS`. -/
def DEG_OB_COMP_TRANSFORM : Nat := 3

/-- See `DEG_OB_COMP_PARAMETERS`. -/
def DEG_OB_COMP_GEOMETRY : Nat := 4

/-- See `DEG_OB_COMP_PARAMETERS`. -/
def DEG_OB_COMP_EVAL_POSE : Nat := 5

/-- See `DEG_OB_COMP_PARAMETERS`. -/
def DEG_OB_COMP_BONE : Nat := 6

/-- See `DEG_OB_COMP_PARAMETERS`. -/
def DEG_OB_COMP_EVAL_PARTICLES : Nat := 7

/-- See `DEG_OB_COMP_PARAMETERS`. -/
def DEG_OB_COMP_SHADING : Nat := 8

/-- See `DEG_OB_COMP_PARAMETERS`. -/
def DEG_OB_COMP_CACHE : Nat := 9

/-- Embedding of `deg_build_scene_component_type`: the switch, and the return
after it for every other value. -/
def deg_build_scene_component_type (component : Nat) : eDepsNode_Type :=
  if component = DEG_SCENE_COMP_PARAMETERS then DEG_NODE_TYPE_PARAMETERS
  else if component = DEG_SCENE_COMP_ANIMATION then DEG_NODE_TYPE_ANIMATION
  else if component = DEG_SCENE_COMP_SEQUENCER then DEG_NODE_TYPE_SEQUENCER
  else DEG_NODE_TYPE_UNDEFINED

/-- Embedding of `deg_build_object_component_type`: the switch, and the return
after it for every other value. -/
def deg_build_object_component_type (component : Nat) : eDepsNode_Type :=
  if component = DEG_OB_COMP_PARAMETERS then DEG_NODE_TYPE_PARAMETERS
  else if component = DEG_OB_COMP_PROXY then DEG_NODE_TYPE_PROXY
  else if component = DEG_OB_COMP_ANIMATION then DEG_NODE_TYPE_ANIMATION
  else if component = DEG_OB_COMP_TRANSFORM then DEG_NODE_TYPE_TRANSFORM
  else if component = DEG_OB_COMP_GEOMETRY then DEG_NODE_TYPE_GEOMETRY
  else if component = DEG_OB_COMP_EVAL_POSE then DEG_NODE_TYPE_EVAL_POSE
  else if component = DEG_OB_COMP_BONE then DEG_NODE_TYPE_BONE
  else if component = DEG_OB_COMP_EVAL_PARTICLES then DEG_NODE_TYPE_EVAL_PARTICLES
  else if component = DEG_OB_COMP_SHADING then DEG_NODE_TYPE_SHADING
  else if component = DEG_OB_COMP_CACHE then DEG_NODE_TYPE_CACHE
  else DEG_NODE_TYPE_UNDEFINED

/-- The value of a kind of physics relations as an index of the array
`physics_relations`: the enumerators are numbered from 0 in the order of their
declaration, `DEG_PHYSICS_RELATIONS_NUM` being the last. -/
def ePhysicsRelationType.index : ePhysicsRelationType → Nat
  | DEG_PHYSICS_EFFECTOR => 0
  | DEG_PHYSICS_COLLISION => 1
  | DEG_PHYSICS_SMOKE_COLLISION => 2
  | DEG_PHYSICS_DYNAMIC_BRUSH => 3
  | DEG_PHYSICS_RELATIONS_NUM => 4

/-- Embedding of `DEG_get_effector_relations`. `DEG_get_original_id` is not in
the sources and is a parameter; the graph is read only. -/
def DEG_get_effector_relations (DEG_get_original_id : Nat → Nat) (g : Depsgraph)
    (collection : Nat) : Nat :=
  match g.physics_relations DEG_PHYSICS_EFFECTOR with
  | none => NULL
  | some hash =>
    let collection_orig := DEG_get_original_id collection
    BLI_ghash_lookup hash collection_orig

/-- Embedding of `DEG_get_collision_relations`; `none` when
`modifier_to_relation_type` returns `DEG_PHYSICS_RELATIONS_NUM`, which is no
index of the array. -/
def DEG_get_collision_relations (DEG_get_original_id : Nat → Nat) (g : Depsgraph)
    (collection : Nat) (modifier_type : Nat) : Option Nat :=
  let type := modifier_to_relation_type modifier_type
  if type = DEG_PHYSICS_RELATIONS_NUM then
    none
  else
    match g.physics_relations type with
    | none => some NULL
    | some hash =>
      let collection_orig := DEG_get_original_id collection
      some (BLI_ghash_lookup hash collection_orig)

/-- The key of a component node: the ID and the type of the component. -/
structure ComponentKey where
  id : Nat
  type : eDepsNode_Type
  deriving DecidableEq, Repr

/-- The node handle of the relation builder. The builder is not in the sources;
the handle records the relations that were requested through it: the key of the
source component and the description. -/
structure DepsNodeHandle where
  relations : List (ComponentKey × Nat)
  deriving DecidableEq, Repr

/-- Modelled from the spec: `add_node_handle_relation` of the relation builder
is not in the sources; the relation from the component to the node of the
handle is recorded. -/
def add_node_handle_relation (handle : DepsNodeHandle) (comp_key : ComponentKey)
    (description : Nat) : DepsNodeHandle :=
  { handle with relations := handle.relations ++ [(comp_key, description)] }

/-- Embedding of `DEG_add_object_relation`. -/
def DEG_add_object_relation (handle : DepsNodeHandle) (object : Nat) (component : Nat)
    (description : Nat) : DepsNodeHandle :=
  let type := deg_build_object_component_type component
  let comp_key : ComponentKey := { id := object, type := type }
  add_node_handle_relation handle comp_key description

/-- Body of the loop of `DEG_add_collision_relations` for the relation whose
object is `ob1`; `fn` is `none` for a NULL filter. -/
def DEG_add_collision_relations_body (modifiers_findByType : Nat → Nat → Nat)
    (object modifier_type : Nat) (fn : Option (Nat → Nat → Bool)) (name : Nat)
    (handle : DepsNodeHandle) (ob1 : Nat) : DepsNodeHandle :=
  if ob1 ≠ object then
    if (match fn with
        | none => true
        | some f => f ob1 (modifiers_findByType ob1 modifier_type)) then
      let handle := DEG_add_object_relation handle ob1 DEG_OB_COMP_TRANSFORM name
      DEG_add_object_relation handle ob1 DEG_OB_COMP_GEOMETRY name
    else handle
  else handle

/-- Embedding of `DEG_add_collision_relations`. The graph of the handle is the
graph of `w`; `list_of` gives the objects of the relations of a list object,
`modifiers_findByType` is not in the sources, both are parameters. The result
is `none` when `deg_build_collision_relations` has no slot for the modifier
type. -/
def DEG_add_collision_relations (list_of : Nat → List Nat)
    (modifiers_findByType : Nat → Nat → Nat) (handle : DepsNodeHandle) (w : PhysicsWorld)
    (object collection modifier_type : Nat) (fn : Option (Nat → Nat → Bool)) (name : Nat) :
    Option (DepsNodeHandle × PhysicsWorld) :=
  match deg_build_collision_relations w collection modifier_type with
  | none => none
  | some r =>
    some ((list_of r.1).foldl
      (DEG_add_collision_relations_body modifiers_findByType object modifier_type fn name)
      handle, r.2)

/-- The objects of a list for which `DEG_add_collision_relations` adds
relations: those that differ from `object` and pass the filter. -/
def collision_sources (modifiers_findByType : Nat → Nat → Nat)
    (object modifier_type : Nat) (fn : Option (Nat → Nat → Bool)) (l : List Nat) : List Nat :=
  l.filter fun ob1 =>
    decide (ob1 ≠ object) &&
      (match fn with
       | none => true
       | some f => f ob1 (modifiers_findByType ob1 modifier_type))

/-- Number of tasks that the pool has run: the callbacks invoked by
`deg_task_run_func`. -/
def tasks_run (t : List Event) : Nat :=
  t.countP fun e =>
    match e with
    | Event.evaluate _ => true
    | _ => false

/-- Example: the two-node cycle 0 → 1 → 0 of no-op operations in which the
relation 1 → 0 is marked cyclic; both visible and tagged. -/
def example_noop_cycle : Depsgraph :=
  { node := fun n =>
      if n = 0 then
        mk_operation DEG_NODE_TYPE_TRANSFORM true 1 [mk_relation 1 0 1] [mk_relation 0 1 0] false
      else if n = 1 then
        mk_operation DEG_NODE_TYPE_TRANSFORM true 1 [mk_relation 0 1 0] [mk_relation 1 0 1] false
      else no_operation,
    operations := [0, 1] }

/-- The configurations of a pass over `g`: those that the small steps reach
from the state that `initialize_execution` leaves, the pool and the record
being empty. -/
def PassState (g : Depsgraph) (c : EvalWorld × List DepsRelation) : Prop :=
  Relation.ReflTransGen Step
    (({ graph := initialize_execution g, pool := [], trace := [] } : EvalWorld), []) c

/-- Operation `a` is a counted parent of `b`: a relation that
`calculate_pending_func` counts for `b` comes from `a`. -/
def Parent (g : Depsgraph) (a b : Nat) : Prop :=
  ∃ r ∈ (g.node b).inlinks, rel_counted g r = true ∧ r.from_ = a

/-- Operation `b` is stuck: it lies on a cycle of counted relations, or it
depends on an operation of such a cycle through counted relations. -/
def Stuck (g : Depsgraph) (b : Nat) : Prop :=
  ∃ a, Relation.TransGen (Parent g) a a ∧ Relation.ReflTransGen (Parent g) a b

/-- Example: operation 0 with a relation to operation 1, and the cycle
1 → 2 → 1 that no relation marks as cyclic; all three visible and tagged, each
with a callback. -/
def example_stuck_cycle : Depsgraph :=
  { node := fun n =>
      if n = 0 then mk_operation DEG_NODE_TYPE_TRANSFORM true 1 [] [mk_relation 0 1 0] true
      else if n = 1 then
        mk_operation DEG_NODE_TYPE_TRANSFORM true 1 [mk_relation 0 1 0, mk_relation 2 1 0]
          [mk_relation 1 2 0] true
      else if n = 2 then
        mk_operation DEG_NODE_TYPE_TRANSFORM true 1 [mk_relation 1 2 0] [mk_relation 2 1 0] true
      else no_operation,
    operations := [0, 1, 2] }

/-- No relation that a running `schedule_children` loop has still to walk leads
to a scheduled operation, as far as the relation is not cyclic and its target
is visible (or Copy-on-Write), tagged, and has counted inbound relations that
fit the counter. -/
def DebtFree (c : EvalWorld × List DepsRelation) : Prop :=
  ∀ r ∈ c.2, rel_noncyclic r = true → is_live c.1.graph r.to_ = true →
    counted_inlinks c.1.graph r.to_ < UINT32_SIZE →
      (c.1.graph.node r.to_).scheduled = false

/-- Callback before release: when an operation with a callback enters
`schedule_children`, its callback was invoked before. -/
def TraceEval (g : Depsgraph) (t : List Event) : Prop :=
  ∀ t1 t2 a, t = t1 ++ Event.children a :: t2 → (g.node a).is_noop = false →
    Event.evaluate a ∈ t1

/-- Example: the cycle 0 → 1 → 0 that no relation marks as cyclic, a relation
from operation 1 to operation 2 and one from operation 2 to operation 3; all
four visible and with a callback, operation 2 not tagged, the others tagged. -/
def example_stuck_untagged : Depsgraph :=
  { node := fun n =>
      if n = 0 then
        mk_operation DEG_NODE_TYPE_TRANSFORM true 1 [mk_relation 1 0 0] [mk_relation 0 1 0] true
      else if n = 1 then
        mk_operation DEG_NODE_TYPE_TRANSFORM true 1 [mk_relation 0 1 0]
          [mk_relation 1 0 0, mk_relation 1 2 0] true
      else if n = 2 then
        mk_operation DEG_NODE_TYPE_TRANSFORM true 0 [mk_relation 1 2 0] [mk_relation 2 3 0] true
      else if n = 3 then
        mk_operation DEG_NODE_TYPE_TRANSFORM true 1 [mk_relation 2 3 0] [] true
      else no_operation,
    operations := [0, 1, 2, 3] }

/-! ## Auxiliary lemmas -/

theorem modify_pending_eq (g : Depsgraph) (n : Nat) (e : OperationDepsNode → Nat) :
    g.modify n (fun x => { x with num_links_pending := e x }) =
      g.setdyn n (e (g.node n)) (g.node n).scheduled := by
  unfold Depsgraph.setdyn Depsgraph.modify
  congr 1
  funext m
  by_cases h : m = n
  · subst h; simp
  · simp [h]

theorem modify_scheduled_eq (g : Depsgraph) (n : Nat) (b : Bool) :
    g.modify n (fun x => { x with scheduled := b }) =
      g.setdyn n (g.node n).num_links_pending b := by
  unfold Depsgraph.setdyn Depsgraph.modify
  congr 1
  funext m
  by_cases h : m = n
  · subst h; simp
  · simp [h]

@[simp] theorem setdyn_operations (g : Depsgraph) (n p : Nat) (s : Bool) :
    (g.setdyn n p s).operations = g.operations := rfl

theorem setdyn_node_self (g : Depsgraph) (n p : Nat) (s : Bool) :
    (g.setdyn n p s).node n = { g.node n with num_links_pending := p, scheduled := s } := by
  simp [Depsgraph.setdyn, Depsgraph.modify]

theorem setdyn_node_ne (g : Depsgraph) (n p : Nat) (s : Bool) (m : Nat) (h : m ≠ n) :
    (g.setdyn n p s).node m = g.node m := by
  simp [Depsgraph.setdyn, Depsgraph.modify, h]

@[simp] theorem setdyn_pending (g : Depsgraph) (n p : Nat) (s : Bool) (m : Nat) :
    ((g.setdyn n p s).node m).num_links_pending =
      if m = n then p else (g.node m).num_links_pending := by
  by_cases h : m = n
  · subst h; simp [setdyn_node_self]
  · simp [setdyn_node_ne _ _ _ _ _ h, h]

@[simp] theorem setdyn_scheduled (g : Depsgraph) (n p : Nat) (s : Bool) (m : Nat) :
    ((g.setdyn n p s).node m).scheduled =
      if m = n then s else (g.node m).scheduled := by
  by_cases h : m = n
  · subst h; simp [setdyn_node_self]
  · simp [setdyn_node_ne _ _ _ _ _ h, h]

@[simp] theorem setdyn_owner (g : Depsgraph) (n p : Nat) (s : Bool) (m : Nat) :
    ((g.setdyn n p s).node m).owner = (g.node m).owner := by
  by_cases h : m = n
  · subst h; simp [setdyn_node_self]
  · simp [setdyn_node_ne _ _ _ _ _ h]

@[simp] theorem setdyn_flag (g : Depsgraph) (n p : Nat) (s : Bool) (m : Nat) :
    ((g.setdyn n p s).node m).flag = (g.node m).flag := by
  by_cases h : m = n
  · subst h; simp [setdyn_node_self]
  · simp [setdyn_node_ne _ _ _ _ _ h]

@[simp] theorem setdyn_inlinks (g : Depsgraph) (n p : Nat) (s : Bool) (m : Nat) :
    ((g.setdyn n p s).node m).inlinks = (g.node m).inlinks := by
  by_cases h : m = n
  · subst h; simp [setdyn_node_self]
  · simp [setdyn_node_ne _ _ _ _ _ h]

@[simp] theorem setdyn_outlinks (g : Depsgraph) (n p : Nat) (s : Bool) (m : Nat) :
    ((g.setdyn n p s).node m).outlinks = (g.node m).outlinks := by
  by_cases h : m = n
  · subst h; simp [setdyn_node_self]
  · simp [setdyn_node_ne _ _ _ _ _ h]

@[simp] theorem setdyn_evaluate (g : Depsgraph) (n p : Nat) (s : Bool) (m : Nat) :
    ((g.setdyn n p s).node m).evaluate = (g.node m).evaluate := by
  by_cases h : m = n
  · subst h; simp [setdyn_node_self]
  · simp [setdyn_node_ne _ _ _ _ _ h]

@[simp] theorem setdyn_entry_tags (g : Depsgraph) (n p : Nat) (s : Bool) :
    (g.setdyn n p s).entry_tags = g.entry_tags := rfl

@[simp] theorem setdyn_need_update (g : Depsgraph) (n p : Nat) (s : Bool) :
    (g.setdyn n p s).need_update = g.need_update := rfl

@[simp] theorem setdyn_visible (g : Depsgraph) (n p : Nat) (s : Bool) (m : Nat) :
    check_operation_node_visible ((g.setdyn n p s).node m) =
      check_operation_node_visible (g.node m) := by
  simp [check_operation_node_visible]

@[simp] theorem setdyn_is_noop (g : Depsgraph) (n p : Nat) (s : Bool) (m : Nat) :
    ((g.setdyn n p s).node m).is_noop = (g.node m).is_noop := by
  simp [OperationDepsNode.is_noop]

@[simp] theorem setdyn_is_live (g : Depsgraph) (n p : Nat) (s : Bool) :
    is_live (g.setdyn n p s) = is_live g := by
  funext m
  simp [is_live]

@[simp] theorem setdyn_rel_counted (g : Depsgraph) (n p : Nat) (s : Bool) :
    rel_counted (g.setdyn n p s) = rel_counted g := by
  funext r
  simp [rel_counted]

@[simp] theorem setdyn_counted_inlinks (g : Depsgraph) (n p : Nat) (s : Bool) :
    counted_inlinks (g.setdyn n p s) = counted_inlinks g := by
  funext m
  simp [counted_inlinks]

@[simp] theorem setdyn_pending_spec (g : Depsgraph) (n p : Nat) (s : Bool) :
    pending_spec (g.setdyn n p s) = pending_spec g := by
  funext m
  simp [pending_spec]

theorem setdyn_setdyn (g : Depsgraph) (n p q : Nat) (s t : Bool) :
    (g.setdyn n p s).setdyn n q t = g.setdyn n q t := by
  unfold Depsgraph.setdyn Depsgraph.modify
  congr 1
  funext m
  by_cases h : m = n
  · subst h; simp
  · simp [h]

theorem setdyn_same (g : Depsgraph) (n : Nat) :
    g.setdyn n (g.node n).num_links_pending (g.node n).scheduled = g := by
  unfold Depsgraph.setdyn Depsgraph.modify
  cases g with
  | mk node ops tags nu ids sc phys =>
    congr 1
    funext m
    by_cases h : m = n
    · subst h; simp
    · simp [h]

theorem is_live_iff (g : Depsgraph) (n : Nat) :
    is_live g n = true ↔
      check_operation_node_visible (g.node n) = true ∧
        ((g.node n).flag &&& DEPSOP_FLAG_NEEDS_UPDATE) ≠ 0 := by
  simp [is_live]

/-- One call of `schedule_node` is its action followed by the walk of the
relations the action hands over. -/
theorem schedule_node_succ (fuel : Nat) (w : EvalWorld) (n : Nat) (dec : Bool) :
    schedule_node (fuel + 1) w n dec =
      schedule_children_loop (schedule_node fuel) (node_action w n dec).1
        (node_action w n dec).2 := by
  cases hv : check_operation_node_visible (w.graph.node n)
  · simp [schedule_node, node_action, is_live, hv, schedule_children_loop]
  · by_cases hf : ((w.graph.node n).flag &&& DEPSOP_FLAG_NEEDS_UPDATE) = 0
    · simp [schedule_node, node_action, is_live, hv, hf, schedule_children_loop]
    · cases dec
      · by_cases hp : (w.graph.node n).num_links_pending = 0
        · cases hs : (w.graph.node n).scheduled <;> cases hn : (w.graph.node n).evaluate <;>
            simp [schedule_node, node_action, is_live, hv, hf, hp, hs, hn, schedule_children_loop, OperationDepsNode.is_noop,
              modify_scheduled_eq, modify_pending_eq]
        · simp [schedule_node, node_action, is_live, hv, hf, hp, schedule_children_loop, setdyn_same]
      · by_cases hp : ((w.graph.node n).num_links_pending + UINT32_SIZE - 1) % UINT32_SIZE = 0
        · cases hs : (w.graph.node n).scheduled <;> cases hn : (w.graph.node n).evaluate <;>
            simp [schedule_node, node_action, is_live, hv, hf, hp, hs, hn, schedule_children_loop, OperationDepsNode.is_noop,
              modify_scheduled_eq, modify_pending_eq, setdyn_setdyn]
        · simp [schedule_node, node_action, is_live, hv, hf, hp, schedule_children_loop,
              modify_scheduled_eq, modify_pending_eq]

theorem calculate_pending_link_eq (n : Nat) (g : Depsgraph) (r : DepsRelation) :
    calculate_pending_link n g r =
      if rel_counted g r then
        g.setdyn n (((g.node n).num_links_pending + 1) % UINT32_SIZE) (g.node n).scheduled
      else g := by
  unfold calculate_pending_link
  rw [modify_pending_eq]
  by_cases h1 : r.from_type = DEG_NODE_TYPE_OPERATION ∧ (r.flag &&& DEPSREL_FLAG_CYCLIC) = 0
  · cases hv : check_operation_node_visible (g.node r.from_)
    · simp [h1, hv, rel_counted, is_live]
    · by_cases hf : ((g.node r.from_).flag &&& DEPSOP_FLAG_NEEDS_UPDATE) = 0
      · simp [h1, hv, hf, rel_counted, is_live]
      · simp [h1, hv, hf, rel_counted, is_live, rel_noncyclic]
  · have : rel_counted g r = false := by
      simp only [rel_counted, rel_noncyclic]
      by_cases ha : r.from_type = DEG_NODE_TYPE_OPERATION
      · have hb : ¬ (r.flag &&& DEPSREL_FLAG_CYCLIC) = 0 := fun hb => h1 ⟨ha, hb⟩
        simp [hb]
      · simp [ha]
    simp [h1, this]

theorem calculate_pending_link_fold (n : Nat) (rels : List DepsRelation) :
    ∀ g : Depsgraph, (g.node n).num_links_pending < UINT32_SIZE →
      rels.foldl (calculate_pending_link n) g =
        g.setdyn n (((g.node n).num_links_pending + rels.countP (rel_counted g)) % UINT32_SIZE)
          (g.node n).scheduled := by
  induction rels with
  | nil =>
    intro g hg
    simp [Nat.mod_eq_of_lt hg, setdyn_same]
  | cons r rest ih =>
    intro g hg
    rw [List.foldl_cons, calculate_pending_link_eq]
    cases hc : rel_counted g r
    · simp only [Bool.false_eq_true, if_false]
      rw [ih g hg]
      simp [List.countP_cons, hc]
    · simp only [if_true]
      rw [ih]
      · simp only [setdyn_setdyn, setdyn_rel_counted, setdyn_pending, if_true, setdyn_scheduled,
          List.countP_cons, hc]
        congr 1
        simp only [UINT32_SIZE]
        omega
      · simp only [setdyn_pending, if_true]
        exact Nat.mod_lt _ (by decide)

theorem calculate_pending_func_eq (g : Depsgraph) (i : Nat) :
    calculate_pending_func g i =
      match g.operations[i]? with
      | none => g
      | some n => g.setdyn n (pending_spec g n) false := by
  unfold calculate_pending_func
  cases hi : g.operations[i]? with
  | none => rfl
  | some n =>
    simp only [modify_pending_eq, modify_scheduled_eq, setdyn_setdyn, setdyn_pending, if_true]
    cases hv : check_operation_node_visible (g.node n)
    · simp [hv, pending_spec, is_live]
    · by_cases hf : ((g.node n).flag &&& DEPSOP_FLAG_NEEDS_UPDATE) = 0
      · simp [hv, hf, pending_spec, is_live]
      · simp only [setdyn_visible, hv, setdyn_flag, hf, setdyn_inlinks]
        rw [calculate_pending_link_fold]
        · simp [setdyn_setdyn, pending_spec, is_live, hv, hf, counted_inlinks]
        · simp [UINT32_SIZE]


theorem StaticEq.refl (g : Depsgraph) : StaticEq g g :=
  ⟨rfl, fun _ => ⟨rfl, rfl, rfl, rfl, rfl⟩⟩

theorem StaticEq.trans {g g1 g2 : Depsgraph} (h1 : StaticEq g g1) (h2 : StaticEq g1 g2) :
    StaticEq g g2 := by
  refine ⟨h2.1.trans h1.1, fun n => ?_⟩
  obtain ⟨a1, a2, a3, a4, a5⟩ := h1.2 n
  obtain ⟨b1, b2, b3, b4, b5⟩ := h2.2 n
  exact ⟨b1.trans a1, b2.trans a2, b3.trans a3, b4.trans a4, b5.trans a5⟩

theorem StaticEq.setdyn (g : Depsgraph) (n p : Nat) (s : Bool) : StaticEq g (g.setdyn n p s) :=
  ⟨rfl, fun m => by simp⟩

theorem StaticEq.is_live {g g1 : Depsgraph} (h : StaticEq g g1) : is_live g1 = is_live g := by
  funext n
  obtain ⟨a1, a2, -, -, -⟩ := h.2 n
  simp [DEG.is_live, check_operation_node_visible, a1, a2]

theorem StaticEq.is_noop {g g1 : Depsgraph} (h : StaticEq g g1) (n : Nat) :
    (g1.node n).is_noop = (g.node n).is_noop := by
  simp [OperationDepsNode.is_noop, (h.2 n).2.2.2.2]

theorem StaticEq.rel_counted {g g1 : Depsgraph} (h : StaticEq g g1) :
    rel_counted g1 = rel_counted g := by
  funext r
  simp [DEG.rel_counted, h.is_live]

theorem StaticEq.counted_inlinks {g g1 : Depsgraph} (h : StaticEq g g1) :
    counted_inlinks g1 = counted_inlinks g := by
  funext n
  simp [DEG.counted_inlinks, h.rel_counted, (h.2 n).2.2.1]

theorem StaticEq.pending_spec {g g1 : Depsgraph} (h : StaticEq g g1) :
    pending_spec g1 = pending_spec g := by
  funext n
  simp [DEG.pending_spec, h.is_live, h.counted_inlinks]

theorem init_graph_on_static (g : Depsgraph) (l : List Nat) :
    StaticEq g (init_graph_on g l) := by
  refine ⟨rfl, fun n => ?_⟩
  by_cases h : n ∈ l <;> simp [init_graph_on, h]

theorem init_graph_static (g : Depsgraph) : StaticEq g (init_graph g) :=
  init_graph_on_static g g.operations

theorem calculate_pending_range (g : Depsgraph) (k : Nat) :
    (List.range k).foldl calculate_pending_func g = init_graph_on g (g.operations.take k) := by
  induction k with
  | zero => simp [init_graph_on]
  | succ k ih =>
    rw [List.range_succ, List.foldl_append, List.foldl_cons, List.foldl_nil, ih,
      calculate_pending_func_eq]
    have hops : (init_graph_on g (g.operations.take k)).operations = g.operations := rfl
    rw [hops]
    cases hk : g.operations[k]? with
    | none =>
      simp only [hk]
      rw [List.take_succ, hk]
      simp
    | some n =>
      simp only [hk]
      rw [(init_graph_on_static g _).pending_spec, List.take_succ, hk]
      unfold Depsgraph.setdyn Depsgraph.modify init_graph_on
      congr 1
      funext m
      by_cases hm : m = n
      · subst hm
        by_cases h : m ∈ g.operations.take k <;> simp [h]
      · by_cases h : m ∈ g.operations.take k <;> simp [h, hm]

/-- The graph after `initialize_execution` in closed form. -/
theorem initialize_execution_eq (g : Depsgraph) : initialize_execution g = init_graph g := by
  unfold initialize_execution calculate_pending_parents
  rw [calculate_pending_range, List.take_length]
  rfl

theorem node_action_static (w : EvalWorld) (n : Nat) (dec : Bool) :
    StaticEq w.graph (node_action w n dec).1.graph := by
  simp only [node_action]
  split_ifs <;> first | exact StaticEq.refl _ | exact StaticEq.setdyn _ _ _ _

theorem Step.static {c c1 : EvalWorld × List DepsRelation} (h : Step c c1) :
    StaticEq c.1.graph c1.1.graph := by
  cases h with
  | seed w n h => exact node_action_static w n false
  | skip w r st h => exact StaticEq.refl _
  | visit w r st h => exact node_action_static w _ _
  | task w n h => exact StaticEq.refl _

theorem Steps.static_eq {c c1 : EvalWorld × List DepsRelation}
    (h : Relation.ReflTransGen Step c c1) : StaticEq c.1.graph c1.1.graph := by
  induction h with
  | refl => exact StaticEq.refl _
  | tail _ hs ih => exact ih.trans hs.static

/-- The walk of `schedule_children` is a sequence of skips and visits. -/
theorem loop_walk (fuel : Nat) :
    ∀ (rs : List DepsRelation) (w w1 : EvalWorld) (st : List DepsRelation),
      schedule_children_loop (schedule_node fuel) w rs = some w1 →
        Relation.ReflTransGen Walk (w, rs ++ st) (w1, st) := by
  induction fuel with
  | zero =>
    intro rs
    induction rs with
    | nil =>
      intro w w1 st h
      simp only [schedule_children_loop, Option.some.injEq] at h
      subst h
      exact Relation.ReflTransGen.refl
    | cons r rest ih =>
      intro w w1 st h
      simp only [schedule_children_loop] at h
      cases hs : (w.graph.node r.to_).scheduled
      · simp [hs, schedule_node] at h
      · simp only [hs, if_true] at h
        exact Relation.ReflTransGen.head (Walk.skip w r (rest ++ st) hs) (ih w w1 st h)
  | succ f ihf =>
    intro rs
    induction rs with
    | nil =>
      intro w w1 st h
      simp only [schedule_children_loop, Option.some.injEq] at h
      subst h
      exact Relation.ReflTransGen.refl
    | cons r rest ih =>
      intro w w1 st h
      simp only [schedule_children_loop] at h
      cases hs : (w.graph.node r.to_).scheduled
      · simp only [hs, Bool.false_eq_true, if_false] at h
        cases hn : schedule_node (f + 1) w r.to_ (decide ((r.flag &&& DEPSREL_FLAG_CYCLIC) = 0)) with
        | none => simp [hn] at h
        | some w2 =>
          simp only [hn] at h
          rw [schedule_node_succ] at hn
          have h1 := ihf _ _ _ (rest ++ st) hn
          have h2 : Walk (w, r :: (rest ++ st))
              ((node_action w r.to_ (rel_noncyclic r)).1,
                (node_action w r.to_ (rel_noncyclic r)).2 ++ (rest ++ st)) :=
            Walk.visit w r (rest ++ st) hs
          exact Relation.ReflTransGen.head h2 (h1.trans (ih w2 w1 st h))
      · simp only [hs, if_true] at h
        exact Relation.ReflTransGen.head (Walk.skip w r (rest ++ st) hs) (ih w w1 st h)

theorem Walk.to_step {c c1 : EvalWorld × List DepsRelation} (h : Walk c c1) : Step c c1 := by
  cases h with
  | skip w r st hs => exact Step.skip w r st hs
  | visit w r st hs => exact Step.visit w r st hs

/-- The walk of `schedule_children` is a sequence of small steps. -/
theorem loop_steps (fuel : Nat) (rs : List DepsRelation) (w w1 : EvalWorld)
    (st : List DepsRelation)
    (h : schedule_children_loop (schedule_node fuel) w rs = some w1) :
    Relation.ReflTransGen Step (w, rs ++ st) (w1, st) :=
  Relation.ReflTransGen.mono (fun _ _ => Walk.to_step) (loop_walk fuel rs w w1 st h)

/-- A seeding call of `schedule_node` is a sequence of small steps. -/
theorem schedule_node_steps (fuel : Nat) (w w1 : EvalWorld) (n : Nat)
    (hn : n ∈ w.graph.operations) (h : schedule_node fuel w n false = some w1) :
    Relation.ReflTransGen Step (w, []) (w1, []) := by
  cases fuel with
  | zero => simp [schedule_node] at h
  | succ f =>
    rw [schedule_node_succ] at h
    have h1 := loop_steps f _ _ _ [] h
    rw [List.append_nil] at h1
    exact Relation.ReflTransGen.head (Step.seed w n hn) h1

theorem schedule_graph_loop_steps (fuel : Nat) :
    ∀ (ns : List Nat) (w w1 : EvalWorld), (∀ n ∈ ns, n ∈ w.graph.operations) →
      schedule_graph_loop fuel w ns = some w1 →
        Relation.ReflTransGen Step (w, []) (w1, []) := by
  intro ns
  induction ns with
  | nil =>
    intro w w1 _ h
    simp only [schedule_graph_loop, Option.some.injEq] at h
    subst h
    exact Relation.ReflTransGen.refl
  | cons n rest ih =>
    intro w w1 hns h
    simp only [schedule_graph_loop] at h
    cases hn : schedule_node fuel w n false with
    | none => simp [hn] at h
    | some w2 =>
      simp only [hn] at h
      have h1 := schedule_node_steps fuel w w2 n (hns n (List.mem_cons_self _ _)) hn
      have hops : w2.graph.operations = w.graph.operations := (Steps.static_eq h1).1
      refine h1.trans (ih w2 w1 ?_ h)
      intro m hm
      rw [hops]
      exact hns m (List.mem_cons_of_mem _ hm)

theorem schedule_graph_steps (fuel : Nat) (w w1 : EvalWorld)
    (h : schedule_graph fuel w = some w1) : Relation.ReflTransGen Step (w, []) (w1, []) :=
  schedule_graph_loop_steps fuel _ w w1 (fun _ hn => hn) h

theorem deg_task_run_func_eq (fuel : Nat) (w : EvalWorld) (n : Nat) :
    deg_task_run_func fuel w n =
      schedule_children_loop (schedule_node fuel)
        { w with trace := w.trace ++ [Event.evaluate n, Event.children n] }
        (w.graph.node n).outlinks := by
  simp [deg_task_run_func, schedule_children]

theorem work_and_wait_steps (fuel : Nat) :
    ∀ (picks : List Nat) (w w1 : EvalWorld),
      BLI_task_pool_work_and_wait fuel w picks = some w1 →
        Relation.ReflTransGen Step (w, []) (w1, []) := by
  intro picks
  induction picks with
  | nil =>
    intro w w1 h
    simp only [BLI_task_pool_work_and_wait, Option.some.injEq] at h
    subst h
    exact Relation.ReflTransGen.refl
  | cons k rest ih =>
    intro w w1 h
    simp only [BLI_task_pool_work_and_wait] at h
    cases hk : w.pool[k % w.pool.length]? with
    | none =>
      simp only [hk, Option.some.injEq] at h
      subst h
      exact Relation.ReflTransGen.refl
    | some n =>
      simp only [hk] at h
      cases hr : deg_task_run_func fuel { w with pool := w.pool.erase n } n with
      | none => simp [hr] at h
      | some w2 =>
        simp only [hr] at h
        rw [deg_task_run_func_eq] at hr
        have h1 := loop_steps fuel _ _ _ [] hr
        rw [List.append_nil] at h1
        exact Relation.ReflTransGen.head (Step.task w n (List.getElem?_mem hk)) (h1.trans (ih w2 w1 h))

/-- Every state of a pass is reached by small steps from the initialised graph. -/
theorem evaluate_pass_steps (fuel : Nat) (g : Depsgraph) (picks : List Nat) (w : EvalWorld)
    (h : evaluate_pass fuel g picks = some w) :
    Relation.ReflTransGen Step
      (({ graph := init_graph g, pool := [], trace := [] } : EvalWorld), []) (w, []) := by
  unfold evaluate_pass at h
  rw [initialize_execution_eq] at h
  cases hs : schedule_graph fuel { graph := init_graph g, pool := [], trace := [] } with
  | none => simp [hs] at h
  | some w2 =>
    simp only [hs] at h
    exact (schedule_graph_steps fuel _ _ hs).trans (work_and_wait_steps fuel picks w2 w h)

@[simp] theorem setdyn_links_in (g : Depsgraph) (n p : Nat) (s : Bool) :
    links_in (g.setdyn n p s) = links_in g := by
  funext a b
  simp [links_in]

@[simp] theorem setdyn_links_out (g : Depsgraph) (n p : Nat) (s : Bool) :
    links_out (g.setdyn n p s) = links_out g := by
  funext a b
  simp [links_out]

@[simp] theorem setdyn_unreleased_inlinks (g : Depsgraph) (n p : Nat) (s : Bool) :
    unreleased_inlinks (g.setdyn n p s) = unreleased_inlinks g := by
  funext t b
  simp [unreleased_inlinks]

@[simp] theorem setdyn_released_inlinks (g : Depsgraph) (n p : Nat) (s : Bool) :
    released_inlinks (g.setdyn n p s) = released_inlinks g := by
  funext t b
  simp [released_inlinks]

@[simp] theorem setdyn_is_dispatch (g : Depsgraph) (n p : Nat) (s : Bool) :
    is_dispatch (g.setdyn n p s) = is_dispatch g := by
  funext b e
  simp [is_dispatch]

@[simp] theorem setdyn_TraceOrd (g : Depsgraph) (n p : Nat) (s : Bool) (t : List Event) :
    TraceOrd (g.setdyn n p s) t ↔ TraceOrd g t := by
  simp [TraceOrd]

@[simp] theorem setdyn_TraceDisp (g : Depsgraph) (n p : Nat) (s : Bool) (t : List Event) :
    TraceDisp (g.setdyn n p s) t ↔ TraceDisp g t := by
  simp [TraceDisp]

theorem snoc_split {α : Type} {t t1 t2 : List α} {x e : α} (h : t ++ [x] = t1 ++ e :: t2) :
    (t2 = [] ∧ t1 = t ∧ e = x) ∨ ∃ t3, t2 = t3 ++ [x] ∧ t = t1 ++ e :: t3 := by
  rcases List.eq_nil_or_concat t2 with rfl | ⟨t3, y, rfl⟩
  · left
    have h1 := List.append_inj' h rfl
    simp at h1
    exact ⟨rfl, h1.1.symm, h1.2.symm⟩
  · right
    have h2 : t ++ [x] = (t1 ++ e :: t3) ++ [y] := by simpa using h
    have h1 := List.append_inj' h2 rfl
    simp at h1
    exact ⟨t3, by simp [h1.2], h1.1⟩

theorem countP_split {α : Type} (p q s : α → Bool) (l : List α)
    (h : ∀ x ∈ l, p x = (q x || s x)) (hd : ∀ x ∈ l, q x = true → s x = true → False) :
    l.countP p = l.countP q + l.countP s := by
  induction l with
  | nil => simp
  | cons x xs ih =>
    have ih1 := ih (fun y hy => h y (List.mem_cons_of_mem _ hy))
      (fun y hy => hd y (List.mem_cons_of_mem _ hy))
    have hx := h x (List.mem_cons_self _ _)
    have hdx := hd x (List.mem_cons_self _ _)
    simp only [List.countP_cons, ih1, hx]
    cases hq : q x <;> cases hs : s x <;> simp_all <;> omega

theorem released_snoc (t : List Event) (x : Event) (a : Nat) :
    released (t ++ [x]) a = (released t a || decide (x = Event.children a)) := by
  simp only [released, List.mem_append, List.mem_singleton]
  by_cases h1 : Event.children a ∈ t <;> by_cases h2 : x = Event.children a <;>
    simp [h1, h2, eq_comm]

theorem released_snoc_push (t : List Event) (n a : Nat) :
    released (t ++ [Event.push n]) a = released t a := by
  simp [released_snoc]

theorem released_snoc_evaluate (t : List Event) (n a : Nat) :
    released (t ++ [Event.evaluate n]) a = released t a := by
  simp [released_snoc]

theorem released_snoc_children (t : List Event) (n a : Nat) :
    released (t ++ [Event.children n]) a = (released t a || decide (a = n)) := by
  simp [released_snoc, eq_comm]

theorem unreleased_congr (g : Depsgraph) (t t1 : List Event)
    (h : ∀ a, released t1 a = released t a) :
    unreleased_inlinks g t1 = unreleased_inlinks g t := by
  funext b
  simp [unreleased_inlinks, h]

theorem released_inlinks_congr (g : Depsgraph) (t t1 : List Event)
    (h : ∀ a, released t1 a = released t a) :
    released_inlinks g t1 = released_inlinks g t := by
  funext b
  simp [released_inlinks, h]

/-- When a live node releases, the relations it sources leave the unreleased
count of each target. -/
theorem unreleased_release (g : Depsgraph) (t : List Event) (n b : Nat)
    (hl : is_live g n = true) (hr : released t n = false) :
    unreleased_inlinks g t b =
      unreleased_inlinks g (t ++ [Event.children n]) b + links_in g n b := by
  unfold unreleased_inlinks links_in
  apply countP_split
  · intro r _
    simp only [released_snoc_children, rel_counted]
    by_cases h : r.from_ = n
    · simp [h, hl, hr]
    · simp [h]
  · intro r _ h1 h2
    simp only [released_snoc_children] at h1
    simp_all

theorem released_release (g : Depsgraph) (t : List Event) (n b : Nat)
    (hl : is_live g n = true) (hr : released t n = false) :
    released_inlinks g (t ++ [Event.children n]) b =
      released_inlinks g t b + links_in g n b := by
  unfold released_inlinks links_in
  apply countP_split
  · intro r _
    simp only [released_snoc_children, rel_counted]
    by_cases h : r.from_ = n
    · simp [h, hl, hr]
    · simp [h]
  · intro r _ h1 h2
    have : r.from_ = n := by simp_all
    simp_all

theorem unreleased_add_released (g : Depsgraph) (t : List Event) (b : Nat) :
    unreleased_inlinks g t b + released_inlinks g t b = counted_inlinks g b := by
  unfold unreleased_inlinks released_inlinks counted_inlinks
  rw [add_comm]
  symm
  apply countP_split
  · intro r _
    cases rel_counted g r <;> cases released t r.from_ <;> rfl
  · intro r _ h1 h2
    simp_all

theorem debt_append (rs st : List DepsRelation) (b : Nat) :
    debt (rs ++ st) b = debt rs b + debt st b := by
  simp [debt, List.countP_append]

theorem debt_cons (r : DepsRelation) (st : List DepsRelation) (b : Nat) :
    debt (r :: st) b = debt st b + if rel_noncyclic r = true ∧ r.to_ = b then 1 else 0 := by
  simp only [debt, List.countP_cons]
  by_cases h1 : rel_noncyclic r = true <;> by_cases h2 : r.to_ = b <;> simp [h1, h2]

theorem debt_outlinks (g : Depsgraph) (n b : Nat) :
    debt (g.node n).outlinks b = links_out g n b := rfl

theorem TraceOrd.snoc_ord {g : Depsgraph} {t : List Event} {x : Event} (h : TraceOrd g t)
    (hx : ∀ b, is_dispatch g b x → counted_inlinks g b < UINT32_SIZE →
      ∀ r ∈ (g.node b).inlinks, rel_counted g r = true → Event.children r.from_ ∈ t) :
    TraceOrd g (t ++ [x]) := by
  intro t1 e t2 b heq hd hc r hr hcnt
  rcases snoc_split heq with ⟨-, h1, h2⟩ | ⟨t3, -, h1⟩
  · subst h1 h2
    exact hx b hd hc r hr hcnt
  · exact h t1 e t3 b h1 hd hc r hr hcnt

theorem TraceDisp.snoc_disp {g : Depsgraph} {t : List Event} {x : Event} (h : TraceDisp g t)
    (hx : ∀ a, x = Event.children a → ∃ e ∈ t ++ [x], is_dispatch g a e) :
    TraceDisp g (t ++ [x]) := by
  intro t1 t2 a heq
  rcases snoc_split heq with ⟨-, h1, h2⟩ | ⟨t3, -, h1⟩
  · subst h1
    obtain ⟨e, he, hd⟩ := hx a h2.symm
    exact ⟨e, by rw [h2]; exact he, hd⟩
  · exact h t1 t3 a h1

theorem Inv.skip {w : EvalWorld} {r : DepsRelation} {st : List DepsRelation}
    (h : Inv (w, r :: st))
    (hs : (w.graph.node r.to_).scheduled = true ∨ is_live w.graph r.to_ = false) :
    Inv (w, st) := by
  refine { h with stack_ok := ?_, pending_unsched := ?_, debt_le := ?_ }
  · intro x hx
    exact h.stack_ok x (List.mem_cons_of_mem _ hx)
  · intro b hb hl hu
    have h1 := h.pending_unsched b hb hl hu
    have hne : r.to_ ≠ b := by
      rintro rfl
      rcases hs with hs | hs
      · simp_all
      · simp_all
    simp only [debt_cons, hne, and_false, if_false, Nat.add_zero] at h1
    exact h1
  · intro b hb
    have h1 := h.debt_le b hb
    simp only [debt_cons] at h1
    exact le_trans (Nat.le_add_right _ _) h1

theorem Inv.push_cyclic {w : EvalWorld} {r : DepsRelation} {st : List DepsRelation}
    (h : Inv (w, st)) (hr : r.to_ ∈ w.graph.operations) (hc : rel_noncyclic r = false) :
    Inv (w, r :: st) := by
  refine { h with stack_ok := ?_, pending_unsched := ?_, debt_le := ?_ }
  · intro x hx
    rcases List.mem_cons.1 hx with rfl | hx
    · exact hr
    · exact h.stack_ok x hx
  · intro b hb hl hu
    have h1 := h.pending_unsched b hb hl hu
    simp only [debt_cons, hc, Bool.false_eq_true, false_and, if_false, Nat.add_zero]
    exact h1
  · intro b hb
    have h1 := h.debt_le b hb
    simp only [debt_cons, hc, Bool.false_eq_true, false_and, if_false, Nat.add_zero]
    exact h1

/-- The counter after the decrement of `schedule_node`. -/
theorem dec_value (u d p : Nat) (c : Bool)
    (hp : p = (u + (d + if c = true then 1 else 0)) % UINT32_SIZE) :
    (if c = true then (p + UINT32_SIZE - 1) % UINT32_SIZE else p) = (u + d) % UINT32_SIZE := by
  simp only [UINT32_SIZE] at *
  cases c
  · simp at hp ⊢
    exact hp
  · simp at hp ⊢
    omega

theorem Inv.dec {w : EvalWorld} {r : DepsRelation} {st : List DepsRelation}
    (h : Inv (w, r :: st)) (hl : is_live w.graph r.to_ = true)
    (hu : (w.graph.node r.to_).scheduled = false) (p : Nat)
    (hp : p = if rel_noncyclic r = true then
        ((w.graph.node r.to_).num_links_pending + UINT32_SIZE - 1) % UINT32_SIZE
      else (w.graph.node r.to_).num_links_pending) :
    Inv ({ w with graph := w.graph.setdyn r.to_ p false }, st) := by
  have hsched : ∀ b, ((w.graph.setdyn r.to_ p false).node b).scheduled =
      (w.graph.node b).scheduled := by
    intro b
    by_cases hb : b = r.to_
    · subst hb; simp [hu]
    · simp [hb]
  constructor
  · simpa using h.closed
  · simpa using h.paired
  · exact h.pool_nodup
  · intro n hn
    have := h.pool_ok n hn
    simp only [hsched, setdyn_operations, setdyn_is_live, setdyn_is_noop]
    exact this
  · intro x hx
    exact h.stack_ok x (List.mem_cons_of_mem _ hx)
  · intro a ha
    have := h.released_ok a ha
    simp only [hsched, setdyn_operations, setdyn_is_live]
    exact this
  · intro b hb hlb hsb
    simp only [hsched, setdyn_operations, setdyn_is_live] at hb hlb hsb ⊢
    exact h.sched_ok b hb hlb hsb
  · intro b hb hlb hsb
    simp only [hsched, setdyn_operations, setdyn_is_live, setdyn_pending,
      setdyn_unreleased_inlinks] at hb hlb hsb ⊢
    have h1 := h.pending_unsched b hb hlb hsb
    simp only [debt_cons] at h1
    by_cases hbn : b = r.to_
    · subst hbn
      simp only [if_true]
      rw [hp]
      apply dec_value
      rw [h1]
      simp [Nat.add_assoc]
    · have hne : ¬ r.to_ = b := fun e => hbn e.symm
      simp only [hbn, if_false]
      simpa [hne] using h1
  · intro b hb hlb hsb
    simp only [hsched, setdyn_operations, setdyn_is_live, setdyn_pending] at hb hlb hsb ⊢
    have hbn : b ≠ r.to_ := by
      rintro rfl
      simp_all
    simp only [hbn, if_false]
    exact h.pending_sched b hb hlb hsb
  · intro b hb
    have h1 := h.debt_le b hb
    simp only [debt_cons] at h1
    simp only [setdyn_released_inlinks]
    exact le_trans (Nat.le_add_right _ _) h1
  · simpa using h.order
  · simpa using h.disp
  · exact h.evals
  · intro b
    have := h.pushes b
    simp only [hsched, setdyn_operations, setdyn_is_live, setdyn_is_noop]
    exact this
  · exact h.release_once
  · intro b hb hlb
    simp only [setdyn_operations, setdyn_is_live] at hb hlb
    have hbn : b ≠ r.to_ := by
      rintro rfl
      simp_all
    simp only [hsched, setdyn_pending, hbn, if_false]
    exact h.idle b hb hlb

theorem Inv.not_released {w : EvalWorld} {st : List DepsRelation} (h : Inv (w, st)) {n : Nat}
    (hu : (w.graph.node n).scheduled = false) : released w.trace n = false := by
  cases hr : released w.trace n
  · rfl
  · have := (h.released_ok n hr).2.2
    simp_all

/-- A ready node has all its counted parents released. -/
theorem Inv.parents_released {w : EvalWorld} {st : List DepsRelation} (h : Inv (w, st))
    {b : Nat} (hb : b ∈ w.graph.operations) (hl : is_live w.graph b = true)
    (hu : (w.graph.node b).scheduled = false) (hp : (w.graph.node b).num_links_pending = 0)
    (hc : counted_inlinks w.graph b < UINT32_SIZE) :
    ∀ r ∈ (w.graph.node b).inlinks, rel_counted w.graph r = true →
      Event.children r.from_ ∈ w.trace := by
  have h1 := h.pending_unsched b hb hl hu
  have h2 := h.debt_le b hb
  have h3 := unreleased_add_released w.graph w.trace b
  simp only at h1 h2
  rw [hp] at h1
  have h4 : unreleased_inlinks w.graph w.trace b + debt st b < UINT32_SIZE := by omega
  rw [Nat.mod_eq_of_lt h4] at h1
  have h5 : unreleased_inlinks w.graph w.trace b = 0 := by omega
  unfold unreleased_inlinks at h5
  rw [List.countP_eq_zero] at h5
  intro r hr hcnt
  have h6 := h5 r hr
  simp only [hcnt, Bool.true_and, Bool.not_eq_true', Bool.not_eq_false, Bool.not_eq_true] at h6
  simpa [released] using h6

theorem Inv.fire_noop {w : EvalWorld} {st : List DepsRelation} (h : Inv (w, st)) {n : Nat}
    (hn : n ∈ w.graph.operations) (hl : is_live w.graph n = true)
    (hu : (w.graph.node n).scheduled = false) (hp : (w.graph.node n).num_links_pending = 0)
    (hnoop : (w.graph.node n).is_noop = true) :
    Inv ({ w with graph := w.graph.setdyn n 0 true,
                  trace := w.trace ++ [Event.children n] },
      (w.graph.node n).outlinks ++ st) := by
  have hrel := h.not_released hu
  constructor
  · simpa using h.closed
  · simpa using h.paired
  · exact h.pool_nodup
  · intro m hm
    obtain ⟨a1, a2, a3, a4, a5, a6⟩ := h.pool_ok m hm
    have hmn : m ≠ n := by
      rintro rfl
      simp_all
    simp only [setdyn_operations, setdyn_is_live, setdyn_scheduled, setdyn_is_noop,
      released_snoc_children, hmn, if_false, decide_False, Bool.or_false]
    exact ⟨a1, a2, a3, a4, a5, List.mem_append_left _ a6⟩
  · intro x hx
    simp only [setdyn_operations]
    rcases List.mem_append.1 hx with hx | hx
    · exact h.closed n hn x hx
    · exact h.stack_ok x hx
  · intro a ha
    simp only [released_snoc_children, Bool.or_eq_true, decide_eq_true_eq] at ha
    simp only [setdyn_operations, setdyn_is_live, setdyn_scheduled]
    rcases ha with ha | rfl
    · obtain ⟨a1, a2, a3⟩ := h.released_ok a ha
      refine ⟨a1, a2, ?_⟩
      split_ifs <;> first | rfl | exact a3
    · exact ⟨hn, hl, by simp⟩
  · intro b hb hlb hsb
    simp only [setdyn_operations, setdyn_is_live, setdyn_scheduled] at hb hlb hsb
    simp only [released_snoc_children, Bool.or_eq_true, decide_eq_true_eq]
    by_cases hbn : b = n
    · right; right; exact hbn
    · simp only [hbn, if_false] at hsb
      rcases h.sched_ok b hb hlb hsb with h1 | h1
      · left; exact h1
      · right; left; exact h1
  · intro b hb hlb hsb
    simp only [setdyn_operations, setdyn_is_live, setdyn_scheduled, setdyn_pending,
      setdyn_unreleased_inlinks] at hb hlb hsb ⊢
    have hbn : b ≠ n := by
      rintro rfl
      simp at hsb
    simp only [hbn, if_false] at hsb ⊢
    have h1 := h.pending_unsched b hb hlb hsb
    have h2 := unreleased_release w.graph w.trace n b hl hrel
    have h3 := h.paired n hn b hb
    simp only at h1 h3
    rw [h1, h2, debt_append, debt_outlinks, h3]
    congr 1
    omega
  · intro b hb hlb hsb
    simp only [setdyn_operations, setdyn_is_live, setdyn_scheduled, setdyn_pending] at hb hlb hsb ⊢
    by_cases hbn : b = n
    · simp [hbn]
    · simp only [hbn, if_false] at hsb ⊢
      exact h.pending_sched b hb hlb hsb
  · intro b hb
    simp only [setdyn_operations] at hb
    have h1 := h.debt_le b hb
    have h2 := released_release w.graph w.trace n b hl hrel
    have h3 := h.paired n hn b hb
    simp only at h1 h3
    simp only [setdyn_released_inlinks]
    rw [h2, debt_append, debt_outlinks, h3]
    omega
  · simp only [setdyn_TraceOrd]
    apply h.order.snoc_ord
    intro b hd hc
    have hbn : b = n := by
      rcases hd with hd | ⟨-, hd⟩
      · cases hd
      · injection hd with hd
        exact hd.symm
    subst hbn
    exact h.parents_released hn hl hu hp hc
  · simp only [setdyn_TraceDisp]
    apply h.disp.snoc_disp
    intro a ha
    injection ha with ha
    subst ha
    exact ⟨Event.children n, by simp, Or.inr ⟨hnoop, rfl⟩⟩
  · intro b
    have := h.evals b
    simpa using this
  · intro b
    have h1 := h.pushes b
    simp only [setdyn_operations, setdyn_is_live, setdyn_scheduled, setdyn_is_noop]
    simp only at h1
    rw [List.count_append, h1]
    by_cases hbn : b = n
    · subst hbn
      simp [hu, hnoop]
    · simp [hbn]
  · intro b
    have h1 := h.release_once b
    simp only at h1 ⊢
    rw [List.count_append]
    by_cases hbn : b = n
    · subst hbn
      have h0 : List.count (Event.children b) w.trace = 0 :=
        List.count_eq_zero.2 (by simpa [released] using hrel)
      simp [h0]
    · have h0 : List.count (Event.children b) [Event.children n] = 0 :=
        List.count_eq_zero.2 (by simp [hbn])
      rw [h0]
      exact h1
  · intro b hb hlb
    simp only [setdyn_operations, setdyn_is_live] at hb hlb
    have hbn : b ≠ n := by
      rintro rfl
      simp_all
    simp only [setdyn_scheduled, setdyn_pending, hbn, if_false]
    exact h.idle b hb hlb

theorem Inv.fire_push {w : EvalWorld} {st : List DepsRelation} (h : Inv (w, st)) {n : Nat}
    (hn : n ∈ w.graph.operations) (hl : is_live w.graph n = true)
    (hu : (w.graph.node n).scheduled = false) (hp : (w.graph.node n).num_links_pending = 0)
    (hnoop : (w.graph.node n).is_noop = false) :
    Inv (({ graph := w.graph.setdyn n 0 true, pool := w.pool ++ [n],
            trace := w.trace ++ [Event.push n] } : EvalWorld), st) := by
  have hrel := h.not_released hu
  have hnp : n ∉ w.pool := by
    intro hm
    have := (h.pool_ok n hm).2.2.1
    simp_all
  constructor
  · simpa using h.closed
  · simpa using h.paired
  · exact List.Nodup.append h.pool_nodup (List.nodup_singleton n)
      (by simpa using hnp)
  · intro m hm
    simp only [setdyn_operations, setdyn_is_live, setdyn_scheduled, setdyn_is_noop,
      released_snoc_push]
    rcases List.mem_append.1 hm with hm | hm
    · obtain ⟨a1, a2, a3, a4, a5, a6⟩ := h.pool_ok m hm
      refine ⟨a1, a2, ?_, a4, a5, List.mem_append_left _ a6⟩
      split_ifs <;> first | rfl | exact a3
    · rw [List.mem_singleton] at hm
      subst hm
      exact ⟨hn, hl, by simp, hnoop, hrel, by simp⟩
  · intro x hx
    exact h.stack_ok x hx
  · intro a ha
    simp only [released_snoc_push] at ha
    simp only [setdyn_operations, setdyn_is_live, setdyn_scheduled]
    obtain ⟨a1, a2, a3⟩ := h.released_ok a ha
    refine ⟨a1, a2, ?_⟩
    split_ifs <;> first | rfl | exact a3
  · intro b hb hlb hsb
    simp only [setdyn_operations, setdyn_is_live, setdyn_scheduled] at hb hlb hsb
    simp only [released_snoc_push, List.mem_append, List.mem_singleton]
    by_cases hbn : b = n
    · left; right; exact hbn
    · simp only [hbn, if_false] at hsb
      rcases h.sched_ok b hb hlb hsb with h1 | h1
      · left; left; exact h1
      · right; exact h1
  · intro b hb hlb hsb
    simp only [setdyn_operations, setdyn_is_live, setdyn_scheduled, setdyn_pending,
      setdyn_unreleased_inlinks] at hb hlb hsb ⊢
    have hbn : b ≠ n := by
      rintro rfl
      simp at hsb
    simp only [hbn, if_false] at hsb ⊢
    have h1 := h.pending_unsched b hb hlb hsb
    rw [unreleased_congr w.graph w.trace _ (released_snoc_push w.trace n)]
    exact h1
  · intro b hb hlb hsb
    simp only [setdyn_operations, setdyn_is_live, setdyn_scheduled, setdyn_pending] at hb hlb hsb ⊢
    by_cases hbn : b = n
    · simp [hbn]
    · simp only [hbn, if_false] at hsb ⊢
      exact h.pending_sched b hb hlb hsb
  · intro b hb
    simp only [setdyn_operations] at hb
    have h1 := h.debt_le b hb
    simp only [setdyn_released_inlinks]
    rw [released_inlinks_congr w.graph w.trace _ (released_snoc_push w.trace n)]
    exact h1
  · simp only [setdyn_TraceOrd]
    apply h.order.snoc_ord
    intro b hd hc
    have hbn : b = n := by
      rcases hd with hd | ⟨-, hd⟩
      · injection hd with hd
        exact hd.symm
      · cases hd
    subst hbn
    exact h.parents_released hn hl hu hp hc
  · simp only [setdyn_TraceDisp]
    apply h.disp.snoc_disp
    intro a ha
    cases ha
  · intro b
    have := h.evals b
    simp only at this
    simp only [List.count_append, ← this]
    simp only [List.count_singleton', Nat.add_assoc]
    simp
  · intro b
    have h1 := h.pushes b
    simp only [setdyn_operations, setdyn_is_live, setdyn_scheduled, setdyn_is_noop]
    simp only at h1
    rw [List.count_append, h1]
    by_cases hbn : b = n
    · subst hbn
      simp [hu, hnoop, hn, hl]
    · have hne : ¬ n = b := fun e => hbn e.symm
      simp [hbn, hne]
  · intro b
    have h1 := h.release_once b
    simp only at h1 ⊢
    rw [List.count_append]
    simpa using h1
  · intro b hb hlb
    simp only [setdyn_operations, setdyn_is_live] at hb hlb
    have hbn : b ≠ n := by
      rintro rfl
      simp_all
    simp only [setdyn_scheduled, setdyn_pending, hbn, if_false]
    exact h.idle b hb hlb

theorem Inv.task {w : EvalWorld} (h : Inv (w, [])) {n : Nat} (hn : n ∈ w.pool) :
    Inv ({ w with pool := w.pool.erase n,
                  trace := w.trace ++ [Event.evaluate n, Event.children n] },
      (w.graph.node n).outlinks) := by
  obtain ⟨n1, n2, n3, n4, n5, n6⟩ := h.pool_ok n hn
  have htr : w.trace ++ [Event.evaluate n, Event.children n] =
      (w.trace ++ [Event.evaluate n]) ++ [Event.children n] := by simp
  have hrel : ∀ a, released (w.trace ++ [Event.evaluate n, Event.children n]) a =
      (released w.trace a || decide (a = n)) := by
    intro a
    rw [htr, released_snoc_children, released_snoc_evaluate]
  have hrel1 : released (w.trace ++ [Event.evaluate n]) n = false := by
    rw [released_snoc_evaluate]; exact n5
  constructor
  · exact h.closed
  · exact h.paired
  · exact h.pool_nodup.erase n
  · intro m hm
    have hm1 := (List.Nodup.mem_erase_iff h.pool_nodup).1 hm
    obtain ⟨a1, a2, a3, a4, a5, a6⟩ := h.pool_ok m hm1.2
    refine ⟨a1, a2, a3, a4, ?_, List.mem_append_left _ a6⟩
    simp only [hrel, hm1.1, decide_False, Bool.or_false]
    exact a5
  · intro x hx
    exact h.closed n n1 x hx
  · intro a ha
    simp only [hrel, Bool.or_eq_true, decide_eq_true_eq] at ha
    rcases ha with ha | rfl
    · exact h.released_ok a ha
    · exact ⟨n1, n2, n3⟩
  · intro b hb hlb hsb
    simp only [hrel, Bool.or_eq_true, decide_eq_true_eq]
    by_cases hbn : b = n
    · right; right; exact hbn
    · rcases h.sched_ok b hb hlb hsb with h1 | h1
      · left
        exact (List.Nodup.mem_erase_iff h.pool_nodup).2 ⟨hbn, h1⟩
      · right; left; exact h1
  · intro b hb hlb hsb
    have h1 := h.pending_unsched b hb hlb hsb
    have h2 := unreleased_release w.graph (w.trace ++ [Event.evaluate n]) n b n2 hrel1
    have h3 := h.paired n n1 b hb
    simp only at h1 h3 ⊢
    rw [unreleased_congr w.graph w.trace _ (released_snoc_evaluate w.trace n)] at h2
    rw [h1, h2, htr, debt_outlinks, h3]
    simp [debt]
  · exact h.pending_sched
  · intro b hb
    have h2 := released_release w.graph (w.trace ++ [Event.evaluate n]) n b n2 hrel1
    have h3 := h.paired n n1 b hb
    simp only at h3 ⊢
    rw [htr, h2, debt_outlinks, h3]
    omega
  · show TraceOrd w.graph (w.trace ++ [Event.evaluate n, Event.children n])
    rw [htr]
    apply TraceOrd.snoc_ord
    · apply h.order.snoc_ord
      intro b hd
      rcases hd with hd | ⟨-, hd⟩ <;> cases hd
    · intro b hd
      rcases hd with hd | ⟨hd1, hd⟩
      · cases hd
      · injection hd with hd
        subst hd
        simp_all
  · show TraceDisp w.graph (w.trace ++ [Event.evaluate n, Event.children n])
    rw [htr]
    apply TraceDisp.snoc_disp
    · apply h.disp.snoc_disp
      intro a ha
      cases ha
    · intro a ha
      injection ha with ha
      subst ha
      exact ⟨Event.push n, by simp [n6], Or.inl rfl⟩
  · intro b
    have := h.evals b
    simp only at this ⊢
    rw [List.count_append, List.count_append] at *
    by_cases hbn : b = n
    · subst hbn
      have hc : 0 < List.count b w.pool := List.count_pos_iff.2 hn
      rw [List.count_erase_self]
      simp
      omega
    · have hne : ¬ n = b := fun e => hbn e.symm
      rw [List.count_erase_of_ne hbn]
      simpa [hbn, hne] using this
  · intro b
    have h1 := h.pushes b
    simp only at h1 ⊢
    rw [List.count_append, h1]
    simp
  · intro b
    have h1 := h.release_once b
    simp only at h1 ⊢
    rw [List.count_append]
    by_cases hbn : b = n
    · subst hbn
      have h0 : List.count (Event.children b) w.trace = 0 :=
        List.count_eq_zero.2 (by simpa [released] using n5)
      simp [h0]
    · have h0 : List.count (Event.children b) [Event.evaluate n, Event.children n] = 0 :=
        List.count_eq_zero.2 (by simp [hbn])
      rw [h0]
      exact h1
  · exact h.idle

theorem node_action_scheduled (w : EvalWorld) (n : Nat)
    (hs : (w.graph.node n).scheduled = true) : node_action w n false = (w, []) := by
  simp only [node_action]
  by_cases hl : is_live w.graph n = true
  · by_cases hp : (w.graph.node n).num_links_pending = 0
    · have : w.graph.setdyn n 0 true = w.graph := by
        have := setdyn_same w.graph n
        rw [hp, hs] at this
        exact this
      simp [hl, hp, hs, this]
    · have : w.graph.setdyn n (w.graph.node n).num_links_pending true = w.graph := by
        have := setdyn_same w.graph n
        rw [hs] at this
        exact this
      simp [hl, hp, hs, this]
  · simp [hl]

theorem node_action_live (w : EvalWorld) (n : Nat) (dec : Bool)
    (hl : is_live w.graph n = true) (p : Nat)
    (hp : p = if dec = true then
        ((w.graph.node n).num_links_pending + UINT32_SIZE - 1) % UINT32_SIZE
      else (w.graph.node n).num_links_pending) :
    node_action w n dec =
      if p ≠ 0 then
        ({ w with graph := w.graph.setdyn n p (w.graph.node n).scheduled }, [])
      else if (w.graph.node n).scheduled = true then
        ({ w with graph := w.graph.setdyn n 0 true }, [])
      else if (w.graph.node n).is_noop = true then
        ({ w with graph := w.graph.setdyn n 0 true,
                  trace := w.trace ++ [Event.children n] },
          (w.graph.node n).outlinks)
      else
        ({ graph := w.graph.setdyn n 0 true, pool := w.pool ++ [n],
           trace := w.trace ++ [Event.push n] }, []) := by
  subst hp
  simp only [node_action, hl, if_true]

theorem node_action_not_live (w : EvalWorld) (n : Nat) (dec : Bool)
    (hl : is_live w.graph n = false) : node_action w n dec = (w, []) := by
  simp [node_action, hl]

theorem Inv.visit {w : EvalWorld} {r : DepsRelation} {st : List DepsRelation}
    (h : Inv (w, r :: st)) (hu : (w.graph.node r.to_).scheduled = false) :
    Inv ((node_action w r.to_ (rel_noncyclic r)).1,
      (node_action w r.to_ (rel_noncyclic r)).2 ++ st) := by
  have hn : r.to_ ∈ w.graph.operations := h.stack_ok r (List.mem_cons_self _ _)
  cases hl : is_live w.graph r.to_
  · rw [node_action_not_live w _ _ hl]
    exact h.skip (Or.inr hl)
  · have h1 := h.dec hl hu _ rfl
    rw [node_action_live w _ _ hl _ rfl]
    generalize (if rel_noncyclic r = true then
        ((w.graph.node r.to_).num_links_pending + UINT32_SIZE - 1) % UINT32_SIZE
      else (w.graph.node r.to_).num_links_pending) = p at h1 ⊢
    have hl1 : is_live (w.graph.setdyn r.to_ p false) r.to_ = true := by
      rw [setdyn_is_live]; exact hl
    have hu1 : ((w.graph.setdyn r.to_ p false).node r.to_).scheduled = false := by simp
    by_cases hp : p = 0
    · subst hp
      have hp1 : ((w.graph.setdyn r.to_ 0 false).node r.to_).num_links_pending = 0 := by simp
      cases hnoop : (w.graph.node r.to_).is_noop
      · have h2 := h1.fire_push (n := r.to_) hn hl1 hu1 hp1 (by simpa using hnoop)
        simpa [setdyn_setdyn, hu, hnoop] using h2
      · have h2 := h1.fire_noop (n := r.to_) hn hl1 hu1 hp1 (by simpa using hnoop)
        simpa [setdyn_setdyn, hu, hnoop] using h2
    · simpa [hp, hu] using h1

/-- The invariant is kept by every small step. -/
theorem Inv.step {c c1 : EvalWorld × List DepsRelation} (hs : Step c c1) (h : Inv c) :
    Inv c1 := by
  cases hs with
  | seed w n hn =>
    cases hsch : (w.graph.node n).scheduled
    · have hc : rel_noncyclic ⟨DEG_NODE_TYPE_UNDEFINED, 0, n, DEPSREL_FLAG_CYCLIC⟩ = false := by
        simp [rel_noncyclic, DEPSREL_FLAG_CYCLIC]
      have h1 := (h.push_cyclic (r := ⟨DEG_NODE_TYPE_UNDEFINED, 0, n, DEPSREL_FLAG_CYCLIC⟩)
        hn hc).visit hsch
      rw [hc, List.append_nil] at h1
      exact h1
    · rw [node_action_scheduled w n hsch]
      exact h
  | skip w r st hsch => exact h.skip (Or.inl hsch)
  | visit w r st hsch => exact h.visit hsch
  | task w n hn => exact h.task hn

theorem Inv.steps {c c1 : EvalWorld × List DepsRelation}
    (hs : Relation.ReflTransGen Step c c1) (h : Inv c) : Inv c1 := by
  induction hs with
  | refl => exact h
  | tail _ hstep ih => exact ih.step hstep

theorem StaticEq.links_in {g g1 : Depsgraph} (h : StaticEq g g1) :
    links_in g1 = links_in g := by
  funext a b
  simp [DEG.links_in, (h.2 b).2.2.1]

theorem StaticEq.links_out {g g1 : Depsgraph} (h : StaticEq g g1) :
    links_out g1 = links_out g := by
  funext a b
  simp [DEG.links_out, (h.2 a).2.2.2.1]

theorem StaticEq.WellFormed {g g1 : Depsgraph} (h : StaticEq g g1) (hw : WellFormed g) :
    WellFormed g1 := by
  obtain ⟨h1, h2, h3⟩ := hw
  refine ⟨?_, ?_, ?_⟩
  · intro a ha r hr
    rw [h.1] at ha ⊢
    rw [(h.2 a).2.2.2.1] at hr
    exact h1 a ha r hr
  · intro b hb r hr
    rw [h.1] at hb ⊢
    rw [(h.2 b).2.2.1] at hr
    exact h2 b hb r hr
  · intro a ha b hb
    rw [h.1] at ha hb
    rw [h.links_in, h.links_out]
    exact h3 a ha b hb

theorem init_graph_scheduled (g : Depsgraph) (n : Nat) (hn : n ∈ g.operations) :
    ((init_graph g).node n).scheduled = false := by
  simp [init_graph, init_graph_on, hn]

theorem init_graph_pending (g : Depsgraph) (n : Nat) (hn : n ∈ g.operations) :
    ((init_graph g).node n).num_links_pending = pending_spec g n := by
  simp [init_graph, init_graph_on, hn]

/-- The invariant holds when the pass starts. -/
theorem Inv.init (g : Depsgraph) (hw : WellFormed g) :
    Inv (({ graph := init_graph g, pool := [], trace := [] } : EvalWorld), []) := by
  have hst := init_graph_static g
  have hw1 := hst.WellFormed hw
  have hops : (init_graph g).operations = g.operations := rfl
  constructor
  · exact hw1.1
  · exact hw1.2.2
  · exact List.nodup_nil
  · intro n hn
    cases hn
  · intro r hr
    cases hr
  · intro a ha
    simp [released] at ha
  · intro b hb _ hs
    rw [init_graph_scheduled g b hb] at hs
    cases hs
  · intro b hb hl _
    have hl1 : is_live g b = true := by rw [← hst.is_live]; exact hl
    simp only
    rw [init_graph_pending g b hb, pending_spec, if_pos hl1, ← hst.counted_inlinks]
    simp [unreleased_inlinks, counted_inlinks, released, debt]
  · intro b hb _ hs
    rw [init_graph_scheduled g b hb] at hs
    cases hs
  · intro b _
    simp [debt]
  · intro t1 e t2 b heq
    simp at heq
  · intro t1 t2 a heq
    simp at heq
  · intro b
    simp
  · intro b
    simp only [List.count_nil]
    by_cases hb : b ∈ g.operations
    · simp [hops, init_graph_scheduled g b hb]
    · simp [hops, hb]
  · intro b
    simp
  · intro b hb hl
    have hl1 : is_live g b = false := by rw [← hst.is_live]; exact hl
    exact ⟨init_graph_scheduled g b hb, by
      rw [init_graph_pending g b hb, pending_spec, hl1]; simp⟩

/-- The invariant holds in every state of a pass. -/
theorem Inv.pass {g : Depsgraph} (hw : WellFormed g) {fuel : Nat} {picks : List Nat}
    {w : EvalWorld} (h : evaluate_pass fuel g picks = some w) : Inv (w, []) :=
  (Inv.init g hw).steps (evaluate_pass_steps fuel g picks w h)

theorem pass_static {g : Depsgraph} {fuel : Nat} {picks : List Nat}
    {w : EvalWorld} (h : evaluate_pass fuel g picks = some w) : StaticEq g w.graph :=
  (init_graph_static g).trans (Steps.static_eq (evaluate_pass_steps fuel g picks w h))

theorem node_action_ready (w : EvalWorld) (n : Nat) (dec : Bool) (b : Nat)
    (h : is_live w.graph b = true → (w.graph.node b).num_links_pending = 0 →
      (w.graph.node b).scheduled = true) :
    is_live (node_action w n dec).1.graph b = true →
      ((node_action w n dec).1.graph.node b).num_links_pending = 0 →
        ((node_action w n dec).1.graph.node b).scheduled = true := by
  cases hl : is_live w.graph n
  · rw [node_action_not_live w n dec hl]
    exact h
  · rw [node_action_live w n dec hl _ rfl]
    generalize (if dec = true then
        ((w.graph.node n).num_links_pending + UINT32_SIZE - 1) % UINT32_SIZE
      else (w.graph.node n).num_links_pending) = p
    by_cases hbn : b = n
    · subst hbn
      split_ifs with h1 h2 h3 <;> simp_all
    · split_ifs with h1 h2 h3 <;> simpa [hbn] using h

theorem node_action_ready_self (w : EvalWorld) (n : Nat) :
    is_live (node_action w n false).1.graph n = true →
      ((node_action w n false).1.graph.node n).num_links_pending = 0 →
        ((node_action w n false).1.graph.node n).scheduled = true := by
  cases hl : is_live w.graph n
  · rw [node_action_not_live w n false hl]
    intro h
    rw [hl] at h
    cases h
  · rw [node_action_live w n false hl _ rfl]
    simp only [Bool.false_eq_true, if_false]
    split_ifs with h1 h2 h3 <;> simp_all

theorem Ready.step_ready {s : List Nat} {c c1 : EvalWorld × List DepsRelation} (hs : Step c c1)
    (h : Ready s c) : Ready s c1 := by
  cases hs with
  | seed w n hn => exact fun b hb => node_action_ready w n false b (h b hb)
  | skip w r st hsch => exact h
  | visit w r st hsch => exact fun b hb => node_action_ready w _ _ b (h b hb)
  | task w n hn => exact h

theorem Ready.steps_ready {s : List Nat} {c c1 : EvalWorld × List DepsRelation}
    (hs : Relation.ReflTransGen Step c c1) (h : Ready s c) : Ready s c1 := by
  induction hs with
  | refl => exact h
  | tail _ hstep ih => exact ih.step_ready hstep

/-- A seeding call leaves its node scheduled if it is ready. -/
theorem schedule_node_ready (fuel : Nat) (w w1 : EvalWorld) (n : Nat) (s : List Nat)
    (h : schedule_node fuel w n false = some w1) (hr : Ready s (w, [])) :
    Ready (n :: s) (w1, []) := by
  cases fuel with
  | zero => simp [schedule_node] at h
  | succ f =>
    rw [schedule_node_succ] at h
    have h1 := loop_steps f _ _ _ [] h
    rw [List.append_nil] at h1
    refine Ready.steps_ready h1 ?_
    intro b hb
    rcases List.mem_cons.1 hb with rfl | hb
    · exact node_action_ready_self w b
    · exact node_action_ready w n false b (hr b hb)

theorem schedule_graph_loop_ready (fuel : Nat) :
    ∀ (ns : List Nat) (w w1 : EvalWorld) (s : List Nat),
      (∀ n ∈ ns, n ∈ w.graph.operations) →
      schedule_graph_loop fuel w ns = some w1 → Ready s (w, []) →
        Ready (ns ++ s) (w1, []) := by
  intro ns
  induction ns with
  | nil =>
    intro w w1 s _ h hr
    simp only [schedule_graph_loop, Option.some.injEq] at h
    subst h
    exact hr
  | cons n rest ih =>
    intro w w1 s hns h hr
    simp only [schedule_graph_loop] at h
    cases hn : schedule_node fuel w n false with
    | none => simp [hn] at h
    | some w2 =>
      simp only [hn] at h
      have h1 := schedule_node_ready fuel w w2 n s hn hr
      have hsteps := schedule_node_steps fuel w w2 n (hns n (List.mem_cons_self _ _)) hn
      have hops : w2.graph.operations = w.graph.operations := (Steps.static_eq hsteps).1
      have h2 := ih w2 w1 (n :: s) (by
        intro m hm
        rw [hops]
        exact hns m (List.mem_cons_of_mem _ hm)) h h1
      intro b hb
      apply h2 b
      simp only [List.mem_append, List.mem_cons] at hb ⊢
      tauto

/-- After a pass every registered operation is scheduled as soon as it is ready. -/
theorem pass_ready {g : Depsgraph} {fuel : Nat} {picks : List Nat} {w : EvalWorld}
    (h : evaluate_pass fuel g picks = some w) : Ready g.operations (w, []) := by
  unfold evaluate_pass at h
  rw [initialize_execution_eq] at h
  cases hs : schedule_graph fuel { graph := init_graph g, pool := [], trace := [] } with
  | none => simp [hs] at h
  | some w2 =>
    simp only [hs] at h
    have h1 := schedule_graph_loop_ready fuel _ _ w2 [] (fun _ hn => hn) hs
      (fun b hb => by cases hb)
    rw [List.append_nil] at h1
    exact Ready.steps_ready (work_and_wait_steps fuel picks w2 w h) h1

theorem unscheduled_eq_countP (g : Depsgraph) :
    unscheduled g = g.operations.dedup.countP fun n => !(g.node n).scheduled := by
  simp [unscheduled, List.countP_eq_length_filter]

theorem unscheduled_setdyn_same (g : Depsgraph) (n p : Nat) (s : Bool)
    (h : (g.node n).scheduled = s) : unscheduled (g.setdyn n p s) = unscheduled g := by
  simp only [unscheduled_eq_countP, setdyn_operations, setdyn_scheduled]
  apply List.countP_congr
  intro m _
  by_cases hm : m = n
  · subst hm; simp [h]
  · simp [hm]

theorem unscheduled_setdyn_le (g : Depsgraph) (n p : Nat) :
    unscheduled (g.setdyn n p true) ≤ unscheduled g := by
  simp only [unscheduled_eq_countP, setdyn_operations, setdyn_scheduled]
  apply List.countP_mono_left
  intro m _
  by_cases hm : m = n
  · subst hm; simp
  · simp [hm]

theorem unscheduled_setdyn_fire (g : Depsgraph) (n p : Nat) (hn : n ∈ g.operations)
    (h : (g.node n).scheduled = false) :
    unscheduled (g.setdyn n p true) + 1 = unscheduled g := by
  simp only [unscheduled_eq_countP, setdyn_operations, setdyn_scheduled]
  have h1 : g.operations.dedup.countP (fun m => decide (m = n)) = 1 := by
    have := List.count_eq_one_of_mem (List.nodup_dedup g.operations) (List.mem_dedup.2 hn)
    rw [List.count_eq_countP] at this
    rw [← this]
    apply List.countP_congr
    intro m _
    simp
  rw [← h1]
  symm
  apply countP_split
  · intro m _
    by_cases hm : m = n
    · subst hm; simp [h]
    · simp [hm]
  · intro m _ h2 h3
    simp only [decide_eq_true_eq] at h3
    subst h3
    simp at h2

/-- Outcome of the action of `schedule_node` on the counters of scheduling. -/
theorem node_action_measure (w : EvalWorld) (n : Nat) (dec : Bool)
    (hn : n ∈ w.graph.operations) :
    drain_measure (node_action w n dec).1 ≤ drain_measure w ∧
    ((node_action w n dec).2 = [] ∨
      unscheduled (node_action w n dec).1.graph + 1 ≤ unscheduled w.graph) := by
  cases hl : is_live w.graph n
  · rw [node_action_not_live w n dec hl]
    exact ⟨le_refl _, Or.inl rfl⟩
  · rw [node_action_live w n dec hl _ rfl]
    generalize (if dec = true then
        ((w.graph.node n).num_links_pending + UINT32_SIZE - 1) % UINT32_SIZE
      else (w.graph.node n).num_links_pending) = p
    unfold drain_measure
    split_ifs with h1 h2 h3
    · simp [unscheduled_setdyn_same]
    · simp [unscheduled_setdyn_same w.graph n 0 true h2]
    · have := unscheduled_setdyn_fire w.graph n 0 hn (by simpa using h2)
      simp only
      omega
    · have := unscheduled_setdyn_fire w.graph n 0 hn (by simpa using h2)
      simp only [List.length_append, List.length_singleton]
      omega

theorem node_action_unscheduled_le (w : EvalWorld) (n : Nat) (dec : Bool) :
    unscheduled (node_action w n dec).1.graph ≤ unscheduled w.graph := by
  cases hl : is_live w.graph n
  · rw [node_action_not_live w n dec hl]
  · rw [node_action_live w n dec hl _ rfl]
    generalize (if dec = true then
        ((w.graph.node n).num_links_pending + UINT32_SIZE - 1) % UINT32_SIZE
      else (w.graph.node n).num_links_pending) = p
    split_ifs with h1 h2 h3
    · simp [unscheduled_setdyn_same]
    · exact unscheduled_setdyn_le _ _ _
    · exact unscheduled_setdyn_le _ _ _
    · exact unscheduled_setdyn_le _ _ _

theorem Step.unscheduled_le {c c1 : EvalWorld × List DepsRelation} (hs : Step c c1) :
    unscheduled c1.1.graph ≤ unscheduled c.1.graph := by
  cases hs with
  | seed w n hn => exact node_action_unscheduled_le w n false
  | skip w r st hsch => exact le_refl _
  | visit w r st hsch => exact node_action_unscheduled_le w _ _
  | task w n hn => exact le_refl _

theorem Steps.unscheduled_mono {c c1 : EvalWorld × List DepsRelation}
    (hs : Relation.ReflTransGen Step c c1) :
    unscheduled c1.1.graph ≤ unscheduled c.1.graph := by
  induction hs with
  | refl => exact le_refl _
  | tail _ hstep ih => exact le_trans hstep.unscheduled_le ih

theorem StaticEq.closed_of {g g1 : Depsgraph} (h : StaticEq g g1) (hc : Closed g) : Closed g1 := by
  intro a ha r hr
  rw [h.1] at ha ⊢
  rw [(h.2 a).2.2.2.1] at hr
  exact hc a ha r hr

theorem unscheduled_le_length (g : Depsgraph) : unscheduled g ≤ g.operations.length := by
  unfold unscheduled
  exact le_trans (List.length_filter_le _ _) (List.Sublist.length_le (List.dedup_sublist _))

theorem unscheduled_pos (g : Depsgraph) (n : Nat) (hn : n ∈ g.operations)
    (h : (g.node n).scheduled = false) : 1 ≤ unscheduled g := by
  rw [unscheduled_eq_countP]
  exact List.countP_pos_iff.2 ⟨n, List.mem_dedup.2 hn, by simp [h]⟩

theorem node_action_links (w : EvalWorld) (n : Nat) (dec : Bool) :
    ∀ r ∈ (node_action w n dec).2, r ∈ (w.graph.node n).outlinks := by
  cases hl : is_live w.graph n
  · rw [node_action_not_live w n dec hl]
    intro r hr
    cases hr
  · rw [node_action_live w n dec hl _ rfl]
    split_ifs <;> intro r hr <;> first | cases hr | exact hr

/-- With enough fuel the walk of `schedule_children` returns. -/
theorem loop_total (fuel : Nat) :
    ∀ (rs : List DepsRelation) (w : EvalWorld), Closed w.graph →
      (∀ r ∈ rs, r.to_ ∈ w.graph.operations) → unscheduled w.graph ≤ fuel →
        ∃ w1, schedule_children_loop (schedule_node fuel) w rs = some w1 := by
  induction fuel with
  | zero =>
    intro rs
    induction rs with
    | nil => exact fun w _ _ _ => ⟨w, rfl⟩
    | cons r rest ih =>
      intro w hc hrs hu
      cases hs : (w.graph.node r.to_).scheduled
      · have := unscheduled_pos w.graph r.to_ (hrs r (List.mem_cons_self _ _)) hs
        omega
      · simp only [schedule_children_loop, hs, if_true]
        exact ih w hc (fun x hx => hrs x (List.mem_cons_of_mem _ hx)) hu
  | succ f ihf =>
    intro rs
    induction rs with
    | nil => exact fun w _ _ _ => ⟨w, rfl⟩
    | cons r rest ih =>
      intro w hc hrs hu
      have hn : r.to_ ∈ w.graph.operations := hrs r (List.mem_cons_self _ _)
      cases hs : (w.graph.node r.to_).scheduled
      · simp only [schedule_children_loop, hs, Bool.false_eq_true, if_false]
        have hst := node_action_static w r.to_ (rel_noncyclic r)
        have hm := (node_action_measure w r.to_ (rel_noncyclic r) hn).2
        have hex : ∃ w2, schedule_node (f + 1) w r.to_ (rel_noncyclic r) = some w2 := by
          rw [schedule_node_succ]
          rcases hm with hm | hm
          · rw [hm]
            exact ⟨_, rfl⟩
          · apply ihf _ _ (hst.closed_of hc)
            · intro x hx
              rw [hst.1]
              exact hc _ hn x (node_action_links w _ _ x hx)
            · omega
        obtain ⟨w2, hw2⟩ := hex
        have hw2' : schedule_node (f + 1) w r.to_
            (decide ((r.flag &&& DEPSREL_FLAG_CYCLIC) = 0)) = some w2 := hw2
        rw [hw2']
        simp only
        rw [schedule_node_succ] at hw2
        have hsteps := Relation.ReflTransGen.head (Step.visit w r [] hs)
          (loop_steps f _ _ _ [] hw2)
        have hst2 := Steps.static_eq hsteps
        have hle := Steps.unscheduled_mono hsteps
        apply ih w2 (hst2.closed_of hc)
        · intro x hx
          rw [hst2.1]
          exact hrs x (List.mem_cons_of_mem _ hx)
        · exact le_trans hle hu
      · simp only [schedule_children_loop, hs, if_true]
        exact ih w hc (fun x hx => hrs x (List.mem_cons_of_mem _ hx)) hu

/-- With enough fuel `schedule_node` returns. -/
theorem schedule_node_total (fuel : Nat) (w : EvalWorld) (n : Nat) (dec : Bool)
    (hc : Closed w.graph) (hn : n ∈ w.graph.operations)
    (hf : w.graph.operations.length ≤ fuel) :
    ∃ w1, schedule_node fuel w n dec = some w1 := by
  cases fuel with
  | zero =>
    have := List.length_pos_of_mem hn
    omega
  | succ f =>
    rw [schedule_node_succ]
    have hst := node_action_static w n dec
    rcases (node_action_measure w n dec hn).2 with hm | hm
    · rw [hm]
      exact ⟨_, rfl⟩
    · apply loop_total f _ _ (hst.closed_of hc)
      · intro x hx
        rw [hst.1]
        exact hc _ hn x (node_action_links w _ _ x hx)
      · have := unscheduled_le_length w.graph
        omega

theorem schedule_graph_loop_total (fuel : Nat) :
    ∀ (ns : List Nat) (w : EvalWorld), Closed w.graph →
      (∀ n ∈ ns, n ∈ w.graph.operations) → w.graph.operations.length ≤ fuel →
        ∃ w1, schedule_graph_loop fuel w ns = some w1 := by
  intro ns
  induction ns with
  | nil => exact fun w _ _ _ => ⟨w, rfl⟩
  | cons n rest ih =>
    intro w hc hns hf
    have hn := hns n (List.mem_cons_self _ _)
    obtain ⟨w2, hw2⟩ := schedule_node_total fuel w n false hc hn hf
    simp only [schedule_graph_loop, hw2]
    have hst := Steps.static_eq (schedule_node_steps fuel w w2 n hn hw2)
    apply ih w2 (hst.closed_of hc)
    · intro m hm
      rw [hst.1]
      exact hns m (List.mem_cons_of_mem _ hm)
    · rw [hst.1]
      exact hf

theorem Step.measure_le {c c1 : EvalWorld × List DepsRelation} (hs : Step c c1) (h : Inv c) :
    drain_measure c1.1 ≤ drain_measure c.1 := by
  cases hs with
  | seed w n hn => exact (node_action_measure w n false hn).1
  | skip w r st hsch => exact le_refl _
  | visit w r st hsch =>
    exact (node_action_measure w _ _ (h.stack_ok r (List.mem_cons_self _ _))).1
  | task w n hn =>
    simp only [drain_measure, List.length_erase_of_mem hn]
    omega

theorem Steps.measure_mono {c c1 : EvalWorld × List DepsRelation}
    (hs : Relation.ReflTransGen Step c c1) (h : Inv c) :
    drain_measure c1.1 ≤ drain_measure c.1 := by
  induction hs with
  | refl => exact le_refl _
  | tail hs1 hstep ih => exact le_trans (hstep.measure_le (h.steps hs1)) ih

/-- With enough fuel and enough picks the drain returns with an empty pool. -/
theorem work_and_wait_total (fuel : Nat) :
    ∀ (picks : List Nat) (w : EvalWorld), Inv (w, []) →
      w.graph.operations.length ≤ fuel → drain_measure w ≤ picks.length →
        ∃ w1, BLI_task_pool_work_and_wait fuel w picks = some w1 ∧ w1.pool = [] := by
  intro picks
  induction picks with
  | nil =>
    intro w _ _ hm
    refine ⟨w, rfl, ?_⟩
    simp only [drain_measure, List.length_nil] at hm
    exact List.length_eq_zero.1 (by omega)
  | cons k rest ih =>
    intro w hinv hf hm
    simp only [BLI_task_pool_work_and_wait]
    cases hk : w.pool[k % w.pool.length]? with
    | none =>
      refine ⟨w, rfl, ?_⟩
      rw [List.getElem?_eq_none_iff] at hk
      by_contra hne
      have hpos : 0 < w.pool.length := List.length_pos.2 hne
      have := Nat.mod_lt k hpos
      omega
    | some n =>
      simp only
      have hn : n ∈ w.pool := List.getElem?_mem hk
      have hinv1 := hinv.task hn
      have hex : ∃ w2, deg_task_run_func fuel { w with pool := w.pool.erase n } n = some w2 := by
        rw [deg_task_run_func_eq]
        apply loop_total fuel _ _ hinv1.closed hinv1.stack_ok
        exact le_trans (unscheduled_le_length _) hf
      obtain ⟨w2, hw2⟩ := hex
      rw [hw2]
      simp only
      rw [deg_task_run_func_eq] at hw2
      have hsteps := loop_steps fuel _ _ _ [] hw2
      rw [List.append_nil] at hsteps
      have hinv2 := hinv1.steps hsteps
      have hm2 := Steps.measure_mono hsteps hinv1
      have hst := Steps.static_eq hsteps
      apply ih w2 hinv2
      · rw [hst.1]
        exact hf
      · simp only [drain_measure, List.length_erase_of_mem hn, List.length_cons] at hm hm2 ⊢
        have := List.length_pos_of_mem hn
        omega

theorem StaticEq.symm {g g1 : Depsgraph} (h : StaticEq g g1) : StaticEq g1 g := by
  refine ⟨h.1.symm, fun n => ?_⟩
  obtain ⟨a1, a2, a3, a4, a5⟩ := h.2 n
  exact ⟨a1.symm, a2.symm, a3.symm, a4.symm, a5.symm⟩

theorem StaticEq.is_dispatch {g g1 : Depsgraph} (h : StaticEq g g1) :
    is_dispatch g1 = is_dispatch g := by
  funext b e
  simp [DEG.is_dispatch, h.is_noop]

theorem StaticEq.TraceOrd {g g1 : Depsgraph} (h : StaticEq g g1) (t : List Event)
    (ht : TraceOrd g1 t) : TraceOrd g t := by
  intro t1 e t2 b heq hd hc r hr hcnt
  rw [← h.is_dispatch] at hd
  rw [← h.counted_inlinks] at hc
  rw [← (h.2 b).2.2.1] at hr
  rw [← h.rel_counted] at hcnt
  exact ht t1 e t2 b heq hd hc r hr hcnt

theorem StaticEq.TraceDisp {g g1 : Depsgraph} (h : StaticEq g g1) (t : List Event)
    (ht : TraceDisp g1 t) : TraceDisp g t := by
  intro t1 t2 a heq
  obtain ⟨e, he, hd⟩ := ht t1 t2 a heq
  rw [h.is_dispatch] at hd
  exact ⟨e, he, hd⟩

theorem StaticEq.TopoRank {g g1 : Depsgraph} (h : StaticEq g g1) (rank : Nat → Nat)
    (ht : TopoRank g rank) : TopoRank g1 rank := by
  intro b hb r hr
  rw [h.1] at hb
  rw [(h.2 b).2.2.1] at hr
  exact ht b hb r hr

theorem counted_le_length (g : Depsgraph) (b : Nat) :
    counted_inlinks g b ≤ (g.node b).inlinks.length :=
  List.countP_le_length _

/-- A complete pass exists: with fuel and picks as many as there are registered
operations the pass returns and the pool is empty. -/
theorem evaluate_pass_total (g : Depsgraph) (hw : WellFormed g) (fuel : Nat)
    (picks : List Nat) (hf : g.operations.length ≤ fuel)
    (hp : g.operations.length ≤ picks.length) :
    ∃ w, evaluate_pass fuel g picks = some w ∧ w.pool = [] := by
  have hinv0 := Inv.init g hw
  obtain ⟨w2, hw2⟩ := schedule_graph_loop_total fuel (init_graph g).operations
    { graph := init_graph g, pool := [], trace := [] } hinv0.closed (fun _ hn => hn) hf
  have hsteps := schedule_graph_loop_steps fuel _ _ w2 (fun _ hn => hn) hw2
  have hinv2 := hinv0.steps hsteps
  have hm := Steps.measure_mono hsteps hinv0
  have hst := Steps.static_eq hsteps
  have h0 : drain_measure ({ graph := init_graph g, pool := [], trace := [] } : EvalWorld) ≤
      g.operations.length := by
    simp only [drain_measure, List.length_nil, Nat.add_zero]
    exact unscheduled_le_length (init_graph g)
  obtain ⟨w1, hw1, hpool⟩ := work_and_wait_total fuel picks w2 hinv2
    (by rw [hst.1]; exact hf) (by simp only at hm; omega)
  refine ⟨w1, ?_, hpool⟩
  unfold evaluate_pass schedule_graph
  rw [initialize_execution_eq]
  simp only
  rw [hw2]
  exact hw1

/-- When the pool is empty, every registered live operation is scheduled,
provided the non-cyclic relations are acyclic. -/
theorem quiescent_scheduled {w : EvalWorld} (h : Inv (w, []))
    (hr : Ready w.graph.operations (w, [])) (hpool : w.pool = [])
    (hsrc : ∀ b ∈ w.graph.operations, ∀ r ∈ (w.graph.node b).inlinks,
      r.from_type = DEG_NODE_TYPE_OPERATION → r.from_ ∈ w.graph.operations)
    (rank : Nat → Nat) (htopo : TopoRank w.graph rank) :
    ∀ b ∈ w.graph.operations, is_live w.graph b = true →
      (w.graph.node b).scheduled = true := by
  suffices hsuff : ∀ k b, rank b = k → b ∈ w.graph.operations → is_live w.graph b = true →
      (w.graph.node b).scheduled = true from fun b => hsuff (rank b) b rfl
  intro k
  induction k using Nat.strong_induction_on with
  | _ k ih =>
    intro b hk hb hl
    by_contra hs
    have hs : (w.graph.node b).scheduled = false := by simpa using hs
    have hp := h.pending_unsched b hb hl hs
    have hu : unreleased_inlinks w.graph w.trace b = 0 := by
      unfold unreleased_inlinks
      rw [List.countP_eq_zero]
      intro r hrin hcr
      simp only [Bool.and_eq_true, Bool.not_eq_true', rel_counted, decide_eq_true_eq] at hcr
      obtain ⟨⟨⟨hop, hnc⟩, hlive⟩, hnr⟩ := hcr
      have hlt := htopo b hb r hrin hop hnc
      have hfrom := hsrc b hb r hrin hop
      have hsf := ih (rank r.from_) (by rw [← hk]; exact hlt) r.from_ rfl hfrom hlive
      rcases h.sched_ok r.from_ hfrom hlive hsf with h1 | h1
      · rw [hpool] at h1
        cases h1
      · rw [hnr] at h1
        cases h1
    simp only at hp
    rw [hu] at hp
    have hp0 : (w.graph.node b).num_links_pending = 0 := by
      rw [hp]
      simp [debt]
    have := hr b hb hl hp0
    rw [hs] at this
    cases this

theorem node_action_node_ne (w : EvalWorld) (m n : Nat) (dec : Bool) (h : n ≠ m) :
    (node_action w m dec).1.graph.node n = w.graph.node n := by
  cases hl : is_live w.graph m
  · rw [node_action_not_live w m dec hl]
  · rw [node_action_live w m dec hl _ rfl]
    split_ifs <;> simp only [setdyn_node_ne _ _ _ _ _ h]

theorem node_action_pool (w : EvalWorld) (m : Nat) (dec : Bool) :
    (node_action w m dec).1.pool = w.pool ∨
      ((node_action w m dec).1.pool = w.pool ++ [m] ∧ (w.graph.node m).is_noop = false) := by
  cases hl : is_live w.graph m
  · rw [node_action_not_live w m dec hl]
    exact Or.inl rfl
  · rw [node_action_live w m dec hl _ rfl]
    generalize (if dec = true then
        ((w.graph.node m).num_links_pending + UINT32_SIZE - 1) % UINT32_SIZE
      else (w.graph.node m).num_links_pending) = p
    split_ifs with h1 h2 h3
    · exact Or.inl rfl
    · exact Or.inl rfl
    · exact Or.inl rfl
    · exact Or.inr ⟨rfl, by simpa using h3⟩

theorem node_action_trace (w : EvalWorld) (m : Nat) (dec : Bool) :
    (node_action w m dec).1.trace = w.trace ∨
      ((node_action w m dec).1.trace = w.trace ++ [Event.children m] ∧
        (w.graph.node m).is_noop = true) ∨
      ((node_action w m dec).1.trace = w.trace ++ [Event.push m] ∧
        (w.graph.node m).is_noop = false) := by
  cases hl : is_live w.graph m
  · rw [node_action_not_live w m dec hl]
    exact Or.inl rfl
  · rw [node_action_live w m dec hl _ rfl]
    generalize (if dec = true then
        ((w.graph.node m).num_links_pending + UINT32_SIZE - 1) % UINT32_SIZE
      else (w.graph.node m).num_links_pending) = p
    split_ifs with h1 h2 h3
    · exact Or.inl rfl
    · exact Or.inl rfl
    · exact Or.inr (Or.inl ⟨rfl, h3⟩)
    · exact Or.inr (Or.inr ⟨rfl, by simpa using h3⟩)

theorem node_action_untouched (w : EvalWorld) (m n : Nat) (dec : Bool)
    (nd : OperationDepsNode) (st st1 : List DepsRelation)
    (hl : is_live w.graph n = false) (h : Untouched n nd (w, st)) :
    Untouched n nd ((node_action w m dec).1, st1) := by
  by_cases hmn : m = n
  · subst hmn
    rw [node_action_not_live w m dec hl]
    exact h
  · have hnm : n ≠ m := fun e => hmn e.symm
    obtain ⟨h1, h2, h3, h4, h5⟩ := h
    refine ⟨?_, ?_, ?_, ?_, ?_⟩
    · rw [← h1]
      exact node_action_node_ne w m n dec hnm
    · rcases node_action_pool w m dec with hp | ⟨hp, -⟩
      · simp only [hp]; exact h2
      · simp only [hp, List.mem_append, List.mem_singleton]
        exact fun hc => hc.elim h2 hnm
    · rcases node_action_trace w m dec with ht | ⟨ht, -⟩ | ⟨ht, -⟩
      · simp only [ht]; exact h3
      · simp only [ht, List.mem_append, List.mem_singleton]
        exact fun hc => hc.elim h3 (fun e => by cases e)
      · simp only [ht, List.mem_append, List.mem_singleton]
        exact fun hc => hc.elim h3 (fun e => by injection e with e; exact hnm e)
    · rcases node_action_trace w m dec with ht | ⟨ht, -⟩ | ⟨ht, -⟩
      · simp only [ht]; exact h4
      · simp only [ht, List.mem_append, List.mem_singleton]
        exact fun hc => hc.elim h4 (fun e => by cases e)
      · simp only [ht, List.mem_append, List.mem_singleton]
        exact fun hc => hc.elim h4 (fun e => by cases e)
    · rcases node_action_trace w m dec with ht | ⟨ht, -⟩ | ⟨ht, -⟩
      · simp only [ht]; exact h5
      · simp only [ht, List.mem_append, List.mem_singleton]
        exact fun hc => hc.elim h5 (fun e => by injection e with e; exact hnm e)
      · simp only [ht, List.mem_append, List.mem_singleton]
        exact fun hc => hc.elim h5 (fun e => by cases e)

theorem Untouched_step {n : Nat} {nd : OperationDepsNode}
    {c c1 : EvalWorld × List DepsRelation} (hs : Step c c1)
    (hl : is_live c.1.graph n = false) (h : Untouched n nd c) : Untouched n nd c1 := by
  cases hs with
  | seed w m hm => exact node_action_untouched w m n false nd [] _ hl h
  | skip w r st hsch => exact h
  | visit w r st hsch => exact node_action_untouched w _ n _ nd _ _ hl h
  | task w m hm =>
    obtain ⟨h1, h2, h3, h4, h5⟩ := h
    have hnm : n ≠ m := by
      rintro rfl
      exact h2 hm
    refine ⟨h1, fun hc => h2 (List.mem_of_mem_erase hc), ?_, ?_, ?_⟩
    · simp only [List.mem_append, List.mem_cons, List.mem_singleton, List.not_mem_nil]
      rintro (hc | hc | hc | hc)
      · exact h3 hc
      · cases hc
      · cases hc
      · exact hc
    · simp only [List.mem_append, List.mem_cons, List.mem_singleton, List.not_mem_nil]
      rintro (hc | hc | hc | hc)
      · exact h4 hc
      · injection hc with hc; exact hnm hc
      · cases hc
      · exact hc
    · simp only [List.mem_append, List.mem_cons, List.mem_singleton, List.not_mem_nil]
      rintro (hc | hc | hc | hc)
      · exact h5 hc
      · cases hc
      · injection hc with hc; exact hnm hc
      · exact hc

theorem Untouched_steps {n : Nat} {nd : OperationDepsNode}
    {c c1 : EvalWorld × List DepsRelation} (hs : Relation.ReflTransGen Step c c1)
    (hl : is_live c.1.graph n = false) (h : Untouched n nd c) : Untouched n nd c1 := by
  induction hs with
  | refl => exact h
  | tail hs1 hstep ih =>
    refine Untouched_step hstep ?_ ih
    rw [(Steps.static_eq hs1).is_live]
    exact hl

theorem PoolHasCallbacks_step {c c1 : EvalWorld × List DepsRelation} (hs : Step c c1)
    (h : PoolHasCallbacks c) : PoolHasCallbacks c1 := by
  have key : ∀ (w : EvalWorld) (m : Nat) (dec : Bool) (st st1 : List DepsRelation),
      PoolHasCallbacks (w, st) → PoolHasCallbacks ((node_action w m dec).1, st1) := by
    intro w m dec st st1 hw x hx
    have hst := node_action_static w m dec
    simp only at hx ⊢
    rw [hst.is_noop]
    rcases node_action_pool w m dec with hp | ⟨hp, hnoop⟩
    · rw [hp] at hx
      exact hw x hx
    · rw [hp] at hx
      rcases List.mem_append.1 hx with hx | hx
      · exact hw x hx
      · rw [List.mem_singleton] at hx
        subst hx
        exact hnoop
  cases hs with
  | seed w m hm => exact key w m false [] _ h
  | skip w r st hsch => exact h
  | visit w r st hsch => exact key w _ _ _ _ h
  | task w m hm => exact fun x hx => h x (List.mem_of_mem_erase hx)

theorem PoolHasCallbacks_steps {c c1 : EvalWorld × List DepsRelation}
    (hs : Relation.ReflTransGen Step c c1) (h : PoolHasCallbacks c) :
    PoolHasCallbacks c1 := by
  induction hs with
  | refl => exact h
  | tail _ hstep ih => exact PoolHasCallbacks_step hstep ih

/-- A walk leaves scheduled nodes as they are. -/
theorem Walk_frozen {c c1 : EvalWorld × List DepsRelation} (hs : Walk c c1) (n : Nat)
    (h : (c.1.graph.node n).scheduled = true) : c1.1.graph.node n = c.1.graph.node n := by
  cases hs with
  | skip w r st hsch => rfl
  | visit w r st hsch =>
    apply node_action_node_ne
    rintro rfl
    simp only at h
    rw [h] at hsch
    cases hsch

theorem Walks_frozen {c c1 : EvalWorld × List DepsRelation}
    (hs : Relation.ReflTransGen Walk c c1) (n : Nat)
    (h : (c.1.graph.node n).scheduled = true) : c1.1.graph.node n = c.1.graph.node n := by
  induction hs with
  | refl => rfl
  | tail _ hstep ih =>
    rw [← ih]
    exact Walk_frozen hstep n (by rw [ih]; exact h)

/-- A walk queues operations with a callback only and appends to the pool. -/
theorem Walk_pool {c c1 : EvalWorld × List DepsRelation} (hs : Walk c c1) :
    ∃ extra, c1.1.pool = c.1.pool ++ extra ∧
      ∀ m ∈ extra, (c.1.graph.node m).is_noop = false := by
  cases hs with
  | skip w r st hsch => exact ⟨[], by simp, fun _ hm => by cases hm⟩
  | visit w r st hsch =>
    rcases node_action_pool w r.to_ (rel_noncyclic r) with hp | ⟨hp, hnoop⟩
    · exact ⟨[], by simp [hp], fun _ hm => by cases hm⟩
    · refine ⟨[r.to_], hp, fun m hm => ?_⟩
      rw [List.mem_singleton] at hm
      subst hm
      exact hnoop

theorem Walk_static {c c1 : EvalWorld × List DepsRelation} (hs : Walk c c1) :
    StaticEq c.1.graph c1.1.graph :=
  hs.to_step.static

theorem Walks_pool {c c1 : EvalWorld × List DepsRelation}
    (hs : Relation.ReflTransGen Walk c c1) :
    StaticEq c.1.graph c1.1.graph ∧ ∃ extra, c1.1.pool = c.1.pool ++ extra ∧
      ∀ m ∈ extra, (c.1.graph.node m).is_noop = false := by
  induction hs with
  | refl => exact ⟨StaticEq.refl _, [], by simp, fun _ hm => by cases hm⟩
  | tail _ hstep ih =>
    obtain ⟨hst, e1, h1, h2⟩ := ih
    obtain ⟨e2, h3, h4⟩ := Walk_pool hstep
    refine ⟨hst.trans (Walk_static hstep), e1 ++ e2, by rw [h3, h1, List.append_assoc], ?_⟩
    intro m hm
    rcases List.mem_append.1 hm with hm | hm
    · exact h2 m hm
    · rw [← hst.is_noop]
      exact h4 m hm

/-- One call of `schedule_node` appends to the pool, and only operations with a
callback. -/
theorem schedule_node_pool (fuel : Nat) (w w1 : EvalWorld) (n : Nat) (dec : Bool)
    (h : schedule_node fuel w n dec = some w1) :
    ∃ extra, w1.pool = w.pool ++ extra ∧ ∀ m ∈ extra, (w.graph.node m).is_noop = false := by
  cases fuel with
  | zero => simp [schedule_node] at h
  | succ f =>
    rw [schedule_node_succ] at h
    have h1 := loop_walk f _ _ _ [] h
    obtain ⟨-, e1, h2, h3⟩ := Walks_pool h1
    have hst := node_action_static w n dec
    simp only at h2 h3
    rcases node_action_pool w n dec with hp | ⟨hp, hnoop⟩
    · refine ⟨e1, by rw [h2, hp], fun m hm => ?_⟩
      rw [← hst.is_noop]
      exact h3 m hm
    · refine ⟨[n] ++ e1, by rw [h2, hp, List.append_assoc], fun m hm => ?_⟩
      rcases List.mem_append.1 hm with hm | hm
      · rw [List.mem_singleton] at hm
        subst hm
        exact hnoop
      · rw [← hst.is_noop]
        exact h3 m hm

theorem is_live_of_invisible (g : Depsgraph) (n : Nat)
    (hvis : (g.node n).owner.owner.is_visible = false)
    (hcow : (g.node n).owner.type ≠ DEG_NODE_TYPE_COPY_ON_WRITE) : is_live g n = false := by
  simp [is_live, check_operation_node_visible, hvis, hcow]

theorem init_graph_node_not_mem (g : Depsgraph) (n : Nat) (hn : n ∉ g.operations) :
    (init_graph g).node n = g.node n := by
  simp [init_graph, init_graph_on, hn]

theorem evaluate_pass_nil (fuel : Nat) (g : Depsgraph) :
    evaluate_pass fuel g [] =
      schedule_graph fuel { graph := initialize_execution g, pool := [], trace := [] } := by
  unfold evaluate_pass
  cases schedule_graph fuel { graph := initialize_execution g, pool := [], trace := [] } <;>
    rfl

/-- A live registered operation without counted inbound relations is scheduled
in every state of a pass. -/
theorem pass_scheduled_of_uncounted {g : Depsgraph} (hw : WellFormed g) {fuel : Nat}
    {picks : List Nat} {w : EvalWorld} (h : evaluate_pass fuel g picks = some w) {n : Nat}
    (hn : n ∈ g.operations) (hl : is_live g n = true) (hc : counted_inlinks g n = 0) :
    (w.graph.node n).scheduled = true := by
  have hinv := Inv.pass hw h
  have hst := pass_static h
  have hready := pass_ready h
  have hn1 : n ∈ w.graph.operations := by rw [hst.1]; exact hn
  have hl1 : is_live w.graph n = true := by rw [hst.is_live]; exact hl
  by_contra hs
  have hs : (w.graph.node n).scheduled = false := by simpa using hs
  have hp := hinv.pending_unsched n hn1 hl1 hs
  have hu := unreleased_add_released w.graph w.trace n
  rw [hst.counted_inlinks, hc] at hu
  have hu0 : unreleased_inlinks w.graph w.trace n = 0 := by omega
  simp only at hp
  rw [hu0] at hp
  have hp0 : (w.graph.node n).num_links_pending = 0 := by
    rw [hp]
    simp [debt]
  have := hready n hn hl1 hp0
  rw [hs] at this
  cases this

theorem drop_cyclic_pending_spec (g : Depsgraph) (n : Nat) :
    pending_spec (drop_cyclic g) n = pending_spec g n := by
  have hl : is_live (drop_cyclic g) = is_live g := by
    funext m
    simp [is_live, drop_cyclic, check_operation_node_visible]
  have hc : rel_counted (drop_cyclic g) = rel_counted g := by
    funext r
    simp [rel_counted, hl]
  simp only [pending_spec, counted_inlinks, hl, hc]
  have : ((drop_cyclic g).node n).inlinks = (g.node n).inlinks.filter rel_noncyclic := rfl
  rw [this, List.countP_filter]
  congr 2
  apply List.countP_congr
  intro r _
  simp only [rel_counted, Bool.and_eq_true, decide_eq_true_eq]
  tauto

theorem set_id_visible_node (g : Depsgraph) (n : Nat) (v : Bool) (m : Nat) :
    (set_id_visible g n v).node m =
      if m = n then { g.node m with owner := { (g.node m).owner with owner := { is_visible := v } } }
      else g.node m := rfl

theorem set_id_visible_setdyn (g : Depsgraph) (n : Nat) (v : Bool) (m p : Nat) (s : Bool) :
    (set_id_visible g n v).setdyn m p s = set_id_visible (g.setdyn m p s) n v := by
  unfold set_id_visible Depsgraph.setdyn Depsgraph.modify
  congr 1
  funext k
  by_cases h1 : k = m
  · subst h1
    by_cases h2 : k = n
    · subst h2; simp
    · simp [h2]
  · by_cases h2 : k = n
    · subst h2; simp [h1]
    · simp [h1, h2]

theorem set_id_visible_check (g : Depsgraph) (n : Nat) (v : Bool)
    (hcow : (g.node n).owner.type = DEG_NODE_TYPE_COPY_ON_WRITE) (m : Nat) :
    check_operation_node_visible ((set_id_visible g n v).node m) =
      check_operation_node_visible (g.node m) := by
  rw [set_id_visible_node]
  by_cases h : m = n
  · subst h
    simp [check_operation_node_visible, hcow]
  · simp [h]

theorem set_id_visible_is_live (g : Depsgraph) (n : Nat) (v : Bool)
    (hcow : (g.node n).owner.type = DEG_NODE_TYPE_COPY_ON_WRITE) :
    is_live (set_id_visible g n v) = is_live g := by
  funext m
  simp only [is_live, set_id_visible_check g n v hcow]
  by_cases h : m = n <;> simp [set_id_visible_node, h]

theorem set_id_visible_pending_spec (g : Depsgraph) (n : Nat) (v : Bool)
    (hcow : (g.node n).owner.type = DEG_NODE_TYPE_COPY_ON_WRITE) :
    pending_spec (set_id_visible g n v) = pending_spec g := by
  funext m
  have hin : ((set_id_visible g n v).node m).inlinks = (g.node m).inlinks := by
    by_cases h : m = n <;> simp [set_id_visible_node, h]
  simp only [pending_spec, counted_inlinks, set_id_visible_is_live g n v hcow, hin]
  congr 2
  apply List.countP_congr
  intro r _
  simp [rel_counted, set_id_visible_is_live g n v hcow]

theorem set_id_visible_init (g : Depsgraph) (n : Nat) (v : Bool)
    (hcow : (g.node n).owner.type = DEG_NODE_TYPE_COPY_ON_WRITE) :
    init_graph (set_id_visible g n v) = set_id_visible (init_graph g) n v := by
  have hops : (set_id_visible g n v).operations = g.operations := rfl
  unfold init_graph init_graph_on
  rw [set_id_visible_pending_spec g n v hcow, hops]
  unfold set_id_visible Depsgraph.modify
  congr 1
  funext m
  by_cases h1 : m ∈ g.operations
  · by_cases h2 : m = n
    · subst h2; simp [h1]
    · simp [h1, h2]
  · by_cases h2 : m = n
    · subst h2; simp [h1]
    · simp [h1, h2]

theorem set_id_visible_node_action (w : EvalWorld) (n : Nat) (v : Bool)
    (hcow : (w.graph.node n).owner.type = DEG_NODE_TYPE_COPY_ON_WRITE) (m : Nat) (dec : Bool) :
    node_action (w.set_id_visible n v) m dec =
      ((node_action w m dec).1.set_id_visible n v, (node_action w m dec).2) := by
  have hp : ((set_id_visible w.graph n v).node m).num_links_pending =
      (w.graph.node m).num_links_pending := by
    by_cases h : m = n <;> simp [set_id_visible_node, h]
  have hs : ((set_id_visible w.graph n v).node m).scheduled = (w.graph.node m).scheduled := by
    by_cases h : m = n <;> simp [set_id_visible_node, h]
  have hno : ((set_id_visible w.graph n v).node m).is_noop = (w.graph.node m).is_noop := by
    by_cases h : m = n <;> simp [set_id_visible_node, h, OperationDepsNode.is_noop]
  have ho : ((set_id_visible w.graph n v).node m).outlinks = (w.graph.node m).outlinks := by
    by_cases h : m = n <;> simp [set_id_visible_node, h]
  cases hl : is_live w.graph m
  · rw [node_action_not_live w m dec hl, node_action_not_live _ m dec
      (by simp only [EvalWorld.set_id_visible]; rw [set_id_visible_is_live _ n v hcow]; exact hl)]
  · rw [node_action_live w m dec hl _ rfl, node_action_live _ m dec
      (by simp only [EvalWorld.set_id_visible]; rw [set_id_visible_is_live _ n v hcow]; exact hl)
      _ rfl]
    simp only [EvalWorld.set_id_visible, hp, hs, hno, ho, set_id_visible_setdyn]
    generalize (if dec = true then
        ((w.graph.node m).num_links_pending + UINT32_SIZE - 1) % UINT32_SIZE
      else (w.graph.node m).num_links_pending) = p
    split_ifs <;> rfl

theorem schedule_node_static (fuel : Nat) (w w1 : EvalWorld) (n : Nat) (dec : Bool)
    (h : schedule_node fuel w n dec = some w1) : StaticEq w.graph w1.graph := by
  cases fuel with
  | zero => simp [schedule_node] at h
  | succ f =>
    rw [schedule_node_succ] at h
    exact (node_action_static w n dec).trans (Steps.static_eq (loop_steps f _ _ _ [] h))

theorem loop_static (fuel : Nat) (w w1 : EvalWorld) (rs : List DepsRelation)
    (h : schedule_children_loop (schedule_node fuel) w rs = some w1) :
    StaticEq w.graph w1.graph :=
  Steps.static_eq (loop_steps fuel rs w w1 [] h)

theorem StaticEq.owner {g g1 : Depsgraph} (h : StaticEq g g1) (n : Nat) :
    (g1.node n).owner = (g.node n).owner := (h.2 n).1

theorem set_id_visible_scheduled (g : Depsgraph) (n : Nat) (v : Bool) (m : Nat) :
    ((set_id_visible g n v).node m).scheduled = (g.node m).scheduled := by
  by_cases h : m = n <;> simp [set_id_visible_node, h]

/-- The walk of `schedule_children` does not depend on the visibility of the
owner of a Copy-on-Write operation. -/
theorem set_id_visible_loop (n : Nat) (v : Bool) (fuel : Nat) :
    ∀ (rs : List DepsRelation) (w : EvalWorld),
      (w.graph.node n).owner.type = DEG_NODE_TYPE_COPY_ON_WRITE →
      schedule_children_loop (schedule_node fuel) (w.set_id_visible n v) rs =
        (schedule_children_loop (schedule_node fuel) w rs).map
          (fun w1 => w1.set_id_visible n v) := by
  induction fuel with
  | zero =>
    intro rs
    induction rs with
    | nil => intro w _; rfl
    | cons r rest ih =>
      intro w hcow
      simp only [schedule_children_loop]
      have hs : (((w.set_id_visible n v).graph.node r.to_).scheduled) =
          (w.graph.node r.to_).scheduled := set_id_visible_scheduled _ _ _ _
      rw [hs]
      cases (w.graph.node r.to_).scheduled
      · simp [schedule_node]
      · simp only [if_true]
        exact ih w hcow
  | succ f ihf =>
    intro rs
    induction rs with
    | nil => intro w _; rfl
    | cons r rest ih =>
      intro w hcow
      simp only [schedule_children_loop]
      have hs : (((w.set_id_visible n v).graph.node r.to_).scheduled) =
          (w.graph.node r.to_).scheduled := set_id_visible_scheduled _ _ _ _
      rw [hs]
      cases (w.graph.node r.to_).scheduled
      · simp only [Bool.false_eq_true, if_false]
        have hsn : schedule_node (f + 1) (w.set_id_visible n v) r.to_
              (decide ((r.flag &&& DEPSREL_FLAG_CYCLIC) = 0)) =
            (schedule_node (f + 1) w r.to_
              (decide ((r.flag &&& DEPSREL_FLAG_CYCLIC) = 0))).map
              (fun w1 => w1.set_id_visible n v) := by
          rw [schedule_node_succ, schedule_node_succ, set_id_visible_node_action w n v hcow]
          apply ihf
          rw [(node_action_static w _ _).owner]
          exact hcow
        rw [hsn]
        cases hres : schedule_node (f + 1) w r.to_
            (decide ((r.flag &&& DEPSREL_FLAG_CYCLIC) = 0)) with
        | none => rfl
        | some w2 =>
          simp only [Option.map_some']
          apply ih
          rw [(schedule_node_static _ _ _ _ _ hres).owner]
          exact hcow
      · simp only [if_true]
        exact ih w hcow
theorem set_id_visible_schedule_node (n : Nat) (v : Bool) (fuel : Nat) (w : EvalWorld)
    (hcow : (w.graph.node n).owner.type = DEG_NODE_TYPE_COPY_ON_WRITE) (m : Nat) (dec : Bool) :
    schedule_node fuel (w.set_id_visible n v) m dec =
      (schedule_node fuel w m dec).map (fun w1 => w1.set_id_visible n v) := by
  cases fuel with
  | zero => simp [schedule_node]
  | succ f =>
    rw [schedule_node_succ, schedule_node_succ, set_id_visible_node_action w n v hcow]
    apply set_id_visible_loop
    rw [(node_action_static w _ _).owner]
    exact hcow

theorem set_id_visible_graph_loop (n : Nat) (v : Bool) (fuel : Nat) :
    ∀ (ns : List Nat) (w : EvalWorld),
      (w.graph.node n).owner.type = DEG_NODE_TYPE_COPY_ON_WRITE →
      schedule_graph_loop fuel (w.set_id_visible n v) ns =
        (schedule_graph_loop fuel w ns).map (fun w1 => w1.set_id_visible n v) := by
  intro ns
  induction ns with
  | nil => intro w _; rfl
  | cons m rest ih =>
    intro w hcow
    simp only [schedule_graph_loop]
    rw [set_id_visible_schedule_node n v fuel w hcow]
    cases hres : schedule_node fuel w m false with
    | none => rfl
    | some w2 =>
      simp only [Option.map_some']
      apply ih
      rw [(schedule_node_static _ _ _ _ _ hres).owner]
      exact hcow

theorem set_id_visible_work_and_wait (n : Nat) (v : Bool) (fuel : Nat) :
    ∀ (picks : List Nat) (w : EvalWorld),
      (w.graph.node n).owner.type = DEG_NODE_TYPE_COPY_ON_WRITE →
      BLI_task_pool_work_and_wait fuel (w.set_id_visible n v) picks =
        (BLI_task_pool_work_and_wait fuel w picks).map (fun w1 => w1.set_id_visible n v) := by
  intro picks
  induction picks with
  | nil => intro w _; rfl
  | cons k rest ih =>
    intro w hcow
    simp only [BLI_task_pool_work_and_wait]
    have hpool : (w.set_id_visible n v).pool = w.pool := rfl
    rw [hpool]
    cases hk : w.pool[k % w.pool.length]? with
    | none => rfl
    | some m =>
      simp only
      have hrun : deg_task_run_func fuel
            { (w.set_id_visible n v) with pool := w.pool.erase m } m =
          (deg_task_run_func fuel { w with pool := w.pool.erase m } m).map
            (fun w1 => w1.set_id_visible n v) := by
        rw [deg_task_run_func_eq, deg_task_run_func_eq]
        have ho : ((set_id_visible w.graph n v).node m).outlinks = (w.graph.node m).outlinks := by
          by_cases h : m = n <;> simp [set_id_visible_node, h]
        have := set_id_visible_loop n v fuel (w.graph.node m).outlinks
          { w with pool := w.pool.erase m,
                   trace := w.trace ++ [Event.evaluate m, Event.children m] } hcow
        simp only [EvalWorld.set_id_visible, ho] at this ⊢
        exact this
      rw [hrun]
      cases hres : deg_task_run_func fuel { w with pool := w.pool.erase m } m with
      | none => rfl
      | some w2 =>
        simp only [Option.map_some']
        apply ih
        rw [deg_task_run_func_eq] at hres
        rw [(loop_static _ _ _ _ hres).owner]
        exact hcow

/-- A pass does not depend on the visibility of the owner of a Copy-on-Write
operation. -/
theorem set_id_visible_pass (g : Depsgraph) (n : Nat) (v : Bool)
    (hcow : (g.node n).owner.type = DEG_NODE_TYPE_COPY_ON_WRITE) (fuel : Nat)
    (picks : List Nat) :
    evaluate_pass fuel (set_id_visible g n v) picks =
      (evaluate_pass fuel g picks).map (fun w => w.set_id_visible n v) := by
  unfold evaluate_pass schedule_graph
  rw [initialize_execution_eq, initialize_execution_eq, set_id_visible_init g n v hcow]
  have hcow1 : ((init_graph g).node n).owner.type = DEG_NODE_TYPE_COPY_ON_WRITE := by
    rw [(init_graph_static g).owner]; exact hcow
  have h1 := set_id_visible_graph_loop n v fuel (init_graph g).operations
    { graph := init_graph g, pool := [], trace := [] } hcow1
  simp only [EvalWorld.set_id_visible] at h1 ⊢
  have hops : (set_id_visible (init_graph g) n v).operations = (init_graph g).operations := rfl
  rw [hops, h1]
  cases hres : schedule_graph_loop fuel { graph := init_graph g, pool := [], trace := [] }
      (init_graph g).operations with
  | none => rfl
  | some w2 =>
    simp only [Option.map_some']
    apply set_id_visible_work_and_wait
    have hst := Steps.static_eq (schedule_graph_loop_steps fuel _ _ w2 (fun _ hn => hn) hres)
    rw [hst.owner]
    exact hcow1

/-- A complete pass over a well-formed graph with acyclic non-cyclic relations:
the pass returns, the pool is empty, and every registered live operation is
scheduled. -/
theorem pass_complete (g : Depsgraph) (hw : WellFormed g) (rank : Nat → Nat)
    (htopo : TopoRank g rank) (fuel : Nat) (picks : List Nat)
    (hf : g.operations.length ≤ fuel) (hp : g.operations.length ≤ picks.length) :
    ∃ w, evaluate_pass fuel g picks = some w ∧ w.pool = [] ∧ Inv (w, []) ∧
      StaticEq g w.graph ∧
      ∀ b ∈ g.operations, is_live g b = true → (w.graph.node b).scheduled = true := by
  obtain ⟨w, hpass, hpool⟩ := evaluate_pass_total g hw fuel picks hf hp
  have hinv := Inv.pass hw hpass
  have hst := pass_static hpass
  have hready := pass_ready hpass
  have hops : w.graph.operations = g.operations := hst.1
  have hsched := quiescent_scheduled hinv (by rw [hops]; exact hready) hpool
    (hst.WellFormed hw).2.1 rank (hst.TopoRank rank htopo)
  refine ⟨w, hpass, hpool, hinv, hst, fun b hb hl => ?_⟩
  exact hsched b (by rw [hops]; exact hb) (by rw [hst.is_live]; exact hl)

/-- In a quiescent state every scheduled live registered operation has released
its children exactly once. -/
theorem quiescent_released {w : EvalWorld} (hinv : Inv (w, [])) (hpool : w.pool = [])
    {b : Nat} (hb : b ∈ w.graph.operations) (hl : is_live w.graph b = true)
    (hs : (w.graph.node b).scheduled = true) :
    w.trace.count (Event.children b) = 1 := by
  have h1 := hinv.release_once b
  have hrel : released w.trace b = true := by
    rcases hinv.sched_ok b hb hl hs with h2 | h2
    · rw [hpool] at h2
      cases h2
    · exact h2
  have hpos : 0 < w.trace.count (Event.children b) :=
    List.count_pos_iff.2 (by simpa [released] using hrel)
  simp only at h1
  omega

/-- In a quiescent state the callback of a scheduled live registered operation
that is not a no-op was pushed once and invoked once. -/
theorem quiescent_evaluated {w : EvalWorld} (hinv : Inv (w, [])) (hpool : w.pool = [])
    {b : Nat} (hb : b ∈ w.graph.operations) (hl : is_live w.graph b = true)
    (hs : (w.graph.node b).scheduled = true) (hn : (w.graph.node b).is_noop = false) :
    w.trace.count (Event.push b) = 1 ∧ w.trace.count (Event.evaluate b) = 1 := by
  have h1 := hinv.evals b
  have h2 := hinv.pushes b
  simp only [hpool, List.count_nil, Nat.add_zero] at h1
  simp only at h2
  rw [if_pos ⟨hb, hl, hs, hn⟩] at h2
  exact ⟨h2, by rw [h1, h2]⟩

theorem pass_noop_not_pushed {w : EvalWorld} (hinv : Inv (w, [])) {b : Nat}
    (hn : (w.graph.node b).is_noop = true) : w.trace.count (Event.push b) = 0 := by
  have h2 := hinv.pushes b
  simp only at h2
  rw [h2, if_neg]
  rintro ⟨-, -, -, h⟩
  rw [hn] at h
  cases h

@[simp] theorem mk_relation_from_type (a b f : Nat) :
    (mk_relation a b f).from_type = DEG_NODE_TYPE_OPERATION := rfl

@[simp] theorem mk_relation_from (a b f : Nat) : (mk_relation a b f).from_ = a := rfl

@[simp] theorem mk_relation_to (a b f : Nat) : (mk_relation a b f).to_ = b := rfl

@[simp] theorem mk_relation_flag (a b f : Nat) : (mk_relation a b f).flag = f := rfl

@[simp] theorem mk_operation_inlinks (t : eDepsNode_Type) (v : Bool) (f : Nat)
    (i o : List DepsRelation) (e : Bool) : (mk_operation t v f i o e).inlinks = i := rfl

@[simp] theorem mk_operation_outlinks (t : eDepsNode_Type) (v : Bool) (f : Nat)
    (i o : List DepsRelation) (e : Bool) : (mk_operation t v f i o e).outlinks = o := rfl

@[simp] theorem mk_operation_flag (t : eDepsNode_Type) (v : Bool) (f : Nat)
    (i o : List DepsRelation) (e : Bool) : (mk_operation t v f i o e).flag = f := rfl

@[simp] theorem mk_operation_owner (t : eDepsNode_Type) (v : Bool) (f : Nat)
    (i o : List DepsRelation) (e : Bool) :
    (mk_operation t v f i o e).owner = { type := t, owner := { is_visible := v } } := rfl

@[simp] theorem mk_operation_is_noop (t : eDepsNode_Type) (v : Bool) (f : Nat)
    (i o : List DepsRelation) (e : Bool) : (mk_operation t v f i o e).is_noop = !e := rfl

/-- The three outcomes of the action of `schedule_node`: nothing is dispatched,
the node is processed as a no-op, or the node is pushed. -/
theorem node_action_shape (w : EvalWorld) (n : Nat) (dec : Bool) :
    ((node_action w n dec).1.pool = w.pool ∧ (node_action w n dec).1.trace = w.trace ∧
      (node_action w n dec).2 = [] ∧
      ∀ m, ((node_action w n dec).1.graph.node m).scheduled = (w.graph.node m).scheduled) ∨
    ((w.graph.node n).scheduled = false ∧ (node_action w n dec).1.pool = w.pool ∧
      (node_action w n dec).1.trace = w.trace ++ [Event.children n] ∧
      ∀ m, ((node_action w n dec).1.graph.node m).scheduled =
        if m = n then true else (w.graph.node m).scheduled) ∨
    ((w.graph.node n).scheduled = false ∧ (node_action w n dec).1.pool = w.pool ++ [n] ∧
      (node_action w n dec).1.trace = w.trace ++ [Event.push n] ∧
      ∀ m, ((node_action w n dec).1.graph.node m).scheduled =
        if m = n then true else (w.graph.node m).scheduled) := by
  cases hl : is_live w.graph n
  · rw [node_action_not_live w n dec hl]
    exact Or.inl ⟨rfl, rfl, rfl, fun _ => rfl⟩
  · rw [node_action_live w n dec hl _ rfl]
    generalize (if dec = true then
        ((w.graph.node n).num_links_pending + UINT32_SIZE - 1) % UINT32_SIZE
      else (w.graph.node n).num_links_pending) = p
    split_ifs with h1 h2 h3
    · refine Or.inl ⟨rfl, rfl, rfl, fun m => ?_⟩
      simp only [setdyn_scheduled]
      split_ifs with hm
      · rw [hm]
      · rfl
    · refine Or.inl ⟨rfl, rfl, rfl, fun m => ?_⟩
      simp only [setdyn_scheduled]
      split_ifs with hm
      · rw [hm, h2]
      · rfl
    · exact Or.inr (Or.inl ⟨by simpa using h2, rfl, rfl, fun m => by simp only [setdyn_scheduled]⟩)
    · exact Or.inr (Or.inr ⟨by simpa using h2, rfl, rfl, fun m => by simp only [setdyn_scheduled]⟩)

theorem Once.action {w : EvalWorld} (h : Once w) (n : Nat) (dec : Bool) :
    Once (node_action w n dec).1 := by
  rcases node_action_shape w n dec with ⟨hp, ht, -, hs⟩ | ⟨hn, hp, ht, hs⟩ | ⟨hn, hp, ht, hs⟩
  · refine ⟨?_, ?_, ?_, ?_, ?_, ?_, ?_⟩
    · rw [hp]; exact h.pool_nodup
    · intro m hm
      rw [hp] at hm
      rw [hs, ht]
      exact h.pool_sched m hm
    · intro m hm
      rw [ht] at hm
      rw [hs]
      exact h.push_sched m hm
    · intro m hm
      rw [ht] at hm
      rw [hs]
      exact h.rel_sched m hm
    · intro m; rw [ht]; exact h.push_once m
    · intro m; rw [ht]; exact h.rel_once m
    · intro m; rw [ht, hp]; exact h.evals m
  · have hnot : Event.children n ∉ w.trace := fun hc => by
      have := h.rel_sched n hc
      rw [hn] at this
      cases this
    refine ⟨?_, ?_, ?_, ?_, ?_, ?_, ?_⟩
    · rw [hp]; exact h.pool_nodup
    · intro m hm
      rw [hp] at hm
      have hm1 := h.pool_sched m hm
      have hne : m ≠ n := fun e => by
        rw [e, hn] at hm1
        cases hm1.1
      rw [hs, ht, if_neg hne]
      refine ⟨hm1.1, ?_⟩
      simp only [List.mem_append, List.mem_singleton, Event.children.injEq, not_or]
      exact ⟨hm1.2, hne⟩
    · intro m hm
      rw [ht] at hm
      simp only [List.mem_append, List.mem_singleton, reduceCtorEq, or_false] at hm
      rw [hs]
      split_ifs
      · rfl
      · exact h.push_sched m hm
    · intro m hm
      rw [ht] at hm
      simp only [List.mem_append, List.mem_singleton, Event.children.injEq] at hm
      rw [hs]
      split_ifs with hmn
      · rfl
      · rcases hm with hm | hm
        · exact h.rel_sched m hm
        · exact absurd hm hmn
    · intro m
      rw [ht]
      simpa using h.push_once m
    · intro m
      rw [ht, List.count_append]
      by_cases hmn : m = n
      · subst hmn
        have := List.count_eq_zero_of_not_mem hnot
        simp [this]
      · have : List.count (Event.children m) [Event.children n] = 0 := by
          simp [List.count_singleton, Ne.symm hmn]
        rw [this]
        exact h.rel_once m
    · intro m
      rw [ht, hp]
      simpa using h.evals m
  · have hnotq : n ∉ w.pool := fun hc => by
      have := (h.pool_sched n hc).1
      rw [hn] at this
      cases this
    have hnotp : Event.push n ∉ w.trace := fun hc => by
      have := h.push_sched n hc
      rw [hn] at this
      cases this
    refine ⟨?_, ?_, ?_, ?_, ?_, ?_, ?_⟩
    · rw [hp]
      exact List.Nodup.append h.pool_nodup (List.nodup_singleton n)
        (fun a ha hb => by
          rw [List.mem_singleton] at hb
          exact hnotq (hb ▸ ha))
    · intro m hm
      rw [hp] at hm
      simp only [List.mem_append, List.mem_singleton] at hm
      rw [hs, ht]
      split_ifs with hmn
      · refine ⟨rfl, ?_⟩
        subst hmn
        simp only [List.mem_append, List.mem_singleton, reduceCtorEq, or_false]
        intro hc
        have := h.rel_sched m hc
        rw [hn] at this
        cases this
      · rcases hm with hm | hm
        · have hm1 := h.pool_sched m hm
          refine ⟨hm1.1, ?_⟩
          simp only [List.mem_append, List.mem_singleton, reduceCtorEq, or_false]
          exact hm1.2
        · exact absurd hm hmn
    · intro m hm
      rw [ht] at hm
      simp only [List.mem_append, List.mem_singleton, Event.push.injEq] at hm
      rw [hs]
      split_ifs with hmn
      · rfl
      · rcases hm with hm | hm
        · exact h.push_sched m hm
        · exact absurd hm hmn
    · intro m hm
      rw [ht] at hm
      simp only [List.mem_append, List.mem_singleton, reduceCtorEq, or_false] at hm
      rw [hs]
      split_ifs
      · rfl
      · exact h.rel_sched m hm
    · intro m
      rw [ht, List.count_append]
      by_cases hmn : m = n
      · subst hmn
        have := List.count_eq_zero_of_not_mem hnotp
        simp [this]
      · have : List.count (Event.push m) [Event.push n] = 0 := by
          simp [List.count_singleton, Ne.symm hmn]
        rw [this]
        exact h.push_once m
    · intro m
      rw [ht]
      simpa using h.rel_once m
    · intro m
      have := h.evals m
      rw [ht, hp, List.count_append, List.count_append, List.count_append]
      by_cases hmn : m = n
      · subst hmn
        simp
        omega
      · have h1 : List.count (Event.push m) [Event.push n] = 0 := by
          simp [List.count_singleton, Ne.symm hmn]
        have h2 : List.count m [n] = 0 := by
          simp [List.count_singleton, Ne.symm hmn]
        rw [h1, h2]
        simpa using this

theorem Once.task_once {w : EvalWorld} (h : Once w) {n : Nat} (hn : n ∈ w.pool) :
    Once { w with pool := w.pool.erase n,
                  trace := w.trace ++ [Event.evaluate n, Event.children n] } := by
  have hq := h.pool_sched n hn
  refine ⟨?_, ?_, ?_, ?_, ?_, ?_, ?_⟩
  · exact h.pool_nodup.erase n
  · intro m hm
    have hm1 := (h.pool_nodup.mem_erase_iff).1 hm
    have hm2 := h.pool_sched m hm1.2
    refine ⟨hm2.1, ?_⟩
    simp only [List.mem_append, List.mem_cons, reduceCtorEq, Event.children.injEq,
      List.mem_singleton, false_or, not_or, List.not_mem_nil, or_false]
    exact ⟨hm2.2, hm1.1⟩
  · intro m hm
    simp only [List.mem_append, List.mem_cons, reduceCtorEq, List.mem_singleton, or_false,
      List.not_mem_nil] at hm
    exact h.push_sched m hm
  · intro m hm
    simp only [List.mem_append, List.mem_cons, reduceCtorEq, Event.children.injEq,
      List.mem_singleton, false_or, List.not_mem_nil, or_false] at hm
    rcases hm with hm | hm
    · exact h.rel_sched m hm
    · rw [hm]; exact hq.1
  · intro m
    simpa using h.push_once m
  · intro m
    simp only [List.count_append]
    by_cases hmn : m = n
    · subst hmn
      have := List.count_eq_zero_of_not_mem hq.2
      simp [this]
    · have : List.count (Event.children m) [Event.evaluate n, Event.children n] = 0 := by
        simp [List.count_cons, Ne.symm hmn]
      rw [this]
      exact h.rel_once m
  · intro m
    have := h.evals m
    simp only [List.count_append]
    by_cases hmn : m = n
    · subst hmn
      have h1 : List.count m w.pool = 1 := List.count_eq_one_of_mem h.pool_nodup hn
      rw [List.count_erase_self]
      simp
      omega
    · rw [List.count_erase_of_ne hmn]
      have h1 : List.count (Event.evaluate m) [Event.evaluate n, Event.children n] = 0 := by
        simp [List.count_cons, Ne.symm hmn]
      have h2 : List.count (Event.push m) [Event.evaluate n, Event.children n] = 0 := by
        simp [List.count_cons]
      rw [h1, h2]
      simpa using this

theorem Once.step_once {c c1 : EvalWorld × List DepsRelation} (hs : Step c c1)
    (h : Once c.1) : Once c1.1 := by
  cases hs with
  | seed w n hn => exact h.action n false
  | skip w r st hsch => exact h
  | visit w r st hsch => exact h.action _ _
  | task w n hn => exact h.task_once hn

theorem Once.steps_once {c c1 : EvalWorld × List DepsRelation}
    (hs : Relation.ReflTransGen Step c c1) (h : Once c.1) : Once c1.1 := by
  induction hs with
  | refl => exact h
  | tail _ hstep ih => exact Once.step_once hstep ih

theorem Once.init_once (g : Depsgraph) :
    Once ({ graph := g, pool := [], trace := [] } : EvalWorld) := by
  refine ⟨List.nodup_nil, ?_, ?_, ?_, ?_, ?_, ?_⟩ <;> intro n <;> simp

/-- At-most-once bookkeeping holds after a pass over any graph. -/
theorem Once.pass_once {g : Depsgraph} {fuel : Nat} {picks : List Nat} {w : EvalWorld}
    (h : evaluate_pass fuel g picks = some w) : Once w :=
  Once.steps_once (evaluate_pass_steps fuel g picks w h) (Once.init_once _)

theorem Registered.step_reg {c c1 : EvalWorld × List DepsRelation} (hs : Step c c1)
    (hc : Closed c.1.graph) (h : Registered c) : Registered c1 := by
  have hops : c1.1.graph.operations = c.1.graph.operations := hs.static.1
  cases hs with
  | seed w n hn =>
    refine ⟨fun m hm => ?_, fun r hr => ?_⟩
    · rw [hops]
      rcases node_action_pool w n false with hp | ⟨hp, -⟩
      · rw [hp] at hm
        exact h.1 m hm
      · rw [hp, List.mem_append, List.mem_singleton] at hm
        rcases hm with hm | hm
        · exact h.1 m hm
        · rw [hm]; exact hn
    · rw [hops]
      exact hc n hn r (node_action_links w n false r hr)
  | skip w r st hsch =>
    exact ⟨h.1, fun x hx => h.2 x (List.mem_cons_of_mem _ hx)⟩
  | visit w r st hsch =>
    have hn : r.to_ ∈ w.graph.operations := h.2 r (List.mem_cons_self _ _)
    refine ⟨fun m hm => ?_, fun x hx => ?_⟩
    · rw [hops]
      rcases node_action_pool w r.to_ (rel_noncyclic r) with hp | ⟨hp, -⟩
      · rw [hp] at hm
        exact h.1 m hm
      · rw [hp, List.mem_append, List.mem_singleton] at hm
        rcases hm with hm | hm
        · exact h.1 m hm
        · rw [hm]; exact hn
    · rw [hops]
      rcases List.mem_append.1 hx with hx | hx
      · exact hc _ hn x (node_action_links w _ _ x hx)
      · exact h.2 x (List.mem_cons_of_mem _ hx)
  | task w n hn =>
    refine ⟨fun m hm => h.1 m (List.mem_of_mem_erase hm), fun x hx => ?_⟩
    exact hc n (h.1 n hn) x hx

theorem Registered.steps_reg {c c1 : EvalWorld × List DepsRelation}
    (hs : Relation.ReflTransGen Step c c1) (hc : Closed c.1.graph) (h : Registered c) :
    Registered c1 := by
  induction hs with
  | refl => exact h
  | tail hs1 hstep ih =>
    exact Registered.step_reg hstep ((Steps.static_eq hs1).closed_of hc) ih

/-- On a closed graph the drain returns when the fuel covers the operations. -/
theorem work_and_wait_returns (fuel : Nat) :
    ∀ (picks : List Nat) (w : EvalWorld), Closed w.graph →
      (∀ n ∈ w.pool, n ∈ w.graph.operations) → w.graph.operations.length ≤ fuel →
        ∃ w1, BLI_task_pool_work_and_wait fuel w picks = some w1 := by
  intro picks
  induction picks with
  | nil => exact fun w _ _ _ => ⟨w, rfl⟩
  | cons k rest ih =>
    intro w hc hq hf
    simp only [BLI_task_pool_work_and_wait]
    cases hk : w.pool[k % w.pool.length]? with
    | none => exact ⟨w, rfl⟩
    | some n =>
      simp only
      have hn : n ∈ w.pool := List.getElem?_mem hk
      have hreg : Registered
          (({ w with pool := w.pool.erase n,
                     trace := w.trace ++ [Event.evaluate n, Event.children n] } : EvalWorld),
            (w.graph.node n).outlinks) :=
        Registered.step_reg (Step.task w n hn) hc ⟨hq, fun r hr => by cases hr⟩
      have hex : ∃ w2, deg_task_run_func fuel { w with pool := w.pool.erase n } n = some w2 := by
        rw [deg_task_run_func_eq]
        exact loop_total fuel _ _ hc hreg.2 (le_trans (unscheduled_le_length _) hf)
      obtain ⟨w2, hw2⟩ := hex
      rw [hw2]
      simp only
      rw [deg_task_run_func_eq] at hw2
      have hsteps := loop_steps fuel _ _ _ [] hw2
      rw [List.append_nil] at hsteps
      have hreg2 := Registered.steps_reg hsteps hc hreg
      have hst := Steps.static_eq hsteps
      apply ih w2 (hst.closed_of hc) hreg2.1
      rw [hst.1]
      exact hf

/-- On a closed graph a pass returns when the fuel covers the operations. -/
theorem evaluate_pass_returns (g : Depsgraph) (hc : Closed g) (fuel : Nat)
    (picks : List Nat) (hf : g.operations.length ≤ fuel) :
    ∃ w, evaluate_pass fuel g picks = some w := by
  have hc0 : Closed (init_graph g) := (init_graph_static g).closed_of hc
  obtain ⟨w2, hw2⟩ := schedule_graph_loop_total fuel (init_graph g).operations
    { graph := init_graph g, pool := [], trace := [] } hc0 (fun _ hn => hn) hf
  have hsteps := schedule_graph_loop_steps fuel _ _ w2 (fun _ hn => hn) hw2
  have hreg := Registered.steps_reg hsteps hc0
    ⟨fun n hn => (by cases hn), fun r hr => (by cases hr)⟩
  have hst := Steps.static_eq hsteps
  obtain ⟨w3, hw3⟩ := work_and_wait_returns fuel picks w2 (hst.closed_of hc0) hreg.1
    (by rw [hst.1]; exact hf)
  refine ⟨w3, ?_⟩
  unfold evaluate_pass schedule_graph
  rw [initialize_execution_eq]
  simp only [hw2]
  exact hw3

theorem ParentTwoChildren.mem {g : Depsgraph} {p c1 c2 : Nat}
    (h : ParentTwoChildren g p c1 c2) (n : Nat) :
    n ∈ g.operations ↔ n = p ∨ n = c1 ∨ n = c2 := by
  rw [h.2.1.mem_iff]
  simp

theorem ParentTwoChildren.wf {g : Depsgraph} {p c1 c2 : Nat}
    (h : ParentTwoChildren g p c1 c2) : WellFormed g := by
  obtain ⟨⟨h1, h2, h3⟩, -, -, ⟨hpi, hpo⟩, ⟨h1i, h1o⟩, ⟨h2i, h2o⟩⟩ := id h
  have hmem := h.mem
  have hnc : ∀ a b, rel_noncyclic (mk_relation a b 0) = true := by
    intro a b
    simp [rel_noncyclic, DEPSREL_FLAG_CYCLIC]
  refine ⟨?_, ?_, ?_⟩
  · intro a ha r hr
    rcases (hmem a).1 ha with rfl | rfl | rfl
    · rw [hpo] at hr
      simp only [List.mem_cons, List.mem_singleton, List.not_mem_nil, or_false] at hr
      rcases hr with rfl | rfl
      · exact (hmem _).2 (Or.inr (Or.inl rfl))
      · exact (hmem _).2 (Or.inr (Or.inr rfl))
    · rw [h1o] at hr
      cases hr
    · rw [h2o] at hr
      cases hr
  · intro b hb r hr _
    rcases (hmem b).1 hb with rfl | rfl | rfl
    · rw [hpi] at hr
      cases hr
    · rw [h1i, List.mem_singleton] at hr
      subst hr
      exact (hmem _).2 (Or.inl rfl)
    · rw [h2i, List.mem_singleton] at hr
      subst hr
      exact (hmem _).2 (Or.inl rfl)
  · intro a ha b hb
    rcases (hmem a).1 ha with rfl | rfl | rfl <;>
      rcases (hmem b).1 hb with rfl | rfl | rfl <;>
      simp [links_in, links_out, hpi, hpo, h1i, h1o, h2i, h2o, hnc, h1, h2, h3,
        Ne.symm h1, Ne.symm h2, Ne.symm h3]

theorem ParentTwoChildren.topo {g : Depsgraph} {p c1 c2 : Nat}
    (h : ParentTwoChildren g p c1 c2) : TopoRank g (fun n => if n = p then 0 else 1) := by
  obtain ⟨⟨h1, h2, h3⟩, -, -, ⟨hpi, hpo⟩, ⟨h1i, h1o⟩, ⟨h2i, h2o⟩⟩ := id h
  intro b hb r hr _ _
  rcases (h.mem b).1 hb with rfl | rfl | rfl
  · rw [hpi] at hr
    cases hr
  · rw [h1i, List.mem_singleton] at hr
    subst hr
    simp [Ne.symm h1]
  · rw [h2i, List.mem_singleton] at hr
    subst hr
    simp [Ne.symm h2]

theorem ParentTwoChildren.live {g : Depsgraph} {p c1 c2 : Nat}
    (h : ParentTwoChildren g p c1 c2) (n : Nat) (hn : n = p ∨ n = c1 ∨ n = c2) :
    is_live g n = decide (((g.node n).flag &&& DEPSOP_FLAG_NEEDS_UPDATE) ≠ 0) := by
  have := h.2.2.1 n (by simpa using hn)
  simp [is_live, check_operation_node_visible, this.1, this.2.1]

theorem clear_bit_and (f m : Nat) : (f ^^^ (f &&& m)) &&& m = 0 := by
  apply Nat.eq_of_testBit_eq
  intro i
  simp only [Nat.testBit_and, Nat.testBit_xor, Nat.zero_testBit]
  cases f.testBit i <;> cases m.testBit i <;> rfl

theorem clear_fold_operations (l : List Nat) (g : Depsgraph) :
    (l.foldl (fun g node => g.modify node fun x =>
      { x with flag := x.flag ^^^ (x.flag &&& DEPSOP_FLAG_NEEDS_UPDATE) }) g).operations =
      g.operations := by
  induction l generalizing g with
  | nil => rfl
  | cons a l ih =>
    rw [List.foldl_cons, ih]
    rfl

theorem clear_fold_flag (l : List Nat) (g : Depsgraph) (n : Nat)
    (h : n ∈ l ∨ ((g.node n).flag &&& DEPSOP_FLAG_NEEDS_UPDATE) = 0) :
    (((l.foldl (fun g node => g.modify node fun x =>
      { x with flag := x.flag ^^^ (x.flag &&& DEPSOP_FLAG_NEEDS_UPDATE) }) g).node n).flag &&&
        DEPSOP_FLAG_NEEDS_UPDATE) = 0 := by
  induction l generalizing g with
  | nil =>
    rcases h with h | h
    · cases h
    · exact h
  | cons a l ih =>
    rw [List.foldl_cons]
    apply ih
    by_cases hn : n = a
    · right
      subst hn
      simp only [Depsgraph.modify, if_true]
      exact clear_bit_and _ _
    · rcases h with h | h
      · rcases List.mem_cons.1 h with h | h
        · exact absurd h hn
        · exact Or.inl h
      · right
        simp only [Depsgraph.modify, if_neg hn]
        exact h

theorem deg_graph_clear_tags_operations (g : Depsgraph) :
    (deg_graph_clear_tags g).operations = g.operations :=
  clear_fold_operations g.operations g

theorem deg_graph_clear_tags_flag (g : Depsgraph) (n : Nat) (hn : n ∈ g.operations) :
    (((deg_graph_clear_tags g).node n).flag &&& DEPSOP_FLAG_NEEDS_UPDATE) = 0 :=
  clear_fold_flag g.operations g n (Or.inl hn)

theorem SameRelations.refl_same (g : Depsgraph) : SameRelations g g :=
  ⟨rfl, rfl, rfl, rfl, rfl, fun _ => ⟨rfl, rfl, rfl, rfl, rfl, rfl⟩⟩

theorem SameRelations.trans_same {g g1 g2 : Depsgraph} (h1 : SameRelations g g1)
    (h2 : SameRelations g1 g2) : SameRelations g g2 := by
  obtain ⟨a1, a2, a3, a4, a5, a6⟩ := h1
  obtain ⟨b1, b2, b3, b4, b5, b6⟩ := h2
  refine ⟨b1.trans a1, b2.trans a2, b3.trans a3, b4.trans a4, b5.trans a5, fun n => ?_⟩
  obtain ⟨c1, c2, c3, c4, c5, c6⟩ := a6 n
  obtain ⟨d1, d2, d3, d4, d5, d6⟩ := b6 n
  exact ⟨d1.trans c1, d2.trans c2, d3.trans c3, d4.trans c4, d5.trans c5, d6.trans c6⟩

theorem operation_tag_update_same (node : Nat) (g : Depsgraph) :
    SameRelations g (OperationDepsNode.tag_update node g) := by
  unfold OperationDepsNode.tag_update
  split_ifs with h
  · exact SameRelations.refl_same g
  · refine ⟨rfl, rfl, rfl, rfl, rfl, fun n => ?_⟩
    by_cases hn : n = node
    · subst hn
      simp [Depsgraph.modify]
    · simp [Depsgraph.modify, hn]

theorem id_tag_update_same (id_node : List Nat) (g : Depsgraph) :
    SameRelations g (IDDepsNode.tag_update id_node g) := by
  unfold IDDepsNode.tag_update
  induction id_node generalizing g with
  | nil => exact SameRelations.refl_same g
  | cons a l ih =>
    rw [List.foldl_cons]
    exact (operation_tag_update_same a g).trans_same (ih _)

theorem operation_tag_update_flag (node : Nat) (g : Depsgraph) (n : Nat)
    (h : n = node ∨ ((g.node n).flag &&& DEPSOP_FLAG_NEEDS_UPDATE) ≠ 0) :
    (((OperationDepsNode.tag_update node g).node n).flag &&& DEPSOP_FLAG_NEEDS_UPDATE) ≠ 0 := by
  unfold OperationDepsNode.tag_update
  split_ifs with h1
  · rcases h with h | h
    · rw [h]; exact h1
    · exact h
  · by_cases hn : n = node
    · subst hn
      simp only [Depsgraph.modify, if_true]
      have : (((g.node n).flag ||| DEPSOP_FLAG_NEEDS_UPDATE) &&& DEPSOP_FLAG_NEEDS_UPDATE) =
          DEPSOP_FLAG_NEEDS_UPDATE := by
        apply Nat.eq_of_testBit_eq
        intro i
        simp only [Nat.testBit_and, Nat.testBit_or]
        cases (g.node n).flag.testBit i <;> cases DEPSOP_FLAG_NEEDS_UPDATE.testBit i <;> rfl
      rw [this]
      decide
    · rcases h with h | h
      · exact absurd h hn
      · simp only [Depsgraph.modify, if_neg hn]
        exact h

theorem id_tag_update_flag (id_node : List Nat) (g : Depsgraph) (n : Nat)
    (h : n ∈ id_node ∨ ((g.node n).flag &&& DEPSOP_FLAG_NEEDS_UPDATE) ≠ 0) :
    (((IDDepsNode.tag_update id_node g).node n).flag &&& DEPSOP_FLAG_NEEDS_UPDATE) ≠ 0 := by
  unfold IDDepsNode.tag_update
  induction id_node generalizing g with
  | nil =>
    rcases h with h | h
    · cases h
    · exact h
  | cons a l ih =>
    rw [List.foldl_cons]
    apply ih
    rcases h with h | h
    · rcases List.mem_cons.1 h with h | h
      · exact Or.inr (operation_tag_update_flag a g n (Or.inl h))
      · exact Or.inl h
    · exact Or.inr (operation_tag_update_flag a g n (Or.inr h))

/-- Tagging operations that are all tagged changes nothing. -/
theorem id_tag_update_tagged (id_node : List Nat) (g : Depsgraph)
    (h : ∀ n ∈ id_node, ((g.node n).flag &&& DEPSOP_FLAG_NEEDS_UPDATE) ≠ 0) :
    IDDepsNode.tag_update id_node g = g := by
  unfold IDDepsNode.tag_update
  induction id_node generalizing g with
  | nil => rfl
  | cons a l ih =>
    rw [List.foldl_cons]
    have ha : OperationDepsNode.tag_update a g = g := by
      unfold OperationDepsNode.tag_update
      rw [if_pos (h a (List.mem_cons_self _ _))]
    rw [ha]
    exact ih g (fun n hn => h n (List.mem_cons_of_mem _ hn))

theorem tag_relations_update_same (g : Depsgraph) :
    SameRelations { g with need_update := true } (DEG_graph_tag_relations_update g) := by
  unfold DEG_graph_tag_relations_update
  simp only
  cases h : Depsgraph.find_id_node { g with need_update := true } g.scene with
  | none => exact SameRelations.refl_same _
  | some id_node => exact id_tag_update_same id_node _

theorem tag_relations_update_need_update (g : Depsgraph) :
    (DEG_graph_tag_relations_update g).need_update = true :=
  (tag_relations_update_same g).2.1

theorem tag_relations_update_eq (g : Depsgraph) :
    DEG_graph_tag_relations_update g =
      match g.id_hash g.scene with
      | some id_node => IDDepsNode.tag_update id_node { g with need_update := true }
      | none => { g with need_update := true } := rfl

/-- A graph with `need_update` set whose scene operations are tagged is left as
it is. -/
theorem tag_relations_update_fixed (g : Depsgraph) (hnu : g.need_update = true)
    (htag : ∀ id_node, g.id_hash g.scene = some id_node →
      ∀ n ∈ id_node, ((g.node n).flag &&& DEPSOP_FLAG_NEEDS_UPDATE) ≠ 0) :
    DEG_graph_tag_relations_update g = g := by
  have h1 : ({ g with need_update := true } : Depsgraph) = g := by
    cases g with
    | mk node ops tags nu ids sc phys =>
      simp only at hnu
      subst hnu
      rfl
  rw [tag_relations_update_eq, h1]
  cases hf : g.id_hash g.scene with
  | none => rfl
  | some id_node => exact id_tag_update_tagged id_node g (htag id_node hf)

theorem tag_relations_update_idem (g : Depsgraph) :
    DEG_graph_tag_relations_update (DEG_graph_tag_relations_update g) =
      DEG_graph_tag_relations_update g := by
  have hs := tag_relations_update_same g
  apply tag_relations_update_fixed _ (tag_relations_update_need_update g)
  intro id_node hf n hn
  have hid : (DEG_graph_tag_relations_update g).id_hash = g.id_hash := hs.2.2.1
  have hsc : (DEG_graph_tag_relations_update g).scene = g.scene := hs.2.2.2.1
  rw [hid, hsc] at hf
  have : DEG_graph_tag_relations_update g =
      IDDepsNode.tag_update id_node { g with need_update := true } := by
    rw [tag_relations_update_eq, hf]
  rw [this]
  exact id_tag_update_flag id_node _ n (Or.inl hn)

theorem set_physics_relations_get (g : Depsgraph) (type t : ePhysicsRelationType)
    (hash : Option GHash) :
    (g.set_physics_relations type hash).physics_relations t =
      if t = type then hash else g.physics_relations t := rfl

theorem set_physics_relations_set (g : Depsgraph) (type : ePhysicsRelationType)
    (h1 h2 : Option GHash) :
    (g.set_physics_relations type h1).set_physics_relations type h2 =
      g.set_physics_relations type h2 := by
  unfold Depsgraph.set_physics_relations
  simp only
  congr 1
  funext t
  by_cases ht : t = type <;> simp [ht]

theorem BLI_ghash_lookup_insert (hash : GHash) (key val : Nat) :
    BLI_ghash_lookup (BLI_ghash_insert hash key val) key = val := by
  simp [BLI_ghash_lookup, BLI_ghash_insert, List.find?]

theorem deg_build_effector_relations_eq (w : PhysicsWorld) (collection : Nat) :
    deg_build_effector_relations w collection =
      deg_build_relations DEG_PHYSICS_EFFECTOR
        (fun w => BKE_effector_relations_create w collection) w collection := rfl

theorem deg_build_collision_relations_eq (w : PhysicsWorld) (collection modifier_type : Nat)
    (h : modifier_to_relation_type modifier_type ≠ DEG_PHYSICS_RELATIONS_NUM) :
    deg_build_collision_relations w collection modifier_type =
      some (deg_build_relations (modifier_to_relation_type modifier_type)
        (fun w => BKE_collision_relations_create w collection modifier_type) w collection) := by
  unfold deg_build_collision_relations deg_build_relations
  simp only [h, if_false]
  split_ifs <;> rfl

/-- The shared part of the cache helpers, by cases on the cached value: a value
that is not NULL is returned and only the hash of the slot is made; otherwise
the constructor runs and its result is entered. -/
theorem deg_build_relations_cases (type : ePhysicsRelationType)
    (create : PhysicsWorld → Nat × PhysicsWorld) (w : PhysicsWorld) (collection : Nat) :
    (cached_relations w.graph type collection ≠ NULL ∧
      (deg_build_relations type create w collection).1 =
        cached_relations w.graph type collection ∧
      (deg_build_relations type create w collection).2.created = w.created ∧
      (deg_build_relations type create w collection).2.freed = w.freed ∧
      ∃ hash, (deg_build_relations type create w collection).2.graph =
        w.graph.set_physics_relations type (some hash) ∧
        BLI_ghash_lookup hash collection = cached_relations w.graph type collection) ∨
    (cached_relations w.graph type collection = NULL ∧
      ∃ hash, deg_build_relations type create w collection =
        ((create { w with graph := w.graph.set_physics_relations type (some hash) }).1,
          { (create { w with graph := w.graph.set_physics_relations type (some hash) }).2 with
            graph := (create { w with graph :=
                w.graph.set_physics_relations type (some hash) }).2.graph.set_physics_relations
              type (some (BLI_ghash_insert hash collection
                (create { w with graph :=
                  w.graph.set_physics_relations type (some hash) }).1)) })) := by
  unfold deg_build_relations cached_relations
  cases hs : w.graph.physics_relations type with
  | none =>
    right
    simp only [BLI_ghash_ptr_new, BLI_ghash_lookup, List.find?, if_true]
    exact ⟨trivial, [], rfl⟩
  | some hash =>
    simp only
    by_cases hl : BLI_ghash_lookup hash collection = NULL
    · right
      rw [if_pos hl]
      exact ⟨hl, hash, rfl⟩
    · left
      rw [if_neg hl]
      exact ⟨hl, rfl, rfl, rfl, hash, rfl, rfl⟩

theorem collision_type_known (modifier_type : Nat)
    (h : modifier_type = eModifierType_Collision ∨ modifier_type = eModifierType_Smoke ∨
      modifier_type = eModifierType_DynamicPaint) :
    modifier_to_relation_type modifier_type ≠ DEG_PHYSICS_RELATIONS_NUM := by
  rcases h with rfl | rfl | rfl <;> decide

/-- The constructor runs exactly when nothing is cached for the key. -/
theorem deg_build_relations_created (type : ePhysicsRelationType)
    (create : PhysicsWorld → Nat × PhysicsWorld) (e : PhysicsCreate)
    (he : ∀ w1, (create w1).2.created = w1.created ++ [e]) (w : PhysicsWorld)
    (collection : Nat) :
    (deg_build_relations type create w collection).2.created =
      if cached_relations w.graph type collection = NULL then w.created ++ [e]
      else w.created := by
  rcases deg_build_relations_cases type create w collection with
    ⟨h0, -, h2, -⟩ | ⟨h0, hash, h1⟩
  · rw [if_neg h0, h2]
  · rw [if_pos h0, h1]
    exact he _

theorem clear_slot_created (w : PhysicsWorld) (type : ePhysicsRelationType) :
    (deg_clear_physics_relations_slot w type).created = w.created := by
  unfold deg_clear_physics_relations_slot
  cases w.graph.physics_relations type <;> rfl

theorem clear_slot_get (w : PhysicsWorld) (type t : ePhysicsRelationType) :
    (deg_clear_physics_relations_slot w type).graph.physics_relations t =
      if t = type then none else w.graph.physics_relations t := by
  unfold deg_clear_physics_relations_slot
  cases h : w.graph.physics_relations type with
  | none =>
    by_cases ht : t = type
    · rw [if_pos ht, ht]
      exact h
    · rw [if_neg ht]
  | some hash => rfl

theorem clear_slot_graph (w : PhysicsWorld) (type : ePhysicsRelationType) :
    (deg_clear_physics_relations_slot w type).graph.node = w.graph.node ∧
    (deg_clear_physics_relations_slot w type).graph.operations = w.graph.operations ∧
    (deg_clear_physics_relations_slot w type).graph.need_update = w.graph.need_update := by
  unfold deg_clear_physics_relations_slot
  cases w.graph.physics_relations type <;> exact ⟨rfl, rfl, rfl⟩

theorem deg_clear_physics_relations_created (w : PhysicsWorld) :
    (deg_clear_physics_relations w).created = w.created := by
  simp only [deg_clear_physics_relations, List.foldl_cons, List.foldl_nil, clear_slot_created]

theorem deg_clear_physics_relations_get (w : PhysicsWorld) (t : ePhysicsRelationType)
    (ht : t ≠ DEG_PHYSICS_RELATIONS_NUM) :
    (deg_clear_physics_relations w).graph.physics_relations t = none := by
  simp only [deg_clear_physics_relations, List.foldl_cons, List.foldl_nil, clear_slot_get]
  cases t <;> simp at ht ⊢

theorem deg_clear_physics_relations_cached (w : PhysicsWorld) (t : ePhysicsRelationType)
    (ht : t ≠ DEG_PHYSICS_RELATIONS_NUM) (collection : Nat) :
    cached_relations (deg_clear_physics_relations w).graph t collection = NULL := by
  unfold cached_relations
  rw [deg_clear_physics_relations_get w t ht]

theorem tag_layer_view_layers (scene : Scene) (view_layer : Nat) :
    (DEG_relations_tag_update_layer scene view_layer).view_layers = scene.view_layers := by
  unfold DEG_relations_tag_update_layer BKE_scene_get_depsgraph
  cases scene.depsgraph_hash view_layer <;> rfl

theorem tag_layer_hash (scene : Scene) (view_layer k : Nat) :
    (DEG_relations_tag_update_layer scene view_layer).depsgraph_hash k =
      if k = view_layer then (scene.depsgraph_hash k).map DEG_graph_tag_relations_update
      else scene.depsgraph_hash k := by
  unfold DEG_relations_tag_update_layer BKE_scene_get_depsgraph
  cases h : scene.depsgraph_hash view_layer with
  | none =>
    by_cases hk : k = view_layer
    · subst hk
      simp [h]
    · simp [hk]
  | some g =>
    by_cases hk : k = view_layer
    · subst hk
      simp [h]
    · simp [hk]

/-- The walk over the view layers of a scene: every graph is the graph that was
stored for the key, tagged when the key is a view layer of the walk. -/
theorem tag_layers_hash (l : List Nat) (scene : Scene) (k : Nat) :
    (l.foldl DEG_relations_tag_update_layer scene).view_layers = scene.view_layers ∧
    ((l.foldl DEG_relations_tag_update_layer scene).depsgraph_hash k).isSome =
      (scene.depsgraph_hash k).isSome ∧
    (k ∉ l → (l.foldl DEG_relations_tag_update_layer scene).depsgraph_hash k =
      scene.depsgraph_hash k) ∧
    (k ∈ l → ∀ g1, (l.foldl DEG_relations_tag_update_layer scene).depsgraph_hash k = some g1 →
      ∃ g, scene.depsgraph_hash k = some g ∧ g1 = DEG_graph_tag_relations_update g) := by
  induction l generalizing scene with
  | nil => exact ⟨rfl, rfl, fun _ => rfl, fun h => by cases h⟩
  | cons a l ih =>
    rw [List.foldl_cons]
    obtain ⟨h1, h2, h3, h4⟩ := ih (DEG_relations_tag_update_layer scene a)
    have hh := tag_layer_hash scene a k
    refine ⟨h1.trans (tag_layer_view_layers scene a), ?_, ?_, ?_⟩
    · rw [h2, hh]
      split_ifs <;> simp
    · intro hk
      have hka : k ≠ a := fun e => hk (e ▸ List.mem_cons_self _ _)
      rw [h3 (fun hm => hk (List.mem_cons_of_mem _ hm)), hh, if_neg hka]
    · intro hk g1 hg1
      by_cases hkl : k ∈ l
      · obtain ⟨g, hg, he⟩ := h4 hkl g1 hg1
        rw [hh] at hg
        by_cases hka : k = a
        · rw [if_pos hka] at hg
          cases hs : scene.depsgraph_hash k with
          | none => simp [hs] at hg
          | some g0 =>
            simp only [hs, Option.map_some', Option.some.injEq] at hg
            refine ⟨g0, rfl, ?_⟩
            rw [he, ← hg, tag_relations_update_idem]
        · rw [if_neg hka] at hg
          exact ⟨g, hg, he⟩
      · have hka : k = a := by
          rcases List.mem_cons.1 hk with h | h
          · exact h
          · exact absurd h hkl
        rw [h3 hkl, hh, if_pos hka] at hg1
        cases hs : scene.depsgraph_hash k with
        | none => simp [hs] at hg1
        | some g0 =>
          simp only [hs, Option.map_some', Option.some.injEq] at hg1
          exact ⟨g0, rfl, hg1.symm⟩

theorem countP_mid {α : Type} (p : α → Bool) (l1 l2 : List α) (t : α) :
    (l1 ++ t :: l2).countP p = l1.countP p + l2.countP p + if p t = true then 1 else 0 := by
  rw [List.countP_append, List.countP_cons]
  omega

theorem dec_pending (p : Nat) (h1 : 0 < p) (h2 : p < UINT32_SIZE) :
    (p + UINT32_SIZE - 1) % UINT32_SIZE = p - 1 := by
  unfold UINT32_SIZE at *
  omega

/-- The invariant with the counts over the other threads made explicit. -/
theorem ReleaseInv.iff_mid (rest : Nat) (s : ReleaseState) (l1 l2 : List ReleaseThread)
    (t : ReleaseThread) (hs : s.threads = l1 ++ t :: l2) :
    ReleaseInv rest s ↔
      (s.num_links_pending = rest + (l1.countP ReleaseThread.undecremented +
        l2.countP ReleaseThread.undecremented + if t.undecremented = true then 1 else 0)) ∧
      s.num_links_pending < UINT32_SIZE ∧
      (s.scheduled = true ∨ 0 < l1.countP ReleaseThread.saw_zero +
        l2.countP ReleaseThread.saw_zero + (if t.saw_zero = true then 1 else 0) →
          s.num_links_pending = 0) ∧
      (l1.countP (fun t => decide (t.pc = ReleasePc.at_dispatch)) +
        l2.countP (fun t => decide (t.pc = ReleasePc.at_dispatch)) +
        (if decide (t.pc = ReleasePc.at_dispatch) = true then 1 else 0) + s.dispatched =
          if s.scheduled = true then 1 else 0) ∧
      (s.num_links_pending = 0 → s.scheduled = false →
        0 < l1.countP ReleaseThread.active + l2.countP ReleaseThread.active +
          if t.active = true then 1 else 0) := by
  constructor
  · rintro ⟨hA, hb, hB, hC, hD⟩
    rw [hs] at hA hB hC hD
    simp only [countP_mid] at hA hB hC hD
    exact ⟨hA, hb, hB, hC, hD⟩
  · rintro ⟨hA, hb, hB, hC, hD⟩
    refine ⟨?_, hb, ?_, ?_, ?_⟩
    · rw [hs, countP_mid]; exact hA
    · rw [hs, countP_mid]; exact hB
    · rw [hs, countP_mid]; exact hC
    · rw [hs, countP_mid]; exact hD

/-- The invariant with explicit counts, as a predicate of the shared fields,
the counts over the other threads and the thread that steps. -/
theorem thread_step_counts (rest a z d c : Nat) (s : ReleaseState) (t : ReleaseThread)
    (hA : s.num_links_pending = rest + (a + if t.undecremented = true then 1 else 0))
    (hb : s.num_links_pending < UINT32_SIZE)
    (hB : s.scheduled = true ∨ 0 < z + (if t.saw_zero = true then 1 else 0) →
      s.num_links_pending = 0)
    (hC : d + (if decide (t.pc = ReleasePc.at_dispatch) = true then 1 else 0) + s.dispatched =
      if s.scheduled = true then 1 else 0)
    (hD : s.num_links_pending = 0 → s.scheduled = false →
      0 < c + if t.active = true then 1 else 0) :
    ((thread_step s t).1.num_links_pending =
      rest + (a + if (thread_step s t).2.undecremented = true then 1 else 0)) ∧
    (thread_step s t).1.num_links_pending < UINT32_SIZE ∧
    ((thread_step s t).1.scheduled = true ∨
      0 < z + (if (thread_step s t).2.saw_zero = true then 1 else 0) →
        (thread_step s t).1.num_links_pending = 0) ∧
    (d + (if decide ((thread_step s t).2.pc = ReleasePc.at_dispatch) = true then 1 else 0) +
      (thread_step s t).1.dispatched = if (thread_step s t).1.scheduled = true then 1 else 0) ∧
    ((thread_step s t).1.num_links_pending = 0 → (thread_step s t).1.scheduled = false →
      0 < c + if (thread_step s t).2.active = true then 1 else 0) := by
  obtain ⟨p, sch, disp, ths⟩ := s
  obtain ⟨dec, pc⟩ := t
  simp only at hA hb hB hC hD
  cases pc
  · cases sch <;> cases dec <;>
      simp [thread_step, ReleaseThread.undecremented, ReleaseThread.saw_zero,
        ReleaseThread.active] at hA hB hC hD ⊢ <;> omega
  · cases dec
    · cases sch <;>
        simp [thread_step, ReleaseThread.undecremented, ReleaseThread.saw_zero,
          ReleaseThread.active] at hA hB hC hD ⊢ <;> omega
    · have hpos : 0 < p := by
        simp [ReleaseThread.undecremented] at hA
        omega
      have hdec := dec_pending p hpos hb
      cases sch <;>
        simp [thread_step, ReleaseThread.undecremented, ReleaseThread.saw_zero,
          ReleaseThread.active, hdec] at hA hB hC hD ⊢ <;> omega
  · by_cases hp : p = 0 <;> cases sch <;> cases dec <;>
      simp [thread_step, ReleaseThread.undecremented, ReleaseThread.saw_zero,
        ReleaseThread.active, hp] at hA hB hC hD ⊢ <;> omega
  · cases sch <;> cases dec <;>
      simp [thread_step, ReleaseThread.undecremented, ReleaseThread.saw_zero,
        ReleaseThread.active] at hA hB hC hD ⊢ <;> omega
  · cases sch <;> cases dec <;>
      simp [thread_step, ReleaseThread.undecremented, ReleaseThread.saw_zero,
        ReleaseThread.active] at hA hB hC hD ⊢ <;> omega
  · cases sch <;> cases dec <;>
      simp [thread_step, ReleaseThread.undecremented, ReleaseThread.saw_zero,
        ReleaseThread.active] at hA hB hC hD ⊢ <;> omega

theorem set_mid {α : Type} (l : List α) (i : Nat) (t t1 : α) (h : l[i]? = some t) :
    ∃ l1 l2, l = l1 ++ t :: l2 ∧ l.set i t1 = l1 ++ t1 :: l2 := by
  induction l generalizing i with
  | nil => simp at h
  | cons a l ih =>
    cases i with
    | zero =>
      simp only [List.getElem?_cons_zero, Option.some.injEq] at h
      subst h
      exact ⟨[], l, rfl, rfl⟩
    | succ i =>
      simp only [List.getElem?_cons_succ] at h
      obtain ⟨l1, l2, h1, h2⟩ := ih i h
      exact ⟨a :: l1, l2, by rw [h1]; rfl, by rw [List.set_cons_succ, h2]; rfl⟩

/-- A step of any thread keeps the invariant. -/
theorem ReleaseInv.step_inv {rest : Nat} {s : ReleaseState} (h : ReleaseInv rest s) (i : Nat) :
    ReleaseInv rest (release_step s i) := by
  unfold release_step
  cases hi : s.threads[i]? with
  | none => exact h
  | some t =>
    simp only
    obtain ⟨l1, l2, h1, h2⟩ := set_mid s.threads i t (thread_step s t).2 hi
    obtain ⟨hA, hb, hB, hC, hD⟩ := (ReleaseInv.iff_mid rest s l1 l2 t h1).1 h
    have key := thread_step_counts rest _ _ _ _ s t hA hb hB hC hD
    exact (ReleaseInv.iff_mid rest _ l1 l2 (thread_step s t).2 h2).2 key

theorem ReleaseInv.run_inv {rest : Nat} (schedule : List Nat) {s : ReleaseState}
    (h : ReleaseInv rest s) : ReleaseInv rest (release_run s schedule) := by
  unfold release_run
  induction schedule generalizing s with
  | nil => exact h
  | cons i l ih =>
    rw [List.foldl_cons]
    exact ih (h.step_inv i)

theorem ReleaseInv.init_inv (dec_parents : List Bool) (rest : Nat) (hne : dec_parents ≠ [])
    (hlt : rest + dec_parents.countP id < UINT32_SIZE) :
    ReleaseInv rest (release_init dec_parents rest) := by
  have h1 : ∀ l : List Bool, (l.map fun d =>
      ({ dec_parents := d, pc := ReleasePc.at_child_scheduled } : ReleaseThread)).countP
        ReleaseThread.undecremented = l.countP id := by
    intro l
    induction l with
    | nil => rfl
    | cons a l ih =>
      rw [List.map_cons, List.countP_cons, List.countP_cons, ih]
      cases a <;> simp [ReleaseThread.undecremented]
  have h2 : ∀ l : List Bool, (l.map fun d =>
      ({ dec_parents := d, pc := ReleasePc.at_child_scheduled } : ReleaseThread)).countP
        ReleaseThread.active = l.length := by
    intro l
    induction l with
    | nil => rfl
    | cons a l ih =>
      rw [List.map_cons, List.countP_cons, ih]
      simp [ReleaseThread.active]
  have h3 : ∀ l : List Bool, (l.map fun d =>
      ({ dec_parents := d, pc := ReleasePc.at_child_scheduled } : ReleaseThread)).countP
        (fun t => decide (t.pc = ReleasePc.at_dispatch)) = 0 := by
    intro l
    induction l with
    | nil => rfl
    | cons a l ih =>
      rw [List.map_cons, List.countP_cons, ih]
      simp
  have h4 : ∀ l : List Bool, (l.map fun d =>
      ({ dec_parents := d, pc := ReleasePc.at_child_scheduled } : ReleaseThread)).countP
        ReleaseThread.saw_zero = 0 := by
    intro l
    induction l with
    | nil => rfl
    | cons a l ih =>
      rw [List.map_cons, List.countP_cons, ih]
      simp [ReleaseThread.saw_zero]
  refine ⟨?_, ?_, ?_, ?_, ?_⟩
  · simp only [release_init, h1]
  · simp only [release_init]
    exact hlt
  · simp only [release_init, h4]
    intro h
    rcases h with h | h
    · cases h
    · omega
  · simp only [release_init, h3]
    rfl
  · intro _ _
    simp only [release_init, h2]
    exact List.length_pos.2 hne

/-- Steps that the threads have still to take, at most. -/
theorem steps_left_step (s : ReleaseState) (t : ReleaseThread)
    (h : t.pc ≠ ReleasePc.finished) :
    (thread_step s t).2.steps_left < t.steps_left := by
  obtain ⟨p, sch, disp, ths⟩ := s
  obtain ⟨dec, pc⟩ := t
  cases pc <;> cases sch <;> cases dec <;>
    first
    | exact absurd rfl h
    | (by_cases hp : p = 0 <;> simp [thread_step, ReleaseThread.steps_left, hp])

theorem steps_left_sum (s : ReleaseState) (i : Nat) (t : ReleaseThread)
    (hi : s.threads[i]? = some t) (h : t.pc ≠ ReleasePc.finished) :
    ((release_step s i).threads.map ReleaseThread.steps_left).sum <
      (s.threads.map ReleaseThread.steps_left).sum := by
  unfold release_step
  simp only [hi]
  obtain ⟨l1, l2, h1, h2⟩ := set_mid s.threads i t (thread_step s t).2 hi
  rw [h2, h1]
  have := steps_left_step s t h
  simp only [List.map_append, List.map_cons, List.sum_append, List.sum_cons]
  omega

/-- From every state some schedule lets all threads finish. -/
theorem release_finishes (s : ReleaseState) :
    ∃ schedule, ∀ t ∈ (release_run s schedule).threads, t.pc = ReleasePc.finished := by
  suffices hsuff : ∀ k (s : ReleaseState), (s.threads.map ReleaseThread.steps_left).sum = k →
      ∃ schedule, ∀ t ∈ (release_run s schedule).threads, t.pc = ReleasePc.finished from
    hsuff _ s rfl
  intro k
  induction k using Nat.strong_induction_on with
  | _ k ih =>
    intro s hk
    by_cases hall : ∀ t ∈ s.threads, t.pc = ReleasePc.finished
    · exact ⟨[], hall⟩
    · simp only [not_forall] at hall
      obtain ⟨t, ht, hpc⟩ := hall
      obtain ⟨i, hi⟩ := List.mem_iff_getElem?.1 ht
      have hlt := steps_left_sum s i t hi hpc
      obtain ⟨schedule, hs⟩ := ih _ (by rw [← hk]; exact hlt) (release_step s i) rfl
      exact ⟨i :: schedule, hs⟩

theorem countP_eq_zero_of_finished (l : List ReleaseThread)
    (h : ∀ t ∈ l, t.pc = ReleasePc.finished) (p : ReleaseThread → Bool)
    (hp : ∀ t : ReleaseThread, t.pc = ReleasePc.finished → p t = false) :
    l.countP p = 0 := by
  rw [List.countP_eq_zero]
  intro t ht
  rw [hp t (h t ht)]
  exact Bool.false_ne_true

/-- After the shared part of the cache helpers the slot holds a hash in which
the key is mapped to the list that was returned; the other slots are as the
constructor left them. -/
theorem deg_build_relations_slot (type : ePhysicsRelationType)
    (create : PhysicsWorld → Nat × PhysicsWorld)
    (hc : ∀ w, (create w).2.graph = w.graph) (w : PhysicsWorld) (collection : Nat) :
    (∃ hash, (deg_build_relations type create w collection).2.graph.physics_relations type =
        some hash ∧
      BLI_ghash_lookup hash collection = (deg_build_relations type create w collection).1) ∧
    ∀ t, t ≠ type →
      (deg_build_relations type create w collection).2.graph.physics_relations t =
        w.graph.physics_relations t := by
  have key : ∀ (g : Depsgraph) (h : GHash),
      (g.set_physics_relations type (some h)).physics_relations type = some h :=
    fun g h => by simp only [set_physics_relations_get, if_true]
  unfold deg_build_relations
  simp only
  split_ifs with hl
  · refine ⟨⟨_, key _ _, BLI_ghash_lookup_insert _ _ _⟩, fun t ht => ?_⟩
    simp only [set_physics_relations_get, if_neg ht, hc]
  · refine ⟨⟨_, key _ _, rfl⟩, fun t ht => ?_⟩
    simp only [set_physics_relations_get, if_neg ht]

theorem BLI_ghash_lookup_absent (hash : GHash) (key : Nat) (h : ∀ e ∈ hash, e.1 ≠ key) :
    BLI_ghash_lookup hash key = NULL := by
  unfold BLI_ghash_lookup
  have : hash.find? (fun e => e.1 == key) = none := by
    rw [List.find?_eq_none]
    intro e he
    simpa using h e he
  rw [this]

/-- The loop of `DEG_add_collision_relations` appends, for the listed objects
that differ from `object` and pass the filter, a Transform and a Geometry
relation each, in the order of the list. -/
theorem collision_body_foldl (modifiers_findByType : Nat → Nat → Nat)
    (object modifier_type : Nat) (fn : Option (Nat → Nat → Bool)) (name : Nat)
    (l : List Nat) (handle : DepsNodeHandle) :
    (l.foldl (DEG_add_collision_relations_body modifiers_findByType object modifier_type fn
        name) handle).relations =
      handle.relations ++
        (collision_sources modifiers_findByType object modifier_type fn l).flatMap fun ob1 =>
          [(({ id := ob1, type := DEG_NODE_TYPE_TRANSFORM } : ComponentKey), name),
           ({ id := ob1, type := DEG_NODE_TYPE_GEOMETRY }, name)] := by
  unfold collision_sources
  cases fn with
  | none =>
    induction l generalizing handle with
    | nil => simp
    | cons ob1 l ih =>
      rw [List.foldl_cons, ih]
      by_cases h1 : ob1 = object
      · simp [DEG_add_collision_relations_body, h1, List.filter_cons]
      · simp [DEG_add_collision_relations_body, h1, List.filter_cons,
          DEG_add_object_relation, add_node_handle_relation, deg_build_object_component_type,
          DEG_OB_COMP_TRANSFORM, DEG_OB_COMP_GEOMETRY, DEG_OB_COMP_PARAMETERS,
          DEG_OB_COMP_PROXY, DEG_OB_COMP_ANIMATION]
  | some f =>
    induction l generalizing handle with
    | nil => simp
    | cons ob1 l ih =>
      rw [List.foldl_cons, ih]
      by_cases h1 : ob1 = object
      · simp [DEG_add_collision_relations_body, h1, List.filter_cons]
      · by_cases h2 : f ob1 (modifiers_findByType ob1 modifier_type) = true
        · simp [DEG_add_collision_relations_body, h1, h2, List.filter_cons,
            DEG_add_object_relation, add_node_handle_relation,
            deg_build_object_component_type, DEG_OB_COMP_TRANSFORM, DEG_OB_COMP_GEOMETRY,
            DEG_OB_COMP_PARAMETERS, DEG_OB_COMP_PROXY, DEG_OB_COMP_ANIMATION]
        · simp [DEG_add_collision_relations_body, h1, h2, List.filter_cons]

theorem node_action_tasks (w : EvalWorld) (n : Nat) (dec : Bool) :
    tasks_run (node_action w n dec).1.trace = tasks_run w.trace := by
  rcases node_action_trace w n dec with h | ⟨h, -⟩ | ⟨h, -⟩ <;> rw [h] <;>
    simp [tasks_run, List.countP_append]

/-- Tasks run, queued tasks and unscheduled operations together never grow. -/
theorem Step.tasks_le {c c1 : EvalWorld × List DepsRelation} (hs : Step c c1)
    (h : Registered c) :
    tasks_run c1.1.trace + drain_measure c1.1 ≤ tasks_run c.1.trace + drain_measure c.1 := by
  cases hs with
  | seed w n hn =>
    have := (node_action_measure w n false hn).1
    show tasks_run (node_action w n false).1.trace + drain_measure (node_action w n false).1 ≤
      tasks_run w.trace + drain_measure w
    rw [node_action_tasks]
    omega
  | skip w r st hsch => exact le_refl _
  | visit w r st hsch =>
    have := (node_action_measure w r.to_ (rel_noncyclic r)
      (h.2 r (List.mem_cons_self _ _))).1
    show tasks_run (node_action w r.to_ (rel_noncyclic r)).1.trace +
        drain_measure (node_action w r.to_ (rel_noncyclic r)).1 ≤
      tasks_run w.trace + drain_measure w
    rw [node_action_tasks]
    omega
  | task w n hn =>
    have hp : 0 < w.pool.length := List.length_pos_of_mem hn
    simp only [drain_measure, List.length_erase_of_mem hn, tasks_run, List.countP_append,
      List.countP_cons, List.countP_nil]
    simp only [if_true, Bool.false_eq_true, if_false]
    omega

theorem Steps.tasks_mono {c c1 : EvalWorld × List DepsRelation}
    (hs : Relation.ReflTransGen Step c c1) (hc : Closed c.1.graph) (h : Registered c) :
    tasks_run c1.1.trace + drain_measure c1.1 ≤ tasks_run c.1.trace + drain_measure c.1 := by
  induction hs with
  | refl => exact le_refl _
  | tail hs1 hstep ih =>
    exact le_trans (hstep.tasks_le (Registered.steps_reg hs1 hc h)) ih

/-- A pass over a closed graph runs at most as many tasks as there are
operations. -/
theorem pass_tasks_le {g : Depsgraph} (hc : Closed g) {fuel : Nat} {picks : List Nat}
    {w : EvalWorld} (h : evaluate_pass fuel g picks = some w) :
    tasks_run w.trace ≤ g.operations.length := by
  have hsteps := evaluate_pass_steps fuel g picks w h
  have hc0 : Closed (init_graph g) := (init_graph_static g).closed_of hc
  have := Steps.tasks_mono hsteps hc0
    ⟨fun n hn => (by cases hn), fun r hr => (by cases hr)⟩
  have hu := unscheduled_le_length (init_graph g)
  rw [(init_graph_static g).1] at hu
  simp only [drain_measure, tasks_run, List.countP_nil, List.length_nil] at this hu ⊢
  omega

theorem PassState.inv {g : Depsgraph} {c : EvalWorld × List DepsRelation}
    (h : PassState g c) (hw : WellFormed g) : Inv c := by
  unfold PassState at h
  rw [initialize_execution_eq] at h
  exact (Inv.init g hw).steps h

theorem PassState.pass_static_eq {g : Depsgraph} {c : EvalWorld × List DepsRelation}
    (h : PassState g c) : StaticEq g c.1.graph := by
  unfold PassState at h
  rw [initialize_execution_eq] at h
  exact (init_graph_static g).trans (Steps.static_eq h)

/-- The final state of a pass is a configuration of the pass. -/
theorem PassState.of_pass {g : Depsgraph} {fuel : Nat} {picks : List Nat} {w : EvalWorld}
    (h : evaluate_pass fuel g picks = some w) : PassState g (w, []) := by
  unfold PassState
  rw [initialize_execution_eq]
  exact evaluate_pass_steps fuel g picks w h

/-- The counter of a registered operation never exceeds the number of its
counted inbound relations. -/
theorem Inv.pending_le {w : EvalWorld} {st : List DepsRelation} (h : Inv (w, st)) {b : Nat}
    (hb : b ∈ w.graph.operations) :
    (w.graph.node b).num_links_pending ≤ counted_inlinks w.graph b := by
  cases hl : is_live w.graph b
  · rw [(h.idle b hb hl).2]
    exact Nat.zero_le _
  · cases hs : (w.graph.node b).scheduled
    · have h0 := h.pending_unsched b hb hl hs
      have h1 := h.debt_le b hb
      have h2 := unreleased_add_released w.graph w.trace b
      simp only at h0 h1 h2
      rw [h0]
      exact le_trans (Nat.mod_le _ _) (by omega)
    · rw [h.pending_sched b hb hl hs]
      exact Nat.zero_le _

/-- The counter of an unscheduled target of a pending non-cyclic relation is
positive when its counted inbound relations fit the counter. -/
theorem Inv.pending_pos {w : EvalWorld} {r : DepsRelation} {st : List DepsRelation}
    (h : Inv (w, r :: st)) (hl : is_live w.graph r.to_ = true)
    (hu : (w.graph.node r.to_).scheduled = false) (hnc : rel_noncyclic r = true)
    (hc : counted_inlinks w.graph r.to_ < UINT32_SIZE) :
    0 < (w.graph.node r.to_).num_links_pending := by
  have hb := h.stack_ok r (List.mem_cons_self _ _)
  have h0 := h.pending_unsched r.to_ hb hl hu
  have h1 := h.debt_le r.to_ hb
  have h2 := unreleased_add_released w.graph w.trace r.to_
  have h3 : 1 ≤ debt (r :: st) r.to_ := by
    rw [debt_cons]
    simp [hnc]
  simp only at h0 h1 h2 h3 hb hc
  rw [h0, Nat.mod_eq_of_lt (by omega)]
  omega

theorem StaticEq.Parent {g g1 : Depsgraph} (h : StaticEq g g1) : Parent g1 = Parent g := by
  funext a b
  simp only [DEG.Parent, (h.2 b).2.2.1, h.rel_counted]

/-- A stuck operation has a counted parent that is stuck. -/
theorem Stuck.parent {g : Depsgraph} {b : Nat} (h : Stuck g b) :
    ∃ a, Parent g a b ∧ Stuck g a := by
  obtain ⟨c, hcyc, hpath⟩ := h
  rcases Relation.ReflTransGen.cases_tail hpath with heq | ⟨a, hca, hab⟩
  · subst heq
    obtain ⟨a, hba, hab⟩ := Relation.TransGen.tail'_iff.1 hcyc
    exact ⟨a, hab, b, hcyc, hba⟩
  · exact ⟨a, hab, c, hcyc, hca⟩

/-- A child of a stuck operation is stuck. -/
theorem Stuck.child {g : Depsgraph} {a b : Nat} (h : Stuck g a) (hp : Parent g a b) :
    Stuck g b := by
  obtain ⟨c, hcyc, hpath⟩ := h
  exact ⟨c, hcyc, hpath.tail hp⟩

/-- In the record of a pass no stuck operation is dispatched, the counted
inbound relations of the registered operations fitting the counter. -/
theorem Inv.stuck_prefix {w : EvalWorld} (h : Inv (w, []))
    (hlt : ∀ b ∈ w.graph.operations, counted_inlinks w.graph b < UINT32_SIZE) :
    ∀ t1 t2, w.trace = t1 ++ t2 → ∀ e ∈ t1, ∀ b, Stuck w.graph b →
      ¬ is_dispatch w.graph b e := by
  intro t1
  induction t1 using List.reverseRecOn with
  | nil =>
    intro t2 _ e he
    cases he
  | append_singleton u x ih =>
    intro t2 heq e he b hb hd
    have heq1 : w.trace = u ++ x :: t2 := by rw [heq]; simp
    rcases List.mem_append.1 he with he | he
    · exact ih (x :: t2) heq1 e he b hb hd
    · rw [List.mem_singleton] at he
      subst he
      have hmem : e ∈ w.trace := by rw [heq1]; simp
      have hbo : b ∈ w.graph.operations := by
        rcases hd with hd | ⟨-, hd⟩
        · subst hd
          have h1 := h.pushes b
          have h2 : 0 < w.trace.count (Event.push b) := List.count_pos_iff.2 hmem
          simp only at h1
          by_contra hn
          rw [if_neg (fun hc => hn hc.1)] at h1
          omega
        · subst hd
          exact (h.released_ok b (by simpa [released] using hmem)).1
      obtain ⟨a, ⟨r, hr, hcnt, hfrom⟩, hsa⟩ := hb.parent
      have hch := h.order u e t2 b heq1 hd (hlt b hbo) r hr hcnt
      rw [hfrom] at hch
      obtain ⟨u1, u2, hu⟩ := List.append_of_mem hch
      have heq2 : w.trace = u1 ++ Event.children a :: (u2 ++ e :: t2) := by
        rw [heq1, hu]; simp
      obtain ⟨e1, he1, hd1⟩ := h.disp u1 _ a heq2
      have he1u : e1 ∈ u := by
        rw [hu]
        rcases List.mem_append.1 he1 with h3 | h3
        · exact List.mem_append_left _ h3
        · rw [List.mem_singleton] at h3
          subst h3
          simp
      exact ih (e :: t2) heq1 e1 he1u a hsa hd1

/-- After a pass a stuck operation has no event in the record and is not
scheduled. -/
theorem Inv.stuck_idle {w : EvalWorld} (h : Inv (w, []))
    (hlt : ∀ b ∈ w.graph.operations, counted_inlinks w.graph b < UINT32_SIZE)
    {b : Nat} (hb : Stuck w.graph b) :
    Event.push b ∉ w.trace ∧ Event.evaluate b ∉ w.trace ∧ Event.children b ∉ w.trace ∧
      b ∉ w.pool ∧ (b ∈ w.graph.operations → (w.graph.node b).scheduled = false) := by
  have hno : ∀ e ∈ w.trace, ¬ is_dispatch w.graph b e :=
    fun e he => h.stuck_prefix hlt w.trace [] (by simp) e he b hb
  have hpush : Event.push b ∉ w.trace := fun hm => hno _ hm (Or.inl rfl)
  have hch : Event.children b ∉ w.trace := by
    intro hm
    obtain ⟨u1, u2, hu⟩ := List.append_of_mem hm
    obtain ⟨e1, he1, hd1⟩ := h.disp u1 u2 b hu
    apply hno e1 _ hd1
    rw [hu]
    rcases List.mem_append.1 he1 with h3 | h3
    · exact List.mem_append_left _ h3
    · rw [List.mem_singleton] at h3
      subst h3
      simp
  have hpool : b ∉ w.pool := fun hm => hpush (h.pool_ok b hm).2.2.2.2.2
  refine ⟨hpush, ?_, hch, hpool, fun hbo => ?_⟩
  · intro hm
    have h1 := h.evals b
    have h2 : 0 < w.trace.count (Event.evaluate b) := List.count_pos_iff.2 hm
    have h3 : w.trace.count (Event.push b) = 0 := List.count_eq_zero.2 hpush
    simp only at h1
    omega
  · cases hs : (w.graph.node b).scheduled
    · rfl
    · exfalso
      cases hl : is_live w.graph b
      · have := (h.idle b hbo hl).1
        rw [hs] at this
        cases this
      · rcases h.sched_ok b hbo hl hs with h1 | h1
        · exact hpool h1
        · exact hch (by simpa [released] using h1)

/-- In a quiescent state every live registered operation whose counted
ancestors are well founded is scheduled. -/
theorem quiescent_scheduled_acc {w : EvalWorld} (h : Inv (w, []))
    (hr : Ready w.graph.operations (w, [])) (hpool : w.pool = [])
    (hsrc : ∀ b ∈ w.graph.operations, ∀ r ∈ (w.graph.node b).inlinks,
      r.from_type = DEG_NODE_TYPE_OPERATION → r.from_ ∈ w.graph.operations) :
    ∀ b, Acc (Parent w.graph) b → b ∈ w.graph.operations → is_live w.graph b = true →
      (w.graph.node b).scheduled = true := by
  intro b hacc
  induction hacc with
  | intro b _ ih =>
    intro hb hl
    by_contra hs
    have hs : (w.graph.node b).scheduled = false := by simpa using hs
    have hp := h.pending_unsched b hb hl hs
    have hu : unreleased_inlinks w.graph w.trace b = 0 := by
      unfold unreleased_inlinks
      rw [List.countP_eq_zero]
      intro r hrin hcr
      simp only [Bool.and_eq_true, Bool.not_eq_true'] at hcr
      obtain ⟨hcnt, hnr⟩ := hcr
      have hcnt1 := hcnt
      simp only [rel_counted, Bool.and_eq_true, decide_eq_true_eq] at hcnt1
      obtain ⟨⟨hop, -⟩, hlive⟩ := hcnt1
      have hfrom := hsrc b hb r hrin hop
      have hsf := ih r.from_ ⟨r, hrin, hcnt, rfl⟩ hfrom hlive
      rcases h.sched_ok r.from_ hfrom hlive hsf with h1 | h1
      · rw [hpool] at h1
        cases h1
      · rw [hnr] at h1
        cases h1
    simp only at hp
    rw [hu] at hp
    have hp0 : (w.graph.node b).num_links_pending = 0 := by
      rw [hp]
      simp [debt]
    have := hr b hb hl hp0
    rw [hs] at this
    cases this

/-- On a well-formed graph the counted ancestors of a registered operation that
is not stuck are well founded. -/
theorem acc_of_not_stuck {g : Depsgraph} (hw : WellFormed g) {b : Nat}
    (hb : b ∈ g.operations) (hns : ¬ Stuck g b) : Acc (Parent g) b := by
  have hreg : ∀ a y, y ∈ g.operations → Parent g a y → a ∈ g.operations := by
    intro a y hy ⟨r, hr, hcnt, hfrom⟩
    simp only [rel_counted, Bool.and_eq_true, decide_eq_true_eq] at hcnt
    rw [← hfrom]
    exact hw.2.1 y hy r hr hcnt.1.1
  let R : {x // x ∈ g.operations} → {x // x ∈ g.operations} → Prop :=
    fun x y => Parent g x.1 y.1 ∧ ¬ Stuck g y.1
  have hlift : ∀ x y, Relation.TransGen R x y → Relation.TransGen (Parent g) x.1 y.1 := by
    intro x y hxy
    induction hxy with
    | single h1 => exact Relation.TransGen.single h1.1
    | tail _ h1 ih => exact ih.tail h1.1
  have hlast : ∀ x y, Relation.TransGen R x y → ¬ Stuck g y.1 := by
    intro x y hxy
    cases hxy with
    | single h1 => exact h1.2
    | tail _ h1 => exact h1.2
  haveI : IsIrrefl {x // x ∈ g.operations} (Relation.TransGen R) :=
    ⟨fun x hxx => hlast x x hxx ⟨x.1, hlift x x hxx, Relation.ReflTransGen.refl⟩⟩
  haveI : IsTrans {x // x ∈ g.operations} (Relation.TransGen R) :=
    ⟨fun _ _ _ => Relation.TransGen.trans⟩
  have hwf : WellFounded (Relation.TransGen R) := Finite.wellFounded_of_trans_of_irrefl _
  have hwfR : WellFounded R :=
    Subrelation.wf (fun h1 => Relation.TransGen.single h1) hwf
  have key : ∀ y : {x // x ∈ g.operations}, Acc R y → ¬ Stuck g y.1 → Acc (Parent g) y.1 := by
    intro y hy
    induction hy with
    | intro y _ ih =>
      intro hny
      refine Acc.intro _ fun a ha => ?_
      exact ih ⟨a, hreg a y.1 y.2 ha⟩ ⟨ha, hny⟩ (fun hsa => hny (hsa.child ha))
  exact key ⟨b, hb⟩ (hwfR.apply _) hns

/-- The final state of a complete pass: a registered operation is scheduled
exactly when it is visible (or Copy-on-Write), tagged and not stuck. -/
theorem quiescent_scheduled_iff {g : Depsgraph} (hw : WellFormed g)
    (hlt : ∀ b ∈ g.operations, counted_inlinks g b < UINT32_SIZE) {w : EvalWorld}
    (hinv : Inv (w, [])) (hst : StaticEq g w.graph) (hr : Ready g.operations (w, []))
    (hpool : w.pool = []) {b : Nat} (hb : b ∈ g.operations) :
    (w.graph.node b).scheduled = true ↔ (is_live g b = true ∧ ¬ Stuck g b) := by
  have hops : w.graph.operations = g.operations := hst.1
  have hlt1 : ∀ b ∈ w.graph.operations, counted_inlinks w.graph b < UINT32_SIZE := by
    intro x hx
    rw [hst.counted_inlinks]
    exact hlt x (by rw [← hops]; exact hx)
  constructor
  · intro hs
    constructor
    · cases hl : is_live g b
      · have := (hinv.idle b (by rw [hops]; exact hb) (by rw [hst.is_live]; exact hl)).1
        rw [hs] at this
        cases this
      · rfl
    · intro hstuck
      have := (hinv.stuck_idle hlt1 (b := b)
        (by unfold Stuck at hstuck ⊢; rw [hst.Parent]; exact hstuck)).2.2.2.2
        (by rw [hops]; exact hb)
      rw [hs] at this
      cases this
  · rintro ⟨hl, hns⟩
    have hacc := acc_of_not_stuck hw hb hns
    rw [← hst.Parent] at hacc
    exact quiescent_scheduled_acc hinv (by rw [hops]; exact hr) hpool
      (hst.WellFormed hw).2.1 b hacc (by rw [hops]; exact hb) (by rw [hst.is_live]; exact hl)

/-- The final state of a complete pass over a well-formed graph whose counted
inbound relations fit the counter, in terms of the graph alone. -/
theorem pass_final {g : Depsgraph} (hw : WellFormed g)
    (hlt : ∀ b ∈ g.operations, counted_inlinks g b < UINT32_SIZE) {fuel : Nat}
    {picks : List Nat} {w : EvalWorld} (hpass : evaluate_pass fuel g picks = some w)
    (hpool : w.pool = []) :
    (∀ b ∈ g.operations,
      (w.graph.node b).scheduled = true ↔ (is_live g b = true ∧ ¬ Stuck g b)) ∧
    (∀ b, Event.children b ∈ w.trace ↔
      (b ∈ g.operations ∧ is_live g b = true ∧ ¬ Stuck g b)) ∧
    (∀ b, Event.push b ∈ w.trace ↔
      ((b ∈ g.operations ∧ is_live g b = true ∧ ¬ Stuck g b) ∧ (g.node b).is_noop = false)) ∧
    (∀ b, Event.evaluate b ∈ w.trace ↔
      ((b ∈ g.operations ∧ is_live g b = true ∧ ¬ Stuck g b) ∧ (g.node b).is_noop = false)) ∧
    (∀ b, w.trace.count (Event.push b) ≤ 1 ∧ w.trace.count (Event.evaluate b) ≤ 1 ∧
      w.trace.count (Event.children b) ≤ 1) ∧
    (∀ b ∈ g.operations, (w.graph.node b).num_links_pending =
      if is_live g b = true ∧ (w.graph.node b).scheduled = false then
        unreleased_inlinks g w.trace b % UINT32_SIZE
      else 0) := by
  have hinv := Inv.pass hw hpass
  have hst := pass_static hpass
  have hready := pass_ready hpass
  have hops : w.graph.operations = g.operations := hst.1
  have hsch : ∀ b ∈ g.operations,
      (w.graph.node b).scheduled = true ↔ (is_live g b = true ∧ ¬ Stuck g b) :=
    fun b hb => quiescent_scheduled_iff hw hlt hinv hst hready hpool hb
  have hch : ∀ b, Event.children b ∈ w.trace ↔
      (b ∈ g.operations ∧ is_live g b = true ∧ ¬ Stuck g b) := by
    intro b
    constructor
    · intro hm
      obtain ⟨h1, -, h3⟩ := hinv.released_ok b (by simpa [released] using hm)
      rw [hops] at h1
      exact ⟨h1, (hsch b h1).1 h3⟩
    · rintro ⟨hb, hl, hns⟩
      have hs := (hsch b hb).2 ⟨hl, hns⟩
      have := quiescent_released hinv hpool (by rw [hops]; exact hb)
        (by rw [hst.is_live]; exact hl) hs
      exact List.count_pos_iff.1 (by omega)
  have hpu : ∀ b, Event.push b ∈ w.trace ↔
      ((b ∈ g.operations ∧ is_live g b = true ∧ ¬ Stuck g b) ∧
        (g.node b).is_noop = false) := by
    intro b
    have h2 := hinv.pushes b
    simp only [hops, hst.is_live, hst.is_noop] at h2
    constructor
    · intro hm
      have hpos : 0 < w.trace.count (Event.push b) := List.count_pos_iff.2 hm
      by_cases hc : b ∈ g.operations ∧ is_live g b = true ∧
          (w.graph.node b).scheduled = true ∧ (g.node b).is_noop = false
      · exact ⟨⟨hc.1, (hsch b hc.1).1 hc.2.2.1⟩, hc.2.2.2⟩
      · rw [if_neg hc] at h2
        omega
    · rintro ⟨⟨hb, hl, hns⟩, hn⟩
      have hs := (hsch b hb).2 ⟨hl, hns⟩
      rw [if_pos ⟨hb, hl, hs, hn⟩] at h2
      exact List.count_pos_iff.1 (by omega)
  have hev : ∀ b, w.trace.count (Event.evaluate b) = w.trace.count (Event.push b) := by
    intro b
    have h1 := hinv.evals b
    simp only [hpool, List.count_nil, Nat.add_zero] at h1
    exact h1
  refine ⟨hsch, hch, hpu, fun b => ?_, fun b => ?_, fun b hb => ?_⟩
  · rw [← hpu b, ← List.count_pos_iff, ← List.count_pos_iff, hev b]
  · have h2 := hinv.pushes b
    have h3 := hinv.release_once b
    have h4 := hev b
    simp only at h2 h3
    refine ⟨?_, ?_, h3⟩
    · rw [h2]
      split_ifs <;> omega
    · rw [h4, h2]
      split_ifs <;> omega
  · have hb1 : b ∈ w.graph.operations := by rw [hops]; exact hb
    cases hl : is_live g b
    · simp only [Bool.false_eq_true, false_and, if_false]
      exact (hinv.idle b hb1 (by rw [hst.is_live]; exact hl)).2
    · have hl1 : is_live w.graph b = true := by rw [hst.is_live]; exact hl
      cases hs : (w.graph.node b).scheduled
      · have := hinv.pending_unsched b hb1 hl1 hs
        simp only [debt, List.countP_nil, Nat.add_zero] at this
        simp only [true_and, if_true]
        rw [this]
        simp only [unreleased_inlinks, (hst.2 b).2.2.1, hst.rel_counted]
      · simp only [Bool.true_eq_false, and_false, if_false]
        exact hinv.pending_sched b hb1 hl1 hs

theorem count_eq_of_mem_iff {α : Type} [DecidableEq α] (a : α) (l l1 : List α)
    (h : l.count a ≤ 1) (h1 : l1.count a ≤ 1) (hm : a ∈ l ↔ a ∈ l1) :
    l.count a = l1.count a := by
  by_cases ha : a ∈ l
  · have h2 := List.count_pos_iff.2 ha
    have h3 := List.count_pos_iff.2 (hm.1 ha)
    omega
  · rw [List.count_eq_zero.2 ha, List.count_eq_zero.2 (fun hc => ha (hm.2 hc))]

/-- A graph with the operations registered in another order is well formed
when the graph is. -/
theorem WellFormed.reorder {g : Depsgraph} (hw : WellFormed g) {ops : List Nat}
    (hperm : ops.Perm g.operations) : WellFormed { g with operations := ops } := by
  obtain ⟨h1, h2, h3⟩ := hw
  have hm : ∀ x, x ∈ ops ↔ x ∈ g.operations := fun x => hperm.mem_iff
  refine ⟨fun a ha r hr => ?_, fun b hb r hr hop => ?_, fun a ha b hb => ?_⟩
  · exact (hm _).2 (h1 a ((hm a).1 ha) r hr)
  · exact (hm _).2 (h2 b ((hm b).1 hb) r hr hop)
  · exact h3 a ((hm a).1 ha) b ((hm b).1 hb)

/-- The sources of the counted inbound relations of a scheduled operation have
released their children. -/
theorem Inv.scheduled_parents {w : EvalWorld} {st : List DepsRelation} (h : Inv (w, st))
    {b : Nat} (hb : b ∈ w.graph.operations) (hl : is_live w.graph b = true)
    (hs : (w.graph.node b).scheduled = true)
    (hc : counted_inlinks w.graph b < UINT32_SIZE) :
    ∀ r ∈ (w.graph.node b).inlinks, rel_counted w.graph r = true →
      released w.trace r.from_ = true := by
  intro r hr hcnt
  have hdisp : ∃ e ∈ w.trace, is_dispatch w.graph b e := by
    rcases h.sched_ok b hb hl hs with h1 | h1
    · exact ⟨Event.push b, (h.pool_ok b h1).2.2.2.2.2, Or.inl rfl⟩
    · have hm : Event.children b ∈ w.trace := by simpa [released] using h1
      obtain ⟨u1, u2, hu⟩ := List.append_of_mem hm
      obtain ⟨e, he, hd⟩ := h.disp u1 u2 b hu
      refine ⟨e, ?_, hd⟩
      rw [hu]
      rcases List.mem_append.1 he with h3 | h3
      · exact List.mem_append_left _ h3
      · rw [List.mem_singleton] at h3
        subst h3
        simp
  obtain ⟨e, he, hd⟩ := hdisp
  obtain ⟨t1, t2, ht⟩ := List.append_of_mem he
  have := h.order t1 e t2 b ht hd hc r hr hcnt
  simp only [released, decide_eq_true_eq]
  rw [ht]
  exact List.mem_append_left _ this

/-- An unscheduled operation whose counter is 0 has no unreleased counted
parent and no relation to it is still to be walked, its counted inbound
relations fitting the counter. -/
theorem Inv.zero_split {w : EvalWorld} {st : List DepsRelation} (h : Inv (w, st))
    {b : Nat} (hb : b ∈ w.graph.operations) (hl : is_live w.graph b = true)
    (hu : (w.graph.node b).scheduled = false) (hp : (w.graph.node b).num_links_pending = 0)
    (hc : counted_inlinks w.graph b < UINT32_SIZE) :
    unreleased_inlinks w.graph w.trace b = 0 ∧ debt st b = 0 := by
  have h0 := h.pending_unsched b hb hl hu
  have h1 := h.debt_le b hb
  have h2 := unreleased_add_released w.graph w.trace b
  simp only at h0 h1 h2
  rw [hp, Nat.mod_eq_of_lt (by omega)] at h0
  omega

/-- A relation in the outlinks of a live registered operation that is not
cyclic and leads to a registered operation is counted for its target. -/
theorem Inv.counted_of_outlink {w : EvalWorld} {st : List DepsRelation} (h : Inv (w, st))
    {n : Nat} (hn : n ∈ w.graph.operations) (hl : is_live w.graph n = true)
    {r : DepsRelation} (hr : r ∈ (w.graph.node n).outlinks) (hnc : rel_noncyclic r = true) :
    ∃ r1 ∈ (w.graph.node r.to_).inlinks, rel_counted w.graph r1 = true ∧ r1.from_ = n := by
  have hb : r.to_ ∈ w.graph.operations := h.closed n hn r hr
  have h1 := h.paired n hn r.to_ hb
  have h2 : 0 < links_out w.graph n r.to_ := by
    unfold links_out
    exact List.countP_pos_iff.2 ⟨r, hr, by simp [hnc]⟩
  simp only at h1
  rw [← h1] at h2
  unfold links_in at h2
  obtain ⟨r1, hr1, hp1⟩ := List.countP_pos_iff.1 h2
  simp only [Bool.and_eq_true, decide_eq_true_eq] at hp1
  refine ⟨r1, hr1, ?_, hp1.2⟩
  simp only [rel_counted, Bool.and_eq_true, decide_eq_true_eq]
  exact ⟨⟨hp1.1.1, hp1.1.2⟩, by rw [hp1.2]; exact hl⟩

theorem DebtFree.fire {w : EvalWorld} {st : List DepsRelation} (h : Inv (w, st))
    (hd : DebtFree (w, st)) {n : Nat} (hn : n ∈ w.graph.operations)
    (hl : is_live w.graph n = true) (hu : (w.graph.node n).scheduled = false)
    (hp : (w.graph.node n).num_links_pending = 0) (w1 : EvalWorld)
    (new : List DepsRelation) (hg : w1.graph = w.graph.setdyn n 0 true)
    (hnew : ∀ r ∈ new, r ∈ (w.graph.node n).outlinks) : DebtFree (w1, new ++ st) := by
  intro r hr hnc hlr hcr
  simp only [hg, setdyn_is_live, (StaticEq.setdyn w.graph n 0 true).counted_inlinks] at hlr hcr
  simp only [hg, setdyn_scheduled]
  have hrel := h.not_released hu
  rcases List.mem_append.1 hr with hr | hr
  · have hout := hnew r hr
    obtain ⟨r1, hr1, hcnt, hfrom⟩ := h.counted_of_outlink hn hl hout hnc
    have hb : r.to_ ∈ w.graph.operations := h.closed n hn r hout
    by_cases hbn : r.to_ = n
    · exfalso
      have hz := (h.zero_split hn hl hu hp (by rw [← hbn]; exact hcr)).1
      unfold unreleased_inlinks at hz
      rw [List.countP_eq_zero] at hz
      rw [hbn] at hr1
      apply hz r1 hr1
      simp [hcnt, hfrom, hrel]
    · rw [if_neg hbn]
      cases hs : (w.graph.node r.to_).scheduled
      · rfl
      · exfalso
        have := h.scheduled_parents hb hlr hs hcr r1 hr1 hcnt
        rw [hfrom, hrel] at this
        cases this
  · have hold := hd r hr hnc hlr hcr
    by_cases hbn : r.to_ = n
    · exfalso
      have hz := (h.zero_split hn hl hu hp (by rw [← hbn]; exact hcr)).2
      unfold debt at hz
      rw [List.countP_eq_zero] at hz
      apply hz r hr
      simp [hnc, hbn]
    · rw [if_neg hbn]
      exact hold

theorem DebtFree.visit_free {w : EvalWorld} {r : DepsRelation} {st : List DepsRelation}
    (h : Inv (w, r :: st)) (hd : DebtFree (w, r :: st))
    (hu : (w.graph.node r.to_).scheduled = false) :
    DebtFree ((node_action w r.to_ (rel_noncyclic r)).1,
      (node_action w r.to_ (rel_noncyclic r)).2 ++ st) := by
  have hn : r.to_ ∈ w.graph.operations := h.stack_ok r (List.mem_cons_self _ _)
  have hd0 : DebtFree (w, st) := fun x hx => hd x (List.mem_cons_of_mem _ hx)
  cases hl : is_live w.graph r.to_
  · rw [node_action_not_live w _ _ hl]
    exact hd0
  · have h1 := h.dec hl hu _ rfl
    rw [node_action_live w _ _ hl _ rfl]
    generalize (if rel_noncyclic r = true then
        ((w.graph.node r.to_).num_links_pending + UINT32_SIZE - 1) % UINT32_SIZE
      else (w.graph.node r.to_).num_links_pending) = p at h1 ⊢
    have hd1 : DebtFree (({ w with graph := w.graph.setdyn r.to_ p false } : EvalWorld),
        st) := by
      intro x hx hnc hlx hcx
      simp only [setdyn_is_live, (StaticEq.setdyn w.graph r.to_ p false).counted_inlinks]
        at hlx hcx
      have := hd0 x hx hnc hlx hcx
      simp only [setdyn_scheduled]
      split_ifs
      · rfl
      · exact this
    have hl1 : is_live (w.graph.setdyn r.to_ p false) r.to_ = true := by
      rw [setdyn_is_live]; exact hl
    have hu1 : ((w.graph.setdyn r.to_ p false).node r.to_).scheduled = false := by simp
    by_cases hp : p = 0
    · subst hp
      have hp1 : ((w.graph.setdyn r.to_ 0 false).node r.to_).num_links_pending = 0 := by simp
      simp only [ne_eq, not_true_eq_false, if_false, hu, Bool.false_eq_true]
      split_ifs with hnoop
      · exact DebtFree.fire h1 hd1 (n := r.to_) hn hl1 hu1 hp1 _ _
          (by simp [setdyn_setdyn]) (fun x hx => by simpa using hx)
      · have := DebtFree.fire h1 hd1 (n := r.to_) hn hl1 hu1 hp1
          ({ graph := w.graph.setdyn r.to_ 0 true, pool := w.pool ++ [r.to_],
             trace := w.trace ++ [Event.push r.to_] } : EvalWorld) []
          (by simp [setdyn_setdyn]) (fun x hx => by cases hx)
        simpa using this
    · simp only [ne_eq, hp, not_false_eq_true, if_true, hu, List.nil_append]
      exact hd1

theorem DebtFree.step_free {c c1 : EvalWorld × List DepsRelation} (hs : Step c c1) (h : Inv c)
    (hd : DebtFree c) : DebtFree c1 := by
  cases hs with
  | seed w n hn =>
    cases hsch : (w.graph.node n).scheduled
    · have hc : rel_noncyclic ⟨DEG_NODE_TYPE_UNDEFINED, 0, n, DEPSREL_FLAG_CYCLIC⟩ = false := by
        simp [rel_noncyclic, DEPSREL_FLAG_CYCLIC]
      have h0 := h.push_cyclic (r := ⟨DEG_NODE_TYPE_UNDEFINED, 0, n, DEPSREL_FLAG_CYCLIC⟩) hn hc
      have h1 := DebtFree.visit_free h0 (fun x hx => by cases hx with
        | head => intro hx1; rw [hc] at hx1; cases hx1
        | tail _ hx2 => cases hx2) hsch
      rw [hc, List.append_nil] at h1
      exact h1
    · rw [node_action_scheduled w n hsch]
      exact hd
  | skip w r st hsch => exact fun x hx => hd x (List.mem_cons_of_mem _ hx)
  | visit w r st hsch => exact DebtFree.visit_free h hd hsch
  | task w n hn =>
    intro r hr hnc hlr hcr
    obtain ⟨hno, hln, -, -, hrel, -⟩ := h.pool_ok n hn
    obtain ⟨r1, hr1, hcnt, hfrom⟩ := h.counted_of_outlink hno hln hr hnc
    cases hs : (w.graph.node r.to_).scheduled
    · rfl
    · exfalso
      have := h.scheduled_parents (h.closed n hno r hr) hlr hs hcr r1 hr1 hcnt
      rw [hfrom] at this
      simp only at hrel
      rw [hrel] at this
      cases this

theorem DebtFree.steps_free {c c1 : EvalWorld × List DepsRelation}
    (hs : Relation.ReflTransGen Step c c1) (h : Inv c) (hd : DebtFree c) : DebtFree c1 := by
  induction hs with
  | refl => exact hd
  | tail hs1 hstep ih => exact DebtFree.step_free hstep (h.steps hs1) ih

theorem PassState.debt_free {g : Depsgraph} {c : EvalWorld × List DepsRelation}
    (h : PassState g c) (hw : WellFormed g) : DebtFree c := by
  unfold PassState at h
  rw [initialize_execution_eq] at h
  exact DebtFree.steps_free h (Inv.init g hw) (fun r hr => by cases hr)

theorem TraceEval.snoc_eval {g : Depsgraph} {t : List Event} {x : Event} (h : TraceEval g t)
    (hx : ∀ a, x = Event.children a → (g.node a).is_noop = false → Event.evaluate a ∈ t) :
    TraceEval g (t ++ [x]) := by
  intro t1 t2 a heq hn
  rcases snoc_split heq with ⟨-, h1, h2⟩ | ⟨t3, -, h1⟩
  · subst h1
    exact hx a h2.symm hn
  · exact h t1 t3 a h1 hn

theorem TraceEval.action_eval {g : Depsgraph} {w : EvalWorld} (hst : StaticEq g w.graph)
    (h : TraceEval g w.trace) (n : Nat) (dec : Bool) :
    TraceEval g (node_action w n dec).1.trace := by
  rcases node_action_trace w n dec with h1 | ⟨h1, h2⟩ | ⟨h1, -⟩
  · rw [h1]
    exact h
  · rw [h1]
    refine h.snoc_eval fun a ha hn => ?_
    cases ha
    rw [← hst.is_noop, h2] at hn
    cases hn
  · rw [h1]
    exact h.snoc_eval fun a ha _ => by cases ha

theorem TraceEval.step_eval {g : Depsgraph} {c c1 : EvalWorld × List DepsRelation}
    (hs : Step c c1) (hst : StaticEq g c.1.graph) (h : TraceEval g c.1.trace) :
    TraceEval g c1.1.trace := by
  cases hs with
  | seed w n hn => exact TraceEval.action_eval hst h n false
  | skip w r st hsch => exact h
  | visit w r st hsch => exact TraceEval.action_eval hst h _ _
  | task w n hn =>
    have h1 : TraceEval g (w.trace ++ [Event.evaluate n]) :=
      h.snoc_eval fun a ha _ => by cases ha
    have h2 : TraceEval g ((w.trace ++ [Event.evaluate n]) ++ [Event.children n]) :=
      h1.snoc_eval fun a ha _ => by
        cases ha
        simp
    simpa using h2

theorem TraceEval.steps_eval {g : Depsgraph} {c c1 : EvalWorld × List DepsRelation}
    (hs : Relation.ReflTransGen Step c c1) (hst : StaticEq g c.1.graph)
    (h : TraceEval g c.1.trace) : TraceEval g c1.1.trace := by
  induction hs with
  | refl => exact h
  | tail hs1 hstep ih => exact TraceEval.step_eval hstep (hst.trans (Steps.static_eq hs1)) ih

/-- In the record of a pass the callback of an operation is invoked before the
operation enters `schedule_children`. -/
theorem pass_eval_before {g : Depsgraph} {fuel : Nat} {picks : List Nat} {w : EvalWorld}
    (h : evaluate_pass fuel g picks = some w) : TraceEval g w.trace :=
  TraceEval.steps_eval (evaluate_pass_steps fuel g picks w h) (init_graph_static g)
    (fun t1 t2 a heq => by simp at heq)

/-! ## Claims -/

/-- C3, the claim as stated fails: operation 1 of `example_untagged_child` is
not tagged, so `calculate_pending_func` leaves its counter at 0, while one
relation in its inlinks comes from an operation, is not cyclic, and has a
visible, tagged source. -/
theorem C3_counterexample :
    ((initialize_execution example_untagged_child).node 1).num_links_pending = 0 ∧
    ((example_untagged_child.node 1).inlinks.countP fun r =>
      decide (r.from_type = DEG_NODE_TYPE_OPERATION) &&
      decide ((r.flag &&& DEPSREL_FLAG_CYCLIC) = 0) &&
      (example_untagged_child.node r.from_).owner.owner.is_visible &&
      decide (((example_untagged_child.node r.from_).flag &&& DEPSOP_FLAG_NEEDS_UPDATE) ≠ 0)) = 1 := by
  decide

/-- C3, amended: after `initialize_execution`, a registered operation that is
visible (or Copy-on-Write) and tagged holds in `num_links_pending` the number,
modulo 2^32, of its inbound relations whose source is an operation, that are
not cyclic, and whose source is visible (or Copy-on-Write) and tagged; every
other registered operation holds 0. -/
theorem C3_pending_count (g : Depsgraph) (n : Nat) (hn : n ∈ g.operations) :
    ((initialize_execution g).node n).num_links_pending =
      if check_operation_node_visible (g.node n) = true ∧
          ((g.node n).flag &&& DEPSOP_FLAG_NEEDS_UPDATE) ≠ 0 then
        ((g.node n).inlinks.countP fun r =>
          decide (r.from_type = DEG_NODE_TYPE_OPERATION) &&
          decide ((r.flag &&& DEPSREL_FLAG_CYCLIC) = 0) &&
          (check_operation_node_visible (g.node r.from_) &&
            decide (((g.node r.from_).flag &&& DEPSOP_FLAG_NEEDS_UPDATE) ≠ 0))) % 4294967296
      else 0 := by
  rw [initialize_execution_eq]
  simp only [init_graph, init_graph_on, hn, if_true, pending_spec, counted_inlinks]
  by_cases h : is_live g n = true
  · rw [if_pos h, if_pos ((is_live_iff g n).1 h)]
    rfl
  · rw [if_neg h, if_neg (fun h1 => h ((is_live_iff g n).2 h1))]

/-- C3, the amended claim at operation 1 of `example_chain`: one counted
relation. -/
theorem C3_pending_count_witness :
    1 ∈ example_chain.operations ∧
      ((initialize_execution example_chain).node 1).num_links_pending = 1 :=
  ⟨by decide, (C3_pending_count example_chain 1 (by decide)).trans (by decide)⟩

/-- C1: ordering guarantee. In every pass over a well-formed graph, in any
order of the queued tasks, for every non-cyclic relation `r` from operation `a`
in the inlinks of `b`, `a` being visible (or Copy-on-Write) and tagged, every
dispatch of `b` (push to the pool, or synchronous processing of a no-op) comes
after `a` has entered `schedule_children`, after the callback of `a` was
invoked when `a` has one, and after the dispatch of `a`. The counted inbound
relations of `b` fit the 32-bit counter `num_links_pending`, a condition on the
representation of the graph. -/
theorem C1_dispatch_after_release (g : Depsgraph) (hw : WellFormed g) (fuel : Nat)
    (picks : List Nat) (w : EvalWorld) (h : evaluate_pass fuel g picks = some w)
    (a b : Nat) (r : DepsRelation) (hr : r ∈ (g.node b).inlinks)
    (hop : r.from_type = DEG_NODE_TYPE_OPERATION) (hfrom : r.from_ = a)
    (hnc : (r.flag &&& DEPSREL_FLAG_CYCLIC) = 0) (hla : is_live g a = true)
    (hlt : counted_inlinks g b < UINT32_SIZE)
    (t1 t2 : List Event) (e : Event) (ht : w.trace = t1 ++ e :: t2)
    (hd : is_dispatch g b e) :
    Event.children a ∈ t1 ∧ ((g.node a).is_noop = false → Event.evaluate a ∈ t1) ∧
      ∃ e1 ∈ t1, is_dispatch g a e1 := by
  have hinv := Inv.pass hw h
  have hst := pass_static h
  have hord := hst.TraceOrd _ hinv.order
  have hdisp := hst.TraceDisp _ hinv.disp
  have hcnt : rel_counted g r = true := by
    simp [rel_counted, rel_noncyclic, hop, hnc, hfrom, hla]
  have h1 : Event.children a ∈ t1 := by
    have := hord t1 e t2 b ht hd hlt r hr hcnt
    rw [hfrom] at this
    exact this
  obtain ⟨s1, s2, hs⟩ := List.append_of_mem h1
  refine ⟨h1, fun hn => ?_, ?_⟩
  · have := pass_eval_before h s1 (s2 ++ e :: t2) a (by rw [ht, hs]; simp) hn
    rw [hs]
    exact List.mem_append_left _ this
  obtain ⟨e1, he1, hd1⟩ := hdisp s1 (s2 ++ e :: t2) a (by rw [ht, hs]; simp)
  refine ⟨e1, ?_, hd1⟩
  rw [hs]
  rcases List.mem_append.1 he1 with h2 | h2
  · exact List.mem_append_left _ h2
  · rw [List.mem_singleton] at h2
    subst h2
    simp

/-- C1 on `example_chain`: the push of operation 1 comes after the callback of
operation 0 was invoked and operation 0 released its children. -/
theorem C1_dispatch_after_release_witness :
    WellFormed example_chain ∧
    (evaluate_pass 2 example_chain [0, 0]).map (fun w => w.trace) =
      some ([Event.push 0, Event.evaluate 0, Event.children 0] ++
        Event.push 1 :: [Event.evaluate 1, Event.children 1]) ∧
    (Event.children 0 ∈ [Event.push 0, Event.evaluate 0, Event.children 0] ∧
      ((example_chain.node 0).is_noop = false →
        Event.evaluate 0 ∈ [Event.push 0, Event.evaluate 0, Event.children 0]) ∧
      ∃ e1 ∈ [Event.push 0, Event.evaluate 0, Event.children 0],
        is_dispatch example_chain 0 e1) :=
  ⟨by decide, by decide,
    C1_dispatch_after_release example_chain (by decide) 2 [0, 0]
      ((evaluate_pass 2 example_chain [0, 0]).get (by decide))
      (Option.some_get _).symm 0 1 (mk_relation 0 1 0) (by decide) rfl rfl (by decide)
      (by decide) (by decide) [Event.push 0, Event.evaluate 0, Event.children 0]
      [Event.evaluate 1, Event.children 1] (Event.push 1) (by decide) (Or.inl rfl)⟩

/-- C2, the claim as stated fails: the operation of `example_invisible` is
tagged for update, and after a complete pass (the pool is empty) its callback
was never invoked. -/
theorem C2_counterexample :
    ((example_invisible.node 0).flag &&& DEPSOP_FLAG_NEEDS_UPDATE) ≠ 0 ∧
    (evaluate_pass 1 example_invisible []).map
      (fun w => (w.pool, w.trace.count (Event.evaluate 0))) = some ([], 0) := by
  decide

/-- C2, amended: on a well-formed graph whose non-cyclic relations are acyclic,
a pass with enough fuel and picks returns with an empty pool; the callback was
invoked exactly once for every registered operation that is visible (or
Copy-on-Write), tagged and not a no-op, and never for any other node; every
registered visible (or Copy-on-Write) tagged operation has released its
children exactly once, and no other node has. -/
theorem C2_exactly_once (g : Depsgraph) (hw : WellFormed g) (rank : Nat → Nat)
    (htopo : TopoRank g rank) (fuel : Nat) (picks : List Nat)
    (hf : g.operations.length ≤ fuel) (hp : g.operations.length ≤ picks.length) :
    ∃ w, evaluate_pass fuel g picks = some w ∧ w.pool = [] ∧
      (∀ b, w.trace.count (Event.evaluate b) =
        if b ∈ g.operations ∧ is_live g b = true ∧ (g.node b).is_noop = false then 1 else 0) ∧
      (∀ b, w.trace.count (Event.children b) =
        if b ∈ g.operations ∧ is_live g b = true then 1 else 0) := by
  obtain ⟨w, hpass, hpool⟩ := evaluate_pass_total g hw fuel picks hf hp
  have hinv := Inv.pass hw hpass
  have hst := pass_static hpass
  have hready := pass_ready hpass
  have hops : w.graph.operations = g.operations := hst.1
  have hsched := quiescent_scheduled hinv (by rw [hops]; exact hready) hpool
    (hst.WellFormed hw).2.1 rank (hst.TopoRank rank htopo)
  refine ⟨w, hpass, hpool, ?_, ?_⟩
  · intro b
    have h1 := hinv.evals b
    have h2 := hinv.pushes b
    simp only [hpool, List.count_nil, Nat.add_zero] at h1
    rw [h1, h2]
    simp only [hops, hst.is_live, hst.is_noop]
    by_cases hb : b ∈ g.operations
    · by_cases hl : is_live g b = true
      · have := hsched b (by rw [hops]; exact hb) (by rw [hst.is_live]; exact hl)
        simp [hb, hl, this]
      · simp [hl]
    · simp [hb]
  · intro b
    have h1 := hinv.release_once b
    simp only at h1
    by_cases hb : b ∈ g.operations ∧ is_live g b = true
    · rw [if_pos hb]
      have hs := hsched b (by rw [hops]; exact hb.1) (by rw [hst.is_live]; exact hb.2)
      have hrel : released w.trace b = true := by
        rcases hinv.sched_ok b (by rw [hops]; exact hb.1)
            (by rw [hst.is_live]; exact hb.2) hs with h2 | h2
        · rw [hpool] at h2
          cases h2
        · exact h2
      have hpos : 0 < w.trace.count (Event.children b) :=
        List.count_pos_iff.2 (by simpa [released] using hrel)
      omega
    · rw [if_neg hb]
      rw [List.count_eq_zero]
      intro hmem
      have hrel : released w.trace b = true := by simpa [released] using hmem
      obtain ⟨a1, a2, -⟩ := hinv.released_ok b hrel
      exact hb ⟨by rw [← hops]; exact a1, by rw [← hst.is_live]; exact a2⟩

/-- C2, the amended claim on `example_chain`: both callbacks are invoked once. -/
theorem C2_exactly_once_witness :
    WellFormed example_chain ∧ TopoRank example_chain (fun n => n) ∧
    ∃ w, evaluate_pass 2 example_chain [0, 0] = some w ∧ w.pool = [] ∧
      (∀ b, w.trace.count (Event.evaluate b) =
        if b ∈ example_chain.operations ∧ is_live example_chain b = true ∧
            (example_chain.node b).is_noop = false then 1 else 0) ∧
      (∀ b, w.trace.count (Event.children b) =
        if b ∈ example_chain.operations ∧ is_live example_chain b = true then 1 else 0) :=
  ⟨by decide, by decide,
    C2_exactly_once example_chain (by decide) (fun n => n) (by decide) 2 [0, 0]
      (by decide) (by decide)⟩

/-- C4: an operation of an invisible entity outside the Copy-on-Write
component is never scheduled. `initialize_execution` leaves a registered one
with counter 0 and unscheduled; every call of `schedule_node` on it, with or
without `dec_parents`, returns the state unchanged; and in every state of a pass
it is unscheduled with counter 0, not queued, and has neither been pushed nor
evaluated nor released. -/
theorem C4_invisible_exempt (g : Depsgraph) (n : Nat)
    (hvis : (g.node n).owner.owner.is_visible = false)
    (hcow : (g.node n).owner.type ≠ DEG_NODE_TYPE_COPY_ON_WRITE) :
    (n ∈ g.operations →
      ((initialize_execution g).node n).num_links_pending = 0 ∧
      ((initialize_execution g).node n).scheduled = false) ∧
    (∀ (fuel : Nat) (w : EvalWorld) (dec : Bool),
      (w.graph.node n).owner = (g.node n).owner →
        schedule_node (fuel + 1) w n dec = some w) ∧
    (n ∈ g.operations → ∀ (fuel : Nat) (picks : List Nat) (w : EvalWorld),
      evaluate_pass fuel g picks = some w →
        (w.graph.node n).scheduled = false ∧ (w.graph.node n).num_links_pending = 0 ∧
        n ∉ w.pool ∧ Event.push n ∉ w.trace ∧ Event.evaluate n ∉ w.trace ∧
        Event.children n ∉ w.trace) := by
  have hl := is_live_of_invisible g n hvis hcow
  have hinit : n ∈ g.operations →
      ((init_graph g).node n).num_links_pending = 0 ∧
      ((init_graph g).node n).scheduled = false := by
    intro hn
    rw [init_graph_pending g n hn, init_graph_scheduled g n hn, pending_spec, hl]
    exact ⟨rfl, rfl⟩
  refine ⟨?_, ?_, ?_⟩
  · rw [initialize_execution_eq]
    exact hinit
  · intro fuel w dec hown
    have hlw : is_live w.graph n = false := by
      apply is_live_of_invisible
      · rw [hown]; exact hvis
      · rw [hown]; exact hcow
    rw [schedule_node_succ, node_action_not_live w n dec hlw]
    rfl
  · intro hn fuel picks w h
    have hsteps := evaluate_pass_steps fuel g picks w h
    have hl0 : is_live (init_graph g) n = false := by
      rw [(init_graph_static g).is_live]; exact hl
    have hu : Untouched n ((init_graph g).node n)
        (({ graph := init_graph g, pool := [], trace := [] } : EvalWorld), []) :=
      ⟨rfl, by simp, by simp, by simp, by simp⟩
    obtain ⟨h1, h2, h3, h4, h5⟩ := Untouched_steps hsteps hl0 hu
    simp only at h1 h2 h3 h4 h5
    rw [h1]
    exact ⟨(hinit hn).2, (hinit hn).1, h2, h3, h4, h5⟩

/-- C4 on `example_invisible`: the tagged operation of the invisible entity
stays unscheduled and is never evaluated in a complete pass. -/
theorem C4_invisible_exempt_witness :
    ((example_invisible.node 0).owner.owner.is_visible = false ∧
      (example_invisible.node 0).owner.type ≠ DEG_NODE_TYPE_COPY_ON_WRITE ∧
      0 ∈ example_invisible.operations ∧
      (evaluate_pass 1 example_invisible []).isSome = true) ∧
    ((0 ∈ example_invisible.operations →
      ((initialize_execution example_invisible).node 0).num_links_pending = 0 ∧
      ((initialize_execution example_invisible).node 0).scheduled = false) ∧
    (∀ (fuel : Nat) (w : EvalWorld) (dec : Bool),
      (w.graph.node 0).owner = (example_invisible.node 0).owner →
        schedule_node (fuel + 1) w 0 dec = some w) ∧
    (0 ∈ example_invisible.operations → ∀ (fuel : Nat) (picks : List Nat) (w : EvalWorld),
      evaluate_pass fuel example_invisible picks = some w →
        (w.graph.node 0).scheduled = false ∧ (w.graph.node 0).num_links_pending = 0 ∧
        0 ∉ w.pool ∧ Event.push 0 ∉ w.trace ∧ Event.evaluate 0 ∉ w.trace ∧
        Event.children 0 ∉ w.trace)) :=
  ⟨by decide, C4_invisible_exempt example_invisible 0 (by decide) (by decide)⟩

/-- C6: the counter that `initialize_execution` computes for a node is the same
as on the graph without the relations that carry `DEPSREL_FLAG_CYCLIC`; a
registered node whose inbound relations are all cyclic gets 0; and such a node,
when it is visible (or Copy-on-Write) and tagged, is scheduled in every state
of a pass over a well-formed graph, from the seeding on. -/
theorem C6_cyclic_not_counted (g : Depsgraph) (n : Nat) :
    ((initialize_execution (drop_cyclic g)).node n).num_links_pending =
      ((initialize_execution g).node n).num_links_pending ∧
    (n ∈ g.operations →
      (∀ r ∈ (g.node n).inlinks, (r.flag &&& DEPSREL_FLAG_CYCLIC) ≠ 0) →
        ((initialize_execution g).node n).num_links_pending = 0) ∧
    (WellFormed g → n ∈ g.operations → is_live g n = true →
      (∀ r ∈ (g.node n).inlinks, (r.flag &&& DEPSREL_FLAG_CYCLIC) ≠ 0) →
        ∀ (fuel : Nat) (picks : List Nat) (w : EvalWorld),
          evaluate_pass fuel g picks = some w → (w.graph.node n).scheduled = true) := by
  have hzero : (∀ r ∈ (g.node n).inlinks, (r.flag &&& DEPSREL_FLAG_CYCLIC) ≠ 0) →
      counted_inlinks g n = 0 := by
    intro hall
    unfold counted_inlinks
    rw [List.countP_eq_zero]
    intro r hr hc
    simp only [rel_counted, rel_noncyclic, Bool.and_eq_true, decide_eq_true_eq] at hc
    exact hall r hr hc.1.2
  refine ⟨?_, ?_, ?_⟩
  · rw [initialize_execution_eq, initialize_execution_eq]
    by_cases hn : n ∈ g.operations
    · rw [init_graph_pending g n hn, init_graph_pending (drop_cyclic g) n hn,
        drop_cyclic_pending_spec]
    · rw [init_graph_node_not_mem g n hn, init_graph_node_not_mem (drop_cyclic g) n hn]
      rfl
  · intro hn hall
    rw [initialize_execution_eq, init_graph_pending g n hn, pending_spec, hzero hall]
    simp
  · intro hw hn hl hall fuel picks w h
    exact pass_scheduled_of_uncounted hw h hn hl (hzero hall)

/-- C6 on `example_cycle`: the only inbound relation of operation 0 is cyclic,
its counter is 0 and it is scheduled. -/
theorem C6_cyclic_not_counted_witness :
    (WellFormed example_cycle ∧ 0 ∈ example_cycle.operations ∧
      is_live example_cycle 0 = true ∧
      (∀ r ∈ (example_cycle.node 0).inlinks, (r.flag &&& DEPSREL_FLAG_CYCLIC) ≠ 0) ∧
      (evaluate_pass 2 example_cycle [0, 0]).isSome = true) ∧
    (((initialize_execution (drop_cyclic example_cycle)).node 0).num_links_pending =
      ((initialize_execution example_cycle).node 0).num_links_pending ∧
    (0 ∈ example_cycle.operations →
      (∀ r ∈ (example_cycle.node 0).inlinks, (r.flag &&& DEPSREL_FLAG_CYCLIC) ≠ 0) →
        ((initialize_execution example_cycle).node 0).num_links_pending = 0) ∧
    (WellFormed example_cycle → 0 ∈ example_cycle.operations →
      is_live example_cycle 0 = true →
      (∀ r ∈ (example_cycle.node 0).inlinks, (r.flag &&& DEPSREL_FLAG_CYCLIC) ≠ 0) →
        ∀ (fuel : Nat) (picks : List Nat) (w : EvalWorld),
          evaluate_pass fuel example_cycle picks = some w →
            (w.graph.node 0).scheduled = true)) :=
  ⟨by decide, C6_cyclic_not_counted example_cycle 0⟩

/-- C9: `schedule_children` walks the outlinks of the node one relation after
the other. A relation to a child that is scheduled, invisible or not tagged
leaves the state unchanged. For a child that is unscheduled, visible (or
Copy-on-Write) and tagged, the counter of the child afterwards is the counter
before, decremented in 32-bit arithmetic when the relation is not cyclic (so
by exactly one when the asserted `num_links_pending > 0` holds) and unchanged
when it is cyclic; and the child is scheduled after the call exactly when its
counter is 0 then. -/
theorem C9_release_children (fuel : Nat) (w : EvalWorld) (rel : DepsRelation)
    (rest : List DepsRelation) (node : Nat) :
    schedule_children fuel w node =
      schedule_children_loop (schedule_node fuel)
        { w with trace := w.trace ++ [Event.children node] } (w.graph.node node).outlinks ∧
    schedule_children_loop (schedule_node fuel) w (rel :: rest) =
      (schedule_children_loop (schedule_node fuel) w [rel]).bind
        (fun w1 => schedule_children_loop (schedule_node fuel) w1 rest) ∧
    ((w.graph.node rel.to_).scheduled = true →
      schedule_children_loop (schedule_node fuel) w [rel] = some w) ∧
    (is_live w.graph rel.to_ = false → 0 < fuel →
      schedule_children_loop (schedule_node fuel) w [rel] = some w) ∧
    (∀ w1, (w.graph.node rel.to_).scheduled = false → is_live w.graph rel.to_ = true →
      schedule_children_loop (schedule_node fuel) w [rel] = some w1 →
        (w1.graph.node rel.to_).num_links_pending =
          (if (rel.flag &&& DEPSREL_FLAG_CYCLIC) = 0 then
            ((w.graph.node rel.to_).num_links_pending + 4294967296 - 1) % 4294967296
          else (w.graph.node rel.to_).num_links_pending) ∧
        ((rel.flag &&& DEPSREL_FLAG_CYCLIC) = 0 →
          0 < (w.graph.node rel.to_).num_links_pending →
          (w.graph.node rel.to_).num_links_pending < 4294967296 →
            (w1.graph.node rel.to_).num_links_pending + 1 =
              (w.graph.node rel.to_).num_links_pending) ∧
        ((w1.graph.node rel.to_).scheduled = true ↔
          (w1.graph.node rel.to_).num_links_pending = 0)) := by
  refine ⟨rfl, ?_, ?_, ?_, ?_⟩
  · simp only [schedule_children_loop]
    cases hs : (w.graph.node rel.to_).scheduled
    · simp only [Bool.false_eq_true, if_false]
      cases schedule_node fuel w rel.to_ (decide ((rel.flag &&& DEPSREL_FLAG_CYCLIC) = 0)) <;>
        rfl
    · simp
  · intro hs
    simp [schedule_children_loop, hs]
  · intro hl hf
    obtain ⟨f, rfl⟩ : ∃ f, fuel = f + 1 := ⟨fuel - 1, by omega⟩
    simp only [schedule_children_loop]
    cases hs : (w.graph.node rel.to_).scheduled
    · simp only [Bool.false_eq_true, if_false]
      rw [schedule_node_succ, node_action_not_live w _ _ hl]
      rfl
    · simp
  · intro w1 hs hl h
    simp only [schedule_children_loop, hs, Bool.false_eq_true, if_false] at h
    have hsn : schedule_node fuel w rel.to_ (rel_noncyclic rel) = some w1 := by
      cases hn : schedule_node fuel w rel.to_
          (decide ((rel.flag &&& DEPSREL_FLAG_CYCLIC) = 0)) with
      | none => rw [hn] at h; cases h
      | some w2 =>
        rw [hn] at h
        simp only [Option.some.injEq] at h
        subst h
        exact hn
    cases fuel with
    | zero => simp [schedule_node] at hsn
    | succ f =>
      rw [schedule_node_succ, node_action_live w _ _ hl _ rfl] at hsn
      have hpe : (if rel_noncyclic rel = true then
            ((w.graph.node rel.to_).num_links_pending + UINT32_SIZE - 1) % UINT32_SIZE
          else (w.graph.node rel.to_).num_links_pending) =
          (if (rel.flag &&& DEPSREL_FLAG_CYCLIC) = 0 then
            ((w.graph.node rel.to_).num_links_pending + 4294967296 - 1) % 4294967296
          else (w.graph.node rel.to_).num_links_pending) := by
        simp [rel_noncyclic, UINT32_SIZE]
      rw [hpe] at hsn
      have harith : (rel.flag &&& DEPSREL_FLAG_CYCLIC) = 0 →
          0 < (w.graph.node rel.to_).num_links_pending →
          (w.graph.node rel.to_).num_links_pending < 4294967296 →
          (if (rel.flag &&& DEPSREL_FLAG_CYCLIC) = 0 then
            ((w.graph.node rel.to_).num_links_pending + 4294967296 - 1) % 4294967296
          else (w.graph.node rel.to_).num_links_pending) + 1 =
            (w.graph.node rel.to_).num_links_pending := by
        intro hc h0 h1
        rw [if_pos hc]
        omega
      generalize (if (rel.flag &&& DEPSREL_FLAG_CYCLIC) = 0 then
            ((w.graph.node rel.to_).num_links_pending + 4294967296 - 1) % 4294967296
          else (w.graph.node rel.to_).num_links_pending) = p at hsn harith ⊢
      by_cases hp : p = 0
      · subst hp
        have key : w1.graph.node rel.to_ =
            (w.graph.setdyn rel.to_ 0 true).node rel.to_ := by
          cases hnoop : (w.graph.node rel.to_).is_noop
          · simp only [hs, hnoop, ne_eq, not_true_eq_false, if_false, Bool.false_eq_true,
              schedule_children_loop, Option.some.injEq] at hsn
            rw [← hsn]
          · simp only [hs, hnoop, ne_eq, not_true_eq_false, if_false, Bool.false_eq_true,
              if_true] at hsn
            have hwalk := loop_walk f _ _ _ [] hsn
            exact Walks_frozen hwalk rel.to_ (by simp)
        rw [key]
        simp only [setdyn_pending, setdyn_scheduled, if_true, and_self, true_and]
        exact ⟨harith, trivial⟩
      · simp only [hp, ne_eq, not_false_eq_true, if_true, schedule_children_loop,
          Option.some.injEq] at hsn
        rw [← hsn]
        simp only [setdyn_pending, setdyn_scheduled, if_true, hs, Bool.false_eq_true, hp,
          iff_self, and_true, true_and]
        exact harith

/-- C9 on `example_chain`: when operation 0 releases its children after
`initialize_execution`, the counter of operation 1 goes from 1 to 0 and
operation 1 is scheduled. -/
theorem C9_release_children_witness :
    ((schedule_children 2
        { graph := initialize_execution example_chain, pool := [], trace := [] } 0).map
      (fun w => ((w.graph.node 1).num_links_pending, (w.graph.node 1).scheduled, w.pool))) =
      some (0, true, [1]) ∧
    ((initialize_execution example_chain).node 1).num_links_pending = 1 := by
  have h := (C9_release_children 2
    { graph := initialize_execution example_chain, pool := [], trace := [] }
    (mk_relation 0 1 0) [] 0).1
  rw [h]
  decide

/-- C10: a no-op node never occupies a worker. A call of `schedule_node` on a
no-op node only appends to the pool, never the node itself and never another
no-op node; when the node is ready (visible or Copy-on-Write, tagged, counter 0
after the optional decrement, not scheduled) the call sets `scheduled` and runs
`schedule_children` for it at once; and in every state of a pass every queued
task has a callback, which is what `deg_task_run_func` asserts. -/
theorem C10_noop_never_queued :
    (∀ (fuel : Nat) (w w1 : EvalWorld) (n : Nat) (dec : Bool),
      (w.graph.node n).is_noop = true → schedule_node fuel w n dec = some w1 →
        ∃ extra, w1.pool = w.pool ++ extra ∧ n ∉ extra ∧
          ∀ m ∈ extra, (w.graph.node m).is_noop = false) ∧
    (∀ (fuel : Nat) (w : EvalWorld) (n : Nat) (dec : Bool),
      (w.graph.node n).is_noop = true → is_live w.graph n = true →
      (w.graph.node n).scheduled = false →
      (if dec = true then ((w.graph.node n).num_links_pending + 4294967296 - 1) % 4294967296
        else (w.graph.node n).num_links_pending) = 0 →
        schedule_node (fuel + 1) w n dec =
          schedule_children fuel { w with graph := w.graph.setdyn n 0 true } n) ∧
    (∀ (fuel : Nat) (g : Depsgraph) (picks : List Nat) (w : EvalWorld),
      evaluate_pass fuel g picks = some w → ∀ m ∈ w.pool, (g.node m).is_noop = false) := by
  refine ⟨?_, ?_, ?_⟩
  · intro fuel w w1 n dec hnoop h
    obtain ⟨extra, h1, h2⟩ := schedule_node_pool fuel w w1 n dec h
    refine ⟨extra, h1, fun hn => ?_, h2⟩
    have := h2 n hn
    rw [hnoop] at this
    cases this
  · intro fuel w n dec hnoop hl hs hp
    rw [schedule_node_succ, node_action_live w n dec hl 0 (by rw [← hp]; rfl)]
    simp only [ne_eq, not_true_eq_false, if_false, hs, Bool.false_eq_true, hnoop, if_true,
      schedule_children, setdyn_outlinks]
  · intro fuel g picks w h m hm
    have hsteps := evaluate_pass_steps fuel g picks w h
    have h0 : PoolHasCallbacks
        (({ graph := init_graph g, pool := [], trace := [] } : EvalWorld), []) :=
      fun x hx => by cases hx
    have := PoolHasCallbacks_steps hsteps h0 m hm
    rw [(pass_static h).is_noop] at this
    exact this

/-- C10 on `example_noop_parent`: the no-op operation 0 is processed while the
graph is seeded and only operation 1 is queued. -/
theorem C10_noop_never_queued_witness :
    (example_noop_parent.node 0).is_noop = true ∧
    (evaluate_pass 2 example_noop_parent []).map (fun w => (w.pool, w.trace)) =
      some ([1], [Event.children 0, Event.push 1]) ∧
    ∀ (w : EvalWorld), evaluate_pass 2 example_noop_parent [] = some w →
      ∀ m ∈ w.pool, (example_noop_parent.node m).is_noop = false :=
  ⟨by decide, by decide, C10_noop_never_queued.2.2 2 example_noop_parent []⟩

/-- C5: `check_operation_node_visible` returns true for every operation of a
Copy-on-Write component, whatever `is_visible` of the owning ID node; and a
whole pass (counters after `initialize_execution`, scheduled flags, pool and
dispatch record in every state) is the same whether the entity that owns a
Copy-on-Write operation is visible or not. -/
theorem C5_copy_on_write_visible :
    (∀ (node : OperationDepsNode), node.owner.type = DEG_NODE_TYPE_COPY_ON_WRITE →
      check_operation_node_visible node = true) ∧
    (∀ (g : Depsgraph) (n : Nat) (v : Bool),
      (g.node n).owner.type = DEG_NODE_TYPE_COPY_ON_WRITE →
        initialize_execution (set_id_visible g n v) =
          set_id_visible (initialize_execution g) n v ∧
        ∀ (fuel : Nat) (picks : List Nat),
          evaluate_pass fuel (set_id_visible g n v) picks =
            (evaluate_pass fuel g picks).map (fun w => w.set_id_visible n v)) := by
  refine ⟨?_, ?_⟩
  · intro node h
    simp [check_operation_node_visible, h]
  · intro g n v hcow
    refine ⟨?_, set_id_visible_pass g n v hcow⟩
    rw [initialize_execution_eq, initialize_execution_eq]
    exact set_id_visible_init g n v hcow

/-- C5 on `example_cow`: the Copy-on-Write operation 0 of the invisible entity
is counted as a parent of operation 1 and is dispatched first. -/
theorem C5_copy_on_write_visible_witness :
    ((example_cow.node 0).owner.type = DEG_NODE_TYPE_COPY_ON_WRITE ∧
      (example_cow.node 0).owner.owner.is_visible = false ∧
      check_operation_node_visible (example_cow.node 0) = true ∧
      ((initialize_execution example_cow).node 1).num_links_pending = 1 ∧
      (evaluate_pass 2 example_cow [0, 0]).map (fun w => w.trace) =
        some [Event.push 0, Event.evaluate 0, Event.children 0, Event.push 1,
          Event.evaluate 1, Event.children 1]) ∧
    (evaluate_pass 2 (set_id_visible example_cow 0 true) [0, 0] =
      (evaluate_pass 2 example_cow [0, 0]).map (fun w => w.set_id_visible 0 true)) :=
  ⟨by decide,
    (C5_copy_on_write_visible.2 example_cow 0 true (by decide)).2 2 [0, 0]⟩

/-- C7: two visible (or Copy-on-Write), tagged operations `a` and `b` with the
relations `a → b`, not cyclic, and `b → a`, marked cyclic, and nothing else, in
either order in `operations`. A pass with at least two units of fuel and two
picks returns with an empty pool, both operations have released their children
exactly once, each one with a callback was pushed and evaluated exactly once
(a no-op never), and `a`, the target of the cyclic relation, is dispatched and
releases before `b` is dispatched. -/
theorem C7_two_node_cycle (g : Depsgraph) (a b fab fba : Nat) (hab : a ≠ b)
    (hops : g.operations = [a, b] ∨ g.operations = [b, a])
    (hla : is_live g a = true) (hlb : is_live g b = true)
    (haout : (g.node a).outlinks = [mk_relation a b fab])
    (hbin : (g.node b).inlinks = [mk_relation a b fab])
    (hbout : (g.node b).outlinks = [mk_relation b a fba])
    (hain : (g.node a).inlinks = [mk_relation b a fba])
    (hnc : (fab &&& DEPSREL_FLAG_CYCLIC) = 0) (hc : (fba &&& DEPSREL_FLAG_CYCLIC) ≠ 0)
    (fuel : Nat) (picks : List Nat) (hf : 2 ≤ fuel) (hp : 2 ≤ picks.length) :
    ∃ w, evaluate_pass fuel g picks = some w ∧ w.pool = [] ∧
      w.trace.count (Event.children a) = 1 ∧ w.trace.count (Event.children b) = 1 ∧
      (∀ x, x = a ∨ x = b →
        w.trace.count (Event.push x) = (if (g.node x).is_noop = true then 0 else 1) ∧
        w.trace.count (Event.evaluate x) = (if (g.node x).is_noop = true then 0 else 1)) ∧
      (∀ t1 e t2, w.trace = t1 ++ e :: t2 → is_dispatch g b e →
        Event.children a ∈ t1 ∧ ∃ e1 ∈ t1, is_dispatch g a e1) := by
  have hba : b ≠ a := fun e => hab e.symm
  have hmem : ∀ x, x ∈ g.operations ↔ x = a ∨ x = b := by
    intro x
    rcases hops with h | h <;> rw [h] <;> simp [or_comm]
  have hlen : g.operations.length = 2 := by
    rcases hops with h | h <;> rw [h] <;> rfl
  have hncr : rel_noncyclic (mk_relation a b fab) = true := by
    simp [rel_noncyclic, mk_relation, hnc]
  have hcr : rel_noncyclic (mk_relation b a fba) = false := by
    simp [rel_noncyclic, mk_relation, hc]
  have hw : WellFormed g := by
    refine ⟨?_, ?_, ?_⟩
    · intro x hx r hr
      rcases (hmem x).1 hx with rfl | rfl
      · rw [haout, List.mem_singleton] at hr
        subst hr
        exact (hmem _).2 (Or.inr rfl)
      · rw [hbout, List.mem_singleton] at hr
        subst hr
        exact (hmem _).2 (Or.inl rfl)
    · intro x hx r hr _
      rcases (hmem x).1 hx with rfl | rfl
      · rw [hain, List.mem_singleton] at hr
        subst hr
        exact (hmem _).2 (Or.inr rfl)
      · rw [hbin, List.mem_singleton] at hr
        subst hr
        exact (hmem _).2 (Or.inl rfl)
    · intro x hx y hy
      rcases (hmem x).1 hx with rfl | rfl <;> rcases (hmem y).1 hy with rfl | rfl <;>
        simp [links_in, links_out, haout, hbin, hbout, hain, hncr, hcr, hab, hba]
  have htopo : TopoRank g (fun x => if x = a then 0 else 1) := by
    intro y hy r hr _ hnr
    rcases (hmem y).1 hy with rfl | rfl
    · rw [hain, List.mem_singleton] at hr
      subst hr
      rw [hcr] at hnr
      cases hnr
    · rw [hbin, List.mem_singleton] at hr
      subst hr
      simp [hba]
  obtain ⟨w, hpass, hpool, hinv, hst, hsched⟩ :=
    pass_complete g hw _ htopo fuel picks (by omega) (by omega)
  have hops1 : w.graph.operations = g.operations := hst.1
  have hfacts : ∀ x, x = a ∨ x = b →
      x ∈ w.graph.operations ∧ is_live w.graph x = true ∧
        (w.graph.node x).scheduled = true := by
    intro x hx
    have hxm : x ∈ g.operations := (hmem x).2 hx
    have hxl : is_live g x = true := by
      rcases hx with rfl | rfl
      · exact hla
      · exact hlb
    exact ⟨by rw [hops1]; exact hxm, by rw [hst.is_live]; exact hxl, hsched x hxm hxl⟩
  refine ⟨w, hpass, hpool, ?_, ?_, ?_, ?_⟩
  · obtain ⟨h1, h2, h3⟩ := hfacts a (Or.inl rfl)
    exact quiescent_released hinv hpool h1 h2 h3
  · obtain ⟨h1, h2, h3⟩ := hfacts b (Or.inr rfl)
    exact quiescent_released hinv hpool h1 h2 h3
  · intro x hx
    obtain ⟨h1, h2, h3⟩ := hfacts x hx
    cases hnoop : (g.node x).is_noop
    · have hn1 : (w.graph.node x).is_noop = false := by rw [hst.is_noop]; exact hnoop
      have := quiescent_evaluated hinv hpool h1 h2 h3 hn1
      simpa using this
    · have hn1 : (w.graph.node x).is_noop = true := by rw [hst.is_noop]; exact hnoop
      have hpush := pass_noop_not_pushed hinv hn1
      have hev := hinv.evals x
      simp only [hpool, List.count_nil, Nat.add_zero] at hev
      simp only [if_true]
      exact ⟨hpush, by rw [hev, hpush]⟩
  · intro t1 e t2 ht hd
    have hord := hst.TraceOrd _ hinv.order
    have hdisp := hst.TraceDisp _ hinv.disp
    have hcnt : rel_counted g (mk_relation a b fab) = true := by
      simp [rel_counted, hncr, hla]
    have hbound : counted_inlinks g b < UINT32_SIZE := by
      have := counted_le_length g b
      rw [hbin] at this
      simp only [List.length_singleton] at this
      simp only [UINT32_SIZE]
      omega
    have h1 : Event.children a ∈ t1 := by
      have := hord t1 e t2 b ht hd hbound (mk_relation a b fab)
        (by rw [hbin]; exact List.mem_singleton.2 rfl) hcnt
      exact this
    refine ⟨h1, ?_⟩
    obtain ⟨s1, s2, hs⟩ := List.append_of_mem h1
    obtain ⟨e1, he1, hd1⟩ := hdisp s1 (s2 ++ e :: t2) a (by rw [ht, hs]; simp)
    refine ⟨e1, ?_, hd1⟩
    rw [hs]
    rcases List.mem_append.1 he1 with h2 | h2
    · exact List.mem_append_left _ h2
    · rw [List.mem_singleton] at h2
      subst h2
      simp

/-- C7 on `example_cycle`: operation 0, the target of the cyclic relation, runs
first, then operation 1. -/
theorem C7_two_node_cycle_witness :
    (evaluate_pass 2 example_cycle [0, 0]).map (fun w => w.trace) =
      some [Event.push 0, Event.evaluate 0, Event.children 0, Event.push 1,
        Event.evaluate 1, Event.children 1] ∧
    ∃ w, evaluate_pass 2 example_cycle [0, 0] = some w ∧ w.pool = [] ∧
      w.trace.count (Event.children 0) = 1 ∧ w.trace.count (Event.children 1) = 1 ∧
      (∀ x, x = 0 ∨ x = 1 →
        w.trace.count (Event.push x) =
          (if (example_cycle.node x).is_noop = true then 0 else 1) ∧
        w.trace.count (Event.evaluate x) =
          (if (example_cycle.node x).is_noop = true then 0 else 1)) ∧
      (∀ t1 e t2, w.trace = t1 ++ e :: t2 → is_dispatch example_cycle 1 e →
        Event.children 0 ∈ t1 ∧ ∃ e1 ∈ t1, is_dispatch example_cycle 0 e1) :=
  ⟨by decide,
    C7_two_node_cycle example_cycle 0 1 0 1 (by decide) (Or.inl rfl) (by decide) (by decide)
      rfl rfl rfl rfl (by decide) (by decide) 2 [0, 0] (by decide) (by decide)⟩

/-- C8: seed. On a well-formed graph `schedule_graph`, run with enough fuel on
the graph that `initialize_execution` prepared, returns; every registered
operation that had counter 0 and is visible (or Copy-on-Write) and tagged is
scheduled then, pushed to the pool when it has a callback and processed (its
children released) when it is a no-op; and no registered operation that is
invisible outside Copy-on-Write or not tagged is scheduled. The counted inbound
relations of the operation fit the 32-bit counter `num_links_pending`, a
condition on the representation of the graph. -/
theorem C8_seed (g : Depsgraph) (hw : WellFormed g) (fuel : Nat)
    (hf : g.operations.length ≤ fuel) :
    ∃ w, schedule_graph fuel
        { graph := initialize_execution g, pool := [], trace := [] } = some w ∧
      (∀ n ∈ g.operations, is_live g n = true →
        ((initialize_execution g).node n).num_links_pending = 0 →
        counted_inlinks g n < UINT32_SIZE →
          (w.graph.node n).scheduled = true ∧
          ((g.node n).is_noop = false → Event.push n ∈ w.trace) ∧
          ((g.node n).is_noop = true → Event.children n ∈ w.trace)) ∧
      (∀ n ∈ g.operations, is_live g n = false → (w.graph.node n).scheduled = false) := by
  obtain ⟨w, hw2⟩ := schedule_graph_loop_total fuel (init_graph g).operations
    { graph := init_graph g, pool := [], trace := [] } (Inv.init g hw).closed
    (fun _ hn => hn) hf
  have hsg : schedule_graph fuel
      { graph := initialize_execution g, pool := [], trace := [] } = some w := by
    rw [initialize_execution_eq]
    exact hw2
  have hpass : evaluate_pass fuel g [] = some w := by
    rw [evaluate_pass_nil]
    exact hsg
  have hinv := Inv.pass hw hpass
  have hst := pass_static hpass
  have hops : w.graph.operations = g.operations := hst.1
  refine ⟨w, hsg, ?_, ?_⟩
  · intro n hn hl hp hlen
    have hn1 : n ∈ w.graph.operations := by rw [hops]; exact hn
    have hl1 : is_live w.graph n = true := by rw [hst.is_live]; exact hl
    have hc : counted_inlinks g n = 0 := by
      rw [initialize_execution_eq, init_graph_pending g n hn, pending_spec, if_pos hl] at hp
      rw [Nat.mod_eq_of_lt hlen] at hp
      exact hp
    have hs := pass_scheduled_of_uncounted hw hpass hn hl hc
    refine ⟨hs, ?_, ?_⟩
    · intro hnoop
      have h1 := hinv.pushes n
      simp only at h1
      rw [if_pos ⟨hn1, hl1, hs, by rw [hst.is_noop]; exact hnoop⟩] at h1
      exact List.count_pos_iff.1 (by omega)
    · intro hnoop
      rcases hinv.sched_ok n hn1 hl1 hs with h1 | h1
      · have := (hinv.pool_ok n h1).2.2.2.1
        rw [hst.is_noop, hnoop] at this
        cases this
      · simpa [released] using h1
  · intro n hn hl
    exact (hinv.idle n (by rw [hops]; exact hn) (by rw [hst.is_live]; exact hl)).1

/-- C8 on `example_noop_parent`: the no-op operation 0 is processed during the
seeding and releases operation 1, which is pushed. -/
theorem C8_seed_witness :
    (WellFormed example_noop_parent ∧ example_noop_parent.operations.length ≤ 2 ∧
      (schedule_graph 2
        { graph := initialize_execution example_noop_parent, pool := [], trace := [] }).map
        (fun w => ((w.graph.node 0).scheduled, (w.graph.node 1).scheduled, w.pool, w.trace)) =
        some (true, true, [1], [Event.children 0, Event.push 1])) ∧
    ∃ w, schedule_graph 2
        { graph := initialize_execution example_noop_parent, pool := [], trace := [] } =
          some w ∧
      (∀ n ∈ example_noop_parent.operations, is_live example_noop_parent n = true →
        ((initialize_execution example_noop_parent).node n).num_links_pending = 0 →
        counted_inlinks example_noop_parent n < UINT32_SIZE →
          (w.graph.node n).scheduled = true ∧
          ((example_noop_parent.node n).is_noop = false → Event.push n ∈ w.trace) ∧
          ((example_noop_parent.node n).is_noop = true → Event.children n ∈ w.trace)) ∧
      (∀ n ∈ example_noop_parent.operations, is_live example_noop_parent n = false →
        (w.graph.node n).scheduled = false) :=
  ⟨by decide, C8_seed example_noop_parent (by decide) 2 (by decide)⟩

/-- C11: at-most-once dispatch on any graph. A call of `schedule_node` on a
node whose `scheduled` flag is set returns, pushes nothing, releases nothing
(no `schedule_children` is entered) and leaves every other node as it was; and
after a pass over any graph, in any order of the operations and of the queued
tasks, every node was pushed at most once, its callback was invoked at most
once and its children were released at most once. On a graph whose outgoing
relations lead to registered operations the pass returns when the fuel covers
the operations. -/
theorem C11_at_most_once :
    (∀ (fuel : Nat) (w : EvalWorld) (n : Nat) (dec : Bool),
      (w.graph.node n).scheduled = true →
        ∃ w1, schedule_node (fuel + 1) w n dec = some w1 ∧ w1.pool = w.pool ∧
          w1.trace = w.trace ∧ (w1.graph.node n).scheduled = true ∧
          ∀ m, m ≠ n → w1.graph.node m = w.graph.node m) ∧
    (∀ (g : Depsgraph) (fuel : Nat) (picks : List Nat) (w : EvalWorld),
      evaluate_pass fuel g picks = some w →
        ∀ n, w.trace.count (Event.push n) ≤ 1 ∧ w.trace.count (Event.evaluate n) ≤ 1 ∧
          w.trace.count (Event.children n) ≤ 1) ∧
    (∀ (g : Depsgraph) (picks : List Nat), Closed g →
      ∃ w, evaluate_pass g.operations.length g picks = some w) := by
  refine ⟨?_, ?_, ?_⟩
  · intro fuel w n dec hs
    rw [schedule_node_succ]
    rcases node_action_shape w n dec with ⟨hp, ht, hst, hsch⟩ | ⟨hn, -⟩ | ⟨hn, -⟩
    · rw [hst]
      refine ⟨_, rfl, hp, ht, ?_, fun m hm => node_action_node_ne w n m dec hm⟩
      rw [hsch, hs]
    · rw [hn] at hs
      cases hs
    · rw [hn] at hs
      cases hs
  · intro g fuel picks w h n
    have ho := Once.pass_once h
    have h1 := ho.push_once n
    have h2 := ho.evals n
    exact ⟨h1, by omega, ho.rel_once n⟩
  · intro g picks hc
    exact evaluate_pass_returns g hc _ picks (le_refl _)

/-- C11 on `example_cycle`, whose relation 1 → 0 is cyclic: operation 0 is
scheduled after the seeding and a further `schedule_node` on it changes neither
pool nor record; the pass returns and dispatches each operation once. -/
theorem C11_at_most_once_witness :
    (schedule_graph 2
        { graph := initialize_execution example_cycle, pool := [], trace := [] }).map
      (fun w => ((w.graph.node 0).scheduled, w.pool, w.trace)) =
      some (true, [0], [Event.push 0]) ∧
    ((schedule_graph 2
        { graph := initialize_execution example_cycle, pool := [], trace := [] }).bind
      (fun w => schedule_node 2 w 0 true)).map (fun w => (w.pool, w.trace)) =
      some ([0], [Event.push 0]) ∧
    (evaluate_pass 2 example_cycle [0, 0]).map (fun w => w.trace) =
      some [Event.push 0, Event.evaluate 0, Event.children 0, Event.push 1,
        Event.evaluate 1, Event.children 1] ∧
    ∀ (w : EvalWorld), evaluate_pass 2 example_cycle [0, 0] = some w →
      ∀ n, w.trace.count (Event.push n) ≤ 1 ∧ w.trace.count (Event.evaluate n) ≤ 1 ∧
        w.trace.count (Event.children n) ≤ 1 :=
  ⟨by decide, by decide, by decide, C11_at_most_once.2.1 example_cycle 2 [0, 0]⟩

/-- C12: `initialize_execution` is idempotent. Run twice in a row it returns
the graph it returns when run once, so `num_links_pending` and `scheduled` of
every node agree (the counters are recomputed from zero, whatever values they
held); and every registered operation whose needs-update flag is clear has
`num_links_pending = 0` after one run and after two. -/
theorem C12_initialize_idempotent (g : Depsgraph) :
    initialize_execution (initialize_execution g) = initialize_execution g ∧
    (∀ n, ((initialize_execution (initialize_execution g)).node n).num_links_pending =
        ((initialize_execution g).node n).num_links_pending ∧
      ((initialize_execution (initialize_execution g)).node n).scheduled =
        ((initialize_execution g).node n).scheduled) ∧
    (∀ n ∈ g.operations, ∀ (p : Nat) (s : Bool),
      initialize_execution (g.setdyn n p s) = initialize_execution g) ∧
    (∀ n ∈ g.operations, ((g.node n).flag &&& DEPSOP_FLAG_NEEDS_UPDATE) = 0 →
      ((initialize_execution g).node n).num_links_pending = 0 ∧
      ((initialize_execution (initialize_execution g)).node n).num_links_pending = 0) := by
  have hst := init_graph_static g
  have key : initialize_execution (initialize_execution g) = initialize_execution g := by
    rw [initialize_execution_eq, initialize_execution_eq]
    unfold init_graph init_graph_on
    simp only
    congr 1
    funext m
    split_ifs with hm
    · have h1 : pending_spec (init_graph_on g g.operations) m = pending_spec g m := by
        have := hst.pending_spec
        exact congrFun this m
      simp only [init_graph_on, hm, if_true] at h1 ⊢
      rw [h1]
    · rfl
  refine ⟨key, fun n => by rw [key]; exact ⟨rfl, rfl⟩, ?_, ?_⟩
  · intro n hn p s
    rw [initialize_execution_eq, initialize_execution_eq]
    unfold init_graph init_graph_on
    simp only [setdyn_operations]
    have hps : pending_spec (g.setdyn n p s) = pending_spec g := setdyn_pending_spec g n p s
    unfold Depsgraph.setdyn Depsgraph.modify at hps ⊢
    simp only
    congr 1
    funext m
    rw [hps]
    by_cases hm : m ∈ g.operations
    · by_cases hmn : m = n
      · subst hmn
        simp [hm]
      · simp [hm, hmn]
    · have hmn : m ≠ n := fun e => hm (e ▸ hn)
      simp [hm, hmn]
  · intro n hn hf
    have h0 : pending_spec g n = 0 := by
      simp [pending_spec, is_live, hf]
    have h1 : ((initialize_execution g).node n).num_links_pending = 0 := by
      rw [initialize_execution_eq, init_graph_pending g n hn, h0]
    exact ⟨h1, by rw [key]; exact h1⟩

/-- C12 on `example_chain`, whose nodes start with stale counters: a second
run of `initialize_execution` leaves the counters of the first, and on
`example_untagged_child` the untagged operation 1 has counter 0. -/
theorem C12_initialize_idempotent_witness :
    (((initialize_execution example_chain).node 1).num_links_pending,
      ((initialize_execution (initialize_execution example_chain)).node 1).num_links_pending) =
      (1, 1) ∧
    (1 ∈ example_untagged_child.operations ∧
      ((example_untagged_child.node 1).flag &&& DEPSOP_FLAG_NEEDS_UPDATE) = 0) ∧
    ((initialize_execution example_untagged_child).node 1).num_links_pending = 0 ∧
    ((initialize_execution (initialize_execution example_untagged_child)).node
      1).num_links_pending = 0 :=
  ⟨by decide, by decide,
    (C12_initialize_idempotent example_untagged_child).2.2.2 1 (by decide) (by decide)⟩

/-- C13, the claim as stated fails: in `example_parent_children 0` only the
operation of the parent is tagged; the complete pass (the pool is empty at the
end) dispatches the parent and neither child. -/
theorem C13_counterexample :
    ParentTwoChildren (example_parent_children 0) 0 1 2 ∧
    (((example_parent_children 0).node 0).flag &&& DEPSOP_FLAG_NEEDS_UPDATE) ≠ 0 ∧
    (((example_parent_children 0).node 1).flag &&& DEPSOP_FLAG_NEEDS_UPDATE) = 0 ∧
    (((example_parent_children 0).node 2).flag &&& DEPSOP_FLAG_NEEDS_UPDATE) = 0 ∧
    (evaluate_pass 3 (example_parent_children 0) [0, 0, 0]).map (fun w => (w.pool, w.trace)) =
      some ([], [Event.push 0, Event.evaluate 0, Event.children 0]) := by
  decide

/-- C13, amended: in the scenario "parent with two children" with the
operation of the parent tagged, a pass with enough fuel and picks returns with
an empty pool and has dispatched the parent exactly once; a child whose
operation is tagged as well is dispatched exactly once, after the parent was
pushed and released its children, whatever the order in which queued tasks are
taken; a child whose operation is not tagged is not dispatched. -/
theorem C13_parent_two_children (g : Depsgraph) (p c1 c2 : Nat)
    (h : ParentTwoChildren g p c1 c2)
    (hp : ((g.node p).flag &&& DEPSOP_FLAG_NEEDS_UPDATE) ≠ 0)
    (fuel : Nat) (picks : List Nat) (hf : 3 ≤ fuel) (hk : 3 ≤ picks.length) :
    ∃ w, evaluate_pass fuel g picks = some w ∧ w.pool = [] ∧
      w.trace.count (Event.push p) = 1 ∧ w.trace.count (Event.evaluate p) = 1 ∧
      ∀ c, c = c1 ∨ c = c2 →
        ((((g.node c).flag &&& DEPSOP_FLAG_NEEDS_UPDATE) ≠ 0 →
          w.trace.count (Event.push c) = 1 ∧ w.trace.count (Event.evaluate c) = 1 ∧
          ∀ t1 t2, w.trace = t1 ++ Event.push c :: t2 →
            Event.push p ∈ t1 ∧ Event.children p ∈ t1) ∧
        (((g.node c).flag &&& DEPSOP_FLAG_NEEDS_UPDATE) = 0 →
          w.trace.count (Event.push c) = 0 ∧ w.trace.count (Event.evaluate c) = 0)) := by
  have hw := h.wf
  have hlen : g.operations.length = 3 := h.2.1.length_eq
  obtain ⟨w, hpass, hpool, hinv, hst, hsched⟩ := pass_complete g hw _ h.topo fuel picks
    (by omega) (by omega)
  have hops : w.graph.operations = g.operations := hst.1
  have hnoop : ∀ n, n = p ∨ n = c1 ∨ n = c2 → (g.node n).is_noop = false := by
    intro n hn
    have := (h.2.2.1 n (by simpa using hn)).2.2
    simp [OperationDepsNode.is_noop, this]
  have once : ∀ n, n = p ∨ n = c1 ∨ n = c2 →
      ((g.node n).flag &&& DEPSOP_FLAG_NEEDS_UPDATE) ≠ 0 →
        w.trace.count (Event.push n) = 1 ∧ w.trace.count (Event.evaluate n) = 1 := by
    intro n hn hfl
    have hm : n ∈ g.operations := (h.mem n).2 hn
    have hl : is_live g n = true := by
      rw [h.live n hn]
      simpa using hfl
    exact quiescent_evaluated hinv hpool (by rw [hops]; exact hm)
      (by rw [hst.is_live]; exact hl) (hsched n hm hl) (by rw [hst.is_noop]; exact hnoop n hn)
  have hpl : is_live g p = true := by
    rw [h.live p (Or.inl rfl)]
    simpa using hp
  refine ⟨w, hpass, hpool, (once p (Or.inl rfl) hp).1, (once p (Or.inl rfl) hp).2, ?_⟩
  intro c hc
  have hcm : c = p ∨ c = c1 ∨ c = c2 := Or.inr hc
  have hin : mk_relation p c 0 ∈ (g.node c).inlinks := by
    rcases hc with rfl | rfl
    · rw [h.2.2.2.2.1.1]
      exact List.mem_singleton_self _
    · rw [h.2.2.2.2.2.1]
      exact List.mem_singleton_self _
  have hilen : (g.node c).inlinks.length = 1 := by
    rcases hc with rfl | rfl
    · rw [h.2.2.2.2.1.1]
      rfl
    · rw [h.2.2.2.2.2.1]
      rfl
  refine ⟨fun hfl => ⟨(once c hcm hfl).1, (once c hcm hfl).2, ?_⟩, fun hfl => ?_⟩
  · intro t1 t2 ht
    have hord := hst.TraceOrd _ hinv.order
    have hdisp := hst.TraceDisp _ hinv.disp
    have hcnt : rel_counted g (mk_relation p c 0) = true := by
      simp [rel_counted, rel_noncyclic, DEPSREL_FLAG_CYCLIC, hpl]
    have h1 : Event.children p ∈ t1 := by
      have := hord t1 (Event.push c) t2 c ht (Or.inl rfl)
        (lt_of_le_of_lt (counted_le_length g c) (by rw [hilen]; simp [UINT32_SIZE]))
        (mk_relation p c 0) hin hcnt
      simpa using this
    refine ⟨?_, h1⟩
    obtain ⟨s1, s2, hs⟩ := List.append_of_mem h1
    obtain ⟨e1, he1, hd1⟩ := hdisp s1 (s2 ++ Event.push c :: t2) p (by rw [ht, hs]; simp)
    have he : e1 = Event.push p := by
      rcases hd1 with hd1 | ⟨hd1, -⟩
      · exact hd1
      · rw [hnoop p (Or.inl rfl)] at hd1
        cases hd1
    subst he
    rw [hs]
    rcases List.mem_append.1 he1 with h2 | h2
    · exact List.mem_append_left _ h2
    · rw [List.mem_singleton] at h2
      cases h2
  · have hl : is_live g c = false := by
      rw [h.live c hcm]
      simpa using hfl
    have h2 := hinv.pushes c
    have h1 := hinv.evals c
    simp only [hpool, List.count_nil, Nat.add_zero] at h1
    simp only [hst.is_live, hl] at h2
    simp only [Bool.false_eq_true, false_and, and_false, if_false] at h2
    exact ⟨h2, by rw [h1, h2]⟩

/-- C13, the amended claim on `example_parent_children 1`, all three operations
tagged: the two ways of taking the queued children give the two orders of
evaluation, and in both the children are pushed after the parent released. -/
theorem C13_parent_two_children_witness :
    (ParentTwoChildren (example_parent_children 1) 0 1 2 ∧
      (((example_parent_children 1).node 0).flag &&& DEPSOP_FLAG_NEEDS_UPDATE) ≠ 0 ∧
      (3 ≤ 3 ∧ 3 ≤ [0, 0, 0].length)) ∧
    (evaluate_pass 3 (example_parent_children 1) [0, 0, 0]).map (fun w => w.trace) =
      some [Event.push 0, Event.evaluate 0, Event.children 0, Event.push 1, Event.push 2,
        Event.evaluate 1, Event.children 1, Event.evaluate 2, Event.children 2] ∧
    (evaluate_pass 3 (example_parent_children 1) [0, 1, 0]).map (fun w => w.trace) =
      some [Event.push 0, Event.evaluate 0, Event.children 0, Event.push 1, Event.push 2,
        Event.evaluate 2, Event.children 2, Event.evaluate 1, Event.children 1] ∧
    ∃ w, evaluate_pass 3 (example_parent_children 1) [0, 0, 0] = some w ∧ w.pool = [] ∧
      w.trace.count (Event.push 0) = 1 ∧ w.trace.count (Event.evaluate 0) = 1 ∧
      ∀ c, c = 1 ∨ c = 2 →
        (((((example_parent_children 1).node c).flag &&& DEPSOP_FLAG_NEEDS_UPDATE) ≠ 0 →
          w.trace.count (Event.push c) = 1 ∧ w.trace.count (Event.evaluate c) = 1 ∧
          ∀ t1 t2, w.trace = t1 ++ Event.push c :: t2 →
            Event.push 0 ∈ t1 ∧ Event.children 0 ∈ t1) ∧
        ((((example_parent_children 1).node c).flag &&& DEPSOP_FLAG_NEEDS_UPDATE) = 0 →
          w.trace.count (Event.push c) = 0 ∧ w.trace.count (Event.evaluate c) = 0)) :=
  ⟨by decide, by decide, by decide,
    C13_parent_two_children (example_parent_children 1) 0 1 2 (by decide) (by decide) 3
      [0, 0, 0] (by decide) (by decide)⟩

/-- C14: drain. When `deg_evaluate_on_refresh` is entered with entry tags, so
that a pass is run, and returns, the graph has the operations it had, the
needs-update flag of every registered operation is clear, whether the operation
was dispatched or not, and the entry tags are empty; on a graph whose outgoing
relations lead to registered operations it does return when the fuel covers
the operations. -/
theorem C14_drain (g : Depsgraph) (fuel : Nat) (picks : List Nat) :
    (Closed g → g.operations.length ≤ fuel →
      ∃ g1, deg_evaluate_on_refresh fuel g picks = some g1) ∧
    (∀ g1, g.entry_tags ≠ [] → deg_evaluate_on_refresh fuel g picks = some g1 →
      g1.operations = g.operations ∧
      (∀ n ∈ g1.operations, ((g1.node n).flag &&& DEPSOP_FLAG_NEEDS_UPDATE) = 0) ∧
      g1.entry_tags = []) := by
  refine ⟨?_, ?_⟩
  · intro hc hf
    unfold deg_evaluate_on_refresh
    split_ifs
    · exact ⟨g, rfl⟩
    · obtain ⟨w, hw⟩ := evaluate_pass_returns g hc fuel picks hf
      rw [hw]
      exact ⟨_, rfl⟩
  · intro g1 ht h
    unfold deg_evaluate_on_refresh at h
    have hlen : ¬ g.entry_tags.length = 0 := fun h0 => ht (List.length_eq_zero.1 h0)
    rw [if_neg hlen] at h
    cases hp : evaluate_pass fuel g picks with
    | none => simp [hp] at h
    | some w =>
      simp only [hp, Option.some.injEq] at h
      subst h
      have hops : w.graph.operations = g.operations := (pass_static hp).1
      refine ⟨?_, ?_, rfl⟩
      · rw [deg_graph_clear_tags_operations, hops]
      · intro n hn
        rw [deg_graph_clear_tags_operations] at hn
        exact deg_graph_clear_tags_flag w.graph n hn

/-- C14 on `example_untagged_child` with an entry tag: operation 1 is not
tagged and never dispatched, operation 0 is dispatched; after the refresh both
flags are clear and the entry tags are empty. -/
theorem C14_drain_witness :
    (deg_evaluate_on_refresh 2 { example_untagged_child with entry_tags := [0] } [0]).map
      (fun g => ((g.node 0).flag, (g.node 1).flag, g.entry_tags)) = some (0, 0, []) ∧
    ∀ g1, ({ example_untagged_child with entry_tags := [0] } : Depsgraph).entry_tags ≠ [] →
      deg_evaluate_on_refresh 2 { example_untagged_child with entry_tags := [0] } [0] =
        some g1 →
      g1.operations = ({ example_untagged_child with entry_tags := [0] } : Depsgraph).operations ∧
      (∀ n ∈ g1.operations, ((g1.node n).flag &&& DEPSOP_FLAG_NEEDS_UPDATE) = 0) ∧
      g1.entry_tags = [] :=
  ⟨by decide, (C14_drain { example_untagged_child with entry_tags := [0] } 2 [0]).2⟩

/-- C15: after `DEG_graph_tag_relations_update` the flag `need_update` of the
graph is true whatever it was; a second call changes nothing, so `need_update`
stays true; and the call changes neither the registered operations nor any
relation, owner, callback or counter of a node, nor the ID nodes, the scene or
the relation caches (it may tag operations of the scene and enter them in the
entry tags). -/
theorem C15_tag_relations_update (g : Depsgraph) :
    (DEG_graph_tag_relations_update g).need_update = true ∧
    (DEG_graph_tag_relations_update (DEG_graph_tag_relations_update g)).need_update = true ∧
    DEG_graph_tag_relations_update (DEG_graph_tag_relations_update g) =
      DEG_graph_tag_relations_update g ∧
    (DEG_graph_tag_relations_update g).operations = g.operations ∧
    (∀ n, ((DEG_graph_tag_relations_update g).node n).inlinks = (g.node n).inlinks ∧
      ((DEG_graph_tag_relations_update g).node n).outlinks = (g.node n).outlinks ∧
      ((DEG_graph_tag_relations_update g).node n).owner = (g.node n).owner ∧
      ((DEG_graph_tag_relations_update g).node n).evaluate = (g.node n).evaluate ∧
      ((DEG_graph_tag_relations_update g).node n).num_links_pending =
        (g.node n).num_links_pending ∧
      ((DEG_graph_tag_relations_update g).node n).scheduled = (g.node n).scheduled) ∧
    (DEG_graph_tag_relations_update g).id_hash = g.id_hash ∧
    (DEG_graph_tag_relations_update g).scene = g.scene ∧
    (DEG_graph_tag_relations_update g).physics_relations = g.physics_relations := by
  have hs := tag_relations_update_same g
  obtain ⟨h1, h2, h3, h4, h5, h6⟩ := hs
  refine ⟨h2, tag_relations_update_need_update _, tag_relations_update_idem g, h1, fun n => ?_,
    h3, h4, h5⟩
  obtain ⟨a1, a2, a3, a4, a5, a6⟩ := h6 n
  exact ⟨a2, a3, a1, a4, a5, a6⟩

/-- C16: a relations-build request. With `need_update` clear
`DEG_graph_relations_update` returns the state it was given, no builder being
run; with `need_update` set it is one run of `DEG_graph_build_from_view_layer`
(the counter of runs grows by one), `need_update` is clear afterwards, and a
request repeated at once changes nothing. -/
theorem C16_relations_update (b : DepsgraphBuilders) (debug_value : Int) (w : BuildWorld) :
    (w.graph.need_update = false → DEG_graph_relations_update b debug_value w = w) ∧
    (w.graph.need_update = true →
      DEG_graph_relations_update b debug_value w =
        DEG_graph_build_from_view_layer b debug_value w ∧
      (DEG_graph_relations_update b debug_value w).builds = w.builds + 1 ∧
      (DEG_graph_relations_update b debug_value w).graph.need_update = false ∧
      DEG_graph_relations_update b debug_value (DEG_graph_relations_update b debug_value w) =
        DEG_graph_relations_update b debug_value w) := by
  refine ⟨fun h => ?_, fun h => ?_⟩
  · simp [DEG_graph_relations_update, h]
  · have h1 : DEG_graph_relations_update b debug_value w =
        DEG_graph_build_from_view_layer b debug_value w := by
      simp [DEG_graph_relations_update, h]
    have h2 : (DEG_graph_build_from_view_layer b debug_value w).graph.need_update = false := rfl
    refine ⟨h1, ?_, ?_, ?_⟩
    · rw [h1]
      rfl
    · rw [h1]
      exact h2
    · rw [h1]
      simp [DEG_graph_relations_update, h2]

/-- C16 on `example_scene_graph`: the request is a no-op while `need_update`
is clear; after the graph was tagged the request runs the build once, and a
second request does not run it again. -/
theorem C16_relations_update_witness :
    example_scene_graph.need_update = false ∧
    (DEG_graph_relations_update example_builders 0
      { graph := example_scene_graph, builds := 0 }).builds = 0 ∧
    (DEG_graph_tag_relations_update example_scene_graph).need_update = true ∧
    (DEG_graph_relations_update example_builders 0
      (DEG_graph_relations_update example_builders 0
        { graph := DEG_graph_tag_relations_update example_scene_graph, builds := 0 })).builds =
      1 ∧
    (DEG_graph_relations_update example_builders 0
        { graph := DEG_graph_tag_relations_update example_scene_graph, builds := 0 } =
      DEG_graph_build_from_view_layer example_builders 0
        { graph := DEG_graph_tag_relations_update example_scene_graph, builds := 0 } ∧
    (DEG_graph_relations_update example_builders 0
      { graph := DEG_graph_tag_relations_update example_scene_graph, builds := 0 }).builds =
        0 + 1 ∧
    (DEG_graph_relations_update example_builders 0
      { graph := DEG_graph_tag_relations_update example_scene_graph,
        builds := 0 }).graph.need_update = false ∧
    DEG_graph_relations_update example_builders 0
        (DEG_graph_relations_update example_builders 0
          { graph := DEG_graph_tag_relations_update example_scene_graph, builds := 0 }) =
      DEG_graph_relations_update example_builders 0
        { graph := DEG_graph_tag_relations_update example_scene_graph, builds := 0 }) :=
  ⟨by decide, by decide, by decide, by decide,
    (C16_relations_update example_builders 0
      { graph := DEG_graph_tag_relations_update example_scene_graph, builds := 0 }).2
      (by decide)⟩

/-- C18, the claim as stated fails: in `example_physics` the list for
collection 5 is cached by a first call of `deg_build_effector_relations`; after
`DEG_graph_tag_relations_update` on the graph (which does set `need_update`)
the cache still holds the list, and the next call returns the cached list 1
without running the constructor again. -/
theorem C18_counterexample :
    (deg_build_effector_relations example_physics 5).1 = 1 ∧
    (deg_build_effector_relations example_physics 5).2.created = [PhysicsCreate.effector 5] ∧
    (DEG_graph_tag_relations_update
      (deg_build_effector_relations example_physics 5).2.graph).need_update = true ∧
    (DEG_graph_tag_relations_update
      (deg_build_effector_relations example_physics 5).2.graph).physics_relations
        DEG_PHYSICS_EFFECTOR = some [(5, 1)] ∧
    (deg_build_effector_relations
      { (deg_build_effector_relations example_physics 5).2 with
        graph := DEG_graph_tag_relations_update
          (deg_build_effector_relations example_physics 5).2.graph } 5).1 = 1 ∧
    (deg_build_effector_relations
      { (deg_build_effector_relations example_physics 5).2 with
        graph := DEG_graph_tag_relations_update
          (deg_build_effector_relations example_physics 5).2.graph } 5).2.created =
      [PhysicsCreate.effector 5] := by
  decide

/-- C18, amended: `DEG_graph_tag_relations_update` leaves the relation caches
of the graph as they are. `deg_clear_physics_relations` clears the whole cache:
every slot of the array is NULL afterwards, no constructor is run, and the
rest of the graph is untouched; the next call of a cache helper for any
collection, cached before or not, runs the constructor again. -/
theorem C18_cache_invalidation :
    (∀ g : Depsgraph,
      (DEG_graph_tag_relations_update g).physics_relations = g.physics_relations) ∧
    (∀ (w : PhysicsWorld) (t : ePhysicsRelationType), t ≠ DEG_PHYSICS_RELATIONS_NUM →
      (deg_clear_physics_relations w).graph.physics_relations t = none) ∧
    (∀ w : PhysicsWorld, (deg_clear_physics_relations w).created = w.created ∧
      (deg_clear_physics_relations w).graph.node = w.graph.node ∧
      (deg_clear_physics_relations w).graph.operations = w.graph.operations ∧
      (deg_clear_physics_relations w).graph.need_update = w.graph.need_update) ∧
    (∀ (w : PhysicsWorld) (collection : Nat),
      (deg_build_effector_relations (deg_clear_physics_relations w) collection).2.created =
        w.created ++ [PhysicsCreate.effector collection]) ∧
    (∀ (w : PhysicsWorld) (collection modifier_type : Nat),
      modifier_type = eModifierType_Collision ∨ modifier_type = eModifierType_Smoke ∨
        modifier_type = eModifierType_DynamicPaint →
      ∃ r, deg_build_collision_relations (deg_clear_physics_relations w) collection
          modifier_type = some r ∧
        r.2.created = w.created ++ [PhysicsCreate.collision collection modifier_type]) := by
  refine ⟨fun g => (tag_relations_update_same g).2.2.2.2.1, deg_clear_physics_relations_get,
    fun w => ⟨deg_clear_physics_relations_created w, ?_⟩, ?_, ?_⟩
  · simp only [deg_clear_physics_relations, List.foldl_cons, List.foldl_nil]
    have h := fun w t => clear_slot_graph w t
    refine ⟨?_, ?_, ?_⟩
    · rw [(h _ _).1, (h _ _).1, (h _ _).1, (h _ _).1]
    · rw [(h _ _).2.1, (h _ _).2.1, (h _ _).2.1, (h _ _).2.1]
    · rw [(h _ _).2.2, (h _ _).2.2, (h _ _).2.2, (h _ _).2.2]
  · intro w collection
    rw [deg_build_effector_relations_eq,
      deg_build_relations_created _ _ (PhysicsCreate.effector collection) (fun _ => rfl),
      if_pos (deg_clear_physics_relations_cached w _ (by decide) collection),
      deg_clear_physics_relations_created]
  · intro w collection modifier_type hm
    have ht := collision_type_known modifier_type hm
    rw [deg_build_collision_relations_eq _ _ _ ht]
    refine ⟨_, rfl, ?_⟩
    rw [deg_build_relations_created _ _ (PhysicsCreate.collision collection modifier_type)
        (fun _ => rfl),
      if_pos (deg_clear_physics_relations_cached w _ ht collection),
      deg_clear_physics_relations_created]

/-- C18, the amended claim on `example_physics` with the list for collection 5
cached: after `deg_clear_physics_relations` the list is freed, the slot is NULL
and the next call runs the constructor a second time. -/
theorem C18_cache_invalidation_witness :
    ((deg_clear_physics_relations
        (deg_build_effector_relations example_physics 5).2).graph.physics_relations
          DEG_PHYSICS_EFFECTOR,
      (deg_clear_physics_relations (deg_build_effector_relations example_physics 5).2).freed) =
      (none, [1]) ∧
    (deg_build_effector_relations
      (deg_clear_physics_relations (deg_build_effector_relations example_physics 5).2)
        5).2.created =
      (deg_build_effector_relations example_physics 5).2.created ++
        [PhysicsCreate.effector 5] :=
  ⟨by decide,
    C18_cache_invalidation.2.2.2.1 (deg_build_effector_relations example_physics 5).2 5⟩

/-- C19: `DEG_relations_tag_update` walks the scenes of `bmain` in place. Each
scene keeps its view layers; a graph is stored for a key afterwards exactly
when one was stored before (no graph is made, a pair without graph is
skipped); the graph of every view layer of the scene is the graph that was
stored, after `DEG_graph_tag_relations_update`, so its `need_update` is true;
and a graph stored for a key that is no view layer of the scene is left as it
is. -/
theorem C19_tag_relations_update_all (bmain : Main) :
    (DEG_relations_tag_update bmain).scene.length = bmain.scene.length ∧
    ∀ (i : Nat) (scene scene1 : Scene), bmain.scene[i]? = some scene →
      (DEG_relations_tag_update bmain).scene[i]? = some scene1 →
        scene1.view_layers = scene.view_layers ∧
        (∀ k, (scene1.depsgraph_hash k).isSome = (scene.depsgraph_hash k).isSome) ∧
        (∀ view_layer ∈ scene.view_layers, ∀ g1, scene1.depsgraph_hash view_layer = some g1 →
          g1.need_update = true ∧
          ∃ g, scene.depsgraph_hash view_layer = some g ∧
            g1 = DEG_graph_tag_relations_update g) ∧
        (∀ k, k ∉ scene.view_layers → scene1.depsgraph_hash k = scene.depsgraph_hash k) := by
  refine ⟨by simp [DEG_relations_tag_update], ?_⟩
  intro i scene scene1 h h1
  simp only [DEG_relations_tag_update, List.getElem?_map, h, Option.map_some',
    Option.some.injEq] at h1
  subst h1
  refine ⟨(tag_layers_hash _ scene 0).1, fun k => (tag_layers_hash _ scene k).2.1, ?_,
    fun k hk => (tag_layers_hash _ scene k).2.2.1 hk⟩
  intro view_layer hv g1 hg1
  obtain ⟨g, hg, he⟩ := (tag_layers_hash _ scene view_layer).2.2.2 hv g1 hg1
  exact ⟨by rw [he]; exact tag_relations_update_need_update g, g, hg, he⟩

/-- C19 on `example_main`: the graph of view layer 1 is tagged, view layer 2
has no graph before and after, and the graph stored for key 3, which is no
view layer, keeps `need_update` clear. -/
theorem C19_tag_relations_update_all_witness :
    (DEG_relations_tag_update example_main).scene.map
      (fun s => (s.view_layers,
        [1, 2, 3].map (fun k => (s.depsgraph_hash k).map (fun g => g.need_update)))) =
      [([1, 2], [some true, none, some false])] ∧
    (DEG_relations_tag_update example_main).scene.length = example_main.scene.length :=
  ⟨by decide, (C19_tag_relations_update_all example_main).1⟩

/-- C20: race-free release. Several worker threads release the same child, the
accesses of `schedule_children` and `schedule_node` to `num_links_pending` and
`scheduled` being interleaved in any order (`schedule`); the counter starts
with the number of relations that decrement it, those of the threads and
`rest` more, below 2^32. In every state the child was dispatched at most once;
it is dispatched (or a thread is about to dispatch it) only when no relation is
left to be released, every thread that decrements having done so; when all
threads have finished the outcome is that of decrement and test taken as one
atomic step: the counter holds `rest`, and the child is scheduled and was
dispatched exactly once when `rest = 0` and not at all otherwise; and the
threads can always finish. -/
theorem C20_race_free_release (dec_parents : List Bool) (rest : Nat)
    (hne : dec_parents ≠ []) (hlt : rest + dec_parents.countP id < 4294967296)
    (schedule : List Nat) :
    (release_run (release_init dec_parents rest) schedule).dispatched ≤ 1 ∧
    (0 < (release_run (release_init dec_parents rest) schedule).dispatched ∨
      (∃ t ∈ (release_run (release_init dec_parents rest) schedule).threads,
        t.pc = ReleasePc.at_dispatch) →
      rest = 0 ∧
      (release_run (release_init dec_parents rest) schedule).num_links_pending = 0 ∧
      ∀ t ∈ (release_run (release_init dec_parents rest) schedule).threads,
        t.dec_parents = true →
          t.pc ≠ ReleasePc.at_child_scheduled ∧ t.pc ≠ ReleasePc.at_dec_parents) ∧
    ((∀ t ∈ (release_run (release_init dec_parents rest) schedule).threads,
        t.pc = ReleasePc.finished) →
      (release_run (release_init dec_parents rest) schedule).num_links_pending = rest ∧
      (release_run (release_init dec_parents rest) schedule).scheduled = decide (rest = 0) ∧
      (release_run (release_init dec_parents rest) schedule).dispatched =
        if rest = 0 then 1 else 0) ∧
    ∃ more, ∀ t ∈ (release_run (release_run (release_init dec_parents rest) schedule)
      more).threads, t.pc = ReleasePc.finished := by
  have hinv := (ReleaseInv.init_inv dec_parents rest hne hlt).run_inv schedule
  generalize release_run (release_init dec_parents rest) schedule = s at hinv ⊢
  obtain ⟨hA, hb, hB, hC, hD⟩ := hinv
  refine ⟨?_, ?_, ?_, release_finishes s⟩
  · split_ifs at hC <;> omega
  · intro h
    have hsch : s.scheduled = true := by
      cases hs : s.scheduled
      · rw [hs] at hC
        simp only [Bool.false_eq_true, if_false] at hC
        rcases h with h | ⟨t, ht, hpc⟩
        · omega
        · have : 0 < s.threads.countP (fun t => decide (t.pc = ReleasePc.at_dispatch)) :=
            List.countP_pos_iff.2 ⟨t, ht, by simp [hpc]⟩
          omega
      · rfl
    have hz := hB (Or.inl hsch)
    have hu : s.threads.countP ReleaseThread.undecremented = 0 := by omega
    refine ⟨by omega, hz, ?_⟩
    intro t ht hdec
    have := List.countP_eq_zero.1 hu t ht
    simp only [ReleaseThread.undecremented, hdec, Bool.true_and, Bool.or_eq_true,
      decide_eq_true_eq, not_or] at this
    exact this
  · intro hfin
    have h1 := countP_eq_zero_of_finished s.threads hfin ReleaseThread.undecremented
      (fun t ht => by simp [ReleaseThread.undecremented, ht])
    have h2 := countP_eq_zero_of_finished s.threads hfin ReleaseThread.saw_zero
      (fun t ht => by simp [ReleaseThread.saw_zero, ht])
    have h3 := countP_eq_zero_of_finished s.threads hfin ReleaseThread.active
      (fun t ht => by simp [ReleaseThread.active, ht])
    have h4 := countP_eq_zero_of_finished s.threads hfin
      (fun t => decide (t.pc = ReleasePc.at_dispatch)) (fun t ht => by simp [ht])
    rw [h1] at hA
    rw [h2] at hB
    rw [h3] at hD
    rw [h4] at hC
    have hp : s.num_links_pending = rest := by omega
    refine ⟨hp, ?_, ?_⟩
    · cases hs : s.scheduled
      · by_cases hr : rest = 0
        · have := hD (by omega) hs
          omega
        · simp [hr]
      · have := hB (Or.inl hs)
        have hr : rest = 0 := by omega
        simp [hr]
    · cases hs : s.scheduled
      · by_cases hr : rest = 0
        · have := hD (by omega) hs
          omega
        · rw [hs] at hC
          simp only [Bool.false_eq_true, if_false] at hC
          rw [if_neg hr]
          omega
      · have := hB (Or.inl hs)
        have hr : rest = 0 := by omega
        rw [hs] at hC
        simp only [if_true] at hC
        rw [if_pos hr]
        omega

/-- C20 on two parents that race: both decrement, both read 0, both reach
`atomic_fetch_and_or_uint8`; the first one dispatches the child, the second one
does not. -/
theorem C20_race_free_release_witness :
    ([true, true] ≠ [] ∧ 0 + [true, true].countP id < 4294967296) ∧
    release_run (release_init [true, true] 0) [0, 1, 0, 1, 0, 1, 0, 1] =
      { num_links_pending := 0, scheduled := true, dispatched := 0,
        threads := [{ dec_parents := true, pc := ReleasePc.at_dispatch },
          { dec_parents := true, pc := ReleasePc.finished }] } ∧
    release_run (release_init [true, true] 0) [0, 1, 0, 1, 0, 1, 0, 1, 0] =
      { num_links_pending := 0, scheduled := true, dispatched := 1,
        threads := [{ dec_parents := true, pc := ReleasePc.finished },
          { dec_parents := true, pc := ReleasePc.finished }] } ∧
    (release_run (release_init [true, true] 0) [0, 1, 0, 1, 0, 1, 0, 1, 0]).dispatched ≤ 1 :=
  ⟨by decide, by decide, by decide,
    (C20_race_free_release [true, true] 0 (by decide) (by decide)
      [0, 1, 0, 1, 0, 1, 0, 1, 0]).1⟩

/-- C26: early out. With an empty entry-tag set `deg_evaluate_on_refresh`
returns the graph it was given, whatever the fuel and the picks (also with no
fuel at all: no scheduling is attempted): no counter or scheduled flag is
reset, nothing is dispatched and no needs-update flag is cleared. -/
theorem C26_early_out (g : Depsgraph) (fuel : Nat) (picks : List Nat)
    (h : g.entry_tags = []) : deg_evaluate_on_refresh fuel g picks = some g := by
  simp [deg_evaluate_on_refresh, h]

/-- C26 on `example_chain`, whose operations are tagged and hold stale
counters but which has no entry tag: the refresh returns it with the stale
counters and the tags in place, while with an entry tag the counters are reset
and the tags cleared. -/
theorem C26_early_out_witness :
    example_chain.entry_tags = [] ∧
    (deg_evaluate_on_refresh 0 example_chain [0, 0]).map
      (fun g => ((g.node 1).num_links_pending, (g.node 1).scheduled, (g.node 1).flag)) =
      some (7, true, 1) ∧
    (deg_evaluate_on_refresh 2 { example_chain with entry_tags := [0] } [0, 0]).map
      (fun g => ((g.node 1).num_links_pending, (g.node 1).scheduled, (g.node 1).flag)) =
      some (0, true, 0) ∧
    deg_evaluate_on_refresh 0 example_chain [0, 0] = some example_chain :=
  ⟨rfl, by decide, by decide, C26_early_out example_chain 0 [0, 0] rfl⟩

/-- C29: the cache slot index is in range. `modifier_to_relation_type` maps the
Collision, Smoke and DynamicPaint modifier types to the kinds COLLISION,
SMOKE_COLLISION and DYNAMIC_BRUSH, pairwise distinct, different from EFFECTOR
and with an index strictly below that of `DEG_PHYSICS_RELATIONS_NUM`, and for
them `deg_build_collision_relations` and `DEG_get_collision_relations` find
their slot; every other modifier type is mapped to
`DEG_PHYSICS_RELATIONS_NUM`, whose index is the size of the array, and both
functions have no slot for it. -/
theorem C29_slot_in_range :
    modifier_to_relation_type eModifierType_Collision = DEG_PHYSICS_COLLISION ∧
    modifier_to_relation_type eModifierType_Smoke = DEG_PHYSICS_SMOKE_COLLISION ∧
    modifier_to_relation_type eModifierType_DynamicPaint = DEG_PHYSICS_DYNAMIC_BRUSH ∧
    [DEG_PHYSICS_EFFECTOR, DEG_PHYSICS_COLLISION, DEG_PHYSICS_SMOKE_COLLISION,
      DEG_PHYSICS_DYNAMIC_BRUSH].Nodup ∧
    (∀ t ∈ [DEG_PHYSICS_COLLISION, DEG_PHYSICS_SMOKE_COLLISION, DEG_PHYSICS_DYNAMIC_BRUSH],
      t.index < DEG_PHYSICS_RELATIONS_NUM.index) ∧
    (∀ modifier_type, modifier_type = eModifierType_Collision ∨
        modifier_type = eModifierType_Smoke ∨ modifier_type = eModifierType_DynamicPaint →
      (modifier_to_relation_type modifier_type).index < DEG_PHYSICS_RELATIONS_NUM.index ∧
      ∀ (orig : Nat → Nat) (w : PhysicsWorld) (collection : Nat),
        (deg_build_collision_relations w collection modifier_type).isSome = true ∧
        (DEG_get_collision_relations orig w.graph collection modifier_type).isSome = true) ∧
    (∀ modifier_type, modifier_type ≠ eModifierType_Collision →
        modifier_type ≠ eModifierType_Smoke → modifier_type ≠ eModifierType_DynamicPaint →
      modifier_to_relation_type modifier_type = DEG_PHYSICS_RELATIONS_NUM ∧
      ¬ (modifier_to_relation_type modifier_type).index < DEG_PHYSICS_RELATIONS_NUM.index ∧
      ∀ (orig : Nat → Nat) (w : PhysicsWorld) (collection : Nat),
        deg_build_collision_relations w collection modifier_type = none ∧
        DEG_get_collision_relations orig w.graph collection modifier_type = none) := by
  refine ⟨rfl, rfl, rfl, by decide, by decide, ?_, ?_⟩
  · intro modifier_type hm
    have ht := collision_type_known modifier_type hm
    refine ⟨?_, fun orig w collection => ⟨?_, ?_⟩⟩
    · rcases hm with rfl | rfl | rfl <;> decide
    · rw [deg_build_collision_relations_eq _ _ _ ht]
      rfl
    · unfold DEG_get_collision_relations
      simp only [ht, if_false]
      cases w.graph.physics_relations (modifier_to_relation_type modifier_type) <;> rfl
  · intro modifier_type h1 h2 h3
    have ht : modifier_to_relation_type modifier_type = DEG_PHYSICS_RELATIONS_NUM := by
      simp [modifier_to_relation_type, h1, h2, h3]
    refine ⟨ht, by rw [ht]; decide, fun orig w collection => ⟨?_, ?_⟩⟩
    · simp [deg_build_collision_relations, ht]
    · simp [DEG_get_collision_relations, ht]

/-- C30: the component-kind mappings. `deg_build_object_component_type` maps
the ten object component kinds to ten pairwise distinct node types, none of
them `DEG_NODE_TYPE_UNDEFINED`, and every other value to
`DEG_NODE_TYPE_UNDEFINED`; `deg_build_scene_component_type` does so for the
three scene component kinds; and the two agree on the kinds PARAMETERS and
ANIMATION. -/
theorem C30_component_kinds :
    [DEG_OB_COMP_PARAMETERS, DEG_OB_COMP_PROXY, DEG_OB_COMP_ANIMATION, DEG_OB_COMP_TRANSFORM,
      DEG_OB_COMP_GEOMETRY, DEG_OB_COMP_EVAL_POSE, DEG_OB_COMP_BONE,
      DEG_OB_COMP_EVAL_PARTICLES, DEG_OB_COMP_SHADING, DEG_OB_COMP_CACHE].map
        deg_build_object_component_type =
      [DEG_NODE_TYPE_PARAMETERS, DEG_NODE_TYPE_PROXY, DEG_NODE_TYPE_ANIMATION,
        DEG_NODE_TYPE_TRANSFORM, DEG_NODE_TYPE_GEOMETRY, DEG_NODE_TYPE_EVAL_POSE,
        DEG_NODE_TYPE_BONE, DEG_NODE_TYPE_EVAL_PARTICLES, DEG_NODE_TYPE_SHADING,
        DEG_NODE_TYPE_CACHE] ∧
    ([DEG_OB_COMP_PARAMETERS, DEG_OB_COMP_PROXY, DEG_OB_COMP_ANIMATION, DEG_OB_COMP_TRANSFORM,
      DEG_OB_COMP_GEOMETRY, DEG_OB_COMP_EVAL_POSE, DEG_OB_COMP_BONE,
      DEG_OB_COMP_EVAL_PARTICLES, DEG_OB_COMP_SHADING, DEG_OB_COMP_CACHE].map
        deg_build_object_component_type).Nodup ∧
    (∀ c ∈ [DEG_OB_COMP_PARAMETERS, DEG_OB_COMP_PROXY, DEG_OB_COMP_ANIMATION,
        DEG_OB_COMP_TRANSFORM, DEG_OB_COMP_GEOMETRY, DEG_OB_COMP_EVAL_POSE, DEG_OB_COMP_BONE,
        DEG_OB_COMP_EVAL_PARTICLES, DEG_OB_COMP_SHADING, DEG_OB_COMP_CACHE],
      deg_build_object_component_type c ≠ DEG_NODE_TYPE_UNDEFINED) ∧
    (∀ c, c ∉ [DEG_OB_COMP_PARAMETERS, DEG_OB_COMP_PROXY, DEG_OB_COMP_ANIMATION,
        DEG_OB_COMP_TRANSFORM, DEG_OB_COMP_GEOMETRY, DEG_OB_COMP_EVAL_POSE, DEG_OB_COMP_BONE,
        DEG_OB_COMP_EVAL_PARTICLES, DEG_OB_COMP_SHADING, DEG_OB_COMP_CACHE] →
      deg_build_object_component_type c = DEG_NODE_TYPE_UNDEFINED) ∧
    [DEG_SCENE_COMP_PARAMETERS, DEG_SCENE_COMP_ANIMATION, DEG_SCENE_COMP_SEQUENCER].map
        deg_build_scene_component_type =
      [DEG_NODE_TYPE_PARAMETERS, DEG_NODE_TYPE_ANIMATION, DEG_NODE_TYPE_SEQUENCER] ∧
    (∀ c, c ∉ [DEG_SCENE_COMP_PARAMETERS, DEG_SCENE_COMP_ANIMATION,
        DEG_SCENE_COMP_SEQUENCER] →
      deg_build_scene_component_type c = DEG_NODE_TYPE_UNDEFINED) ∧
    deg_build_scene_component_type DEG_SCENE_COMP_PARAMETERS =
      deg_build_object_component_type DEG_OB_COMP_PARAMETERS ∧
    deg_build_scene_component_type DEG_SCENE_COMP_ANIMATION =
      deg_build_object_component_type DEG_OB_COMP_ANIMATION := by
  refine ⟨by decide, by decide, by decide, ?_, by decide, ?_, rfl, rfl⟩
  · intro c hc
    simp only [List.mem_cons, List.mem_singleton, List.not_mem_nil, or_false, not_or] at hc
    obtain ⟨h0, h1, h2, h3, h4, h5, h6, h7, h8, h9⟩ := hc
    simp [deg_build_object_component_type, h0, h1, h2, h3, h4, h5, h6, h7, h8, h9]
  · intro c hc
    simp only [List.mem_cons, List.mem_singleton, List.not_mem_nil, or_false, not_or] at hc
    obtain ⟨h0, h1, h2⟩ := hc
    simp [deg_build_scene_component_type, h0, h1, h2]

/-- C28: query after build. The queries read the graph and return a pointer;
they return NULL when the slot of the kind holds no hash or the hash has no
entry for the collection. After `deg_build_effector_relations`, respectively
`deg_build_collision_relations`, for an original collection (one that
`DEG_get_original_id` maps to itself) the matching query returns the list that
the build call returned, and the slots of the other kinds, hence the queries
for them, are as before. After `deg_clear_physics_relations` every query
returns NULL. -/
theorem C28_query_after_build (orig : Nat → Nat) (w : PhysicsWorld) (c : Nat)
    (hc : orig c = c) :
    (∀ g : Depsgraph, g.physics_relations DEG_PHYSICS_EFFECTOR = none →
      DEG_get_effector_relations orig g c = NULL) ∧
    (∀ (g : Depsgraph) (hash : GHash), g.physics_relations DEG_PHYSICS_EFFECTOR = some hash →
      (∀ e ∈ hash, e.1 ≠ c) → DEG_get_effector_relations orig g c = NULL) ∧
    (∀ (g : Depsgraph) (modifier_type : Nat),
      g.physics_relations (modifier_to_relation_type modifier_type) = none ∨
        (∃ hash, g.physics_relations (modifier_to_relation_type modifier_type) = some hash ∧
          ∀ e ∈ hash, e.1 ≠ c) →
      modifier_to_relation_type modifier_type ≠ DEG_PHYSICS_RELATIONS_NUM →
        DEG_get_collision_relations orig g c modifier_type = some NULL) ∧
    (DEG_get_effector_relations orig (deg_build_effector_relations w c).2.graph c =
        (deg_build_effector_relations w c).1 ∧
      ∀ collection modifier_type,
        DEG_get_collision_relations orig (deg_build_effector_relations w c).2.graph collection
            modifier_type =
          DEG_get_collision_relations orig w.graph collection modifier_type) ∧
    (∀ modifier_type r, deg_build_collision_relations w c modifier_type = some r →
      DEG_get_collision_relations orig r.2.graph c modifier_type = some r.1 ∧
      (∀ collection, DEG_get_effector_relations orig r.2.graph collection =
        DEG_get_effector_relations orig w.graph collection) ∧
      ∀ collection other,
        modifier_to_relation_type other ≠ modifier_to_relation_type modifier_type →
          DEG_get_collision_relations orig r.2.graph collection other =
            DEG_get_collision_relations orig w.graph collection other) ∧
    ((∀ collection, DEG_get_effector_relations orig (deg_clear_physics_relations w).graph
        collection = NULL) ∧
      ∀ collection modifier_type,
        modifier_to_relation_type modifier_type ≠ DEG_PHYSICS_RELATIONS_NUM →
          DEG_get_collision_relations orig (deg_clear_physics_relations w).graph collection
            modifier_type = some NULL) := by
  have hce : ∀ collection, ∀ w1 : PhysicsWorld,
      (BKE_effector_relations_create w1 collection).2.graph = w1.graph := fun _ _ => rfl
  have hcc : ∀ collection modifier_type, ∀ w1 : PhysicsWorld,
      (BKE_collision_relations_create w1 collection modifier_type).2.graph = w1.graph :=
    fun _ _ _ => rfl
  refine ⟨?_, ?_, ?_, ⟨?_, ?_⟩, ?_, ⟨?_, ?_⟩⟩
  · intro g hg
    simp [DEG_get_effector_relations, hg]
  · intro g hash hg he
    simp only [DEG_get_effector_relations, hg, hc]
    exact BLI_ghash_lookup_absent hash c he
  · intro g modifier_type hg ht
    unfold DEG_get_collision_relations
    simp only [ht, if_false]
    rcases hg with hg | ⟨hash, hg, he⟩
    · rw [hg]
    · rw [hg]
      simp only [hc, BLI_ghash_lookup_absent hash c he]
  · obtain ⟨⟨hash, h1, h2⟩, -⟩ := deg_build_relations_slot DEG_PHYSICS_EFFECTOR _ (hce c) w c
    rw [deg_build_effector_relations_eq]
    simp only [DEG_get_effector_relations, h1, hc]
    exact h2
  · intro collection modifier_type
    have h3 := (deg_build_relations_slot DEG_PHYSICS_EFFECTOR _ (hce c) w c).2
    rw [deg_build_effector_relations_eq]
    unfold DEG_get_collision_relations
    simp only
    split_ifs with ht
    · rfl
    · have hne : modifier_to_relation_type modifier_type ≠ DEG_PHYSICS_EFFECTOR := by
        unfold modifier_to_relation_type
        split_ifs <;> decide
      rw [h3 _ hne]
  · intro modifier_type r hr
    by_cases ht : modifier_to_relation_type modifier_type = DEG_PHYSICS_RELATIONS_NUM
    · simp [deg_build_collision_relations, ht] at hr
    · rw [deg_build_collision_relations_eq _ _ _ ht] at hr
      simp only [Option.some.injEq] at hr
      subst hr
      obtain ⟨⟨hash, h1, h2⟩, h3⟩ := deg_build_relations_slot
        (modifier_to_relation_type modifier_type) _ (hcc c modifier_type) w c
      refine ⟨?_, fun collection => ?_, fun collection other hne => ?_⟩
      · unfold DEG_get_collision_relations
        simp only [ht, if_false, h1, hc, h2]
      · have hne : DEG_PHYSICS_EFFECTOR ≠ modifier_to_relation_type modifier_type := by
          unfold modifier_to_relation_type
          split_ifs <;> decide
        simp only [DEG_get_effector_relations, h3 _ hne]
      · unfold DEG_get_collision_relations
        simp only [h3 _ hne]
  · intro collection
    simp only [DEG_get_effector_relations,
      deg_clear_physics_relations_get w DEG_PHYSICS_EFFECTOR (by decide)]
  · intro collection modifier_type ht
    unfold DEG_get_collision_relations
    simp only [ht, if_false, deg_clear_physics_relations_get w _ ht]

/-- C28 on `example_physics`: before the build the query for collection 5
returns NULL; after the build of the effector list it returns list 1, the list
that the build returned, while the collision query still returns NULL; after
`deg_clear_physics_relations` it returns NULL again. -/
theorem C28_query_after_build_witness :
    (DEG_get_effector_relations id example_physics.graph 5,
      (deg_build_effector_relations example_physics 5).1,
      DEG_get_effector_relations id (deg_build_effector_relations example_physics 5).2.graph 5,
      DEG_get_collision_relations id (deg_build_effector_relations example_physics 5).2.graph 5
        eModifierType_Collision,
      DEG_get_effector_relations id
        (deg_clear_physics_relations (deg_build_effector_relations example_physics 5).2).graph
        5) = (NULL, 1, 1, some NULL, NULL) ∧
    DEG_get_effector_relations id (deg_build_effector_relations example_physics 5).2.graph 5 =
      (deg_build_effector_relations example_physics 5).1 :=
  ⟨by decide, (C28_query_after_build id example_physics 5 rfl).2.2.2.1.1⟩

/-- C27: collision relations exclude self. When `DEG_add_collision_relations`
runs for a modifier type that has a slot, it returns the list and the state of
`deg_build_collision_relations`, and the relations of the handle afterwards
are those before followed by, for each object of the list that differs from
`object` and passes the filter (every such object for a NULL filter), one
Transform relation and then one Geometry relation with the given name, in the
order of the list; none of the added relations has `object` as its source. -/
theorem C27_collision_relations_exclude_self (list_of : Nat → List Nat)
    (modifiers_findByType : Nat → Nat → Nat) (handle : DepsNodeHandle) (w : PhysicsWorld)
    (object collection modifier_type : Nat) (fn : Option (Nat → Nat → Bool)) (name : Nat)
    (h : modifier_to_relation_type modifier_type ≠ DEG_PHYSICS_RELATIONS_NUM) :
    ∃ r relations, deg_build_collision_relations w collection modifier_type = some r ∧
      DEG_add_collision_relations list_of modifiers_findByType handle w object collection
        modifier_type fn name = some (relations, r.2) ∧
      relations.relations = handle.relations ++
        ((list_of r.1).filter fun ob1 =>
          decide (ob1 ≠ object) &&
            (match fn with
             | none => true
             | some f => f ob1 (modifiers_findByType ob1 modifier_type))).flatMap (fun ob1 =>
          [(({ id := ob1, type := DEG_NODE_TYPE_TRANSFORM } : ComponentKey), name),
           ({ id := ob1, type := DEG_NODE_TYPE_GEOMETRY }, name)]) ∧
      ∀ e ∈ relations.relations.drop handle.relations.length, e.1.id ≠ object := by
  have hb := deg_build_collision_relations_eq w collection modifier_type h
  refine ⟨_, (list_of (deg_build_relations (modifier_to_relation_type modifier_type)
      (fun w => BKE_collision_relations_create w collection modifier_type) w
      collection).1).foldl
    (DEG_add_collision_relations_body modifiers_findByType object modifier_type fn name)
    handle, hb, ?_, ?_, ?_⟩
  · simp only [DEG_add_collision_relations, hb]
  · exact collision_body_foldl modifiers_findByType object modifier_type fn name _ handle
  · intro e he
    rw [collision_body_foldl, List.drop_left] at he
    simp only [collision_sources, List.mem_flatMap, List.mem_filter, Bool.and_eq_true,
      decide_eq_true_eq, List.mem_cons, List.mem_singleton] at he
    obtain ⟨ob1, ⟨-, hne, -⟩, he⟩ := he
    simp only [List.not_mem_nil, or_false] at he
    rcases he with rfl | rfl <;> exact hne

/-- C27 on `example_physics` with a collision list of the objects 7, 3, 7, 9,
the object 7, and a filter that rejects object 9: only object 3 gets its two
relations. -/
theorem C27_collision_relations_exclude_self_witness :
    modifier_to_relation_type eModifierType_Collision ≠ DEG_PHYSICS_RELATIONS_NUM ∧
    (DEG_add_collision_relations (fun _ => [7, 3, 7, 9]) (fun _ _ => 0) ⟨[]⟩ example_physics 7
        5 eModifierType_Collision (some fun ob1 _ => decide (ob1 ≠ 9)) 4).map
      (fun r => r.1.relations) =
      some [(⟨3, DEG_NODE_TYPE_TRANSFORM⟩, 4), (⟨3, DEG_NODE_TYPE_GEOMETRY⟩, 4)] ∧
    ∃ r relations,
      deg_build_collision_relations example_physics 5 eModifierType_Collision = some r ∧
      DEG_add_collision_relations (fun _ => [7, 3, 7, 9]) (fun _ _ => 0) ⟨[]⟩ example_physics 7
        5 eModifierType_Collision (some fun ob1 _ => decide (ob1 ≠ 9)) 4 =
        some (relations, r.2) ∧
      relations.relations = (⟨[]⟩ : DepsNodeHandle).relations ++
        (([7, 3, 7, 9] : List Nat).filter fun ob1 =>
          decide (ob1 ≠ 7) &&
            (match (some fun ob1 _ => decide (ob1 ≠ 9) : Option (Nat → Nat → Bool)) with
             | none => true
             | some f => f ob1 0)).flatMap (fun ob1 =>
          [(({ id := ob1, type := DEG_NODE_TYPE_TRANSFORM } : ComponentKey), 4),
           ({ id := ob1, type := DEG_NODE_TYPE_GEOMETRY }, 4)]) ∧
      ∀ e ∈ relations.relations.drop (⟨[]⟩ : DepsNodeHandle).relations.length, e.1.id ≠ 7 :=
  ⟨by decide, by decide,
    C27_collision_relations_exclude_self (fun _ => [7, 3, 7, 9]) (fun _ _ => 0) ⟨[]⟩
      example_physics 7 5 eModifierType_Collision (some fun ob1 _ => decide (ob1 ≠ 9)) 4
      (by decide)⟩

/-- C24: termination. The graph is finite: the outgoing relations of its
registered operations lead to registered operations, and the fuel covers their
number. Then, from any values of the counters, any pool and any record,
`schedule_node` and `schedule_children` return for every registered node;
a call of `schedule_node` is one test of the node followed by the loop of
`schedule_children` over the relations it descends into, and when there is a
relation to descend into, the `scheduled` flag of the node was false before and
is true when the loop starts, so that the number of unscheduled operations has
dropped; and a whole pass returns for every order of the queued tasks and runs
at most as many tasks as there are operations. No-op cycles, marked cyclic or
not, are not excluded. -/
theorem C24_termination (g : Depsgraph) (hc : Closed g) (fuel : Nat)
    (hf : g.operations.length ≤ fuel) :
    (∀ (pool : List Nat) (trace : List Event) (n : Nat) (dec_parents : Bool),
      n ∈ g.operations →
        (∃ w1, schedule_node fuel { graph := g, pool := pool, trace := trace } n dec_parents =
          some w1) ∧
        ∃ w1, schedule_children fuel { graph := g, pool := pool, trace := trace } n =
          some w1) ∧
    (∀ (w : EvalWorld) (n : Nat) (dec_parents : Bool) (f : Nat),
      w.graph = g → n ∈ g.operations →
        schedule_node (f + 1) w n dec_parents =
          schedule_children_loop (schedule_node f) (node_action w n dec_parents).1
            (node_action w n dec_parents).2 ∧
        ((node_action w n dec_parents).2 ≠ [] →
          (w.graph.node n).scheduled = false ∧
          ((node_action w n dec_parents).1.graph.node n).scheduled = true ∧
          unscheduled (node_action w n dec_parents).1.graph + 1 ≤ unscheduled w.graph)) ∧
    (∀ picks : List Nat, ∃ w, evaluate_pass fuel g picks = some w ∧
      tasks_run w.trace ≤ g.operations.length) := by
  refine ⟨?_, ?_, ?_⟩
  · intro pool trace n dec hn
    refine ⟨schedule_node_total fuel _ n dec hc hn hf, ?_⟩
    exact loop_total fuel _ _ hc (fun r hr => hc n hn r hr)
      (le_trans (unscheduled_le_length _) hf)
  · intro w n dec f hg hn
    subst hg
    refine ⟨schedule_node_succ f w n dec, fun hne => ?_⟩
    have hm := (node_action_measure w n dec hn).2.resolve_left hne
    rcases node_action_shape w n dec with ⟨-, -, h2, -⟩ | ⟨h1, -, -, h2⟩ | ⟨h1, -, -, h2⟩
    · exact absurd h2 hne
    · exact ⟨h1, by rw [h2, if_pos rfl], hm⟩
    · exact ⟨h1, by rw [h2, if_pos rfl], hm⟩
  · intro picks
    obtain ⟨w, hw⟩ := evaluate_pass_returns g hc fuel picks hf
    exact ⟨w, hw, pass_tasks_le hc hw⟩

/-- C24 on `example_noop_cycle`, a cycle of two no-op operations: the pass
returns, both operations are processed while the graph is seeded, and no task
is run. -/
theorem C24_termination_witness :
    Closed example_noop_cycle ∧
    (evaluate_pass 2 example_noop_cycle [0, 0]).map (fun w => (w.pool, w.trace)) =
      some ([], [Event.children 0, Event.children 1]) ∧
    ∃ w, evaluate_pass 2 example_noop_cycle [0, 0] = some w ∧
      tasks_run w.trace ≤ example_noop_cycle.operations.length :=
  ⟨by unfold Closed; decide, by decide,
    (C24_termination example_noop_cycle (by unfold Closed; decide) 2 (by decide)).2.2 [0, 0]⟩

/-- C23: no underflow. In a pass started by `initialize_execution` on a
well-formed graph, whenever `schedule_children` calls `schedule_node` for a
child (not scheduled) with `dec_parents == true` (relation not cyclic) and the
call reaches the decrement (child visible or Copy-on-Write, and tagged), the
counter is positive: `num_links_pending > 0`, and the decrement modulo 2^32 is
the decrement by one, so the counter does not wrap around. Moreover the counter
of a registered operation never exceeds the number of its counted inbound
relations. The counted inbound relations of the child fit the 32-bit counter, a
condition on the representation of the graph. -/
theorem C23_no_underflow (g : Depsgraph) (hw : WellFormed g) (w : EvalWorld)
    (rel : DepsRelation) (st : List DepsRelation) (hpass : PassState g (w, rel :: st))
    (hchild : (w.graph.node rel.to_).scheduled = false)
    (hdec : (rel.flag &&& DEPSREL_FLAG_CYCLIC) = 0)
    (hvis : check_operation_node_visible (w.graph.node rel.to_) = true)
    (htag : ((w.graph.node rel.to_).flag &&& DEPSOP_FLAG_NEEDS_UPDATE) ≠ 0)
    (hlt : counted_inlinks g rel.to_ < UINT32_SIZE) :
    0 < (w.graph.node rel.to_).num_links_pending ∧
    ((w.graph.node rel.to_).num_links_pending + UINT32_SIZE - 1) % UINT32_SIZE =
      (w.graph.node rel.to_).num_links_pending - 1 ∧
    ∀ b ∈ g.operations, (w.graph.node b).num_links_pending ≤ counted_inlinks g b := by
  have hinv := hpass.inv hw
  have hst := hpass.pass_static_eq
  have hl : is_live w.graph rel.to_ = true := by
    simp [is_live, hvis, htag]
  have hpos := hinv.pending_pos hl hchild (by simp [rel_noncyclic, hdec])
    (by rw [hst.counted_inlinks]; exact hlt)
  have hle : ∀ b ∈ g.operations, (w.graph.node b).num_links_pending ≤ counted_inlinks g b := by
    intro b hb
    have := hinv.pending_le (b := b) (by rw [hst.1]; exact hb)
    rw [hst.counted_inlinks] at this
    exact this
  have hb : rel.to_ ∈ g.operations := by
    rw [← hst.1]
    exact hinv.stack_ok rel (List.mem_cons_self _ _)
  have h1 := hle rel.to_ hb
  refine ⟨hpos, ?_, hle⟩
  simp only [UINT32_SIZE] at hlt h1 ⊢
  omega

/-- C23 on `example_noop_parent`: when the no-op operation 0 is seeded, its
relation to operation 1 is walked next; the counter of operation 1 is 1 at the
decrement. -/
theorem C23_no_underflow_witness :
    (node_action
      { graph := initialize_execution example_noop_parent, pool := [], trace := [] }
      0 false).2 = [mk_relation 0 1 0] ∧
    ((node_action
      { graph := initialize_execution example_noop_parent, pool := [], trace := [] }
      0 false).1.graph.node 1).num_links_pending = 1 ∧
    0 < ((node_action
      { graph := initialize_execution example_noop_parent, pool := [], trace := [] }
      0 false).1.graph.node 1).num_links_pending := by
  have h2 : (node_action
      { graph := initialize_execution example_noop_parent, pool := [], trace := [] }
      0 false).2 = [mk_relation 0 1 0] := by decide
  have hstep : PassState example_noop_parent
      ((node_action
        { graph := initialize_execution example_noop_parent, pool := [], trace := [] }
        0 false).1, mk_relation 0 1 0 :: []) := by
    rw [← h2]
    exact Relation.ReflTransGen.single (Step.seed _ 0 (by decide))
  exact ⟨h2, by decide,
    (C23_no_underflow example_noop_parent (by decide) _ (mk_relation 0 1 0) [] hstep
      (by decide) (by decide) (by decide) (by decide) (by decide)).1⟩

/-- C21 as stated fails: in the well-formed graph `example_stuck_untagged` the
visible, tagged operations 0 and 1 form a cycle of relations that are not
marked cyclic; operation 3 is visible and tagged and depends on operation 1
through the relations 1 → 2 and 2 → 3, none marked cyclic. Operation 2 is not
tagged, so `calculate_pending_func` does not count the relation 2 → 3, and the
pass pushes operation 3 and invokes its callback. -/
theorem C21_counterexample :
    WellFormed example_stuck_untagged ∧
    (is_live example_stuck_untagged 0 = true ∧ is_live example_stuck_untagged 1 = true ∧
      is_live example_stuck_untagged 3 = true) ∧
    ((example_stuck_untagged.node 2).flag &&& DEPSOP_FLAG_NEEDS_UPDATE) = 0 ∧
    (mk_relation 0 1 0 ∈ (example_stuck_untagged.node 1).inlinks ∧
      mk_relation 1 0 0 ∈ (example_stuck_untagged.node 0).inlinks ∧
      mk_relation 1 2 0 ∈ (example_stuck_untagged.node 2).inlinks ∧
      mk_relation 2 3 0 ∈ (example_stuck_untagged.node 3).inlinks) ∧
    (∀ r ∈ [mk_relation 0 1 0, mk_relation 1 0 0, mk_relation 1 2 0, mk_relation 2 3 0],
      (r.flag &&& DEPSREL_FLAG_CYCLIC) = 0) ∧
    (evaluate_pass 4 example_stuck_untagged [0, 0, 0, 0]).map (fun w => (w.pool, w.trace)) =
      some ([], [Event.push 3, Event.evaluate 3, Event.children 3]) := by
  decide

/-- C21, amended: stuck nodes do not abort the pass. On a well-formed graph the
pass returns for every order of the queued tasks (with fuel for the recursion
as there are operations), and it ends with an empty pool when the picks cover
the operations. An operation that lies on a cycle of counted relations
(relations not marked cyclic whose source is a visible or Copy-on-Write, tagged
operation), or that depends on such an operation through a chain of counted
relations, is never dispatched: it is not pushed, its callback is not invoked,
it does not release its children and its `scheduled` flag stays false. When the
pool is empty at the end, every other registered operation that is visible (or
Copy-on-Write) and tagged was dispatched exactly once: it released its children
once, and was pushed once and invoked once unless it is a no-op. The counted
inbound relations of each operation fit the 32-bit counter, a condition on the
representation of the graph. -/
theorem C21_stuck_nodes (g : Depsgraph) (hw : WellFormed g)
    (hlt : ∀ b ∈ g.operations, counted_inlinks g b < UINT32_SIZE) (fuel : Nat)
    (picks : List Nat) (hf : g.operations.length ≤ fuel) :
    ∃ w, evaluate_pass fuel g picks = some w ∧
      (g.operations.length ≤ picks.length → w.pool = []) ∧
      (∀ b, Stuck g b →
        Event.push b ∉ w.trace ∧ Event.evaluate b ∉ w.trace ∧ Event.children b ∉ w.trace ∧
        b ∉ w.pool ∧ (b ∈ g.operations → (w.graph.node b).scheduled = false)) ∧
      (w.pool = [] → ∀ b ∈ g.operations, is_live g b = true → ¬ Stuck g b →
        w.trace.count (Event.children b) = 1 ∧
        w.trace.count (Event.push b) = (if (g.node b).is_noop = true then 0 else 1) ∧
        w.trace.count (Event.evaluate b) = (if (g.node b).is_noop = true then 0 else 1)) := by
  obtain ⟨w, hpass⟩ := evaluate_pass_returns g hw.1 fuel picks hf
  have hinv := Inv.pass hw hpass
  have hst := pass_static hpass
  have hready := pass_ready hpass
  have hops : w.graph.operations = g.operations := hst.1
  have hlt1 : ∀ b ∈ w.graph.operations, counted_inlinks w.graph b < UINT32_SIZE := by
    intro x hx
    rw [hst.counted_inlinks]
    exact hlt x (by rw [← hops]; exact hx)
  refine ⟨w, hpass, fun hp => ?_, fun b hb => ?_, fun hpool b hb hl hns => ?_⟩
  · obtain ⟨w1, h1, h2⟩ := evaluate_pass_total g hw fuel picks hf hp
    rw [hpass] at h1
    cases h1
    exact h2
  · have hb1 : Stuck w.graph b := by
      unfold Stuck at hb ⊢
      rw [hst.Parent]
      exact hb
    have := hinv.stuck_idle hlt1 hb1
    rw [hops] at this
    exact this
  · have hb1 : b ∈ w.graph.operations := by rw [hops]; exact hb
    have hl1 : is_live w.graph b = true := by rw [hst.is_live]; exact hl
    have hs := (quiescent_scheduled_iff hw hlt hinv hst hready hpool hb).2 ⟨hl, hns⟩
    refine ⟨quiescent_released hinv hpool hb1 hl1 hs, ?_⟩
    rw [← hst.is_noop]
    cases hn : (w.graph.node b).is_noop
    · simpa using quiescent_evaluated hinv hpool hb1 hl1 hs hn
    · have h1 := hinv.evals b
      have h2 := pass_noop_not_pushed hinv hn
      simp only [hpool, List.count_nil, Nat.add_zero] at h1
      simp only [if_true]
      exact ⟨h2, by rw [h1, h2]⟩

/-- C21 on `example_stuck_cycle`: the operations 1 and 2 lie on a cycle of
counted relations; the pass returns with an empty pool, operation 0 is
dispatched and operations 1 and 2 are not. -/
theorem C21_stuck_nodes_witness :
    WellFormed example_stuck_cycle ∧
    (∀ b ∈ example_stuck_cycle.operations,
      counted_inlinks example_stuck_cycle b < UINT32_SIZE) ∧
    Stuck example_stuck_cycle 1 ∧
    (evaluate_pass 3 example_stuck_cycle [0, 0, 0]).map (fun w => (w.pool, w.trace)) =
      some ([], [Event.push 0, Event.evaluate 0, Event.children 0]) ∧
    ∃ w, evaluate_pass 3 example_stuck_cycle [0, 0, 0] = some w ∧
      (example_stuck_cycle.operations.length ≤ [0, 0, 0].length → w.pool = []) ∧
      (∀ b, Stuck example_stuck_cycle b →
        Event.push b ∉ w.trace ∧ Event.evaluate b ∉ w.trace ∧ Event.children b ∉ w.trace ∧
        b ∉ w.pool ∧ (b ∈ example_stuck_cycle.operations →
          (w.graph.node b).scheduled = false)) ∧
      (w.pool = [] → ∀ b ∈ example_stuck_cycle.operations,
        is_live example_stuck_cycle b = true → ¬ Stuck example_stuck_cycle b →
        w.trace.count (Event.children b) = 1 ∧
        w.trace.count (Event.push b) =
          (if (example_stuck_cycle.node b).is_noop = true then 0 else 1) ∧
        w.trace.count (Event.evaluate b) =
          (if (example_stuck_cycle.node b).is_noop = true then 0 else 1)) :=
  ⟨by decide, by decide,
    ⟨1, Relation.TransGen.tail
        (Relation.TransGen.single ⟨mk_relation 1 2 0, by decide, by decide, rfl⟩)
        ⟨mk_relation 2 1 0, by decide, by decide, rfl⟩,
      Relation.ReflTransGen.refl⟩,
    by decide,
    C21_stuck_nodes example_stuck_cycle (by decide) (by decide) 3 [0, 0, 0] (by decide)⟩

/-- C25: order independence. Take a well-formed graph, any reordering `ops` of
`graph->operations`, and any two orders `picks`, `picks1` in which queued tasks
are taken, long enough to drain the pool. Both passes return with an empty
pool; every node is pushed, invoked and released equally often (zero times or
once) in the two passes, so the same operations are dispatched; and the final
`num_links_pending` and `scheduled` of every registered operation agree. In
both records the dispatch of an operation comes after the release of the source
of each of its counted inbound relations: only operations that no counted
relation orders may be dispatched in different relative order. The counted
inbound relations of each operation fit the 32-bit counter, a condition on the
representation of the graph. -/
theorem C25_order_independence (g : Depsgraph) (hw : WellFormed g)
    (hlt : ∀ b ∈ g.operations, counted_inlinks g b < UINT32_SIZE) (ops : List Nat)
    (hperm : ops.Perm g.operations) (fuel : Nat) (picks picks1 : List Nat)
    (hf : g.operations.length ≤ fuel) (hp : g.operations.length ≤ picks.length)
    (hp1 : g.operations.length ≤ picks1.length) :
    ∃ w w1, evaluate_pass fuel g picks = some w ∧
      evaluate_pass fuel { g with operations := ops } picks1 = some w1 ∧
      w.pool = [] ∧ w1.pool = [] ∧
      (∀ b, w.trace.count (Event.push b) = w1.trace.count (Event.push b) ∧
        w.trace.count (Event.evaluate b) = w1.trace.count (Event.evaluate b) ∧
        w.trace.count (Event.children b) = w1.trace.count (Event.children b)) ∧
      (∀ b ∈ g.operations,
        (w.graph.node b).num_links_pending = (w1.graph.node b).num_links_pending ∧
        (w.graph.node b).scheduled = (w1.graph.node b).scheduled) ∧
      (∀ t ∈ [w.trace, w1.trace], ∀ t1 e t2 b, t = t1 ++ e :: t2 → is_dispatch g b e →
        b ∈ g.operations → ∀ r ∈ (g.node b).inlinks, rel_counted g r = true →
          Event.children r.from_ ∈ t1) := by
  have hw1 : WellFormed { g with operations := ops } := hw.reorder hperm
  have hm : ∀ x, x ∈ ops ↔ x ∈ g.operations := fun x => hperm.mem_iff
  have hlt1 : ∀ b ∈ ({ g with operations := ops } : Depsgraph).operations,
      counted_inlinks { g with operations := ops } b < UINT32_SIZE :=
    fun b hb => hlt b ((hm b).1 hb)
  obtain ⟨w, hpass, hpool⟩ := evaluate_pass_total g hw fuel picks hf hp
  obtain ⟨w1, hpass1, hpool1⟩ := evaluate_pass_total { g with operations := ops } hw1 fuel
    picks1 (by rw [show ({ g with operations := ops } : Depsgraph).operations = ops from rfl,
      hperm.length_eq]; exact hf)
    (by rw [show ({ g with operations := ops } : Depsgraph).operations = ops from rfl,
      hperm.length_eq]; exact hp1)
  obtain ⟨a1, a2, a3, a4, a5, a6⟩ := pass_final hw hlt hpass hpool
  obtain ⟨b1, b2, b3, b4, b5, b6⟩ := pass_final hw1 hlt1 hpass1 hpool1
  have b1g : ∀ b ∈ g.operations,
      (w1.graph.node b).scheduled = true ↔ (is_live g b = true ∧ ¬ Stuck g b) :=
    fun b hb => b1 b ((hm b).2 hb)
  have b2g : ∀ b, Event.children b ∈ w1.trace ↔
      (b ∈ g.operations ∧ is_live g b = true ∧ ¬ Stuck g b) := by
    intro b
    rw [b2 b]
    exact and_congr_left fun _ => hm b
  have b3g : ∀ b, Event.push b ∈ w1.trace ↔
      ((b ∈ g.operations ∧ is_live g b = true ∧ ¬ Stuck g b) ∧
        (g.node b).is_noop = false) := by
    intro b
    rw [b3 b]
    exact and_congr_left fun _ => and_congr_left fun _ => hm b
  have b4g : ∀ b, Event.evaluate b ∈ w1.trace ↔
      ((b ∈ g.operations ∧ is_live g b = true ∧ ¬ Stuck g b) ∧
        (g.node b).is_noop = false) := by
    intro b
    rw [b4 b]
    exact and_congr_left fun _ => and_congr_left fun _ => hm b
  have hsched : ∀ b ∈ g.operations,
      (w.graph.node b).scheduled = (w1.graph.node b).scheduled := by
    intro b hb
    have h1 := a1 b hb
    have h2 := b1g b hb
    cases hs : (w.graph.node b).scheduled <;> cases hs1 : (w1.graph.node b).scheduled
    · rfl
    · rw [hs1] at h2
      rw [hs] at h1
      exact absurd (h1.2 (h2.1 rfl)) (by simp)
    · rw [hs1] at h2
      rw [hs] at h1
      exact absurd (h2.2 (h1.1 rfl)) (by simp)
    · rfl
  have hrel : ∀ a, released w1.trace a = released w.trace a := by
    intro a
    have h1 := a2 a
    have h2 := b2g a
    simp only [released]
    by_cases hc : Event.children a ∈ w.trace
    · simp [hc, h2.2 (h1.1 hc)]
    · have : Event.children a ∉ w1.trace := fun hc1 => hc (h1.2 (h2.1 hc1))
      simp [hc, this]
  refine ⟨w, w1, hpass, hpass1, hpool, hpool1, fun b => ⟨?_, ?_, ?_⟩, fun b hb => ⟨?_, hsched b hb⟩,
    ?_⟩
  · exact count_eq_of_mem_iff _ _ _ (a5 b).1 (b5 b).1 ((a3 b).trans (b3g b).symm)
  · exact count_eq_of_mem_iff _ _ _ (a5 b).2.1 (b5 b).2.1 ((a4 b).trans (b4g b).symm)
  · exact count_eq_of_mem_iff _ _ _ (a5 b).2.2 (b5 b).2.2 ((a2 b).trans (b2g b).symm)
  · rw [a6 b hb, b6 b ((hm b).2 hb), hsched b hb]
    have : unreleased_inlinks g w1.trace = unreleased_inlinks g w.trace :=
      unreleased_congr g w.trace w1.trace hrel
    show _ = if is_live g b = true ∧ (w1.graph.node b).scheduled = false then
      unreleased_inlinks g w1.trace b % UINT32_SIZE else 0
    rw [this]
  · intro t ht t1 e t2 b heq hd hb r hr hcnt
    simp only [List.mem_cons, List.mem_singleton, List.not_mem_nil, or_false] at ht
    rcases ht with rfl | rfl
    · have hst := pass_static hpass
      exact hst.TraceOrd _ (Inv.pass hw hpass).order t1 e t2 b heq hd (hlt b hb) r hr hcnt
    · have hst := pass_static hpass1
      exact hst.TraceOrd _ (Inv.pass hw1 hpass1).order t1 e t2 b heq hd (hlt b hb) r hr hcnt

/-- C25 on `example_parent_children 1` (a parent with two children, all
tagged): with the operations registered as 0, 1, 2 and the first queued task
taken each time, or registered as 2, 1, 0 and the second child taken before the
first, the same operations are dispatched, the children in either order. -/
theorem C25_order_independence_witness :
    WellFormed (example_parent_children 1) ∧
    (∀ b ∈ (example_parent_children 1).operations,
      counted_inlinks (example_parent_children 1) b < UINT32_SIZE) ∧
    [2, 1, 0].Perm (example_parent_children 1).operations ∧
    (evaluate_pass 3 (example_parent_children 1) [0, 0, 0]).map (fun w => w.trace) =
      some [Event.push 0, Event.evaluate 0, Event.children 0, Event.push 1, Event.push 2,
        Event.evaluate 1, Event.children 1, Event.evaluate 2, Event.children 2] ∧
    (evaluate_pass 3 { example_parent_children 1 with operations := [2, 1, 0] }
        [0, 1, 0]).map (fun w => w.trace) =
      some [Event.push 0, Event.evaluate 0, Event.children 0, Event.push 1, Event.push 2,
        Event.evaluate 2, Event.children 2, Event.evaluate 1, Event.children 1] ∧
    ∃ w w1, evaluate_pass 3 (example_parent_children 1) [0, 0, 0] = some w ∧
      evaluate_pass 3 { example_parent_children 1 with operations := [2, 1, 0] }
        [0, 1, 0] = some w1 ∧
      w.pool = [] ∧ w1.pool = [] ∧
      (∀ b, w.trace.count (Event.push b) = w1.trace.count (Event.push b) ∧
        w.trace.count (Event.evaluate b) = w1.trace.count (Event.evaluate b) ∧
        w.trace.count (Event.children b) = w1.trace.count (Event.children b)) ∧
      (∀ b ∈ (example_parent_children 1).operations,
        (w.graph.node b).num_links_pending = (w1.graph.node b).num_links_pending ∧
        (w.graph.node b).scheduled = (w1.graph.node b).scheduled) ∧
      (∀ t ∈ [w.trace, w1.trace], ∀ t1 e t2 b, t = t1 ++ e :: t2 →
        is_dispatch (example_parent_children 1) b e →
        b ∈ (example_parent_children 1).operations →
        ∀ r ∈ ((example_parent_children 1).node b).inlinks,
          rel_counted (example_parent_children 1) r = true → Event.children r.from_ ∈ t1) :=
  ⟨by decide, by decide, by decide, by decide, by decide,
    C25_order_independence (example_parent_children 1) (by decide) (by decide) [2, 1, 0]
      (by decide) 3 [0, 0, 0] [0, 1, 0] (by decide) (by decide) (by decide)⟩

/-- C22: pending-count invariant. In every configuration of a pass over a
well-formed graph (state `w`, and the relations `st` that the running
`schedule_children` loops have still to walk), for every registered operation
that is visible (or Copy-on-Write) and tagged, `num_links_pending` is the
number of counted inbound relations through which the operation has not been
released yet: those whose source has not entered `schedule_children`, and
those that a running loop has still to walk. Between the walks (`st` empty)
these are the relations whose source has not entered `schedule_children`. When
`scheduled` is set, the number and the counter are 0. The counted inbound
relations of the operation fit the 32-bit counter, a condition on the
representation of the graph. -/
theorem C22_pending_invariant (g : Depsgraph) (hw : WellFormed g) (w : EvalWorld)
    (st : List DepsRelation) (hpass : PassState g (w, st)) (n : Nat)
    (hn : n ∈ g.operations) (hl : is_live g n = true)
    (hlt : counted_inlinks g n < UINT32_SIZE) :
    (w.graph.node n).num_links_pending = unreleased_inlinks g w.trace n + debt st n ∧
    (st = [] → (w.graph.node n).num_links_pending = unreleased_inlinks g w.trace n) ∧
    ((w.graph.node n).scheduled = true →
      unreleased_inlinks g w.trace n = 0 ∧ debt st n = 0 ∧
        (w.graph.node n).num_links_pending = 0) := by
  have hinv := hpass.inv hw
  have hdf := hpass.debt_free hw
  have hst : StaticEq g w.graph := hpass.pass_static_eq
  have hn1 : n ∈ w.graph.operations := by rw [hst.1]; exact hn
  have hl1 : is_live w.graph n = true := by rw [hst.is_live]; exact hl
  have hc1 : counted_inlinks w.graph n < UINT32_SIZE := by
    rw [hst.counted_inlinks]; exact hlt
  have hun : unreleased_inlinks w.graph w.trace n = unreleased_inlinks g w.trace n := by
    simp only [unreleased_inlinks, (hst.2 n).2.2.1, hst.rel_counted]
  have hsched : (w.graph.node n).scheduled = true →
      unreleased_inlinks g w.trace n = 0 ∧ debt st n = 0 ∧
        (w.graph.node n).num_links_pending = 0 := by
    intro hs
    refine ⟨?_, ?_, hinv.pending_sched n hn1 hl1 hs⟩
    · rw [← hun]
      unfold unreleased_inlinks
      rw [List.countP_eq_zero]
      intro r hr hcr
      simp only [Bool.and_eq_true, Bool.not_eq_true'] at hcr
      have := hinv.scheduled_parents hn1 hl1 hs hc1 r hr hcr.1
      rw [hcr.2] at this
      cases this
    · unfold debt
      rw [List.countP_eq_zero]
      intro r hr hcr
      simp only [Bool.and_eq_true, decide_eq_true_eq] at hcr
      have := hdf r hr hcr.1 (by rw [hcr.2]; exact hl1) (by rw [hcr.2]; exact hc1)
      simp only at this
      rw [hcr.2, hs] at this
      cases this
  have hmain : (w.graph.node n).num_links_pending =
      unreleased_inlinks g w.trace n + debt st n := by
    cases hs : (w.graph.node n).scheduled
    · have h0 := hinv.pending_unsched n hn1 hl1 hs
      have h1 := hinv.debt_le n hn1
      have h2 := unreleased_add_released w.graph w.trace n
      simp only at h0 h1 h2
      rw [h0, Nat.mod_eq_of_lt (by omega), hun]
    · obtain ⟨a1, a2, a3⟩ := hsched hs
      rw [a1, a2, a3]
  refine ⟨hmain, fun he => ?_, hsched⟩
  rw [hmain, he]
  simp [debt]

/-- C22 on `example_noop_parent`: when the no-op operation 0 was seeded and its
relation to operation 1 is still to be walked, operation 0 has entered
`schedule_children`, and the counter of operation 1 is 0 + 1. -/
theorem C22_pending_invariant_witness :
    (node_action
      { graph := initialize_execution example_noop_parent, pool := [], trace := [] }
      0 false).2 = [mk_relation 0 1 0] ∧
    (((node_action
        { graph := initialize_execution example_noop_parent, pool := [], trace := [] }
        0 false).1.graph.node 1).num_links_pending,
      unreleased_inlinks example_noop_parent (node_action
        { graph := initialize_execution example_noop_parent, pool := [], trace := [] }
        0 false).1.trace 1,
      debt [mk_relation 0 1 0] 1) = (1, 0, 1) ∧
    ((node_action
        { graph := initialize_execution example_noop_parent, pool := [], trace := [] }
        0 false).1.graph.node 1).num_links_pending =
      unreleased_inlinks example_noop_parent (node_action
        { graph := initialize_execution example_noop_parent, pool := [], trace := [] }
        0 false).1.trace 1 + debt [mk_relation 0 1 0] 1 := by
  have h2 : (node_action
      { graph := initialize_execution example_noop_parent, pool := [], trace := [] }
      0 false).2 = [mk_relation 0 1 0] := by decide
  have hstep : PassState example_noop_parent
      ((node_action
        { graph := initialize_execution example_noop_parent, pool := [], trace := [] }
        0 false).1, [mk_relation 0 1 0]) := by
    rw [← h2]
    exact Relation.ReflTransGen.single (Step.seed _ 0 (by decide))
  exact ⟨h2, by decide,
    (C22_pending_invariant example_noop_parent (by decide) _ [mk_relation 0 1 0] hstep 1
      (by decide) (by decide) (by decide)).1⟩

end DEG
